import Mathlib

/-!
# Overlap geometry and assembly graph of raven (`src/src/graph.cpp`)

A shallow embedding of the overlap helpers of `raven::detail` and of the
pointer graph of `raven::Graph`, with the properties of the specification
that concern them.

Conventions of the embedding.

* `std::uint32_t` values are natural numbers; every arithmetic operation of
  the source on them is taken modulo `2^32` (`add32`, `sub32`).
* `std::vector::operator[]` outside the vector and the dereference of a null
  or dangling pointer are undefined behaviour; functions that may do so return
  `Option`, with `none` for that case.
* The comparison `x < y * 0.875` of the source converts the `uint32_t` values
  `x`, `y` to `double`; `0.875 = 7/8` is a dyadic rational and `y < 2^32`, so
  the product is exact in binary64 and the comparison is `8 * x < 7 * y`.
-/

namespace raven

/-! ## Machine integers -/

/-- The modulus of `std::uint32_t`. -/
def u32 : Nat := 4294967296

/-- Addition of `std::uint32_t`. -/
def add32 (a b : Nat) : Nat := (a + b) % u32

/-- Subtraction of `std::uint32_t`. -/
def sub32 (a b : Nat) : Nat := (a + (u32 - b % u32)) % u32

/-! ## Overlaps and piles -/

/-- The record `biosoup::Overlap`. -/
structure Overlap where
  lhs_id : Nat
  lhs_begin : Nat
  lhs_end : Nat
  rhs_id : Nat
  rhs_begin : Nat
  rhs_end : Nat
  score : Nat
  strand : Bool
  deriving DecidableEq, Repr

/-- Modelled from the spec: the class `Pile` (`pile.hpp` is not among the
sources).  Only the observers used by the embedded code are kept:
`id()`, `begin()`, `end()` (the valid region `[begin, end)`), `length()`,
`is_invalid()`, `is_contained()` and `is_maybe_chimeric()`. -/
structure Pile where
  id : Nat
  begin_ : Nat
  end_ : Nat
  length : Nat
  is_invalid : Bool
  is_contained : Bool
  is_maybe_chimeric : Bool
  deriving DecidableEq, Repr

/-- All coordinates of the overlap are `std::uint32_t` values. -/
def Overlap.is_u32 (o : Overlap) : Prop :=
  o.lhs_begin < u32 ∧ o.lhs_end < u32 ∧ o.rhs_begin < u32 ∧ o.rhs_end < u32

instance (o : Overlap) : Decidable o.is_u32 := by
  unfold Overlap.is_u32; infer_instance

/-- The three numeric observers of the pile are `std::uint32_t` values. -/
def Pile.is_u32 (p : Pile) : Prop :=
  p.begin_ < u32 ∧ p.end_ < u32 ∧ p.length < u32

instance (p : Pile) : Decidable p.is_u32 := by
  unfold Pile.is_u32; infer_instance

/-- `detail::OverlapReverse` (graph.cpp:30). -/
def OverlapReverse (o : Overlap) : Overlap :=
  { lhs_id := o.rhs_id, lhs_begin := o.rhs_begin, lhs_end := o.rhs_end,
    rhs_id := o.lhs_id, rhs_begin := o.lhs_begin, rhs_end := o.lhs_end,
    score := o.score, strand := o.strand }

/-- `detail::OverlapLength` (graph.cpp:35). -/
def OverlapLength (o : Overlap) : Nat :=
  max (sub32 o.rhs_end o.rhs_begin) (sub32 o.lhs_end o.lhs_begin)

/-- The expression `x < b ? b - x : 0` of graph.cpp:52-79. -/
def shortfall (x b : Nat) : Nat := if x < b then sub32 b x else 0

/-- The expression `x > e ? x - e : 0` of graph.cpp:52-79. -/
def excess (x e : Nat) : Nat := if x > e then sub32 x e else 0

/-- The four locals `lhs_begin, lhs_end, rhs_begin, rhs_end` of
`OverlapUpdate` as first assigned (graph.cpp:51-79). -/
def OverlapUpdate.shifted (pl pr : Pile) (o : Overlap) : Nat × Nat × Nat × Nat :=
  let lhs_begin := add32 o.lhs_begin
    (bif o.strand then shortfall o.rhs_begin pr.begin_ else excess o.rhs_end pr.end_)
  let lhs_end := sub32 o.lhs_end
    (bif o.strand then excess o.rhs_end pr.end_ else shortfall o.rhs_begin pr.begin_)
  let rhs_begin := add32 o.rhs_begin
    (bif o.strand then shortfall o.lhs_begin pl.begin_ else excess o.lhs_end pl.end_)
  let rhs_end := sub32 o.rhs_end
    (bif o.strand then excess o.lhs_end pl.end_ else shortfall o.lhs_begin pl.begin_)
  (lhs_begin, lhs_end, rhs_begin, rhs_end)

/-- The four locals after the `std::max` / `std::min` of graph.cpp:88-91. -/
def OverlapUpdate.clipped (pl pr : Pile) (o : Overlap) : Nat × Nat × Nat × Nat :=
  match OverlapUpdate.shifted pl pr o with
  | (lhs_begin, lhs_end, rhs_begin, rhs_end) =>
    ( max lhs_begin pl.begin_, min lhs_end pl.end_,
      max rhs_begin pr.begin_, min rhs_end pr.end_ )

/-- `detail::OverlapUpdate` (graph.cpp:39).  The result is the returned
`bool` with the overlap as the call leaves it. -/
def OverlapUpdate (piles : List Pile) (o : Overlap) : Option (Bool × Overlap) :=
  match piles[o.lhs_id]? with
  | none => none
  | some pl =>
    if pl.is_invalid then some (false, o) else
    match piles[o.rhs_id]? with
    | none => none
    | some pr =>
      if pr.is_invalid then some (false, o) else
      if o.lhs_begin ≥ pl.end_ ∨ o.lhs_end ≤ pl.begin_ ∨
          o.rhs_begin ≥ pr.end_ ∨ o.rhs_end ≤ pr.begin_ then some (false, o) else
      match OverlapUpdate.shifted pl pr o with
      | (lhs_begin, lhs_end, rhs_begin, rhs_end) =>
        if lhs_begin ≥ pl.end_ ∨ lhs_end ≤ pl.begin_ ∨
            rhs_begin ≥ pr.end_ ∨ rhs_end ≤ pr.begin_ then some (false, o) else
        match OverlapUpdate.clipped pl pr o with
        | (lhs_begin, lhs_end, rhs_begin, rhs_end) =>
          if lhs_begin ≥ lhs_end ∨ sub32 lhs_end lhs_begin < 84 ∨
              rhs_begin ≥ rhs_end ∨ sub32 rhs_end rhs_begin < 84 then some (false, o)
          else
            some (true, { o with lhs_begin := lhs_begin, lhs_end := lhs_end,
                                 rhs_begin := rhs_begin, rhs_end := rhs_end })

/-- No intermediate value of `OverlapUpdate` (graph.cpp:51-79) wraps around:
the two sums stay below `2^32` and the two differences stay non-negative. -/
def OverlapUpdate.no_wrap (pl pr : Pile) (o : Overlap) : Prop :=
  o.lhs_begin +
      (bif o.strand then shortfall o.rhs_begin pr.begin_ else excess o.rhs_end pr.end_) < u32 ∧
  (bif o.strand then excess o.rhs_end pr.end_ else shortfall o.rhs_begin pr.begin_)
      ≤ o.lhs_end ∧
  o.rhs_begin +
      (bif o.strand then shortfall o.lhs_begin pl.begin_ else excess o.lhs_end pl.end_) < u32 ∧
  (bif o.strand then excess o.lhs_end pl.end_ else shortfall o.lhs_begin pl.begin_)
      ≤ o.rhs_end

instance (pl pr : Pile) (o : Overlap) : Decidable (OverlapUpdate.no_wrap pl pr o) := by
  unfold OverlapUpdate.no_wrap; infer_instance

/-- The comparison `x < y * 0.875` of graph.cpp:123-124, for `std::uint32_t`
operands converted to `double`.  Both sides are exact in binary64, so the
comparison is the one of the rationals `x` and `7 * y / 8`. -/
def lt_0_875 (x y : Nat) : Prop := 8 * x < 7 * y

instance (x y : Nat) : Decidable (lt_0_875 x y) := by
  unfold lt_0_875; infer_instance

/-- `detail::OverlapType` (graph.cpp:106). -/
def OverlapType (piles : List Pile) (o : Overlap) : Option Nat :=
  match piles[o.lhs_id]?, piles[o.rhs_id]? with
  | some pl, some pr =>
    let lhs_length := sub32 pl.end_ pl.begin_
    let lhs_begin := sub32 o.lhs_begin pl.begin_
    let lhs_end := sub32 o.lhs_end pl.begin_
    let rhs_length := sub32 pr.end_ pr.begin_
    let rhs_begin :=
      bif o.strand then sub32 o.rhs_begin pr.begin_
      else sub32 rhs_length (sub32 o.rhs_end pr.begin_)
    let rhs_end :=
      bif o.strand then sub32 o.rhs_end pr.begin_
      else sub32 rhs_length (sub32 o.rhs_begin pr.begin_)
    let overhang := add32 (min lhs_begin rhs_begin)
      (min (sub32 lhs_length lhs_end) (sub32 rhs_length rhs_end))
    if lt_0_875 (sub32 lhs_end lhs_begin) (add32 (sub32 lhs_end lhs_begin) overhang) ∨
        lt_0_875 (sub32 rhs_end rhs_begin) (add32 (sub32 rhs_end rhs_begin) overhang) then
      some 0
    else if lhs_begin ≤ rhs_begin ∧
        sub32 lhs_length lhs_end ≤ sub32 rhs_length rhs_end then
      some 1
    else if rhs_begin ≤ lhs_begin ∧
        sub32 rhs_length rhs_end ≤ sub32 lhs_length lhs_end then
      some 2
    else if lhs_begin > rhs_begin then
      some 3
    else
      some 4
  | _, _ => none

/-- `detail::OverlapFinalize` (graph.cpp:139).  The result is the returned
`bool` with the overlap as the call leaves it. -/
def OverlapFinalize (piles : List Pile) (o : Overlap) : Option (Bool × Overlap) :=
  match OverlapType piles o with
  | none => none
  | some type =>
    let o := { o with score := type }
    if o.score < 3 then some (false, o) else
    match piles[o.lhs_id]?, piles[o.rhs_id]? with
    | some pl, some pr =>
      let o := { o with lhs_begin := sub32 o.lhs_begin pl.begin_ }
      let o := { o with lhs_end := sub32 o.lhs_end pl.begin_ }
      let o := { o with rhs_begin := sub32 o.rhs_begin pr.begin_ }
      let o := { o with rhs_end := sub32 o.rhs_end pr.begin_ }
      if o.strand = false then
        let rhs_begin := o.rhs_begin
        let o := { o with rhs_begin := sub32 pr.length o.rhs_end }
        let o := { o with rhs_end := sub32 pr.length rhs_begin }
        some (true, o)
      else
        some (true, o)
    | _, _ => none

/-! ### Exact coordinates used to state the properties -/

/-- The overlap lies inside the valid regions of the two piles. -/
def Overlap.inside (pl pr : Pile) (o : Overlap) : Prop :=
  (pl.begin_ ≤ o.lhs_begin ∧ o.lhs_begin ≤ o.lhs_end ∧ o.lhs_end ≤ pl.end_) ∧
  (pr.begin_ ≤ o.rhs_begin ∧ o.rhs_begin ≤ o.rhs_end ∧ o.rhs_end ≤ pr.end_)

instance (pl pr : Pile) (o : Overlap) : Decidable (o.inside pl pr) := by
  unfold Overlap.inside; infer_instance

/-- Region-relative, strand-normalised coordinates of an overlap, in exact
arithmetic: lengths of the two valid regions, the lhs interval relative to
the lhs region, and the rhs interval relative to the rhs region, mirrored in
the region when the strands differ. -/
structure RelCoords where
  lhs_length : Nat
  lhs_begin : Nat
  lhs_end : Nat
  rhs_length : Nat
  rhs_begin : Nat
  rhs_end : Nat
  deriving DecidableEq, Repr

/-- The region-relative, strand-normalised coordinates of `o`. -/
def relCoords (pl pr : Pile) (o : Overlap) : RelCoords :=
  { lhs_length := pl.end_ - pl.begin_
    lhs_begin := o.lhs_begin - pl.begin_
    lhs_end := o.lhs_end - pl.begin_
    rhs_length := pr.end_ - pr.begin_
    rhs_begin :=
      if o.strand = true then o.rhs_begin - pr.begin_
      else (pr.end_ - pr.begin_) - (o.rhs_end - pr.begin_)
    rhs_end :=
      if o.strand = true then o.rhs_end - pr.begin_
      else (pr.end_ - pr.begin_) - (o.rhs_begin - pr.begin_) }

/-- Bases of the lhs region left of the overlap. -/
def RelCoords.lhs_tail (c : RelCoords) : Nat := c.lhs_length - c.lhs_end

/-- Bases of the rhs region right of the overlap. -/
def RelCoords.rhs_tail (c : RelCoords) : Nat := c.rhs_length - c.rhs_end

/-- The overhang: the unmatched bases on the shorter side at each end. -/
def RelCoords.overhang (c : RelCoords) : Nat :=
  min c.lhs_begin c.rhs_begin + min c.lhs_tail c.rhs_tail

/-- Matched length on the lhs. -/
def RelCoords.lhs_matched (c : RelCoords) : Nat := c.lhs_end - c.lhs_begin

/-- Matched length on the rhs. -/
def RelCoords.rhs_matched (c : RelCoords) : Nat := c.rhs_end - c.rhs_begin

/-- The classification of `OverlapType` written with the exact,
region-relative coordinates. -/
def classify (c : RelCoords) : Nat :=
  if lt_0_875 c.lhs_matched (c.lhs_matched + c.overhang) ∨
      lt_0_875 c.rhs_matched (c.rhs_matched + c.overhang) then 0
  else if c.lhs_begin ≤ c.rhs_begin ∧ c.lhs_tail ≤ c.rhs_tail then 1
  else if c.rhs_begin ≤ c.lhs_begin ∧ c.rhs_tail ≤ c.lhs_tail then 2
  else if c.lhs_begin > c.rhs_begin then 3
  else 4

/-- A pile whose observers are `std::uint32_t` values, whose valid region is
an interval, and whose `length()` is at least the length of that interval. -/
def Pile.wf (p : Pile) : Prop :=
  p.is_u32 ∧ p.begin_ ≤ p.end_ ∧ p.end_ - p.begin_ ≤ p.length

instance (p : Pile) : Decidable p.wf := by
  unfold Pile.wf; infer_instance

/-! ## The assembly graph

`Graph::nodes_` and `Graph::edges_` are vectors of owning pointers, and nodes
and edges refer to each other by raw pointers.  In the embedding a pointer to
a node (an edge) is the index of the slot of `nodes_` (`edges_`) that owns the
object; a slot that was `reset()` holds `none`, and so a pointer to it
dangles.  `id` stays a field of its own, drawn from the static counter
`num_objects` as in the source.  The fields `name` of a node and `weight` of
an edge are not read by the operations embedded here and are left out. -/

/-- The struct `Graph::Node`. -/
structure Node where
  id : Nat
  data : List Char
  count : Nat
  is_circular : Bool
  is_polished : Bool
  transitive : List Nat
  inedges : List Nat
  outedges : List Nat
  pair : Option Nat
  deriving DecidableEq, Repr

/-- The struct `Graph::Edge`. -/
structure Edge where
  id : Nat
  length : Nat
  tail : Nat
  head : Nat
  pair : Option Nat
  deriving DecidableEq, Repr

/-- The members `nodes_`, `edges_` of `Graph` with the two static counters
`Node::num_objects` and `Edge::num_objects`. -/
structure Graph where
  nodes_ : List (Option Node)
  edges_ : List (Option Edge)
  node_num_objects : Nat
  edge_num_objects : Nat
  deriving DecidableEq, Repr

/-- Modelled from the spec: `Node::indegree()` (`graph.hpp` is not among the
sources), the number of in-edges. -/
def Node.indegree (n : Node) : Nat := n.inedges.length

/-- Modelled from the spec: `Node::outdegree()` (`graph.hpp` is not among the
sources), the number of out-edges. -/
def Node.outdegree (n : Node) : Nat := n.outedges.length

/-- Modelled from the spec: `Node::is_junction()` (`graph.hpp` is not among
the sources), "a node with in-degree ≥ 2 or out-degree ≥ 2". -/
def Node.is_junction (n : Node) : Bool :=
  decide (n.outdegree > 1) || decide (n.indegree > 1)

/-- Dereference of a `Node*`. -/
def Graph.node (g : Graph) (p : Nat) : Option Node := (g.nodes_[p]?).join

/-- Dereference of an `Edge*`. -/
def Graph.edge (g : Graph) (p : Nat) : Option Edge := (g.edges_[p]?).join

/-- Assignment through a `Node*`. -/
def Graph.set_node (g : Graph) (p : Nat) (n : Node) : Graph :=
  { g with nodes_ := g.nodes_.set p (some n) }

/-- Assignment through an `Edge*`. -/
def Graph.set_edge (g : Graph) (p : Nat) (e : Edge) : Graph :=
  { g with edges_ := g.edges_.set p (some e) }

/-- `std::unordered_set::emplace` on a set kept as a duplicate-free list. -/
def emplace (s : List Nat) (x : Nat) : List Nat := if x ∈ s then s else s ++ [x]

/-- The lambda `erase_remove` of `Graph::RemoveEdges` (graph.cpp:2430): all
occurrences of the pointer `marked` leave the vector. -/
def erase_remove (edges : List Nat) (marked : Nat) : List Nat :=
  edges.filter (fun e => e != marked)

/-- One round of the first loop of `Graph::RemoveEdges` (graph.cpp:2435-2442),
for the index `i`. -/
def RemoveEdges.detach (remove_nodes : Bool) (st : Graph × List Nat) (i : Nat) :
    Option (Graph × List Nat) := do
  let e ← st.1.edge i
  let t ← st.1.node e.tail
  let h ← st.1.node e.head
  let node_indices :=
    if remove_nodes then emplace (emplace st.2 t.id) h.id else st.2
  let g := st.1.set_node e.tail { t with outedges := erase_remove t.outedges i }
  let h ← g.node e.head
  let g := g.set_node e.head { h with inedges := erase_remove h.inedges i }
  pure (g, node_indices)

/-- One round of the second loop of `Graph::RemoveEdges` (graph.cpp:2444-2448),
for the node index `i`. -/
def RemoveEdges.drop (g : Graph) (i : Nat) : Option Graph := do
  let n ← g.node i
  if n.outdegree = 0 ∧ n.indegree = 0 then
    pure { g with nodes_ := g.nodes_.set i none }
  else
    pure g

/-- One round of the third loop of `Graph::RemoveEdges` (graph.cpp:2450-2452):
`edges_[i].reset()`. -/
def RemoveEdges.reset (g : Graph) (i : Nat) : Option Graph :=
  if i < g.edges_.length then some { g with edges_ := g.edges_.set i none } else none

/-- `Graph::RemoveEdges` (graph.cpp:2428).  The set `indices` is given as the
list of its elements in the order in which the source iterates over it. -/
def RemoveEdges (g : Graph) (indices : List Nat) (remove_nodes : Bool) : Option Graph := do
  let st ← indices.foldlM (RemoveEdges.detach remove_nodes) (g, [])
  let g ← if remove_nodes then st.2.foldlM RemoveEdges.drop st.1 else pure st.1
  indices.foldlM RemoveEdges.reset g

/-! ### Construction of nodes and edges -/

/-- The modulus of `std::size_t`. -/
def u64 : Nat := 18446744073709551616

/-- A checked write `v[i] = x` into a vector. -/
def set_checked {α : Type} (v : List α) (i : Nat) (x : α) : Option (List α) :=
  if i < v.length then some (v.set i x) else none

/-- The record `biosoup::Sequence`, of which only `data` is used. -/
structure Sequence where
  data : List Char
  deriving DecidableEq, Repr

/-- `std::string::substr(pos, len)`, which throws when `pos` is past the end. -/
def substr (s : List Char) (pos len : Nat) : Option (List Char) :=
  if pos ≤ s.length then some ((s.drop pos).take len) else none

/-- Modelled from the spec: the complement of a base over `{A, C, G, T, N}`
(`biosoup::Sequence::ReverseAndComplement` is not among the sources). -/
def complement (c : Char) : Char :=
  if c = 'A' then 'T' else if c = 'T' then 'A' else
  if c = 'C' then 'G' else if c = 'G' then 'C' else c

/-- Modelled from the spec: `reverse_complement`, the "complement-reversed
bases" (`biosoup::Sequence::ReverseAndComplement` is not among the sources). -/
def ReverseAndComplement (data : List Char) : List Char :=
  (data.map complement).reverse

/-- `Graph::Node::Node(const biosoup::Sequence&)` (graph.cpp:244) with the
`emplace_back` that stores the node in the next slot of `nodes_`; the result
is the graph and the pointer to the node. -/
def Graph.new_node (g : Graph) (data : List Char) : Graph × Nat :=
  ( { g with
      nodes_ := g.nodes_ ++ [some
        { id := g.node_num_objects, data := data, count := 1, is_circular := false,
          is_polished := false, transitive := [], inedges := [], outedges := [],
          pair := none }]
      node_num_objects := g.node_num_objects + 1 },
    g.nodes_.length )

/-- The two assignments `node->pair = twin; node->pair->pair = node`
(graph.cpp:966-967, 2334-2335). -/
def Graph.link_nodes (g : Graph) (node twin : Nat) : Option Graph := do
  let n ← g.node node
  let g := g.set_node node { n with pair := some twin }
  let n ← g.node node
  let p ← n.pair
  let m ← g.node p
  pure (g.set_node p { m with pair := some node })

/-- One round of the loop "create nodes" of `Graph::Construct`
(graph.cpp:949-968), for the pile `it`; the state is the graph with the
vector `sequence_to_node`. -/
def Construct.create_node (sequences : List Sequence) (st : Graph × List Int) (it : Pile) :
    Option (Graph × List Int) :=
  if it.is_invalid then some st else
  (sequences[it.id]?).bind fun s =>
  (substr s.data it.begin_ (sub32 it.end_ it.begin_)).bind fun data =>
  (set_checked st.2 it.id (st.1.node_num_objects : Int)).bind fun sequence_to_node =>
  let node := st.1.new_node data
  let twin := node.1.new_node (ReverseAndComplement data)
  (twin.1.link_nodes node.2 twin.2).bind fun g =>
  some (g, sequence_to_node)

/-- `Graph::Edge::Edge(tail, head, length)` (graph.cpp:283) with the
`emplace_back` that stores the edge in the next slot; the result is the graph
and the pointer to the edge. -/
def Graph.new_edge (g : Graph) (tail head length : Nat) : Option (Graph × Nat) := do
  let this := g.edges_.length
  let e : Edge :=
    { id := g.edge_num_objects, length := length, tail := tail, head := head, pair := none }
  let g := { g with edge_num_objects := g.edge_num_objects + 1 }
  let t ← g.node tail
  let g := g.set_node tail { t with outedges := t.outedges ++ [this] }
  let h ← g.node head
  let g := g.set_node head { h with inedges := h.inedges ++ [this] }
  pure ({ g with edges_ := g.edges_ ++ [some e] }, this)

/-- The two assignments `edge->pair = twin; edge->pair->pair = edge`
(graph.cpp:998-999, 2349-2350, 2365-2366). -/
def Graph.link_edges (g : Graph) (edge twin : Nat) : Option Graph := do
  let e ← g.edge edge
  let g := g.set_edge edge { e with pair := some twin }
  let e ← g.edge edge
  let q ← e.pair
  let f ← g.edge q
  pure (g.set_edge q { f with pair := some edge })

/-- The slot `nodes_[i]` for a signed index, as a pointer. -/
def Graph.slot (g : Graph) (i : Int) : Option Nat :=
  if 0 ≤ i ∧ i.toNat < g.nodes_.length then some i.toNat else none

/-- The two edges of an overlap (graph.cpp:994-999): the edge from `tail` to
`head`, the edge from `head->pair` to `tail->pair`, and their mutual `pair`
links. -/
def Construct.new_edge_pair (g : Graph) (tail head length length_pair : Nat) : Option Graph :=
  (g.new_edge tail head length).bind fun edge =>
  (edge.1.node head).bind fun h =>
  h.pair.bind fun head_pair =>
  (edge.1.node tail).bind fun t =>
  t.pair.bind fun tail_pair =>
  (edge.1.new_edge head_pair tail_pair length_pair).bind fun twin =>
  twin.1.link_edges edge.2 twin.2

/-- The end of a round of the loop "create edges" (graph.cpp:988-999): for an
overlap of type 4 head and tail are swapped and both lengths are negated. -/
def Construct.add_edges (g : Graph) (score tail head length length_pair : Nat) :
    Option Graph :=
  if score = 4 then Construct.new_edge_pair g head tail (sub32 0 length) (sub32 0 length_pair)
  else Construct.new_edge_pair g tail head length length_pair

/-- One round of the loop "create edges" of `Graph::Construct`
(graph.cpp:976-1000), for the overlap `it`. -/
def Construct.create_edge (piles : List Pile) (sequence_to_node : List Int) (g : Graph)
    (it : Overlap) : Option Graph :=
  (OverlapFinalize piles it).bind fun r =>
  if r.1 = false then some g else
  (sequence_to_node[r.2.lhs_id]?).bind fun i =>
  (g.slot i).bind fun tail =>
  (sequence_to_node[r.2.rhs_id]?).bind fun j =>
  (g.slot (j + 1 - (if r.2.strand = true then 1 else 0))).bind fun head =>
  (piles[r.2.rhs_id]?).bind fun pr =>
  (piles[r.2.lhs_id]?).bind fun pl =>
  Construct.add_edges g r.2.score tail head (sub32 r.2.lhs_begin r.2.rhs_begin)
    (sub32 (sub32 pr.length r.2.rhs_end) (sub32 pl.length r.2.lhs_end))

/-- The part "construct assembly graph" of `Graph::Construct`
(graph.cpp:948-1000): the nodes of the valid piles, then the edges of the
finalized overlaps `overlaps.back()`. -/
def Construct.graph (g : Graph) (piles : List Pile) (sequences : List Sequence)
    (overlaps : List Overlap) : Option Graph :=
  (piles.foldlM (Construct.create_node sequences)
    (g, List.replicate piles.length (-1))).bind fun st =>
  overlaps.foldlM (Construct.create_edge piles st.2) st.1

/-! ### Unitigs -/

/-- Modelled from the spec: `Edge::Label()` (`graph.hpp` is not among the
sources), the first `length` bases of the data of the tail: "`length`:
overhang on tail side", "concatenation of each edge's label plus the terminal
node's data". -/
def Graph.Label (g : Graph) (e : Edge) : Option (List Char) := do
  let t ← g.node e.tail
  pure (t.data.take e.length)

/-- The loop of `Graph::Node::Node(Node* begin, Node* end)`
(graph.cpp:267-274), from the node `it` on, with the `data` and `count`
gathered so far. -/
def Node.of_chain.walk (g : Graph) (end_ : Nat) :
    Nat → Nat → List Char → Nat → Option (List Char × Nat)
  | 0, _, _, _ => none
  | fuel + 1, it, data, count => do
    let n ← g.node it
    let e ← g.edge (← n.outedges.head?)
    let data := data ++ (← g.Label e)
    let count := add32 count n.count
    if e.head = end_ then pure (data, count)
    else Node.of_chain.walk g end_ fuel e.head data count

/-- The end of `Graph::Node::Node(Node* begin, Node* end)`
(graph.cpp:275-278): the data and the count of `end` are added unless the
chain is circular. -/
def Node.of_chain.close (g : Graph) (begin_ end_ : Nat) (r : List Char × Nat) :
    Option (List Char × Nat) :=
  if begin_ ≠ end_ then
    (g.node end_).bind fun n => some (r.1 ++ n.data, add32 r.2 n.count)
  else some r

/-- `Graph::Node::Node(Node* begin, Node* end)` (graph.cpp:256) with the
`emplace_back` that stores the node in the next slot; the result is the graph
and the pointer to the node. -/
def Graph.new_unitig (fuel : Nat) (g : Graph) (begin_ end_ : Nat) : Option (Graph × Nat) :=
  (Node.of_chain.walk g end_ fuel begin_ [] 0).bind fun r =>
  (Node.of_chain.close g begin_ end_ r).bind fun r =>
  some ( { g with
      nodes_ := g.nodes_ ++ [some
        { id := g.node_num_objects, data := r.1, count := r.2,
          is_circular := decide (begin_ = end_), is_polished := false,
          transitive := [], inedges := [], outedges := [], pair := none }]
      node_num_objects := g.node_num_objects + 1 },
    g.nodes_.length )

/-- The state of the main loop of `Graph::CreateUnitigs`.  The vectors
`unitigs` and `unitig_edges` are kept at the end of the arenas `g.nodes_` and
`g.edges_`, where `nodes_.insert` and `edges_.insert` (graph.cpp:2386-2387)
put them after the loop; `size` is `nodes_.size()` during the loop and
`num_unitigs` is `unitigs.size()`. -/
structure CreateUnitigs.State where
  g : Graph
  size : Nat
  marked_edges : List Nat
  num_unitigs : Nat
  node_updates : List Nat
  is_visited : List Bool
  deriving DecidableEq, Repr

/-- The loop "extend left" of `Graph::CreateUnitigs` (graph.cpp:2282-2295);
the result is `begin`, `extension`, `is_circular` and `is_visited`. -/
def CreateUnitigs.extend_left (g : Graph) (it : Nat) :
    Nat → Nat → Nat → List Bool → Option (Nat × Nat × Bool × List Bool)
  | 0, _, _, _ => none
  | fuel + 1, begin_, extension, is_visited => do
    let b ← g.node begin_
    if b.is_junction then pure (begin_, extension, false, is_visited) else do
      let is_visited ← set_checked is_visited b.id true
      let p ← g.node (← b.pair)
      let is_visited ← set_checked is_visited p.id true
      if b.indegree = 0 then pure (begin_, extension, false, is_visited) else do
        let e ← g.edge (← b.inedges.head?)
        let t ← g.node e.tail
        if t.is_junction then pure (begin_, extension, false, is_visited) else
          if e.tail = it then pure (e.tail, add32 extension 1, true, is_visited)
          else CreateUnitigs.extend_left g it fuel e.tail (add32 extension 1) is_visited

/-- The loop "extend right" of `Graph::CreateUnitigs` (graph.cpp:2298-2310);
the result is `end`, `extension`, `is_circular` and `is_visited`. -/
def CreateUnitigs.extend_right (g : Graph) (it : Nat) :
    Nat → Nat → Nat → Bool → List Bool → Option (Nat × Nat × Bool × List Bool)
  | 0, _, _, _, _ => none
  | fuel + 1, end_, extension, is_circular, is_visited => do
    let b ← g.node end_
    if b.is_junction then pure (end_, extension, is_circular, is_visited) else do
      let is_visited ← set_checked is_visited b.id true
      let p ← g.node (← b.pair)
      let is_visited ← set_checked is_visited p.id true
      if b.outdegree = 0 then pure (end_, extension, is_circular, is_visited) else do
        let e ← g.edge (← b.outedges.head?)
        let h ← g.node e.head
        if h.is_junction then pure (end_, extension, is_circular, is_visited) else
          if e.head = it then pure (e.head, add32 extension 1, true, is_visited)
          else
            CreateUnitigs.extend_right g it fuel e.head (add32 extension 1) is_circular is_visited

/-- The loop `begin = begin->outedges.front()->head`, `epsilon` times
(graph.cpp:2323-2326). -/
def CreateUnitigs.trim_begin (g : Graph) : Nat → Nat → Option Nat
  | 0, begin_ => some begin_
  | epsilon + 1, begin_ => do
    let b ← g.node begin_
    let e ← g.edge (← b.outedges.head?)
    CreateUnitigs.trim_begin g epsilon e.head

/-- The loop `end = end->inedges.front()->tail`, `epsilon` times
(graph.cpp:2327-2329). -/
def CreateUnitigs.trim_end (g : Graph) : Nat → Nat → Option Nat
  | 0, end_ => some end_
  | epsilon + 1, end_ => do
    let b ← g.node end_
    let e ← g.edge (← b.inedges.head?)
    CreateUnitigs.trim_end g epsilon e.tail

/-- The edge `p->inedges.front()` of the node `p`. -/
def Graph.front_in (g : Graph) (p : Nat) : Option Edge :=
  (g.node p).bind fun n => n.inedges.head?.bind g.edge

/-- The edge `p->outedges.front()` of the node `p`. -/
def Graph.front_out (g : Graph) (p : Nat) : Option Edge :=
  (g.node p).bind fun n => n.outedges.head?.bind g.edge

/-- The edge `e->pair` of the edge `e`. -/
def Graph.edge_pair (g : Graph) (e : Edge) : Option Edge := e.pair.bind g.edge

/-- The node `n->pair` of the node `n`. -/
def Graph.node_pair (g : Graph) (n : Node) : Option Node := n.pair.bind g.node

/-- The value `a + b - c` computed in `std::size_t` and passed as a
`std::uint32_t` argument (graph.cpp:2347, 2359). -/
def unitig_edge_length (a b c : Nat) : Nat := ((a + b + (u64 - c % u64)) % u64) % u32

/-- The second edge of the block `if (begin->indegree())` of
`Graph::CreateUnitigs` (graph.cpp:2344-2350): the edge from the twin of the
unitig to the head of the pair of the in-edge of `begin`, stored and linked
to `edge`. -/
def CreateUnitigs.connect_in_twin (g : Graph) (edge begin_ unitig : Nat) : Option Graph :=
  (g.node unitig).bind fun u =>
  (g.node_pair u).bind fun up =>
  (g.node begin_).bind fun b =>
  (g.node_pair b).bind fun begin_pair =>
  (g.front_in begin_).bind fun front =>
  (g.edge_pair front).bind fun front_pair =>
  u.pair.bind fun unitig_pair =>
  (g.new_edge unitig_pair front_pair.head
    (unitig_edge_length front_pair.length up.data.length begin_pair.data.length)).bind fun r =>
  r.1.link_edges edge r.2

/-- The block `if (begin->indegree())` of `Graph::CreateUnitigs`
(graph.cpp:2338-2351): the in-edge of `begin` and its pair are marked and an
edge pair from the tail of that edge to the unitig is made. -/
def CreateUnitigs.connect_in (g : Graph) (marked_edges : List Nat) (begin_ unitig : Nat) :
    Option (Graph × List Nat) :=
  (g.node begin_).bind fun b =>
  if b.indegree = 0 then some (g, marked_edges) else
  (g.front_in begin_).bind fun front =>
  (g.edge_pair front).bind fun front_pair =>
  (g.new_edge front.tail unitig front.length).bind fun r =>
  (CreateUnitigs.connect_in_twin r.1 r.2 begin_ unitig).bind fun g₂ =>
  some (g₂, emplace (emplace marked_edges front.id) front_pair.id)

/-- The second edge of the block `if (end->outdegree())` of
`Graph::CreateUnitigs` (graph.cpp:2361-2366): the edge from the tail of the
pair of the out-edge of `end` to the twin of the unitig, stored and linked to
`edge`. -/
def CreateUnitigs.connect_out_twin (g : Graph) (edge end_ unitig : Nat) : Option Graph :=
  (g.front_out end_).bind fun front =>
  (g.edge_pair front).bind fun front_pair =>
  (g.node unitig).bind fun u =>
  u.pair.bind fun unitig_pair =>
  (g.new_edge front_pair.tail unitig_pair front_pair.length).bind fun r =>
  r.1.link_edges edge r.2

/-- The block `if (end->outdegree())` of `Graph::CreateUnitigs`
(graph.cpp:2353-2367): the out-edge of `end` and its pair are marked and an
edge pair from the unitig to the head of that edge is made. -/
def CreateUnitigs.connect_out (g : Graph) (marked_edges : List Nat) (end_ unitig : Nat) :
    Option (Graph × List Nat) :=
  (g.node end_).bind fun b =>
  if b.outdegree = 0 then some (g, marked_edges) else
  (g.front_out end_).bind fun front =>
  (g.edge_pair front).bind fun front_pair =>
  (g.node unitig).bind fun u =>
  (g.new_edge unitig front.head
    (unitig_edge_length front.length u.data.length b.data.length)).bind fun r =>
  (CreateUnitigs.connect_out_twin r.1 r.2 end_ unitig).bind fun g₂ =>
  some (g₂, emplace (emplace marked_edges front.id) front_pair.id)

/-- The statement "update transitive edges" inside the loop over the chain
(graph.cpp:2374-2377), for the node `jt` of the chain: `node_updates` is
written and the `transitive` set of `nodes_[jt->id & ~1]` is inserted into
that of the unitig. -/
def CreateUnitigs.gather (size unitig jt : Nat) (g : Graph) (node_updates : List Nat) :
    Option (Graph × List Nat) :=
  (g.node jt).bind fun j =>
  (g.node unitig).bind fun u =>
  (set_checked node_updates (j.id / 2 * 2) u.id).bind fun node_updates =>
  (if j.id / 2 * 2 < size then g.node (j.id / 2 * 2) else none).bind fun n =>
  some (g.set_node unitig { u with transitive := n.transitive.foldl emplace u.transitive },
    node_updates)

/-- The loop over the chain at the end of the body of `Graph::CreateUnitigs`
(graph.cpp:2369-2383): the edges of the chain and their pairs are marked,
`node_updates` is written and the `transitive` sets are gathered into the
unitig. -/
def CreateUnitigs.mark_chain (size end_ unitig : Nat) :
    Nat → Nat → Graph → List Nat → List Nat → Option (Graph × List Nat × List Nat)
  | 0, _, _, _, _ => none
  | fuel + 1, jt, g, marked_edges, node_updates =>
    (g.front_out jt).bind fun front =>
    (g.edge_pair front).bind fun front_pair =>
    (CreateUnitigs.gather size unitig jt g node_updates).bind fun r =>
    (r.1.front_out jt).bind fun front₁ =>
    if front₁.head = end_ then
      some (r.1, emplace (emplace marked_edges front.id) front_pair.id, r.2)
    else
      CreateUnitigs.mark_chain size end_ unitig fuel front₁.head r.1
        (emplace (emplace marked_edges front.id) front_pair.id) r.2

/-- The two nodes of a new unitig (graph.cpp:2331-2335): the unitig of the
chain `begin .. end`, its twin of the chain `end->pair .. begin->pair`, and
their mutual `pair` links; the result is the graph and the pointer to the
unitig. -/
def CreateUnitigs.new_unitig_pair (fuel : Nat) (g : Graph) (begin_ end_ : Nat) :
    Option (Graph × Nat) :=
  (g.new_unitig fuel begin_ end_).bind fun r₁ =>
  (r₁.1.node end_).bind fun e =>
  e.pair.bind fun end_pair =>
  (r₁.1.node begin_).bind fun b =>
  b.pair.bind fun begin_pair =>
  (r₁.1.new_unitig fuel end_pair begin_pair).bind fun r₂ =>
  (r₂.1.link_nodes r₁.2 r₂.2).bind fun g =>
  some (g, r₁.2)

/-- The block "connect unitig to graph" of `Graph::CreateUnitigs`
(graph.cpp:2337-2368). -/
def CreateUnitigs.connect (g : Graph) (marked_edges : List Nat) (begin_ end_ unitig : Nat) :
    Option (Graph × List Nat) :=
  if begin_ ≠ end_ then
    (CreateUnitigs.connect_in g marked_edges begin_ unitig).bind fun c =>
      CreateUnitigs.connect_out c.1 c.2 end_ unitig
  else some (g, marked_edges)

/-- The part of the body of the main loop of `Graph::CreateUnitigs` that
follows the trimming (graph.cpp:2331-2383), for the chain `begin .. end`. -/
def CreateUnitigs.merge (fuel : Nat) (st : CreateUnitigs.State) (begin_ end_ : Nat) :
    Option CreateUnitigs.State :=
  (CreateUnitigs.new_unitig_pair fuel st.g begin_ end_).bind fun u =>
  (CreateUnitigs.connect u.1 st.marked_edges begin_ end_ u.2).bind fun c =>
  (CreateUnitigs.mark_chain st.size end_ u.2 fuel begin_ c.1 c.2 st.node_updates).bind fun m =>
  some { st with g := m.1, marked_edges := m.2.1, num_unitigs := st.num_unitigs + 2,
                 node_updates := m.2.2 }

/-- The block "remove nodes near junctions" of `Graph::CreateUnitigs`
(graph.cpp:2322-2330); the result is the trimmed `begin` and `end`. -/
def CreateUnitigs.trim (g : Graph) (epsilon begin_ end_ : Nat) : Option (Nat × Nat) :=
  if begin_ ≠ end_ then
    (CreateUnitigs.trim_begin g epsilon begin_).bind fun b =>
    (CreateUnitigs.trim_end g epsilon end_).bind fun e => some (b, e)
  else some (begin_, end_)

/-- The body of the main loop of `Graph::CreateUnitigs` (graph.cpp:2273-2384),
for the slot `k` of `nodes_`. -/
def CreateUnitigs.step (fuel epsilon : Nat) (st : CreateUnitigs.State) (k : Nat) :
    Option CreateUnitigs.State :=
  match st.g.node k with
  | none => some st
  | some it =>
    (st.is_visited[it.id]?).bind fun visited =>
    if visited = true ∨ it.is_junction = true then some st else
    (CreateUnitigs.extend_left st.g k fuel k 1 st.is_visited).bind fun l =>
    (CreateUnitigs.extend_right st.g k fuel k l.2.1 l.2.2.1 l.2.2.2).bind fun r =>
    if r.2.2.1 = false ∧ l.1 = r.1 then some { st with is_visited := r.2.2.2 }
    else if r.2.2.1 = false ∧ r.2.1 < add32 ((2 * epsilon) % u32) 2 then
      some { st with is_visited := r.2.2.2 }
    else
      (CreateUnitigs.trim st.g epsilon l.1 r.1).bind fun c =>
      CreateUnitigs.merge fuel { st with is_visited := r.2.2.2 } c.1 c.2

/-- The inner loop of "update transitive edges" (graph.cpp:2393-2395): the
set `valid` of the renamed elements of `transitive`. -/
def CreateUnitigs.valid (node_updates : List Nat) (transitive : List Nat) :
    Option (List Nat) :=
  transitive.foldlM
    (fun valid jt =>
      (node_updates[jt]?).bind fun u => some (emplace valid (if u = 0 then jt else u))) []

/-- One round of the loop "update transitive edges" that ends
`Graph::CreateUnitigs` (graph.cpp:2390-2398), for the slot `k`. -/
def CreateUnitigs.update_transitive (node_updates : List Nat) (g : Graph) (k : Nat) :
    Option Graph :=
  match g.node k with
  | none => some g
  | some it =>
    (CreateUnitigs.valid node_updates it.transitive).bind fun valid =>
    some (g.set_node k { it with transitive := valid })

/-- `Graph::CreateUnitigs` (graph.cpp:2266); the result is the graph after the
call with the returned number of unitigs.  `fuel` bounds the number of rounds
of each inner `while` loop. -/
def CreateUnitigs (fuel : Nat) (g : Graph) (epsilon : Nat) : Option (Graph × Nat) :=
  ((List.range g.nodes_.length).foldlM (CreateUnitigs.step fuel epsilon)
    { g := g, size := g.nodes_.length, marked_edges := [], num_unitigs := 0,
      node_updates := List.replicate g.nodes_.length 0,
      is_visited := List.replicate g.nodes_.length false }).bind fun st =>
  (RemoveEdges st.g st.marked_edges true).bind fun g₁ =>
  ((List.range g₁.nodes_.length).foldlM
    (CreateUnitigs.update_transitive st.node_updates) g₁).bind fun g₂ =>
  some (g₂, st.num_unitigs / 2)

/-! ### Well-formed graphs -/

/-- The node with the edges of `ids` taken out of both adjacency lists. -/
def Node.strip (ids : List Nat) (n : Node) : Node :=
  { n with inedges := n.inedges.filter (fun j => decide (j ∉ ids)),
           outedges := n.outedges.filter (fun j => decide (j ∉ ids)) }

/-- The node with the edges `outs` and `ins` appended to its out-list and
in-list. -/
def Node.push (outs ins : List Nat) (n : Node) : Node :=
  { n with outedges := n.outedges ++ outs, inedges := n.inedges ++ ins }

/-- The adjacency lists hold live edges only, each in the out-list of its tail
and in the in-list of its head. -/
def Graph.adjacent (g : Graph) : Prop :=
  ∀ k n, g.node k = some n →
    (∀ j ∈ n.outedges, ∃ e, g.edge j = some e ∧ e.tail = k) ∧
    (∀ j ∈ n.inedges, ∃ e, g.edge j = some e ∧ e.head = k)

/-- Every node sits in the slot named by its `id`, and its `pair` is a live
node whose `pair` points back. -/
def Graph.nodes_paired (g : Graph) : Prop :=
  ∀ k n, g.node k = some n →
    n.id = k ∧ ∃ p m, n.pair = some p ∧ g.node p = some m ∧ m.pair = some k

/-- Every edge sits in the slot named by its `id`; its tail and head are live
nodes that list it; its `pair` is a live edge whose `pair` points back, whose
tail is the pair of the head and whose head is the pair of the tail. -/
def Graph.edges_paired (g : Graph) : Prop :=
  ∀ j e, g.edge j = some e →
    e.id = j ∧
    ∃ t h q e', g.node e.tail = some t ∧ g.node e.head = some h ∧
      j ∈ t.outedges ∧ j ∈ h.inedges ∧
      e.pair = some q ∧ g.edge q = some e' ∧ e'.pair = some j ∧
      h.pair = some e'.tail ∧ t.pair = some e'.head

/-- The nodes that are tail or head of an edge of `ids`, by their `id`. -/
def Graph.touched (g : Graph) (ids : List Nat) (x : Nat) : Prop :=
  ∃ i ∈ ids, ∃ e t h, g.edge i = some e ∧ g.node e.tail = some t ∧
    g.node e.head = some h ∧ (x = t.id ∨ x = h.id)

/-- The invariant of the graph: paired nodes, paired edges, consistent
adjacency lists, and counters that agree with the sizes of the vectors. -/
structure Graph.wf (g : Graph) : Prop where
  nodes : g.nodes_paired
  edges : g.edges_paired
  adj : g.adjacent
  node_count : g.node_num_objects = g.nodes_.length
  edge_count : g.edge_num_objects = g.edges_.length
  nodes_distinct : ∀ k n, g.node k = some n → n.pair ≠ some k
  edges_distinct : ∀ j e, g.edge j = some e → e.pair ≠ some j

/-- The property `Graph.nodes_paired`, with distinct pairs, in a form that can
be evaluated on a given graph. -/
def Graph.nodes_paired_bounded (g : Graph) : Prop :=
  ∀ k < g.nodes_.length, ∀ n ∈ g.node k,
    n.id = k ∧ n.pair ≠ some k ∧ ∃ p ∈ n.pair, ∃ m ∈ g.node p, m.pair = some k

instance (g : Graph) : Decidable g.nodes_paired_bounded := by
  unfold Graph.nodes_paired_bounded; infer_instance

/-- The condition of `Graph.edges_paired` on the edge `e` of slot `j` with
pair `f`, tail `t` and head `h`. -/
def Graph.edge_paired_at (j : Nat) (t h : Node) (f : Edge) : Prop :=
  j ∈ t.outedges ∧ j ∈ h.inedges ∧ f.pair = some j ∧
    h.pair = some f.tail ∧ t.pair = some f.head

instance (j : Nat) (t h : Node) (f : Edge) : Decidable (Graph.edge_paired_at j t h f) := by
  unfold Graph.edge_paired_at; infer_instance

/-- The property `Graph.edges_paired`, with distinct pairs, in a form that can
be evaluated on a given graph. -/
def Graph.edges_paired_bounded (g : Graph) : Prop :=
  ∀ j < g.edges_.length, ∀ e ∈ g.edge j,
    e.id = j ∧ e.pair ≠ some j ∧
    ∃ t ∈ g.node e.tail, ∃ h ∈ g.node e.head, ∃ q ∈ e.pair, ∃ f ∈ g.edge q,
      Graph.edge_paired_at j t h f

instance (g : Graph) : Decidable g.edges_paired_bounded := by
  unfold Graph.edges_paired_bounded; infer_instance

/-- The property `Graph.adjacent` in a form that can be evaluated on a given
graph. -/
def Graph.adjacent_bounded (g : Graph) : Prop :=
  ∀ k < g.nodes_.length, ∀ n ∈ g.node k,
    (∀ j ∈ n.outedges, ∃ e ∈ g.edge j, e.tail = k) ∧
    (∀ j ∈ n.inedges, ∃ e ∈ g.edge j, e.head = k)

instance (g : Graph) : Decidable g.adjacent_bounded := by
  unfold Graph.adjacent_bounded; infer_instance

/-- The invariant `Graph.wf` with every quantifier bounded by the size of a
vector, so that it can be evaluated on a given graph. -/
def Graph.wf_bounded (g : Graph) : Prop :=
  g.nodes_paired_bounded ∧ g.edges_paired_bounded ∧ g.adjacent_bounded ∧
  g.node_num_objects = g.nodes_.length ∧ g.edge_num_objects = g.edges_.length

instance (g : Graph) : Decidable g.wf_bounded := by
  unfold Graph.wf_bounded; infer_instance

/-! ### Shapes of extended graphs -/

/-- The shape of a graph after an edge pair was added. -/
structure Graph.with_edge_pair (g g₃ : Graph) (t h t₂ h₂ len len₂ : Nat) : Prop where
  edges : g₃.edges_ = g.edges_ ++
    [some { id := g.edge_num_objects, length := len, tail := t, head := h,
            pair := some (g.edges_.length + 1) },
     some { id := g.edge_num_objects + 1, length := len₂, tail := t₂, head := h₂,
            pair := some g.edges_.length }]
  edge_count : g₃.edge_num_objects = g.edge_num_objects + 2
  node_count : g₃.node_num_objects = g.node_num_objects
  length : g₃.nodes_.length = g.nodes_.length
  nodes : ∀ k, g₃.node k = (g.node k).map
    (Node.push
      ((if k = t then [g.edges_.length] else []) ++
        (if k = t₂ then [g.edges_.length + 1] else []))
      ((if k = h then [g.edges_.length] else []) ++
        (if k = h₂ then [g.edges_.length + 1] else [])))

/-- A node that was just made: it sits in slot `k`, has no edges, and its
`pair` is the slot `p`. -/
structure Node.fresh (n : Node) (k p : Nat) : Prop where
  id : n.id = k
  pair : n.pair = some p
  inedges : n.inedges = []
  outedges : n.outedges = []

/-- The shape of a graph after a node pair was added. -/
structure Graph.with_node_pair (g g' : Graph) : Prop where
  nodes : ∃ a b, g'.nodes_ = g.nodes_ ++ [some a, some b] ∧
    a.fresh g.nodes_.length (g.nodes_.length + 1) ∧
    b.fresh (g.nodes_.length + 1) g.nodes_.length
  edges : g'.edges_ = g.edges_
  node_count : g'.node_num_objects = g.node_num_objects + 2
  edge_count : g'.edge_num_objects = g.edge_num_objects

/-! ### Example data -/

/-- A valid pile with region `[100, 2000)`. -/
def ex_pile_0 : Pile := ⟨0, 100, 2000, 1900, false, false, false⟩

/-- A valid pile with region `[0, 1500)`. -/
def ex_pile_1 : Pile := ⟨1, 0, 1500, 1500, false, false, false⟩

/-- The pile `ex_pile_1` made invalid. -/
def ex_pile_1_invalid : Pile := ⟨1, 0, 1500, 1500, true, false, false⟩

/-- Two valid piles with regions `[100, 2000)` and `[0, 1500)`. -/
def ex_piles : List Pile := [ex_pile_0, ex_pile_1]

/-- An overlap hanging off the left of pile 0 and off the right of pile 1. -/
def ex_overlap : Overlap := ⟨0, 50, 1000, 1, 500, 1600, 0, true⟩

/-- The overlap `ex_overlap` after `OverlapUpdate`. -/
def ex_overlap_updated : Overlap := ⟨0, 100, 900, 1, 550, 1500, 0, true⟩

/-- The piles of `ex_piles` with the second one invalid. -/
def ex_piles_invalid : List Pile := [ex_pile_0, ex_pile_1_invalid]

/-- A valid pile with region `[0, 1000)`. -/
def ex_pile_a : Pile := ⟨0, 0, 1000, 1000, false, false, false⟩

/-- A second valid pile with region `[0, 1000)`. -/
def ex_pile_b : Pile := ⟨1, 0, 1000, 1000, false, false, false⟩

/-- Two valid piles with region `[0, 1000)`. -/
def ex_piles_1000 : List Pile := [ex_pile_a, ex_pile_b]

/-- An opposite-strand overlap inside the regions of `ex_piles`, hanging off
the left of pile 0. -/
def ex_overlap_rc : Overlap := ⟨0, 700, 2000, 1, 200, 1500, 0, false⟩

/-- The overlap `ex_overlap_rc` before `OverlapUpdate`. -/
def ex_overlap_rc_raw : Overlap := ⟨0, 700, 2050, 1, 150, 1500, 0, false⟩

/-- The overlap `ex_overlap_rc` after `OverlapFinalize`. -/
def ex_overlap_rc_final : Overlap := ⟨0, 600, 1900, 1, 0, 1300, 3, false⟩

/-- An overlap whose overhang (100) is one eighth of matched length plus
overhang on the lhs (700 + 100). -/
def ex_overlap_eighth : Overlap := ⟨0, 100, 800, 1, 100, 1000, 0, true⟩

/-! ### Example graph -/

/-- Three reads of ten bases; each overlaps the next one. -/
def ex_sequences : List Sequence :=
  [⟨"AAAAAACCCC".toList⟩, ⟨"CCCCGGGGGG".toList⟩, ⟨"GGGGTTTTTT".toList⟩]

/-- The piles of the three reads, all valid on `[0, 10)`. -/
def ex_read_piles : List Pile :=
  [⟨0, 0, 10, 10, false, false, false⟩, ⟨1, 0, 10, 10, false, false, false⟩,
   ⟨2, 0, 10, 10, false, false, false⟩]

/-- The overlap of read 0 with read 1 (four bases on both) and of read 1 with
read 2 (four bases on read 1, five on read 2). -/
def ex_read_overlaps : List Overlap :=
  [⟨0, 6, 10, 1, 0, 4, 0, true⟩, ⟨1, 6, 10, 2, 0, 5, 0, true⟩]

/-- The empty graph of a cleared `Graph`. -/
def Graph.empty : Graph := ⟨[], [], 0, 0⟩

/-- The graph that `Construct.graph` makes of the three reads: the chain
`0 → 2 → 4` of the reads and the chain `5 → 3 → 1` of their reverse
complements. -/
def ex_graph : Graph :=
  { nodes_ :=
      [some ⟨0, "AAAAAACCCC".toList, 1, false, false, [], [], [0], some 1⟩,
       some ⟨1, "GGGGTTTTTT".toList, 1, false, false, [], [1], [], some 0⟩,
       some ⟨2, "CCCCGGGGGG".toList, 1, false, false, [], [0], [2], some 3⟩,
       some ⟨3, "CCCCCCGGGG".toList, 1, false, false, [], [3], [1], some 2⟩,
       some ⟨4, "GGGGTTTTTT".toList, 1, false, false, [], [2], [], some 5⟩,
       some ⟨5, "AAAAAACCCC".toList, 1, false, false, [], [], [3], some 4⟩]
    edges_ := [some ⟨0, 6, 0, 2, some 1⟩, some ⟨1, 6, 3, 1, some 0⟩,
               some ⟨2, 6, 2, 4, some 3⟩, some ⟨3, 5, 5, 3, some 2⟩]
    node_num_objects := 6
    edge_num_objects := 4 }

/-! ### Contained reads -/

/-- Modelled from the spec: `Pile::set_is_contained()` (`pile.hpp` is not
among the sources), a "monotonic state transition". -/
def Pile.set_is_contained (p : Pile) : Pile := { p with is_contained := true }

/-- Modelled from the spec: `Pile::set_is_invalid()` (`pile.hpp` is not among
the sources), a "monotonic state transition". -/
def Pile.set_is_invalid (p : Pile) : Pile := { p with is_invalid := true }

/-- The two branches of graph.cpp:571-574 that mark a pile contained, and the
branch `overlaps[i][k++] = overlaps[i][j]` that keeps the overlap `o` of type
`type`; the state is `piles_` with the kept part of `overlaps[i]`. -/
def Construct.resolve_type (i : Nat) (st : List Pile × List Overlap) (o : Overlap)
    (type : Nat) : Option (List Pile × List Overlap) :=
  if type = 1 then
    (st.1[o.rhs_id]?).bind fun pr =>
    if pr.is_maybe_chimeric = false then
      (st.1[i]?).bind fun pi =>
      (set_checked st.1 i pi.set_is_contained).bind fun piles => some (piles, st.2)
    else some (st.1, st.2 ++ [o])
  else if type = 2 then
    (st.1[i]?).bind fun pi =>
    if pi.is_maybe_chimeric = false then
      (st.1[o.rhs_id]?).bind fun pr =>
      (set_checked st.1 o.rhs_id pr.set_is_contained).bind fun piles => some (piles, st.2)
    else some (st.1, st.2 ++ [o])
  else some (st.1, st.2 ++ [o])

/-- One round of the inner loop of "resolve contained reads"
(graph.cpp:566-577), for the overlap `overlaps[i][j]`. -/
def Construct.resolve_overlap (i : Nat) (st : List Pile × List Overlap) (o : Overlap) :
    Option (List Pile × List Overlap) :=
  (OverlapUpdate st.1 o).bind fun r =>
  if r.1 = false then some st else
  (OverlapType st.1 r.2).bind fun type => Construct.resolve_type i st r.2 type

/-- One round of the outer loop of "resolve contained reads"
(graph.cpp:564-579), for the index `i`; the state is `piles_` with the rows
of `overlaps` already done. -/
def Construct.resolve_row (st : List Pile × List (List Overlap))
    (row : Nat × List Overlap) : Option (List Pile × List (List Overlap)) :=
  (row.2.foldlM (Construct.resolve_overlap row.1) (st.1, [])).bind fun r =>
  some (r.1, st.2 ++ [r.2])

/-- One round of the loop that invalidates the contained piles
(graph.cpp:580-585), for the index `i`. -/
def Construct.invalidate (st : List Pile × List (List Overlap)) (i : Nat) :
    Option (List Pile × List (List Overlap)) :=
  (st.1[i]?).bind fun p =>
  if p.is_contained = true then
    (set_checked st.1 i p.set_is_invalid).bind fun piles =>
    (set_checked st.2 i []).bind fun overlaps => some (piles, overlaps)
  else some st

/-- The step "resolve contained reads" of `Graph::Construct`
(graph.cpp:561-585) on `piles_` and `overlaps`. -/
def Construct.resolve_contained (piles : List Pile) (overlaps : List (List Overlap)) :
    Option (List Pile × List (List Overlap)) :=
  (overlaps.enum.foldlM Construct.resolve_row (piles, [])).bind fun st =>
  (List.range st.1.length).foldlM Construct.invalidate st

/-- Two piles with the same valid region `[0, 5000)`. -/
def ex_twin_piles : List Pile :=
  [⟨0, 0, 5000, 5000, false, false, false⟩, ⟨1, 0, 5000, 5000, false, false, false⟩]

/-- Two sequences of 5000 bases `A`. -/
def ex_twin_sequences : List Sequence :=
  [⟨List.replicate 5000 'A'⟩, ⟨List.replicate 5000 'A'⟩]

/-- The full-length same-strand overlap of the two sequences, recorded under
id 0, and its reverse recorded under id 1. -/
def ex_twin_overlaps : List (List Overlap) :=
  [[⟨0, 0, 5000, 1, 0, 5000, 5000, true⟩],
   [OverlapReverse ⟨0, 0, 5000, 1, 0, 5000, 5000, true⟩]]

/-! ### Bubbles -/

/-- The loop of the lambda `path_type` (graph.cpp:1688-1692) over the nodes
`path[1] .. path[size - 2]`. -/
def RemoveBubbles.no_junction (g : Graph) : List Nat → Option Bool
  | [] => some true
  | p :: ps =>
    (g.node p).bind fun n =>
    if n.is_junction = true then some false else RemoveBubbles.no_junction g ps

/-- The lambda `path_type` of `Graph::RemoveBubbles` (graph.cpp:1684). -/
def RemoveBubbles.path_type (g : Graph) (path : List Nat) : Option Bool :=
  if path = [] then some false else RemoveBubbles.no_junction g (path.drop 1).dropLast

/-- The loop `for (auto it : lhs)` of the lambda `bubble_type`
(graph.cpp:1710-1714): some node of `lhs` has its `pair` in `intersection`. -/
def RemoveBubbles.pair_in (g : Graph) (intersection : List Nat) : List Nat → Option Bool
  | [] => some false
  | p :: ps =>
    (g.node p).bind fun n =>
    if (match n.pair with
        | none => false
        | some q => decide (q ∈ intersection)) = true then some true
    else RemoveBubbles.pair_in g intersection ps

/-- The first matching out-edge of the loop in the lambda `path_sequence`
(graph.cpp:1725-1730), by its label. -/
def RemoveBubbles.label_to (g : Graph) (head : Nat) : List Nat → Option (List Char)
  | [] => some []
  | j :: js =>
    (g.edge j).bind fun e =>
    if e.head = head then g.Label e else RemoveBubbles.label_to g head js

/-- The lambda `path_sequence` of `bubble_type` (graph.cpp:1720-1734). -/
def RemoveBubbles.path_sequence (g : Graph) : List Nat → Option (List Char)
  | [] => none
  | [p] => (g.node p).bind fun n => some n.data
  | p :: q :: ps =>
    (g.node p).bind fun n =>
    (RemoveBubbles.label_to g q n.outedges).bind fun l =>
    (RemoveBubbles.path_sequence g (q :: ps)).bind fun r => some (l ++ r)

/-- The lambda `bubble_type` of `Graph::RemoveBubbles` (graph.cpp:1696-1750).
The minimizer engine is an external library: `map ls rs` stands for the
overlaps that `minimizer_engine_.Map(ls, rs)` returns for the two path
sequences, and the fold over them is the variable `matches`, the largest of
their scores.  The source takes
the products `max * 0.8` and `0.5 * min` in `double`; for lengths below
`2^50` its two comparisons agree with the exact ones used here,
`5 * min < 4 * max` for `min < max * 0.8` and `min < 2 * matches` for
`matches > 0.5 * min`. -/
def RemoveBubbles.bubble_type (map : List Char → List Char → List Overlap) (g : Graph)
    (lhs rhs : List Nat) : Option Bool :=
  if lhs = [] ∨ rhs = [] then some false else
  let intersection := rhs.foldl emplace (lhs.foldl emplace [])
  if lhs.length + rhs.length - 2 ≠ intersection.length then some false else
  (RemoveBubbles.pair_in g intersection lhs).bind fun found =>
  if found = true then some false else
  (RemoveBubbles.path_type g lhs).bind fun l =>
  (if l = true then RemoveBubbles.path_type g rhs else some false).bind fun r =>
  if l = true ∧ r = true then some true else
  (RemoveBubbles.path_sequence g lhs).bind fun ls =>
  (RemoveBubbles.path_sequence g rhs).bind fun rs =>
  if 5 * min ls.length rs.length < 4 * max ls.length rs.length then some false else
  some (decide (min ls.length rs.length <
    2 * (map ls rs).foldl (fun m o => max m o.score) 0))

/-! ### Removable edges of a path -/

/-- The lambda `find_edge` of `Graph::FindRemovableEdges` (graph.cpp:2461) on
the out-edges of the tail; `none` is `nullptr`. -/
def FindRemovableEdges.find_edge (g : Graph) (head : Nat) : List Nat → Option (Option Nat)
  | [] => some none
  | j :: js =>
    (g.edge j).bind fun e =>
    if e.head = head then some (some j) else FindRemovableEdges.find_edge g head js

/-- The loop "find first node with multiple in edges" (graph.cpp:2471-2477)
from the index `i` on; `none` is the value `-1` of `pref`. -/
def FindRemovableEdges.pref (g : Graph) : Nat → List Nat → Option (Option Nat)
  | _, [] => some none
  | i, p :: ps =>
    (g.node p).bind fun n =>
    if n.indegree > 1 then some (some i) else FindRemovableEdges.pref g (i + 1) ps

/-- The loop "find last node with multiple out edges" (graph.cpp:2480-2485)
from the index `i` on; `none` is the value `-1` of `suff`. -/
def FindRemovableEdges.suff (g : Graph) : Nat → List Nat → Option Nat → Option (Option Nat)
  | _, [], suff => some suff
  | i, p :: ps, suff =>
    (g.node p).bind fun n =>
    FindRemovableEdges.suff g (i + 1) ps (if n.outdegree > 1 then some i else suff)

/-- The body of the four marking loops of `Graph::FindRemovableEdges`
(graph.cpp:2489-2492): the edge from `path[i]` to `path[i + 1]` and its pair
enter `dst`. -/
def FindRemovableEdges.mark (g : Graph) (path : List Nat) (dst : List Nat) (i : Nat) :
    Option (List Nat) :=
  (path[i]?).bind fun tail =>
  (path[i + 1]?).bind fun head =>
  (g.node tail).bind fun t =>
  (FindRemovableEdges.find_edge g head t.outedges).bind fun it =>
  (it.bind g.edge).bind fun e =>
  (g.edge_pair e).bind fun f =>
  some (emplace (emplace dst e.id) f.id)

/-- The tests and loops of `Graph::FindRemovableEdges` that follow the search
of `pref` and `suff` (graph.cpp:2487-2523). -/
def FindRemovableEdges.choose (g : Graph) (path : List Nat) (pref suff : Option Nat) :
    Option (List Nat) :=
  match pref, suff with
  | none, none => (List.range (path.length - 1)).foldlM (FindRemovableEdges.mark g path) []
  | some p, none =>
    (path[p]?).bind fun x => (g.node x).bind fun n =>
    if n.outdegree > 1 then some []
    else (List.range p).foldlM (FindRemovableEdges.mark g path) []
  | none, some s =>
    (path[s]?).bind fun y => (g.node y).bind fun m =>
    if m.indegree > 1 then some []
    else (List.range' s (path.length - 1 - s)).foldlM (FindRemovableEdges.mark g path) []
  | some p, some s =>
    (path[p]?).bind fun x => (g.node x).bind fun n =>
    if n.outdegree > 1 then some [] else
    (path[s]?).bind fun y => (g.node y).bind fun m =>
    if m.indegree > 1 then some []
    else if s < p then (List.range' s (p - s)).foldlM (FindRemovableEdges.mark g path) []
    else some []

/-- `Graph::FindRemovableEdges` (graph.cpp:2455); the result is the set of
edge ids as a duplicate-free list. -/
def FindRemovableEdges (g : Graph) (path : List Nat) : Option (List Nat) :=
  if path = [] then some [] else
  (FindRemovableEdges.pref g 1 (path.drop 1).dropLast).bind fun pref =>
  (FindRemovableEdges.suff g 1 (path.drop 1).dropLast none).bind fun suff =>
  FindRemovableEdges.choose g path pref suff

/-- The sums `lhs_count`, `rhs_count` of `Graph::RemoveBubbles`
(graph.cpp:1800-1807). -/
def RemoveBubbles.count (g : Graph) (path : List Nat) : Option Nat :=
  path.foldlM (fun c p => (g.node p).bind fun n => some (add32 c n.count)) 0

/-- A bubble between the nodes 0 and 6 with the arms `0 → 2 → 6` and
`0 → 4 → 6`; the node 2 has a second in-edge (from 8) and a second out-edge
(to 10), and the node 4 has count 2.  Odd slots hold the reverse
complements. -/
def ex_bubble : Graph :=
  { nodes_ :=
      [some ⟨0, "AAAA".toList, 1, false, false, [], [], [0, 4], some 1⟩,
       some ⟨1, "TTTT".toList, 1, false, false, [], [1, 5], [], some 0⟩,
       some ⟨2, "CCCC".toList, 1, false, false, [], [0, 8], [2, 10], some 3⟩,
       some ⟨3, "GGGG".toList, 1, false, false, [], [3, 11], [1, 9], some 2⟩,
       some ⟨4, "GGGG".toList, 2, false, false, [], [4], [6], some 5⟩,
       some ⟨5, "CCCC".toList, 2, false, false, [], [7], [5], some 4⟩,
       some ⟨6, "TTTT".toList, 1, false, false, [], [2, 6], [], some 7⟩,
       some ⟨7, "AAAA".toList, 1, false, false, [], [], [3, 7], some 6⟩,
       some ⟨8, "ACAC".toList, 1, false, false, [], [], [8], some 9⟩,
       some ⟨9, "GTGT".toList, 1, false, false, [], [9], [], some 8⟩,
       some ⟨10, "GTGT".toList, 1, false, false, [], [10], [], some 11⟩,
       some ⟨11, "ACAC".toList, 1, false, false, [], [], [11], some 10⟩]
    edges_ :=
      [some ⟨0, 2, 0, 2, some 1⟩,
       some ⟨1, 2, 3, 1, some 0⟩,
       some ⟨2, 2, 2, 6, some 3⟩,
       some ⟨3, 2, 7, 3, some 2⟩,
       some ⟨4, 2, 0, 4, some 5⟩,
       some ⟨5, 2, 5, 1, some 4⟩,
       some ⟨6, 2, 4, 6, some 7⟩,
       some ⟨7, 2, 7, 5, some 6⟩,
       some ⟨8, 2, 8, 2, some 9⟩,
       some ⟨9, 2, 3, 9, some 8⟩,
       some ⟨10, 2, 2, 10, some 11⟩,
       some ⟨11, 2, 11, 3, some 10⟩]
    node_num_objects := 12
    edge_num_objects := 12 }

/-- A reproducible sequence of `n` bases for the examples: the base is taken
from the bits 16 and 17 of the state `s`, and the next state is
`(1103515245 s + 12345) mod 2^31`. -/
def ex_bases : Nat → Nat → List Char
  | 0, _ => []
  | n + 1, s =>
    "ACGT".toList.getD (s / 65536 % 4) 'A' ::
      ex_bases n ((1103515245 * s + 12345) % 2147483648)

/-- A graph in which the path `0 → 4 → 6 → 5 → 8` runs through the node 4
and through its reverse complement 5, next to the path `0 → 2 → 8`; odd slots
hold the reverse complements.  The reads have 120 bases and the edges the
length 100, but the read of the node 2 has 320 bases, the first 100 bases of
the nodes 4, 6 and 5 and 20 more, and the edge `2 → 8` has the length 300, so
that the two paths spell the same sequence of 520 bases. -/
def ex_hairpin : Graph :=
  { nodes_ :=
      [some ⟨0, ex_bases 120 1, 1, false, false, [], [], [0, 4], some 1⟩,
       some ⟨1, ReverseAndComplement (ex_bases 120 1), 1, false, false, [], [1, 5], [],
         some 0⟩,
       some ⟨2, (ex_bases 120 2).take 100 ++ (ex_bases 120 3).take 100 ++
           (ReverseAndComplement (ex_bases 120 2)).take 100 ++ ex_bases 20 5,
         1, false, false, [], [0], [2], some 3⟩,
       some ⟨3, ReverseAndComplement ((ex_bases 120 2).take 100 ++ (ex_bases 120 3).take 100 ++
           (ReverseAndComplement (ex_bases 120 2)).take 100 ++ ex_bases 20 5),
         1, false, false, [], [3], [1], some 2⟩,
       some ⟨4, ex_bases 120 2, 1, false, false, [], [4, 11], [6, 9], some 5⟩,
       some ⟨5, ReverseAndComplement (ex_bases 120 2), 1, false, false, [], [7, 8], [5, 10],
         some 4⟩,
       some ⟨6, ex_bases 120 3, 1, false, false, [], [6], [8], some 7⟩,
       some ⟨7, ReverseAndComplement (ex_bases 120 3), 1, false, false, [], [9], [7], some 6⟩,
       some ⟨8, ex_bases 120 4, 1, false, false, [], [2, 10], [], some 9⟩,
       some ⟨9, ReverseAndComplement (ex_bases 120 4), 1, false, false, [], [], [3, 11],
         some 8⟩]
    edges_ :=
      [some ⟨0, 100, 0, 2, some 1⟩,
       some ⟨1, 300, 3, 1, some 0⟩,
       some ⟨2, 300, 2, 8, some 3⟩,
       some ⟨3, 100, 9, 3, some 2⟩,
       some ⟨4, 100, 0, 4, some 5⟩,
       some ⟨5, 100, 5, 1, some 4⟩,
       some ⟨6, 100, 4, 6, some 7⟩,
       some ⟨7, 100, 7, 5, some 6⟩,
       some ⟨8, 100, 6, 5, some 9⟩,
       some ⟨9, 100, 4, 7, some 8⟩,
       some ⟨10, 100, 5, 8, some 11⟩,
       some ⟨11, 100, 9, 4, some 10⟩]
    node_num_objects := 10
    edge_num_objects := 12 }

/-- An engine for the examples: a sequence is mapped onto an identical
sequence over its whole length, with the number of its bases as the score;
two sequences that differ get no overlap. -/
def ex_engine (ls rs : List Char) : List Overlap :=
  if ls = rs then [⟨0, 0, ls.length, 1, 0, rs.length, ls.length, true⟩] else []

/-! ### Chains -/

/-- The walk `it = it->outedges.front()->head` from the node `p` up to the
node `end_`: the list holds, for every node of the walk before `end_`, the
node with its first out-edge; the edge leaves the node, the head of the last
edge is `end_`, and no edge before the last has the head `end_`. -/
def Graph.links (g : Graph) (end_ : Nat) : Nat → List (Node × Edge) → Prop
  | _, [] => False
  | p, x :: l =>
    g.node p = some x.1 ∧ x.1.outedges.head?.bind g.edge = some x.2 ∧ x.2.tail = p ∧
      if l = [] then x.2.head = end_ else x.2.head ≠ end_ ∧ Graph.links g end_ x.2.head l

/-- The label of the edge `x.2` of the node `x.1`: the first `length` bases
of the data of the node. -/
def chain_label (x : Node × Edge) : List Char := x.1.data.take x.2.length

/-- The overlap length `tail.data.size - length` of the edge `e`, as an
integer. -/
def Graph.overlap_length (g : Graph) (e : Edge) : Option Int :=
  (g.node e.tail).map fun t => (t.data.length : Int) - (e.length : Int)

/-! ### Example graphs with `transitive` sets -/

/-- The example graph with a fourth read (the nodes 6 and 7) that has no
edge; the nodes 4 and 6 name each other in their `transitive` sets, as after
the removal of a transitive edge between them. -/
def ex_transitive : Graph :=
  { nodes_ :=
      [some ⟨0, "AAAAAACCCC".toList, 1, false, false, [], [], [0], some 1⟩,
       some ⟨1, "GGGGTTTTTT".toList, 1, false, false, [], [1], [], some 0⟩,
       some ⟨2, "CCCCGGGGGG".toList, 1, false, false, [], [0], [2], some 3⟩,
       some ⟨3, "CCCCCCGGGG".toList, 1, false, false, [], [3], [1], some 2⟩,
       some ⟨4, "GGGGTTTTTT".toList, 1, false, false, [6], [2], [], some 5⟩,
       some ⟨5, "AAAAAACCCC".toList, 1, false, false, [], [], [3], some 4⟩,
       some ⟨6, "TTTTTTAAAA".toList, 1, false, false, [4], [], [], some 7⟩,
       some ⟨7, "TTTTAAAAAA".toList, 1, false, false, [], [], [], some 6⟩]
    edges_ := [some ⟨0, 6, 0, 2, some 1⟩, some ⟨1, 6, 3, 1, some 0⟩,
               some ⟨2, 6, 2, 4, some 3⟩, some ⟨3, 5, 5, 3, some 2⟩]
    node_num_objects := 8
    edge_num_objects := 4 }

/-- The graph `ex_transitive` with the unitig of the chain `0 → 2 → 4` in
slot 8 and its twin in slot 9, before the unitig is connected. -/
def ex_transitive_unitig : Graph :=
  { nodes_ :=
      [some ⟨0, "AAAAAACCCC".toList, 1, false, false, [], [], [0], some 1⟩,
       some ⟨1, "GGGGTTTTTT".toList, 1, false, false, [], [1], [], some 0⟩,
       some ⟨2, "CCCCGGGGGG".toList, 1, false, false, [], [0], [2], some 3⟩,
       some ⟨3, "CCCCCCGGGG".toList, 1, false, false, [], [3], [1], some 2⟩,
       some ⟨4, "GGGGTTTTTT".toList, 1, false, false, [6], [2], [], some 5⟩,
       some ⟨5, "AAAAAACCCC".toList, 1, false, false, [], [], [3], some 4⟩,
       some ⟨6, "TTTTTTAAAA".toList, 1, false, false, [4], [], [], some 7⟩,
       some ⟨7, "TTTTAAAAAA".toList, 1, false, false, [], [], [], some 6⟩,
       some ⟨8, "AAAAAACCCCGGGGGGTTTTTT".toList, 3, false, false, [], [], [], some 9⟩,
       some ⟨9, "AAAAACCCCCCGGGGTTTTTT".toList, 3, false, false, [], [], [], some 8⟩]
    edges_ := [some ⟨0, 6, 0, 2, some 1⟩, some ⟨1, 6, 3, 1, some 0⟩,
               some ⟨2, 6, 2, 4, some 3⟩, some ⟨3, 5, 5, 3, some 2⟩]
    node_num_objects := 10
    edge_num_objects := 4 }

/-- Four reads of ten bases in a chain `0 → 2 → 4 → 6`, with the chain
`7 → 5 → 3 → 1` of their reverse complements; every edge has length 6. -/
def ex_chain : Graph :=
  { nodes_ :=
      [some ⟨0, "AAAAAACCCC".toList, 1, false, false, [], [], [0], some 1⟩,
       some ⟨1, "GGGGTTTTTT".toList, 1, false, false, [], [1], [], some 0⟩,
       some ⟨2, "CCCCGGGGGG".toList, 1, false, false, [], [0], [2], some 3⟩,
       some ⟨3, "CCCCCCGGGG".toList, 1, false, false, [], [3], [1], some 2⟩,
       some ⟨4, "GGGGTTTTTT".toList, 1, false, false, [], [2], [4], some 5⟩,
       some ⟨5, "AAAAAACCCC".toList, 1, false, false, [], [5], [3], some 4⟩,
       some ⟨6, "TTTTAAAAAA".toList, 1, false, false, [], [4], [], some 7⟩,
       some ⟨7, "TTTTTTAAAA".toList, 1, false, false, [], [], [5], some 6⟩]
    edges_ :=
      [some ⟨0, 6, 0, 2, some 1⟩, some ⟨1, 6, 3, 1, some 0⟩,
       some ⟨2, 6, 2, 4, some 3⟩, some ⟨3, 6, 5, 3, some 2⟩,
       some ⟨4, 6, 4, 6, some 5⟩, some ⟨5, 6, 7, 5, some 4⟩]
    node_num_objects := 8
    edge_num_objects := 6 }

/-- The graph `ex_chain` with the unitig of the chain `2 → 4` in slot 8 and
its twin in slot 9, before the unitig is connected. -/
def ex_chain_unitig : Graph :=
  { nodes_ :=
      [some ⟨0, "AAAAAACCCC".toList, 1, false, false, [], [], [0], some 1⟩,
       some ⟨1, "GGGGTTTTTT".toList, 1, false, false, [], [1], [], some 0⟩,
       some ⟨2, "CCCCGGGGGG".toList, 1, false, false, [], [0], [2], some 3⟩,
       some ⟨3, "CCCCCCGGGG".toList, 1, false, false, [], [3], [1], some 2⟩,
       some ⟨4, "GGGGTTTTTT".toList, 1, false, false, [], [2], [4], some 5⟩,
       some ⟨5, "AAAAAACCCC".toList, 1, false, false, [], [5], [3], some 4⟩,
       some ⟨6, "TTTTAAAAAA".toList, 1, false, false, [], [4], [], some 7⟩,
       some ⟨7, "TTTTTTAAAA".toList, 1, false, false, [], [], [5], some 6⟩,
       some ⟨8, "CCCCGGGGGGTTTTTT".toList, 2, false, false, [], [], [], some 9⟩,
       some ⟨9, "AAAAAACCCCCCGGGG".toList, 2, false, false, [], [], [], some 8⟩]
    edges_ :=
      [some ⟨0, 6, 0, 2, some 1⟩, some ⟨1, 6, 3, 1, some 0⟩,
       some ⟨2, 6, 2, 4, some 3⟩, some ⟨3, 6, 5, 3, some 2⟩,
       some ⟨4, 6, 4, 6, some 5⟩, some ⟨5, 6, 7, 5, some 4⟩]
    node_num_objects := 10
    edge_num_objects := 6 }

/-! ### Tips -/

/-- The state of the main loop of `Graph::RemoveTips`. -/
structure RemoveTips.State where
  g : Graph
  num_tips : Nat
  is_visited : List Bool
  deriving DecidableEq, Repr

/-- The loop `while (!end->is_junction())` of `Graph::RemoveTips`
(graph.cpp:1627-1639) started at the node `it`; the result is `end`,
`num_sequences`, `is_circular` and `is_visited`. -/
def RemoveTips.walk (g : Graph) (it : Nat) :
    Nat → Nat → Nat → List Bool → Option (Nat × Nat × Bool × List Bool)
  | 0, _, _, _ => none
  | fuel + 1, end_, num_sequences, is_visited =>
    (g.node end_).bind fun e =>
    if e.is_junction = true then some (end_, num_sequences, false, is_visited) else
    (set_checked is_visited e.id true).bind fun v₁ =>
    (g.node_pair e).bind fun p =>
    (set_checked v₁ p.id true).bind fun v₂ =>
    if e.outdegree = 0 then some (end_, add32 num_sequences e.count, false, v₂) else
    (g.front_out end_).bind fun front =>
    (g.node front.head).bind fun h =>
    if h.is_junction = true then some (end_, add32 num_sequences e.count, false, v₂) else
    if front.head = it then some (front.head, add32 num_sequences e.count, true, v₂)
    else RemoveTips.walk g it fuel front.head (add32 num_sequences e.count) v₂

/-- One round of the loop over the out-edges of `end` (graph.cpp:1646-1651),
for the edge `jt`. -/
def RemoveTips.mark_out (g : Graph) (marked_edges : List Nat) (jt : Nat) :
    Option (List Nat) :=
  (g.edge jt).bind fun e =>
  (g.node e.head).bind fun h =>
  if h.indegree > 1 then
    (g.edge_pair e).bind fun f => some (emplace (emplace marked_edges e.id) f.id)
  else some marked_edges

/-- The loop `while (begin != end)` of `Graph::RemoveTips`
(graph.cpp:1654-1658). -/
def RemoveTips.mark_chain (g : Graph) (end_ : Nat) :
    Nat → Nat → List Nat → Option (List Nat)
  | 0, _, _ => none
  | fuel + 1, begin_, marked_edges =>
    if begin_ = end_ then some marked_edges else
    (g.front_out begin_).bind fun front =>
    (g.edge_pair front).bind fun front_pair =>
    RemoveTips.mark_chain g end_ fuel front.head
      (emplace (emplace marked_edges front.id) front_pair.id)

/-- The end of the body of the main loop of `Graph::RemoveTips`
(graph.cpp:1645-1662), for the tip `it` and the node `end` where the walk
stopped. -/
def RemoveTips.excise (fuel : Nat) (st : RemoveTips.State) (it end_ : Nat) :
    Option RemoveTips.State :=
  (st.g.node end_).bind fun e =>
  (e.outedges.foldlM (RemoveTips.mark_out st.g) []).bind fun marked_edges =>
  if marked_edges.length / 2 = e.outedges.length then
    (RemoveTips.mark_chain st.g end_ fuel it marked_edges).bind fun marked_edges =>
    (RemoveEdges st.g marked_edges true).bind fun g =>
    some { st with g := g, num_tips := add32 st.num_tips 1 }
  else
    (RemoveEdges st.g marked_edges true).bind fun g => some { st with g := g }

/-- The body of the main loop of `Graph::RemoveTips` (graph.cpp:1619-1663),
for the slot `k` of `nodes_`.  `Node::is_tip()` is declared in `graph.hpp`,
which is not among the sources, and is the parameter `is_tip`. -/
def RemoveTips.step (is_tip : Node → Bool) (fuel : Nat) (st : RemoveTips.State) (k : Nat) :
    Option RemoveTips.State :=
  match st.g.node k with
  | none => some st
  | some it =>
    (st.is_visited[it.id]?).bind fun visited =>
    if visited = true ∨ is_tip it = false then some st else
    (RemoveTips.walk st.g k fuel k 0 st.is_visited).bind fun w =>
    (st.g.node w.1).bind fun e =>
    if w.2.2.1 = true ∨ e.outdegree = 0 ∨ w.2.1 > 5 then
      some { st with is_visited := w.2.2.2 }
    else RemoveTips.excise fuel { st with is_visited := w.2.2.2 } k w.1

/-- `Graph::RemoveTips` (graph.cpp:1615); the result is the graph after the
call with the returned number of tips.  `fuel` bounds the number of rounds of
each inner `while` loop. -/
def RemoveTips (is_tip : Node → Bool) (fuel : Nat) (g : Graph) : Option (Graph × Nat) :=
  ((List.range g.nodes_.length).foldlM (RemoveTips.step is_tip fuel)
    { g := g, num_tips := 0, is_visited := List.replicate g.nodes_.length false }).map
    fun st => (st.g, st.num_tips)

/-- The walk `p = p->outedges.front()->head` from the node `p` to the node
`end_`, which may be `p` itself: the list holds the nodes before `end_`, each
with its first out-edge; no node of the list is `end_`. -/
def Graph.walks (g : Graph) (end_ : Nat) : Nat → List (Node × Edge) → Prop
  | p, [] => p = end_
  | p, x :: l =>
    p ≠ end_ ∧ g.node p = some x.1 ∧ x.1.outedges.head?.bind g.edge = some x.2 ∧
      Graph.walks g end_ x.2.head l

/-- The set `ids` holds, with every edge, the pair of the edge. -/
def Graph.pair_closed (g : Graph) (ids : List Nat) : Prop :=
  ∀ i ∈ ids, ∀ e, g.edge i = some e → ∀ q, e.pair = some q → q ∈ ids

/-- A chain `0 → 2 → 4` of three reads and a dead end `6 → 8 → 10` of three
reads that joins it at the node 2, which has in-degree 2; odd slots hold the
reverse complements. -/
def ex_tip : Graph :=
  { nodes_ :=
      [some ⟨0, "AAAAAACCCC".toList, 1, false, false, [], [], [0], some 1⟩,
       some ⟨1, "GGGGTTTTTT".toList, 1, false, false, [], [1], [], some 0⟩,
       some ⟨2, "CCCCGGGGGG".toList, 1, false, false, [], [0, 8], [2], some 3⟩,
       some ⟨3, "CCCCCCGGGG".toList, 1, false, false, [], [3], [1, 9], some 2⟩,
       some ⟨4, "GGGGTTTTTT".toList, 1, false, false, [], [2], [], some 5⟩,
       some ⟨5, "AAAAAACCCC".toList, 1, false, false, [], [], [3], some 4⟩,
       some ⟨6, "TTTTTTACAC".toList, 1, false, false, [], [], [4], some 7⟩,
       some ⟨7, "GTGTAAAAAA".toList, 1, false, false, [], [5], [], some 6⟩,
       some ⟨8, "ACACGTGTGT".toList, 1, false, false, [], [4], [6], some 9⟩,
       some ⟨9, "ACACACGTGT".toList, 1, false, false, [], [7], [5], some 8⟩,
       some ⟨10, "GTGTCCCCGG".toList, 1, false, false, [], [6], [8], some 11⟩,
       some ⟨11, "CCGGGGACAC".toList, 1, false, false, [], [9], [7], some 10⟩]
    edges_ :=
      [some ⟨0, 6, 0, 2, some 1⟩, some ⟨1, 6, 3, 1, some 0⟩,
       some ⟨2, 6, 2, 4, some 3⟩, some ⟨3, 6, 5, 3, some 2⟩,
       some ⟨4, 6, 6, 8, some 5⟩, some ⟨5, 6, 9, 7, some 4⟩,
       some ⟨6, 6, 8, 10, some 7⟩, some ⟨7, 6, 11, 9, some 6⟩,
       some ⟨8, 6, 10, 2, some 9⟩, some ⟨9, 6, 3, 11, some 8⟩]
    node_num_objects := 12
    edge_num_objects := 10 }

/-- A node 0 without in-edge and with the two out-edges `0 → 2` and `0 → 4`,
which lead to nodes of in-degree 2: the node 2 has the second in-edge
`4 → 2` and the node 4 the second in-edge `6 → 4`; odd slots hold the reverse
complements. -/
def ex_fork : Graph :=
  { nodes_ :=
      [some ⟨0, "AAAAAACCCC".toList, 1, false, false, [], [], [0, 2], some 1⟩,
       some ⟨1, "GGGGTTTTTT".toList, 1, false, false, [], [1, 3], [], some 0⟩,
       some ⟨2, "GGGGTTTTTT".toList, 1, false, false, [], [0, 4], [], some 3⟩,
       some ⟨3, "AAAAAACCCC".toList, 1, false, false, [], [], [1, 5], some 2⟩,
       some ⟨4, "CCCCGGGGGG".toList, 1, false, false, [], [2, 6], [4], some 5⟩,
       some ⟨5, "CCCCCCGGGG".toList, 1, false, false, [], [5], [3, 7], some 4⟩,
       some ⟨6, "ACACACCCCC".toList, 1, false, false, [], [], [6], some 7⟩,
       some ⟨7, "GGGGGTGTGT".toList, 1, false, false, [], [7], [], some 6⟩]
    edges_ :=
      [some ⟨0, 8, 0, 2, some 1⟩, some ⟨1, 8, 3, 1, some 0⟩,
       some ⟨2, 6, 0, 4, some 3⟩, some ⟨3, 6, 5, 1, some 2⟩,
       some ⟨4, 6, 4, 2, some 5⟩, some ⟨5, 6, 3, 5, some 4⟩,
       some ⟨6, 6, 6, 4, some 7⟩, some ⟨7, 6, 5, 7, some 6⟩]
    node_num_objects := 8
    edge_num_objects := 8 }

/-- Three reads in a chain `0 → 4 → 2` with the edge `0 → 2` next to it: the
node 0 has no in-edge and two out-edges, of which `0 → 2` leads to a node of
in-degree 2 and `0 → 4` to a node of in-degree 1; odd slots hold the reverse
complements. -/
def ex_shortcut : Graph :=
  { nodes_ :=
      [some ⟨0, "AAAAAACCCC".toList, 1, false, false, [], [], [0, 2], some 1⟩,
       some ⟨1, "GGGGTTTTTT".toList, 1, false, false, [], [1, 3], [], some 0⟩,
       some ⟨2, "GGGGTTTTTT".toList, 1, false, false, [], [0, 4], [], some 3⟩,
       some ⟨3, "AAAAAACCCC".toList, 1, false, false, [], [], [1, 5], some 2⟩,
       some ⟨4, "CCCCGGGGGG".toList, 1, false, false, [], [2], [4], some 5⟩,
       some ⟨5, "CCCCCCGGGG".toList, 1, false, false, [], [5], [3], some 4⟩]
    edges_ :=
      [some ⟨0, 8, 0, 2, some 1⟩, some ⟨1, 8, 3, 1, some 0⟩,
       some ⟨2, 6, 0, 4, some 3⟩, some ⟨3, 6, 5, 1, some 2⟩,
       some ⟨4, 6, 4, 2, some 5⟩, some ⟨5, 6, 3, 5, some 4⟩]
    node_num_objects := 6
    edge_num_objects := 6 }

/-! ### Chains to the left -/

/-- The walk `p = p->inedges.front()->tail` from the node `p` to the node
`begin_`, which may be `p` itself: the list holds the nodes before `begin_`,
each with its first in-edge; no node of the list is `begin_`. -/
def Graph.walks_left (g : Graph) (begin_ : Nat) : Nat → List (Node × Edge) → Prop
  | p, [] => p = begin_
  | p, x :: l =>
    p ≠ begin_ ∧ g.node p = some x.1 ∧ x.1.inedges.head?.bind g.edge = some x.2 ∧
      Graph.walks_left g begin_ x.2.tail l

/-- Two reads in a cycle `0 → 2 → 0`, with the cycle `1 → 3 → 1` of their
reverse complements. -/
def ex_cycle : Graph :=
  { nodes_ :=
      [some ⟨0, "AAAAAACCCC".toList, 1, false, false, [], [2], [0], some 1⟩,
       some ⟨1, "GGGGTTTTTT".toList, 1, false, false, [], [1], [3], some 0⟩,
       some ⟨2, "CCCCGGAAAA".toList, 1, false, false, [], [0], [2], some 3⟩,
       some ⟨3, "TTTTCCGGGG".toList, 1, false, false, [], [3], [1], some 2⟩]
    edges_ :=
      [some ⟨0, 6, 0, 2, some 1⟩, some ⟨1, 6, 3, 1, some 0⟩,
       some ⟨2, 6, 2, 0, some 3⟩, some ⟨3, 6, 1, 3, some 2⟩]
    node_num_objects := 4
    edge_num_objects := 4 }

/-! ### Transitive edges -/

/-- The lambda `is_comparable` of `Graph::RemoveTransitiveEdges`
(graph.cpp:1572) with its products taken in exact arithmetic: `a` lies within
12 % of `b`, or `b` within 12 % of `a`.  The source evaluates the products
`b * (1 - eps)` and `b * (1 + eps)` in `double`. -/
def is_comparable_exact (a b : Nat) : Bool :=
  (decide (88 * b ≤ 100 * a) && decide (100 * a ≤ 112 * b)) ||
  (decide (88 * a ≤ 100 * b) && decide (100 * b ≤ 112 * a))

/-- The statement `candidate[jt->head->id] = jt` (graph.cpp:1585). -/
def RemoveTransitiveEdges.set_candidate (g : Graph) (candidate : List (Option Nat))
    (jt : Nat) : Option (List (Option Nat)) :=
  (g.edge jt).bind fun e =>
  (g.node e.head).bind fun h => set_checked candidate h.id (some jt)

/-- The statement `candidate[jt->head->id] = nullptr` (graph.cpp:1598). -/
def RemoveTransitiveEdges.clear_candidate (g : Graph) (candidate : List (Option Nat))
    (jt : Nat) : Option (List (Option Nat)) :=
  (g.edge jt).bind fun e =>
  (g.node e.head).bind fun h => set_checked candidate h.id none

/-- The body of the inner loop of `Graph::RemoveTransitiveEdges`
(graph.cpp:1589-1594) for the edges `jt` (given as `j`) and `kt`; the verdict
of the lambda `is_comparable` on the sum of the two lengths and the length of
the candidate is the parameter `is_comparable`. -/
def RemoveTransitiveEdges.test (is_comparable : Nat → Nat → Bool) (g : Graph)
    (candidate : List (Option Nat)) (j : Edge) (marked_edges : List Nat) (kt : Nat) :
    Option (List Nat) :=
  (g.edge kt).bind fun k =>
  (g.node k.head).bind fun w =>
  (candidate[w.id]?).bind fun c =>
  match c with
  | none => some marked_edges
  | some ci =>
    (g.edge ci).bind fun d =>
    if is_comparable (add32 j.length k.length) d.length = true then
      (g.edge_pair d).bind fun dp => some (emplace (emplace marked_edges d.id) dp.id)
    else some marked_edges

/-- The loop over `jt->head->outedges` (graph.cpp:1588-1595) for the edge
`jt`. -/
def RemoveTransitiveEdges.scan (is_comparable : Nat → Nat → Bool) (g : Graph)
    (candidate : List (Option Nat)) (marked_edges : List Nat) (jt : Nat) :
    Option (List Nat) :=
  (g.edge jt).bind fun j =>
  (g.node j.head).bind fun v =>
  v.outedges.foldlM (RemoveTransitiveEdges.test is_comparable g candidate j) marked_edges

/-- The body of the main loop of `Graph::RemoveTransitiveEdges`
(graph.cpp:1580-1599), for the slot `k` of `nodes_`; the state is `candidate`
with `marked_edges`. -/
def RemoveTransitiveEdges.mark_node (is_comparable : Nat → Nat → Bool) (g : Graph)
    (st : List (Option Nat) × List Nat) (k : Nat) : Option (List (Option Nat) × List Nat) :=
  match g.node k with
  | none => some st
  | some it =>
    (it.outedges.foldlM (RemoveTransitiveEdges.set_candidate g) st.1).bind fun candidate =>
    (it.outedges.foldlM (RemoveTransitiveEdges.scan is_comparable g candidate) st.2).bind
      fun marked_edges =>
    (it.outedges.foldlM (RemoveTransitiveEdges.clear_candidate g) candidate).bind
      fun candidate => some (candidate, marked_edges)

/-- One round of the loop "store for force directed layout"
(graph.cpp:1602-1609), for the marked edge `i`. -/
def RemoveTransitiveEdges.store (g : Graph) (i : Nat) : Option Graph :=
  if i % 2 = 1 then
    (g.edge i).bind fun e =>
    (g.node e.tail).bind fun t =>
    (g.node e.head).bind fun h =>
    (g.node (t.id / 2 * 2)).bind fun a =>
    ((g.set_node (t.id / 2 * 2)
        { a with transitive := emplace a.transitive (h.id / 2 * 2) }).node
      (h.id / 2 * 2)).bind fun b =>
    some ((g.set_node (t.id / 2 * 2)
        { a with transitive := emplace a.transitive (h.id / 2 * 2) }).set_node
      (h.id / 2 * 2) { b with transitive := emplace b.transitive (t.id / 2 * 2) })
  else some g

/-- `Graph::RemoveTransitiveEdges` (graph.cpp:1571); the result is the graph
after the call with the returned number of edge pairs.  The set `marked_edges`
is visited in the order of insertion. -/
def RemoveTransitiveEdges (is_comparable : Nat → Nat → Bool) (g : Graph) :
    Option (Graph × Nat) :=
  ((List.range g.nodes_.length).foldlM (RemoveTransitiveEdges.mark_node is_comparable g)
    (List.replicate g.nodes_.length none, [])).bind fun st =>
  (st.2.foldlM RemoveTransitiveEdges.store g).bind fun g₁ =>
  (RemoveEdges g₁ st.2 false).bind fun g₂ => some (g₂, st.2.length / 2)

/-- The last edge of the list `outs` whose head is the node `w`: the value of
`candidate[w]` after the loop `candidate[jt->head->id] = jt` over `outs`. -/
def Graph.last_to (g : Graph) : List Nat → Nat → Option Nat
  | [], _ => none
  | x :: xs, w =>
    match Graph.last_to g xs w with
    | some y => some y
    | none => if (g.edge x).map (fun e => e.head) = some w then some x else none

/-- The graph `g₁` is the graph `g` with other `transitive` sets. -/
def Graph.same_links (g g₁ : Graph) : Prop :=
  g₁.edges_ = g.edges_ ∧ g₁.nodes_.length = g.nodes_.length ∧
  ∀ k, (g.node k = none ∧ g₁.node k = none) ∨
    ∃ n tr, g.node k = some n ∧ g₁.node k = some { n with transitive := tr }

/-- Three reads with the edges `0 → 2` and `2 → 4` of length 2 and two edges
`0 → 4`, the edge 4 of length 4 and the edge 6 of length 9; odd slots hold the
reverse complements and the pairs of the edges. -/
def ex_parallel : Graph :=
  { nodes_ :=
      [some ⟨0, "AAAAAACCCC".toList, 1, false, false, [], [], [0, 4, 6], some 1⟩,
       some ⟨1, "GGGGTTTTTT".toList, 1, false, false, [], [1, 5, 7], [], some 0⟩,
       some ⟨2, "AACCCCGGGG".toList, 1, false, false, [], [0], [2], some 3⟩,
       some ⟨3, "CCCCGGGGTT".toList, 1, false, false, [], [3], [1], some 2⟩,
       some ⟨4, "CCGGGGTTTT".toList, 1, false, false, [], [2, 4, 6], [], some 5⟩,
       some ⟨5, "AAAACCCCGG".toList, 1, false, false, [], [], [3, 5, 7], some 4⟩]
    edges_ :=
      [some ⟨0, 2, 0, 2, some 1⟩, some ⟨1, 2, 3, 1, some 0⟩,
       some ⟨2, 2, 2, 4, some 3⟩, some ⟨3, 2, 5, 3, some 2⟩,
       some ⟨4, 4, 0, 4, some 5⟩, some ⟨5, 4, 5, 1, some 4⟩,
       some ⟨6, 9, 0, 4, some 7⟩, some ⟨7, 9, 5, 1, some 6⟩]
    node_num_objects := 6
    edge_num_objects := 8 }

/-- The graph `ex_parallel` without the second edge `0 → 4` and its pair. -/
def ex_triangle : Graph :=
  { nodes_ :=
      [some ⟨0, "AAAAAACCCC".toList, 1, false, false, [], [], [0, 4], some 1⟩,
       some ⟨1, "GGGGTTTTTT".toList, 1, false, false, [], [1, 5], [], some 0⟩,
       some ⟨2, "AACCCCGGGG".toList, 1, false, false, [], [0], [2], some 3⟩,
       some ⟨3, "CCCCGGGGTT".toList, 1, false, false, [], [3], [1], some 2⟩,
       some ⟨4, "CCGGGGTTTT".toList, 1, false, false, [], [2, 4], [], some 5⟩,
       some ⟨5, "AAAACCCCGG".toList, 1, false, false, [], [], [3, 5], some 4⟩]
    edges_ :=
      [some ⟨0, 2, 0, 2, some 1⟩, some ⟨1, 2, 3, 1, some 0⟩,
       some ⟨2, 2, 2, 4, some 3⟩, some ⟨3, 2, 5, 3, some 2⟩,
       some ⟨4, 4, 0, 4, some 5⟩, some ⟨5, 4, 5, 1, some 4⟩]
    node_num_objects := 6
    edge_num_objects := 6 }

/-- The marked edges are edges of the graph, and the set holds the pair of
each of them. -/
def Graph.marked_ok (g : Graph) (marked : List Nat) : Prop :=
  (∀ i ∈ marked, ∃ e, g.edge i = some e) ∧ g.pair_closed marked

/-- The graph `ex_chain` after `CreateUnitigs` with `epsilon = 1`: the chain
`2 → 4` has become the unitig 8 with its twin 9, the six edges of the chain
are gone, and the four edges of the slots 6 to 9 tie the unitig to the nodes
0 and 6. -/
def ex_chain_merged : Graph :=
  { nodes_ :=
      [some ⟨0, "AAAAAACCCC".toList, 1, false, false, [], [], [6], some 1⟩,
       some ⟨1, "GGGGTTTTTT".toList, 1, false, false, [], [7], [], some 0⟩,
       none, none, none, none,
       some ⟨6, "TTTTAAAAAA".toList, 1, false, false, [], [8], [], some 7⟩,
       some ⟨7, "TTTTTTAAAA".toList, 1, false, false, [], [], [9], some 6⟩,
       some ⟨8, "CCCCGGGGGGTTTTTT".toList, 2, false, false, [], [6], [8], some 9⟩,
       some ⟨9, "AAAAAACCCCCCGGGG".toList, 2, false, false, [], [9], [7], some 8⟩]
    edges_ :=
      [none, none, none, none, none, none,
       some ⟨6, 6, 0, 8, some 7⟩, some ⟨7, 12, 9, 1, some 6⟩,
       some ⟨8, 12, 8, 6, some 9⟩, some ⟨9, 6, 7, 9, some 8⟩]
    node_num_objects := 10
    edge_num_objects := 10 }

/-! ### Trimming of sequences (`src/src/common.cpp`) -/

/-- `constants::kMinSequenceLen` (common.hpp:15). -/
def kMinSequenceLen : Nat := 1000

/-- `constants::kTrimLim` (common.hpp:22). -/
def kTrimLim : Nat := 800

/-- Subtraction of `std::size_t`. -/
def sub64 (a b : Nat) : Nat := (a + (u64 - b % u64)) % u64

/-- The lambda `trim_str` of `util::TrimSequences` (common.cpp:87-92):
`s.substr(pos, len)` with `pos = kTrimLim` and the `std::size_t` value
`len = s.size() - 2 * kTrimLim`. -/
def TrimSequences.trim_str (s : List Char) : Option (List Char) :=
  substr s kTrimLim (sub64 s.length (2 * kTrimLim % u64))

/-- `util::TrimSequences` (common.cpp:85): the sequences are visited in order
and the data of those longer than `kMinSequenceLen` is replaced. -/
def TrimSequences : List Sequence → Option (List Sequence)
  | [] => some []
  | it :: rest =>
    (if it.data.length > kMinSequenceLen then
      (TrimSequences.trim_str it.data).bind fun d => some { it with data := d }
     else some it).bind fun it' =>
    (TrimSequences rest).bind fun rest' => some (it' :: rest')

/-- The data that `TrimSequences` leaves for a sequence with the data `s`:
`s` itself up to 1000 bases, `s` without its first 800 bases between 1001 and
1599 bases, and `s` without its first and last 800 bases from 1600 bases on. -/
def trimmed (s : List Char) : List Char :=
  if s.length ≤ 1000 then s
  else if s.length < 1600 then s.drop 800
  else (s.drop 800).take (s.length - 1600)

/-- A sequence of 900, one of 1200 and one of 1700 bases. -/
def ex_trim_sequences : List Sequence :=
  [⟨List.replicate 900 'A'⟩, ⟨List.replicate 1200 'C'⟩, ⟨List.replicate 1700 'G'⟩]

/-! ### The cap on the overlaps of a sequence -/

/-- The contract of `std::sort` with the comparator
`overlap_length(lhs) > overlap_length(rhs)` of graph.cpp:510-514: the result is
a rearrangement of the vector in which no element compares before an earlier
one.  The order of overlaps of equal length is not determined. -/
def is_sort_by_length (sort : List Overlap → List Overlap) : Prop :=
  ∀ l, (sort l).Perm l ∧
    (sort l).Pairwise (fun a b => ¬ OverlapLength b > OverlapLength a)

/-- The end of the lambda of graph.cpp:499-520, after `AddLayers`: a vector
with fewer than 16 overlaps is left alone, and otherwise the vector is sorted
and its first 16 elements are kept.  `sort` is the call of `std::sort`. -/
def Construct.cap (sort : List Overlap → List Overlap) (overlaps : List Overlap) :
    List Overlap :=
  if overlaps.length < 16 then overlaps else (sort overlaps).take 16

/-- The order "at least as long as" on overlaps. -/
def Overlap.longer (a b : Overlap) : Prop := OverlapLength b ≤ OverlapLength a

instance : DecidableRel Overlap.longer := fun a b => by
  unfold Overlap.longer; infer_instance

/-- Seventeen overlaps of the read 0 with the read 1, of the lengths
`100, 101, ..., 116`. -/
def ex_cap_overlaps : List Overlap :=
  (List.range 17).map fun k => ⟨0, 0, 100 + k, 1, 0, 100 + k, 0, true⟩

/-! ### The stage counter -/

/-- The locals of `Graph::GreedyConstruct` that its construction loop
changes: the graph, the vector `sequences` (whose elements
`node_from_sequence` reverses in place), the map `node_indices` as a list of
pairs of a sequence id and a node index, and the deque `ovlp_segments`. -/
structure GreedyConstruct.State where
  g : Graph
  sequences : List Sequence
  node_indices : List (Nat × Nat)
  ovlp_segments : List Nat
  deriving DecidableEq, Repr

/-- The lambda `is_sequence_used` (graph.cpp:1153). -/
def GreedyConstruct.is_sequence_used (st : GreedyConstruct.State) (sequence_id : Nat) : Bool :=
  (st.node_indices.lookup sequence_id).isSome

/-- The lambda `node_from_sequence` (graph.cpp:1158-1171) for the sequence
with the id `id`, which is its index in `sequences` after `NormalizeSeqIds`:
a node of the sequence, a node of its reverse complement, and their mutual
`pair` links. -/
def GreedyConstruct.node_from_sequence (st : GreedyConstruct.State) (id : Nat) :
    Option GreedyConstruct.State :=
  (st.sequences[id]?).bind fun sequence =>
  let node_index := st.g.node_num_objects % u32
  let node_a := st.g.new_node sequence.data
  let node_b := node_a.1.new_node (ReverseAndComplement sequence.data)
  (node_b.1.link_nodes node_a.2 node_b.2).bind fun g =>
  some { st with
    g := g
    sequences := st.sequences.set id ⟨ReverseAndComplement sequence.data⟩
    node_indices := (id, node_index) :: st.node_indices.filter (fun p => p.1 ≠ id) }

/-- The expression `node_indices[id]` of graph.cpp:1178-1179;
`std::unordered_map::operator[]` enters a missing key with the value 0. -/
def GreedyConstruct.index_of (st : GreedyConstruct.State) (id : Nat) :
    GreedyConstruct.State × Nat :=
  match st.node_indices.lookup id with
  | some i => (st, i)
  | none => ({ st with node_indices := (id, 0) :: st.node_indices }, 0)

/-- The lambda `edge_from_overlap` (graph.cpp:1174-1200); the `long long`
lengths are converted to `std::uint32_t` by the constructor of the edge. -/
def GreedyConstruct.edge_from_overlap (st : GreedyConstruct.State) (ovlp : Overlap) :
    Option GreedyConstruct.State :=
  let l := GreedyConstruct.index_of st ovlp.lhs_id
  let r := GreedyConstruct.index_of l.1 ovlp.rhs_id
  (if l.2 < r.1.g.nodes_.length then some l.2 else none).bind fun tail =>
  (if r.2 < r.1.g.nodes_.length then some r.2 else none).bind fun head =>
  (Construct.add_edges r.1.g ovlp.score tail head (sub32 ovlp.lhs_begin ovlp.rhs_begin)
    (sub32 ovlp.lhs_end ovlp.rhs_end)).bind fun g =>
  some { r.1 with g := g }

/-- The lambda `construction_step` (graph.cpp:1326-1333). -/
def GreedyConstruct.construction_step (st : GreedyConstruct.State) (ovlp : Overlap) :
    Option GreedyConstruct.State :=
  (if GreedyConstruct.is_sequence_used st ovlp.rhs_id = false then
    (GreedyConstruct.node_from_sequence st ovlp.rhs_id).bind fun st =>
      some { st with ovlp_segments := st.ovlp_segments ++ [ovlp.rhs_id] }
   else some st).bind fun st =>
  GreedyConstruct.edge_from_overlap st ovlp

/-- One round of the loop over the unitigs (graph.cpp:1335-1341). -/
def GreedyConstruct.seed (overlaps : List (List Overlap)) (st : GreedyConstruct.State)
    (i : Nat) : Option GreedyConstruct.State :=
  (GreedyConstruct.node_from_sequence st i).bind fun st =>
  (overlaps[i]?).bind fun overlap_vec =>
  overlap_vec.foldlM GreedyConstruct.construction_step st

/-- The loop `while (!ovlp_segments.empty())` (graph.cpp:1343-1351); `fuel`
bounds the number of its rounds. -/
def GreedyConstruct.drain (overlaps : List (List Overlap)) :
    Nat → GreedyConstruct.State → Option GreedyConstruct.State
  | 0, st => if st.ovlp_segments = [] then some st else none
  | fuel + 1, st =>
    match st.ovlp_segments with
    | [] => some st
    | segment_id :: rest =>
      (overlaps[segment_id]?).bind fun overlap_vec =>
      (overlap_vec.foldlM GreedyConstruct.construction_step
        { st with ovlp_segments := rest }).bind fun st =>
      GreedyConstruct.drain overlaps fuel st

/-- `Graph::GreedyConstruct` (graph.cpp:1021) on the graph `g`; the result is
the graph with the returned number.  The filler sequences and the mapping come
from a file and from the minimizer engine, outside the embedding: `fillers`
are the fillers that the filter of graph.cpp:1242-1245 leaves, and `overlaps`
is the table `overlaps` as the construction loop finds it (graph.cpp:1309).
The first statement, `sequences.resize(1)`, leaves a null pointer in an empty
vector, which `NormalizeSeqIds` dereferences. -/
def GreedyConstruct (fillers : List Sequence) (overlaps : List (List Overlap)) (fuel : Nat)
    (g : Graph) (sequences : List Sequence) : Option (Graph × Nat) :=
  match sequences.take 1 with
  | [] => none
  | unitigs =>
    let n_unitigs := unitigs.length
    ((List.range n_unitigs).foldlM (GreedyConstruct.seed overlaps)
      { g := g, sequences := unitigs ++ fillers, node_indices := [],
        ovlp_segments := [] }).bind fun st =>
    (GreedyConstruct.drain overlaps fuel st).bind fun st =>
    some (st.g, n_unitigs)

/-! ### Dense ids -/

/-- The two vectors hold their objects in pairs of slots `2 k`, `2 k + 1`:
both have an even size, and the `pair` of the object in slot `i` is the slot
`i xor 1`. -/
def Graph.paired_slots (g : Graph) : Prop :=
  g.nodes_.length % 2 = 0 ∧ g.edges_.length % 2 = 0 ∧
  (∀ i n, g.node i = some n → n.pair = some (i ^^^ 1)) ∧
  (∀ j e, g.edge j = some e → e.pair = some (j ^^^ 1))

/-- The dense-id invariant: every non-empty slot `i` of `nodes_` holds a node
with the id `i` whose `pair` is a node with the id `i xor 1`, and every
non-empty slot `j` of `edges_` holds an edge with the id `j` whose `pair` is
an edge with the id `j xor 1`. -/
def Graph.dense (g : Graph) : Prop :=
  (∀ i n, g.node i = some n →
    n.id = i ∧ ∃ p m, n.pair = some p ∧ g.node p = some m ∧ m.id = i ^^^ 1) ∧
  (∀ j e, g.edge j = some e →
    e.id = j ∧ ∃ q f, e.pair = some q ∧ g.edge q = some f ∧ f.id = j ^^^ 1)

/-- The shape of a graph after slots were emptied: the vectors keep their
sizes, every node left is a node of before with the same `pair`, and every edge
left is an edge of before. -/
def Graph.removed (g g' : Graph) : Prop :=
  g'.nodes_.length = g.nodes_.length ∧ g'.edges_.length = g.edges_.length ∧
  (∀ k n', g'.node k = some n' → ∃ n, g.node k = some n ∧ n'.pair = n.pair) ∧
  (∀ j e, g'.edge j = some e → g.edge j = some e)

/-- A property of graphs that is kept when a node pair or an edge pair is
added, when `transitive` sets change, and when slots are emptied. -/
structure Graph.stable (Q : Graph → Prop) : Prop where
  node_pair : ∀ g g', Q g → g.with_node_pair g' → Q g'
  edge_pair : ∀ g g' t h t₂ h₂ len len₂, Q g → g.with_edge_pair g' t h t₂ h₂ len len₂ → Q g'
  links : ∀ g g', Q g → g.same_links g' → Q g'
  removed : ∀ g g', Q g → g.removed g' → Q g'

/-! ### Paths and their removable edges -/

/-- Consecutive nodes of the path are joined by an edge: `path[k]` is a live
node with an out-edge whose head is `path[k + 1]`. -/
def Graph.joined (g : Graph) (path : List Nat) : Prop :=
  ∀ k, k + 1 < path.length →
    ∃ t h n, path[k]? = some t ∧ path[k + 1]? = some h ∧ g.node t = some n ∧
      ∃ j ∈ n.outedges, ∃ e, g.edge j = some e ∧ e.head = h

/-- The edge `j` is the path edge `path[k] → path[k + 1]`: the first out-edge
of `path[k]` whose head is `path[k + 1]`, as `find_edge` gives it. -/
def Graph.path_edge (g : Graph) (path : List Nat) (k j : Nat) : Prop :=
  ∃ t h n, path[k]? = some t ∧ path[k + 1]? = some h ∧ g.node t = some n ∧
    FindRemovableEdges.find_edge g h n.outedges = some (some j)

/-- The id `i` is the id of the path edge `path[k] → path[k + 1]` or the id of
its pair. -/
def Graph.marks (g : Graph) (path : List Nat) (k i : Nat) : Prop :=
  ∃ j e f, g.path_edge path k j ∧ g.edge j = some e ∧ g.edge_pair e = some f ∧
    (i = e.id ∨ i = f.id)

/-- The node `path[m]` has at most one in-edge. -/
def Graph.simple_in (g : Graph) (path : List Nat) (m : Nat) : Prop :=
  ∀ x n, path[m]? = some x → g.node x = some n → n.indegree ≤ 1

/-- The node `path[m]` has at most one out-edge. -/
def Graph.simple_out (g : Graph) (path : List Nat) (m : Nat) : Prop :=
  ∀ x n, path[m]? = some x → g.node x = some n → n.outdegree ≤ 1

/-- The path edge `path[k] → path[k + 1]` may be removed: no interior node of
the path up to its tail `path[k]` has more than one in-edge (so its head does
not lie after the first interior node of in-degree above 1), and no interior
node after its tail has more than one out-edge (so its tail does not lie
before the last interior node of out-degree above 1). -/
def Graph.removable_at (g : Graph) (path : List Nat) (k : Nat) : Prop :=
  k + 1 < path.length ∧ (∀ m, 0 < m → m ≤ k → g.simple_in path m) ∧
  (∀ m, k < m → m + 1 < path.length → g.simple_out path m)

/-! ### The nodes of a pile and the lengths of the edges of an overlap -/

/-- The node pair of the pile `p` sits in the slots `s` and `s + 1` of
`nodes_`, as the loop "create nodes" of `Graph::Construct` leaves it
(graph.cpp:949-968): two nodes that are the `pair` of each other and whose
data is as long as the valid region of the pile. -/
def Construct.node_of (g : Graph) (p : Pile) (s : Nat) : Prop :=
  ∃ n m, g.node s = some n ∧ g.node (s + 1) = some m ∧
    n.pair = some (s + 1) ∧ m.pair = some s ∧
    n.data.length = p.end_ - p.begin_ ∧ m.data.length = p.end_ - p.begin_

/-- Two valid piles of 100 bases whose valid region is the whole read. -/
def ex_long_piles : List Pile :=
  [⟨0, 0, 100, 100, false, false, false⟩, ⟨1, 0, 100, 100, false, false, false⟩]

/-- The last 90 bases of the read 0 overlap the first 90 bases of the read 1. -/
def ex_long_overlap : Overlap := ⟨0, 10, 100, 1, 0, 90, 0, true⟩

/-- The node pairs of two reads of 100 bases, without edges. -/
def ex_long_graph : Graph :=
  { nodes_ :=
      [some ⟨0, List.replicate 100 'A', 1, false, false, [], [], [], some 1⟩,
       some ⟨1, List.replicate 100 'T', 1, false, false, [], [], [], some 0⟩,
       some ⟨2, List.replicate 100 'A', 1, false, false, [], [], [], some 3⟩,
       some ⟨3, List.replicate 100 'T', 1, false, false, [], [], [], some 2⟩]
    edges_ := []
    node_num_objects := 4
    edge_num_objects := 0 }

/-! # Properties -/

/-! ## Properties of `OverlapUpdate` -/

theorem sub32_le_of_lt {a b : Nat} (h : b < a) : sub32 a b ≤ a - b := by
  unfold sub32 u32
  omega

theorem sub32_eq {a b : Nat} (ha : a < u32) (h : b ≤ a) : sub32 a b = a - b := by
  unfold sub32 u32 at *
  omega

theorem add32_eq {a b : Nat} (h : a + b < u32) : add32 a b = a + b := by
  unfold add32 u32 at *
  omega

theorem max_add_advance (a d b : Nat) : max (a + d) b = a + max d (b - a) := by
  omega

theorem min_sub_retreat (e d E : Nat) (h : d ≤ e) : min (e - d) E + max d (e - E) = e := by
  omega

theorem shortfall_eq {x b : Nat} (hb : b < u32) : shortfall x b = b - x := by
  unfold shortfall
  split_ifs with h
  · exact sub32_eq hb (le_of_lt h)
  · omega

theorem excess_eq {x e : Nat} (hx : x < u32) : excess x e = x - e := by
  unfold excess
  split_ifs with h
  · exact sub32_eq hx (le_of_lt h)
  · omega

theorem OverlapUpdate_true_bounds (piles : List Pile) (o o' : Overlap)
    (pl pr : Pile) (hl : piles[o.lhs_id]? = some pl) (hr : piles[o.rhs_id]? = some pr)
    (h : OverlapUpdate piles o = some (true, o')) :
    (pl.begin_ ≤ o'.lhs_begin ∧ o'.lhs_begin < o'.lhs_end ∧ o'.lhs_end ≤ pl.end_) ∧
    (pr.begin_ ≤ o'.rhs_begin ∧ o'.rhs_begin < o'.rhs_end ∧ o'.rhs_end ≤ pr.end_) ∧
    84 ≤ o'.lhs_end - o'.lhs_begin ∧ 84 ≤ o'.rhs_end - o'.rhs_begin := by
  unfold OverlapUpdate at h
  simp only [hl, hr] at h
  split_ifs at h with h1 h2 h3 h4 h5 <;>
    simp only [Option.some.injEq, Prod.mk.injEq, true_and, Bool.false_eq_true, false_and] at h
  subst h
  simp only [OverlapUpdate.clipped] at h5 ⊢
  simp only [not_or, not_le, not_lt, ge_iff_le] at h5
  obtain ⟨a, b, c, d⟩ := h5
  have hb := sub32_le_of_lt a
  have hd := sub32_le_of_lt c
  refine ⟨⟨le_max_right _ _, a, min_le_right _ _⟩,
    ⟨le_max_right _ _, c, min_le_right _ _⟩, ?_, ?_⟩ <;> omega

theorem OverlapUpdate_keeps_ids (piles : List Pile) (o o' : Overlap) (b : Bool)
    (h : OverlapUpdate piles o = some (b, o')) :
    o'.lhs_id = o.lhs_id ∧ o'.rhs_id = o.rhs_id ∧ o'.strand = o.strand ∧
      o'.score = o.score := by
  unfold OverlapUpdate at h
  cases hl : piles[o.lhs_id]? with
  | none => simp [hl] at h
  | some pl =>
    cases hr : piles[o.rhs_id]? with
    | none =>
      simp only [hl, hr] at h
      split_ifs at h
      simp only [Option.some.injEq, Prod.mk.injEq] at h
      obtain ⟨-, rfl⟩ := h
      exact ⟨rfl, rfl, rfl, rfl⟩
    | some pr =>
      simp only [hl, hr] at h
      split_ifs at h <;> simp only [Option.some.injEq, Prod.mk.injEq] at h <;>
        obtain ⟨-, rfl⟩ := h <;> exact ⟨rfl, rfl, rfl, rfl⟩

/-- C1: whenever `OverlapUpdate` returns true, the rewritten coordinates lie
inside the valid regions of the two piles, both intervals are non-empty and
both have at least 84 bases. -/
theorem OverlapUpdate_inside_valid_regions (piles : List Pile) (o o' : Overlap)
    (pl pr : Pile) (hl : piles[o.lhs_id]? = some pl) (hr : piles[o.rhs_id]? = some pr)
    (h : OverlapUpdate piles o = some (true, o')) :
    (pl.begin_ ≤ o'.lhs_begin ∧ o'.lhs_begin < o'.lhs_end ∧ o'.lhs_end ≤ pl.end_) ∧
    (pr.begin_ ≤ o'.rhs_begin ∧ o'.rhs_begin < o'.rhs_end ∧ o'.rhs_end ≤ pr.end_) ∧
    84 ≤ o'.lhs_end - o'.lhs_begin ∧ 84 ≤ o'.rhs_end - o'.rhs_begin :=
  OverlapUpdate_true_bounds piles o o' pl pr hl hr h

/-- The overlap of the example is clipped to `[100, 900)` and `[550, 1500)`. -/
theorem OverlapUpdate_inside_valid_regions_witness :
    (100 ≤ ex_overlap_updated.lhs_begin ∧
      ex_overlap_updated.lhs_begin < ex_overlap_updated.lhs_end ∧
      ex_overlap_updated.lhs_end ≤ 2000) ∧
    (0 ≤ ex_overlap_updated.rhs_begin ∧
      ex_overlap_updated.rhs_begin < ex_overlap_updated.rhs_end ∧
      ex_overlap_updated.rhs_end ≤ 1500) ∧
    84 ≤ ex_overlap_updated.lhs_end - ex_overlap_updated.lhs_begin ∧
    84 ≤ ex_overlap_updated.rhs_end - ex_overlap_updated.rhs_begin :=
  OverlapUpdate_inside_valid_regions ex_piles ex_overlap ex_overlap_updated
    ex_pile_0 ex_pile_1 (by decide) (by decide) (by decide)

/-- C2: `OverlapUpdate` returns false (leaving the overlap as it was) when
the pile of either side is invalid, whatever the coordinates are, and when
the clipped interval of either side is empty or has fewer than 84 bases. -/
theorem OverlapUpdate_fails (piles : List Pile) (o : Overlap) (pl pr : Pile)
    (hl : piles[o.lhs_id]? = some pl) (hr : piles[o.rhs_id]? = some pr) :
    ((pl.is_invalid = true ∨ pr.is_invalid = true) →
      OverlapUpdate piles o = some (false, o)) ∧
    (∀ lb le rb re : Nat, OverlapUpdate.clipped pl pr o = (lb, le, rb, re) →
      (le ≤ lb ∨ le - lb < 84 ∨ re ≤ rb ∨ re - rb < 84) →
      OverlapUpdate piles o = some (false, o)) := by
  constructor
  · intro h
    unfold OverlapUpdate
    simp only [hl, hr]
    rcases h with h | h
    · simp [h]
    · by_cases h' : pl.is_invalid = true <;> simp [h, h']
  · intro lb le rb re hc h
    unfold OverlapUpdate
    simp only [hl, hr, hc]
    split_ifs with h1 h2 h3 h4 h5 <;> try rfl
    exfalso
    simp only [not_or, not_le, not_lt, ge_iff_le] at h5
    obtain ⟨a, b, c, d⟩ := h5
    have hb := sub32_le_of_lt a
    have hd := sub32_le_of_lt c
    omega

/-- With the second pile invalid the update of the example overlap fails. -/
theorem OverlapUpdate_fails_witness :
    OverlapUpdate ex_piles_invalid ex_overlap = some (false, ex_overlap) :=
  (OverlapUpdate_fails ex_piles_invalid ex_overlap ex_pile_0
    ex_pile_1_invalid (by decide) (by decide)).1 (Or.inr rfl)

/-- C3: on success and without wrap-around in the intermediate values, the
two sides are clipped consistently.  Same strand: both begins advance by the
same amount and both ends retreat by the same amount.  Opposite strand: the
advance of `lhs_begin` is the retreat of `rhs_end` and the retreat of
`lhs_end` is the advance of `rhs_begin`.  In both cases the difference of the
two interval lengths is preserved. -/
theorem OverlapUpdate_consistent (piles : List Pile) (o o' : Overlap) (pl pr : Pile)
    (hl : piles[o.lhs_id]? = some pl) (hr : piles[o.rhs_id]? = some pr)
    (ho : o.is_u32) (hpl : pl.is_u32) (hpr : pr.is_u32)
    (hw : OverlapUpdate.no_wrap pl pr o)
    (h : OverlapUpdate piles o = some (true, o')) :
    (o.lhs_begin ≤ o'.lhs_begin ∧ o'.lhs_end ≤ o.lhs_end ∧
      o.rhs_begin ≤ o'.rhs_begin ∧ o'.rhs_end ≤ o.rhs_end) ∧
    (o.strand = true →
      o'.lhs_begin - o.lhs_begin = o'.rhs_begin - o.rhs_begin ∧
      o.lhs_end - o'.lhs_end = o.rhs_end - o'.rhs_end) ∧
    (o.strand = false →
      o'.lhs_begin - o.lhs_begin = o.rhs_end - o'.rhs_end ∧
      o.lhs_end - o'.lhs_end = o'.rhs_begin - o.rhs_begin) ∧
    ((o'.lhs_end : Int) - o'.lhs_begin - (o'.rhs_end - o'.rhs_begin) =
      (o.lhs_end : Int) - o.lhs_begin - (o.rhs_end - o.rhs_begin)) := by
  unfold OverlapUpdate at h
  simp only [hl, hr] at h
  split_ifs at h with h1 h2 h3 h4 h5 <;>
    simp only [Option.some.injEq, Prod.mk.injEq, true_and, Bool.false_eq_true, false_and] at h
  subst h
  obtain ⟨x1, x2, x3, x4⟩ := ho
  obtain ⟨y1, y2, y3⟩ := hpl
  obtain ⟨z1, z2, z3⟩ := hpr
  simp only [not_or, not_le, not_lt, ge_iff_le] at h3 h4 h5
  unfold OverlapUpdate.no_wrap at hw
  simp only [shortfall_eq y1, shortfall_eq z1, excess_eq x2, excess_eq x4] at hw
  simp only [OverlapUpdate.clipped, OverlapUpdate.shifted, shortfall_eq y1, shortfall_eq z1,
    excess_eq x2, excess_eq x4] at h4 h5 ⊢
  obtain ⟨w1, w2, w3, w4⟩ := hw
  cases hs : o.strand
  · simp only [hs, cond_true, cond_false] at h5 w1 w2 w3 w4 ⊢
    rw [add32_eq w1, sub32_eq x2 w2, add32_eq w3, sub32_eq x4 w4] at h5 ⊢
    have A := max_add_advance o.lhs_begin (o.rhs_end - pr.end_) pl.begin_
    have B := min_sub_retreat o.lhs_end (pr.begin_ - o.rhs_begin) pl.end_ w2
    have C := max_add_advance o.rhs_begin (o.lhs_end - pl.end_) pr.begin_
    have D := min_sub_retreat o.rhs_end (pl.begin_ - o.lhs_begin) pr.end_ w4
    have E := max_comm (o.rhs_end - pr.end_) (pl.begin_ - o.lhs_begin)
    have F := max_comm (o.lhs_end - pl.end_) (pr.begin_ - o.rhs_begin)
    obtain ⟨a, -, c, -⟩ := h5
    revert a c A B C D E F
    generalize max (o.lhs_begin + (o.rhs_end - pr.end_)) pl.begin_ = lb
    generalize min (o.lhs_end - (pr.begin_ - o.rhs_begin)) pl.end_ = le
    generalize max (o.rhs_begin + (o.lhs_end - pl.end_)) pr.begin_ = rb
    generalize min (o.rhs_end - (pl.begin_ - o.lhs_begin)) pr.end_ = re
    generalize max (o.rhs_end - pr.end_) (pl.begin_ - o.lhs_begin) = m1
    generalize max (pl.begin_ - o.lhs_begin) (o.rhs_end - pr.end_) = m1'
    generalize max (o.lhs_end - pl.end_) (pr.begin_ - o.rhs_begin) = m2
    generalize max (pr.begin_ - o.rhs_begin) (o.lhs_end - pl.end_) = m2'
    intro a c A B C D E F
    simp only [true_implies, false_implies, Bool.false_eq_true, Bool.true_eq_false,
      and_true, true_and]
    omega
  · simp only [hs, cond_true, cond_false] at h5 w1 w2 w3 w4 ⊢
    rw [add32_eq w1, sub32_eq x2 w2, add32_eq w3, sub32_eq x4 w4] at h5 ⊢
    have A := max_add_advance o.lhs_begin (pr.begin_ - o.rhs_begin) pl.begin_
    have B := min_sub_retreat o.lhs_end (o.rhs_end - pr.end_) pl.end_ w2
    have C := max_add_advance o.rhs_begin (pl.begin_ - o.lhs_begin) pr.begin_
    have D := min_sub_retreat o.rhs_end (o.lhs_end - pl.end_) pr.end_ w4
    have E := max_comm (pr.begin_ - o.rhs_begin) (pl.begin_ - o.lhs_begin)
    have F := max_comm (o.rhs_end - pr.end_) (o.lhs_end - pl.end_)
    obtain ⟨a, -, c, -⟩ := h5
    revert a c A B C D E F
    generalize max (o.lhs_begin + (pr.begin_ - o.rhs_begin)) pl.begin_ = lb
    generalize min (o.lhs_end - (o.rhs_end - pr.end_)) pl.end_ = le
    generalize max (o.rhs_begin + (pl.begin_ - o.lhs_begin)) pr.begin_ = rb
    generalize min (o.rhs_end - (o.lhs_end - pl.end_)) pr.end_ = re
    generalize max (pr.begin_ - o.rhs_begin) (pl.begin_ - o.lhs_begin) = m1
    generalize max (pl.begin_ - o.lhs_begin) (pr.begin_ - o.rhs_begin) = m1'
    generalize max (o.rhs_end - pr.end_) (o.lhs_end - pl.end_) = m2
    generalize max (o.lhs_end - pl.end_) (o.rhs_end - pr.end_) = m2'
    intro a c A B C D E F
    simp only [true_implies, false_implies, Bool.false_eq_true, Bool.true_eq_false,
      and_true, true_and]
    omega

/-- In the example both begins advance by 50 and both ends retreat by 100. -/
theorem OverlapUpdate_consistent_witness :
    (ex_overlap.lhs_begin ≤ ex_overlap_updated.lhs_begin ∧
      ex_overlap_updated.lhs_end ≤ ex_overlap.lhs_end ∧
      ex_overlap.rhs_begin ≤ ex_overlap_updated.rhs_begin ∧
      ex_overlap_updated.rhs_end ≤ ex_overlap.rhs_end) ∧
    (ex_overlap.strand = true →
      ex_overlap_updated.lhs_begin - ex_overlap.lhs_begin =
        ex_overlap_updated.rhs_begin - ex_overlap.rhs_begin ∧
      ex_overlap.lhs_end - ex_overlap_updated.lhs_end =
        ex_overlap.rhs_end - ex_overlap_updated.rhs_end) ∧
    (ex_overlap.strand = false →
      ex_overlap_updated.lhs_begin - ex_overlap.lhs_begin =
        ex_overlap.rhs_end - ex_overlap_updated.rhs_end ∧
      ex_overlap.lhs_end - ex_overlap_updated.lhs_end =
        ex_overlap_updated.rhs_begin - ex_overlap.rhs_begin) ∧
    ((ex_overlap_updated.lhs_end : Int) - ex_overlap_updated.lhs_begin -
        (ex_overlap_updated.rhs_end - ex_overlap_updated.rhs_begin) =
      (ex_overlap.lhs_end : Int) - ex_overlap.lhs_begin -
        (ex_overlap.rhs_end - ex_overlap.rhs_begin)) :=
  OverlapUpdate_consistent ex_piles ex_overlap ex_overlap_updated
    ex_pile_0 ex_pile_1 (by decide) (by decide) (by decide)
    (by decide) (by decide) (by decide) (by decide)

theorem sub32_exact {a b : Nat} (ha : a < 4294967296) (h : b ≤ a) : sub32 a b = a - b := by
  unfold sub32 u32
  omega

theorem add32_exact {a b : Nat} (h : a + b < 4294967296) : add32 a b = a + b := by
  unfold add32 u32
  omega

/-! ## Properties of `OverlapType` -/

theorem OverlapType_exact (piles : List Pile) (o : Overlap) (pl pr : Pile)
    (hl : piles[o.lhs_id]? = some pl) (hr : piles[o.rhs_id]? = some pr)
    (hpl : pl.is_u32) (hpr : pr.is_u32) (hin : o.inside pl pr) :
    OverlapType piles o = some (classify (relCoords pl pr o)) := by
  obtain ⟨y1, y2, y3⟩ := hpl
  obtain ⟨z1, z2, z3⟩ := hpr
  obtain ⟨⟨a1, a2, a3⟩, b1, b2, b3⟩ := hin
  simp only [u32] at y1 y2 y3 z1 z2 z3
  unfold OverlapType classify
  simp only [hl, hr, relCoords, RelCoords.overhang, RelCoords.lhs_matched,
    RelCoords.rhs_matched, RelCoords.lhs_tail, RelCoords.rhs_tail]
  obtain ⟨li, lb, le, ri, rb, re, sc, st⟩ := o
  simp only at a1 a2 a3 b1 b2 b3 ⊢
  cases st
  · simp only [cond_false, Bool.false_eq_true, if_false]
    simp (disch := omega) only [sub32_exact, add32_exact]
    split_ifs <;> rfl
  · simp only [cond_true, if_true]
    simp (disch := omega) only [sub32_exact, add32_exact]
    split_ifs <;> rfl

theorem classify_le_four (c : RelCoords) : classify c ≤ 4 := by
  unfold classify
  split_ifs <;> omega

/-- The threshold `0.875` as a rational: `x < y * 0.875` over the rationals is
the comparison `lt_0_875`. -/
theorem lt_0_875_iff_rat (x y : Nat) : lt_0_875 x y ↔ (x : ℚ) < (y : ℚ) * (875 / 1000) := by
  unfold lt_0_875
  constructor
  · intro h
    have h' : ((8 * x : Nat) : ℚ) < ((7 * y : Nat) : ℚ) := by exact_mod_cast h
    push_cast at h'
    linarith
  · intro h
    have h' : ((8 * x : Nat) : ℚ) < ((7 * y : Nat) : ℚ) := by
      push_cast
      linarith
    exact_mod_cast h'

/-- C4 (as the code has it): for an overlap inside both valid regions,
`OverlapType` returns 0 exactly when, on the lhs or on the rhs, the matched
length is below `0.875 * (matched + overhang)`, that is when the overhang is
strictly more than 12.5% of matched length plus overhang. -/
theorem OverlapType_internal_iff (piles : List Pile) (o : Overlap) (pl pr : Pile)
    (hl : piles[o.lhs_id]? = some pl) (hr : piles[o.rhs_id]? = some pr)
    (hpl : pl.is_u32) (hpr : pr.is_u32) (hin : o.inside pl pr) :
    (OverlapType piles o = some 0 ↔
      (((relCoords pl pr o).lhs_matched : ℚ) <
          ((relCoords pl pr o).lhs_matched + (relCoords pl pr o).overhang : ℚ) * 0.875 ∨
        ((relCoords pl pr o).rhs_matched : ℚ) <
          ((relCoords pl pr o).rhs_matched + (relCoords pl pr o).overhang : ℚ) * 0.875)) ∧
    (OverlapType piles o = some 0 ↔
      ((relCoords pl pr o).lhs_matched + (relCoords pl pr o).overhang <
          8 * (relCoords pl pr o).overhang ∨
        (relCoords pl pr o).rhs_matched + (relCoords pl pr o).overhang <
          8 * (relCoords pl pr o).overhang)) := by
  rw [OverlapType_exact piles o pl pr hl hr hpl hpr hin]
  generalize relCoords pl pr o = c
  have key : (some (classify c) = some 0 ↔
      (c.lhs_matched + c.overhang < 8 * c.overhang ∨
        c.rhs_matched + c.overhang < 8 * c.overhang)) := by
    unfold classify lt_0_875
    simp only [Option.some.injEq]
    split_ifs with h1 h2 h3 h4
    · constructor
      · intro _; omega
      · intro _; rfl
    all_goals
      simp only [not_or, not_lt] at h1
      constructor
      · intro h; exact absurd h (by decide)
      · intro h; rcases h with h | h <;> omega
  refine ⟨?_, key⟩
  rw [key]
  have e1 := lt_0_875_iff_rat c.lhs_matched (c.lhs_matched + c.overhang)
  have e2 := lt_0_875_iff_rat c.rhs_matched (c.rhs_matched + c.overhang)
  unfold lt_0_875 at e1 e2
  push_cast at e1 e2
  have n : (0.875 : ℚ) = 875 / 1000 := by norm_num
  rw [n, ← e1, ← e2]
  constructor <;> intro h <;> omega

/-- An overlap with 700 matched bases and overhang 100 on the lhs lies inside
both regions: the characterisation of `OverlapType_internal_iff` applies to it. -/
theorem OverlapType_internal_iff_witness :
    (OverlapType ex_piles_1000 ex_overlap_eighth = some 0 ↔
      (((relCoords ex_pile_a ex_pile_b
            ex_overlap_eighth).lhs_matched : ℚ) <
          ((relCoords ex_pile_a ex_pile_b
              ex_overlap_eighth).lhs_matched +
            (relCoords ex_pile_a ex_pile_b
              ex_overlap_eighth).overhang : ℚ) * 0.875 ∨
        ((relCoords ex_pile_a ex_pile_b
            ex_overlap_eighth).rhs_matched : ℚ) <
          ((relCoords ex_pile_a ex_pile_b
              ex_overlap_eighth).rhs_matched +
            (relCoords ex_pile_a ex_pile_b
              ex_overlap_eighth).overhang : ℚ) * 0.875)) ∧
    (OverlapType ex_piles_1000 ex_overlap_eighth = some 0 ↔
      ((relCoords ex_pile_a ex_pile_b
            ex_overlap_eighth).lhs_matched +
          (relCoords ex_pile_a ex_pile_b
            ex_overlap_eighth).overhang <
          8 * (relCoords ex_pile_a ex_pile_b
            ex_overlap_eighth).overhang ∨
        (relCoords ex_pile_a ex_pile_b
            ex_overlap_eighth).rhs_matched +
          (relCoords ex_pile_a ex_pile_b
            ex_overlap_eighth).overhang <
          8 * (relCoords ex_pile_a ex_pile_b
            ex_overlap_eighth).overhang)) :=
  OverlapType_internal_iff ex_piles_1000 ex_overlap_eighth ex_pile_a
    ex_pile_b (by decide) (by decide) (by decide) (by decide) (by decide)

/-- C4 (as stated) fails: the overlap `ex_overlap_eighth` lies inside both
regions and its overhang is exactly 12.5% of matched length plus overhang on
the lhs (`8 * 100 = 700 + 100`), yet `OverlapType` returns 2, not 0. -/
theorem OverlapType_eighth_not_internal :
    ex_overlap_eighth.inside ex_pile_a ex_pile_b ∧
    (relCoords ex_pile_a ex_pile_b ex_overlap_eighth).overhang
      = 100 ∧
    (relCoords ex_pile_a ex_pile_b ex_overlap_eighth).lhs_matched
      = 700 ∧
    OverlapType ex_piles_1000 ex_overlap_eighth = some 2 := by
  decide

/-- C5: for an overlap inside both valid regions that is not internal,
`OverlapType` returns one of 1, 2, 3, 4, decided by the region-relative,
strand-normalised coordinates: 1 iff the lhs begins no later and has no
longer tail than the rhs; otherwise 2 iff the rhs begins no later and has no
longer tail; otherwise 3 iff the lhs begins after the rhs; otherwise 4.  With
opposite strands the rhs coordinates are `rhs_length - rhs_end` and
`rhs_length - rhs_begin` of the region-relative rhs interval. -/
theorem OverlapType_classes (piles : List Pile) (o : Overlap) (pl pr : Pile)
    (hl : piles[o.lhs_id]? = some pl) (hr : piles[o.rhs_id]? = some pr)
    (hpl : pl.is_u32) (hpr : pr.is_u32) (hin : o.inside pl pr)
    (h0 : OverlapType piles o ≠ some 0) :
    ∃ t : Nat, OverlapType piles o = some t ∧ (t = 1 ∨ t = 2 ∨ t = 3 ∨ t = 4) ∧
      (t = 1 ↔ ((relCoords pl pr o).lhs_begin ≤ (relCoords pl pr o).rhs_begin ∧
          (relCoords pl pr o).lhs_tail ≤ (relCoords pl pr o).rhs_tail)) ∧
      (t = 2 ↔ (¬ ((relCoords pl pr o).lhs_begin ≤ (relCoords pl pr o).rhs_begin ∧
            (relCoords pl pr o).lhs_tail ≤ (relCoords pl pr o).rhs_tail) ∧
          (relCoords pl pr o).rhs_begin ≤ (relCoords pl pr o).lhs_begin ∧
          (relCoords pl pr o).rhs_tail ≤ (relCoords pl pr o).lhs_tail)) ∧
      (t = 3 ↔ (¬ ((relCoords pl pr o).lhs_begin ≤ (relCoords pl pr o).rhs_begin ∧
            (relCoords pl pr o).lhs_tail ≤ (relCoords pl pr o).rhs_tail) ∧
          ¬ ((relCoords pl pr o).rhs_begin ≤ (relCoords pl pr o).lhs_begin ∧
            (relCoords pl pr o).rhs_tail ≤ (relCoords pl pr o).lhs_tail) ∧
          (relCoords pl pr o).lhs_begin > (relCoords pl pr o).rhs_begin)) ∧
      (t = 4 ↔ (¬ ((relCoords pl pr o).lhs_begin ≤ (relCoords pl pr o).rhs_begin ∧
            (relCoords pl pr o).lhs_tail ≤ (relCoords pl pr o).rhs_tail) ∧
          ¬ ((relCoords pl pr o).rhs_begin ≤ (relCoords pl pr o).lhs_begin ∧
            (relCoords pl pr o).rhs_tail ≤ (relCoords pl pr o).lhs_tail) ∧
          ¬ (relCoords pl pr o).lhs_begin > (relCoords pl pr o).rhs_begin)) ∧
      (o.strand = false →
        (relCoords pl pr o).rhs_begin =
          (pr.end_ - pr.begin_) - (o.rhs_end - pr.begin_) ∧
        (relCoords pl pr o).rhs_end =
          (pr.end_ - pr.begin_) - (o.rhs_begin - pr.begin_)) ∧
      (o.strand = true →
        (relCoords pl pr o).rhs_begin = o.rhs_begin - pr.begin_ ∧
        (relCoords pl pr o).rhs_end = o.rhs_end - pr.begin_) := by
  rw [OverlapType_exact piles o pl pr hl hr hpl hpr hin] at h0 ⊢
  refine ⟨classify (relCoords pl pr o), rfl, ?_⟩
  have hs : (o.strand = false →
        (relCoords pl pr o).rhs_begin =
          (pr.end_ - pr.begin_) - (o.rhs_end - pr.begin_) ∧
        (relCoords pl pr o).rhs_end =
          (pr.end_ - pr.begin_) - (o.rhs_begin - pr.begin_)) ∧
      (o.strand = true →
        (relCoords pl pr o).rhs_begin = o.rhs_begin - pr.begin_ ∧
        (relCoords pl pr o).rhs_end = o.rhs_end - pr.begin_) := by
    constructor <;> intro h <;> simp [relCoords, h]
  revert h0 hs
  generalize relCoords pl pr o = c
  intro h0 hs
  simp only [ne_eq, Option.some.injEq] at h0
  unfold classify at h0 ⊢
  split_ifs at h0 ⊢ with h1 h2 h3 h4
  · exact absurd rfl h0
  · exact ⟨by decide, iff_of_true rfl h2, iff_of_false (by decide) (fun h => h.1 h2),
      iff_of_false (by decide) (fun h => h.1 h2),
      iff_of_false (by decide) (fun h => h.1 h2), hs.1, hs.2⟩
  · exact ⟨by decide, iff_of_false (by decide) h2, iff_of_true rfl ⟨h2, h3⟩,
      iff_of_false (by decide) (fun h => h.2.1 h3),
      iff_of_false (by decide) (fun h => h.2.1 h3), hs.1, hs.2⟩
  · exact ⟨by decide, iff_of_false (by decide) h2,
      iff_of_false (by decide) (fun h => h3 h.2), iff_of_true rfl ⟨h2, h3, h4⟩,
      iff_of_false (by decide) (fun h => h.2.2 h4), hs.1, hs.2⟩
  · exact ⟨by decide, iff_of_false (by decide) h2,
      iff_of_false (by decide) (fun h => h3 h.2),
      iff_of_false (by decide) (fun h => h4 h.2.2), iff_of_true rfl ⟨h2, h3, h4⟩,
      hs.1, hs.2⟩

/-- The opposite-strand example overlap is of type 3. -/
theorem OverlapType_classes_witness :
    ∃ t : Nat, OverlapType ex_piles ex_overlap_rc = some t ∧
      (t = 1 ∨ t = 2 ∨ t = 3 ∨ t = 4) ∧ (t = 3 ↔ True) :=
  (OverlapType_classes ex_piles ex_overlap_rc ex_pile_0
    ex_pile_1 (by decide) (by decide) (by decide) (by decide) (by decide)
    (by decide)).imp fun t h =>
      ⟨h.1, h.2.1, by
        have e : some t = some 3 := h.1.symm.trans (by decide)
        simp only [Option.some.injEq] at e
        simp [e]⟩

/-! ## Properties of `OverlapFinalize` -/

theorem OverlapType_total (piles : List Pile) (o : Overlap) (pl pr : Pile)
    (hl : piles[o.lhs_id]? = some pl) (hr : piles[o.rhs_id]? = some pr) :
    ∃ t : Nat, OverlapType piles o = some t ∧ t ≤ 4 := by
  unfold OverlapType
  simp only [hl, hr]
  split_ifs
  · exact ⟨0, rfl, by omega⟩
  · exact ⟨1, rfl, by omega⟩
  · exact ⟨2, rfl, by omega⟩
  · exact ⟨3, rfl, by omega⟩
  · exact ⟨4, rfl, le_refl 4⟩

/-- C6: `OverlapFinalize` returns true exactly when the type of the overlap is
3 or 4; it always leaves the type in `score`; and when it returns false the
four coordinates are as before the call. -/
theorem OverlapFinalize_accepts_iff (piles : List Pile) (o : Overlap) (pl pr : Pile)
    (hl : piles[o.lhs_id]? = some pl) (hr : piles[o.rhs_id]? = some pr) :
    ∃ (t : Nat) (b : Bool) (o' : Overlap),
      OverlapType piles o = some t ∧ OverlapFinalize piles o = some (b, o') ∧
      (b = true ↔ (t = 3 ∨ t = 4)) ∧ o'.score = t ∧
      (b = false → (t = 0 ∨ t = 1 ∨ t = 2) ∧
        o'.lhs_begin = o.lhs_begin ∧ o'.lhs_end = o.lhs_end ∧
        o'.rhs_begin = o.rhs_begin ∧ o'.rhs_end = o.rhs_end) := by
  obtain ⟨t, ht, h4⟩ := OverlapType_total piles o pl pr hl hr
  unfold OverlapFinalize
  simp only [ht, hl, hr]
  by_cases h3 : t < 3
  · refine ⟨t, false, { o with score := t }, rfl, by simp [h3], ?_, rfl, ?_⟩
    · constructor
      · intro h; exact absurd h (by decide)
      · intro h; omega
    · intro _
      exact ⟨by omega, rfl, rfl, rfl, rfl⟩
  · simp only [h3, if_false]
    split_ifs with hs
    · exact ⟨t, true, _, rfl, rfl, ⟨fun _ => by omega, fun _ => rfl⟩, rfl,
        fun h => absurd h (by decide)⟩
    · exact ⟨t, true, _, rfl, rfl, ⟨fun _ => by omega, fun _ => rfl⟩, rfl,
        fun h => absurd h (by decide)⟩

/-- The opposite-strand example overlap is accepted with score 3. -/
theorem OverlapFinalize_accepts_iff_witness :
    ∃ (t : Nat) (b : Bool) (o' : Overlap),
      OverlapType ex_piles ex_overlap_rc = some t ∧
      OverlapFinalize ex_piles ex_overlap_rc = some (b, o') ∧
      (b = true ↔ (t = 3 ∨ t = 4)) ∧ o'.score = t ∧
      (b = false → (t = 0 ∨ t = 1 ∨ t = 2) ∧
        o'.lhs_begin = ex_overlap_rc.lhs_begin ∧ o'.lhs_end = ex_overlap_rc.lhs_end ∧
        o'.rhs_begin = ex_overlap_rc.rhs_begin ∧ o'.rhs_end = ex_overlap_rc.rhs_end) :=
  OverlapFinalize_accepts_iff ex_piles ex_overlap_rc ex_pile_0
    ex_pile_1 (by decide) (by decide)

/-- C7: for an overlap that passed `OverlapUpdate` and is accepted by
`OverlapFinalize`, the rebased coordinates are the exact differences to the
begin of the valid region (nothing wraps around), they satisfy
`lhs_begin < lhs_end ≤ length(pile[lhs])` and `rhs_begin < rhs_end ≤
length(pile[rhs])`, both interval lengths are unchanged, and with opposite
strands the rhs interval is the mirror image `[length - end, length - begin)`
of the rebased rhs interval. -/
theorem OverlapFinalize_rebased (piles : List Pile) (o₀ o o' : Overlap) (pl pr : Pile)
    (hl : piles[o.lhs_id]? = some pl) (hr : piles[o.rhs_id]? = some pr)
    (hpl : pl.wf) (hpr : pr.wf)
    (hu : OverlapUpdate piles o₀ = some (true, o))
    (hf : OverlapFinalize piles o = some (true, o')) :
    (o'.lhs_begin < o'.lhs_end ∧ o'.lhs_end ≤ pl.length) ∧
    (o'.rhs_begin < o'.rhs_end ∧ o'.rhs_end ≤ pr.length) ∧
    (o'.lhs_end - o'.lhs_begin = o.lhs_end - o.lhs_begin ∧
      o'.rhs_end - o'.rhs_begin = o.rhs_end - o.rhs_begin) ∧
    (pl.begin_ ≤ o.lhs_begin ∧ o'.lhs_begin = o.lhs_begin - pl.begin_ ∧
      o'.lhs_end = o.lhs_end - pl.begin_) ∧
    (pr.begin_ ≤ o.rhs_begin ∧ o.rhs_end - pr.begin_ ≤ pr.length) ∧
    (o.strand = true →
      o'.rhs_begin = o.rhs_begin - pr.begin_ ∧ o'.rhs_end = o.rhs_end - pr.begin_) ∧
    (o.strand = false →
      o'.rhs_begin = pr.length - (o.rhs_end - pr.begin_) ∧
      o'.rhs_end = pr.length - (o.rhs_begin - pr.begin_)) := by
  obtain ⟨i1, i2, -, -⟩ := OverlapUpdate_keeps_ids piles o₀ o true hu
  obtain ⟨⟨a1, a2, a3⟩, ⟨b1, b2, b3⟩, -, -⟩ :=
    OverlapUpdate_true_bounds piles o₀ o pl pr (i1 ▸ hl) (i2 ▸ hr) hu
  obtain ⟨⟨y1, y2, y3⟩, y4, y5⟩ := hpl
  obtain ⟨⟨z1, z2, z3⟩, z4, z5⟩ := hpr
  simp only [u32] at y1 y2 y3 z1 z2 z3
  obtain ⟨t, ht, -⟩ := OverlapType_total piles o pl pr hl hr
  unfold OverlapFinalize at hf
  simp only [ht, hl, hr] at hf
  split_ifs at hf with h3 hs <;>
    simp only [Option.some.injEq, Prod.mk.injEq, true_and, Bool.false_eq_true,
      false_and] at hf
  · subst hf
    simp only [hs, Bool.false_eq_true, false_implies, true_implies, true_and]
    simp (disch := omega) only [sub32_exact]
    and_intros <;> first | trivial | omega
  · subst hf
    simp only [Bool.not_eq_false] at hs
    simp only [hs, Bool.true_eq_false, false_implies, true_implies, true_and, and_true]
    simp (disch := omega) only [sub32_exact]
    and_intros <;> first | trivial | omega

/-- The opposite-strand example: `[700, 2000)` on pile 0 and `[200, 1500)` on
pile 1 become `[600, 1900)` and the mirrored `[0, 1300)`. -/
theorem OverlapFinalize_rebased_witness :
    (ex_overlap_rc_final.lhs_begin < ex_overlap_rc_final.lhs_end ∧
      ex_overlap_rc_final.lhs_end ≤ 1900) ∧
    (ex_overlap_rc_final.rhs_begin < ex_overlap_rc_final.rhs_end ∧
      ex_overlap_rc_final.rhs_end ≤ 1500) ∧
    (ex_overlap_rc_final.lhs_end - ex_overlap_rc_final.lhs_begin =
        ex_overlap_rc.lhs_end - ex_overlap_rc.lhs_begin ∧
      ex_overlap_rc_final.rhs_end - ex_overlap_rc_final.rhs_begin =
        ex_overlap_rc.rhs_end - ex_overlap_rc.rhs_begin) ∧
    (100 ≤ ex_overlap_rc.lhs_begin ∧
      ex_overlap_rc_final.lhs_begin = ex_overlap_rc.lhs_begin - 100 ∧
      ex_overlap_rc_final.lhs_end = ex_overlap_rc.lhs_end - 100) ∧
    (0 ≤ ex_overlap_rc.rhs_begin ∧ ex_overlap_rc.rhs_end - 0 ≤ 1500) ∧
    (ex_overlap_rc.strand = true →
      ex_overlap_rc_final.rhs_begin = ex_overlap_rc.rhs_begin - 0 ∧
      ex_overlap_rc_final.rhs_end = ex_overlap_rc.rhs_end - 0) ∧
    (ex_overlap_rc.strand = false →
      ex_overlap_rc_final.rhs_begin = 1500 - (ex_overlap_rc.rhs_end - 0) ∧
      ex_overlap_rc_final.rhs_end = 1500 - (ex_overlap_rc.rhs_begin - 0)) :=
  OverlapFinalize_rebased ex_piles ex_overlap_rc_raw ex_overlap_rc ex_overlap_rc_final
    ex_pile_0 ex_pile_1 (by decide) (by decide) (by decide)
    (by decide) (by decide) (by decide)

/-! ## The assembly graph: dereference and assignment -/

theorem Graph.node_eq_some {g : Graph} {p : Nat} {n : Node} :
    g.node p = some n ↔ g.nodes_[p]? = some (some n) := by
  unfold Graph.node
  cases h : g.nodes_[p]? with
  | none => simp
  | some x => cases x <;> simp

theorem Graph.edge_eq_some {g : Graph} {p : Nat} {e : Edge} :
    g.edge p = some e ↔ g.edges_[p]? = some (some e) := by
  unfold Graph.edge
  cases h : g.edges_[p]? with
  | none => simp
  | some x => cases x <;> simp

theorem Graph.node_lt {g : Graph} {p : Nat} {n : Node} (h : g.node p = some n) :
    p < g.nodes_.length := by
  rw [Graph.node_eq_some] at h
  exact (List.getElem?_eq_some.mp h).1

theorem Graph.edge_lt {g : Graph} {p : Nat} {e : Edge} (h : g.edge p = some e) :
    p < g.edges_.length := by
  rw [Graph.edge_eq_some] at h
  exact (List.getElem?_eq_some.mp h).1

theorem Graph.node_set_node (g : Graph) (p q : Nat) (n : Node) (hp : p < g.nodes_.length) :
    (g.set_node p n).node q = if q = p then some n else g.node q := by
  unfold Graph.node Graph.set_node
  by_cases h : q = p
  · subst h
    simp [List.getElem?_set, hp]
  · have h' : ¬ p = q := fun e => h e.symm
    simp [List.getElem?_set, h, h']

theorem Graph.edge_set_node (g : Graph) (p q : Nat) (n : Node) :
    (g.set_node p n).edge q = g.edge q := rfl

theorem Graph.set_node_length (g : Graph) (p : Nat) (n : Node) :
    (g.set_node p n).nodes_.length = g.nodes_.length := by
  simp [Graph.set_node]

/-! ## `RemoveEdges` -/

theorem erase_remove_eq (l : List Nat) (i : Nat) :
    erase_remove l i = l.filter (fun j => decide (j ∉ [i])) := by
  unfold erase_remove
  apply List.filter_congr
  intro x _
  by_cases h : x = i <;> simp [h]

theorem filter_not_mem_singleton {l : List Nat} {i : Nat} (h : i ∉ l) :
    l.filter (fun j => decide (j ∉ [i])) = l := by
  rw [List.filter_eq_self]
  intro a ha
  simp only [List.mem_singleton, decide_not, Bool.not_eq_eq_eq_not, Bool.not_true,
    decide_eq_false_iff_not]
  rintro rfl
  exact h ha

theorem Node.strip_cons (i : Nat) (ids : List Nat) (n : Node) :
    Node.strip ids (Node.strip [i] n) = Node.strip (i :: ids) n := by
  simp only [Node.strip, List.filter_filter]
  congr 1 <;> apply List.filter_congr <;> intro x _ <;>
    by_cases h1 : x = i <;> by_cases h2 : x ∈ ids <;> simp [h1, h2]

theorem Node.strip_nil (n : Node) : Node.strip [] n = n := by
  simp [Node.strip]

theorem RemoveEdges.detach_spec (rn : Bool) (g : Graph) (acc : List Nat) (i : Nat)
    (e : Edge) (t h : Node) (hA : g.adjacent) (he : g.edge i = some e)
    (ht : g.node e.tail = some t) (hh : g.node e.head = some h) :
    ∃ g', RemoveEdges.detach rn (g, acc) i =
        some (g', if rn then emplace (emplace acc t.id) h.id else acc) ∧
      g'.edges_ = g.edges_ ∧ g'.node_num_objects = g.node_num_objects ∧
      g'.edge_num_objects = g.edge_num_objects ∧
      g'.nodes_.length = g.nodes_.length ∧
      ∀ k, g'.node k = (g.node k).map (Node.strip [i]) := by
  have hti : e.head ≠ e.tail → i ∉ t.inedges := by
    intro hne hmem
    obtain ⟨e', he', hk⟩ := (hA _ _ ht).2 i hmem
    rw [he] at he'
    cases he'
    exact hne hk
  have hho : e.head ≠ e.tail → i ∉ h.outedges := by
    intro hne hmem
    obtain ⟨e', he', hk⟩ := (hA _ _ hh).1 i hmem
    rw [he] at he'
    cases he'
    exact hne hk.symm
  have hlt := Graph.node_lt ht
  have hlh := Graph.node_lt hh
  unfold RemoveEdges.detach
  simp only [he, ht, hh, Option.bind_eq_bind, Option.some_bind, Option.pure_def,
    Graph.node_set_node _ _ _ _ hlt]
  by_cases hne : e.head = e.tail
  · have hth : t = h := by
      rw [hne, ht] at hh
      exact Option.some.inj hh
    subst hth
    simp only [hne, if_true, Option.some_bind]
    refine ⟨_, rfl, rfl, rfl, rfl, by simp [Graph.set_node], ?_⟩
    intro k
    rw [Graph.node_set_node _ _ _ _ (by simpa [Graph.set_node] using hlt),
      Graph.node_set_node _ _ _ _ hlt]
    by_cases hk : k = e.tail
    · subst hk
      simp only [if_true, ht, Option.map_some', Node.strip, erase_remove_eq]
    · have hn : ∀ n, g.node k = some n → Node.strip [i] n = n := by
        intro n hn
        have h1 : i ∉ n.outedges := by
          intro hmem
          obtain ⟨e', he', hk'⟩ := (hA _ _ hn).1 i hmem
          rw [he] at he'
          cases he'
          exact hk hk'.symm
        have h2 : i ∉ n.inedges := by
          intro hmem
          obtain ⟨e', he', hk'⟩ := (hA _ _ hn).2 i hmem
          rw [he] at he'
          cases he'
          exact hk (hk'.symm.trans hne)
        simp only [Node.strip, filter_not_mem_singleton h1, filter_not_mem_singleton h2]
      simp only [hk, if_false]
      cases hg : g.node k with
      | none => rfl
      | some n => simp [hn n hg]
  · simp only [hne, if_false, hh, Option.some_bind]
    refine ⟨_, rfl, rfl, rfl, rfl, by simp [Graph.set_node], ?_⟩
    intro k
    rw [Graph.node_set_node _ _ _ _ (by simpa [Graph.set_node] using hlh),
      Graph.node_set_node _ _ _ _ hlt]
    by_cases hk : k = e.head
    · subst hk
      simp only [if_true, hh, Option.map_some', Node.strip, erase_remove_eq,
        filter_not_mem_singleton (hho hne)]
    · by_cases hk2 : k = e.tail
      · subst hk2
        simp only [hk, if_true, if_false, ht, Option.map_some', Node.strip, erase_remove_eq,
          filter_not_mem_singleton (hti hne)]
      · have hn : ∀ n, g.node k = some n → Node.strip [i] n = n := by
          intro n hn
          have h1 : i ∉ n.outedges := by
            intro hmem
            obtain ⟨e', he', hk'⟩ := (hA _ _ hn).1 i hmem
            rw [he] at he'
            cases he'
            exact hk2 hk'.symm
          have h2 : i ∉ n.inedges := by
            intro hmem
            obtain ⟨e', he', hk'⟩ := (hA _ _ hn).2 i hmem
            rw [he] at he'
            cases he'
            exact hk hk'.symm
          simp only [Node.strip, filter_not_mem_singleton h1, filter_not_mem_singleton h2]
        simp only [hk, hk2, if_false]
        cases hg : g.node k with
        | none => rfl
        | some n => simp [hn n hg]

theorem mem_emplace {s : List Nat} {x y : Nat} : x ∈ emplace s y ↔ x ∈ s ∨ x = y := by
  unfold emplace
  split_ifs with h
  · constructor
    · exact Or.inl
    · rintro (h' | rfl)
      · exact h'
      · exact h
  · simp

theorem nodup_emplace {s : List Nat} (y : Nat) (h : s.Nodup) : (emplace s y).Nodup := by
  unfold emplace
  split_ifs with h'
  · exact h
  · rw [List.nodup_append]
    refine ⟨h, List.nodup_singleton y, ?_⟩
    intro a ha hb
    rw [List.mem_singleton] at hb
    exact h' (hb ▸ ha)

theorem Graph.edge_congr {g g' : Graph} (h : g'.edges_ = g.edges_) (j : Nat) :
    g'.edge j = g.edge j := by
  unfold Graph.edge
  rw [h]

theorem Graph.adjacent_strip {g g' : Graph} (ids : List Nat) (hE : g'.edges_ = g.edges_)
    (hN : ∀ k, g'.node k = (g.node k).map (Node.strip ids)) (hA : g.adjacent) :
    g'.adjacent := by
  intro k n' hn'
  rw [hN k] at hn'
  obtain ⟨n, hn, rfl⟩ := Option.map_eq_some'.mp hn'
  obtain ⟨h1, h2⟩ := hA k n hn
  constructor
  · intro j hj
    rw [Graph.edge_congr hE]
    exact h1 j (List.mem_filter.mp hj).1
  · intro j hj
    rw [Graph.edge_congr hE]
    exact h2 j (List.mem_filter.mp hj).1

theorem RemoveEdges.detach_fold (rn : Bool) :
    ∀ (ids : List Nat) (g : Graph) (acc : List Nat), g.adjacent →
      (∀ i ∈ ids, ∃ e t h, g.edge i = some e ∧ g.node e.tail = some t ∧
        g.node e.head = some h) →
      ∃ g1 acc1, ids.foldlM (RemoveEdges.detach rn) (g, acc) = some (g1, acc1) ∧
        g1.edges_ = g.edges_ ∧ g1.node_num_objects = g.node_num_objects ∧
        g1.edge_num_objects = g.edge_num_objects ∧
        g1.nodes_.length = g.nodes_.length ∧
        (∀ k, g1.node k = (g.node k).map (Node.strip ids)) ∧
        (∀ x, x ∈ acc1 ↔ x ∈ acc ∨ (rn = true ∧ g.touched ids x)) ∧
        (acc.Nodup → acc1.Nodup) := by
  intro ids
  induction ids with
  | nil =>
    intro g acc _ _
    refine ⟨g, acc, rfl, rfl, rfl, rfl, rfl, ?_, ?_, id⟩
    · intro k
      cases h : g.node k with
      | none => rfl
      | some n => simp [Node.strip_nil]
    · intro x
      simp [Graph.touched]
  | cons i ids ih =>
    intro g acc hA hL
    obtain ⟨e, t, h, he, ht, hh⟩ := hL i (List.mem_cons_self _ _)
    obtain ⟨g', hstep, hE, hc1, hc2, hlen, hN⟩ :=
      RemoveEdges.detach_spec rn g acc i e t h hA he ht hh
    have hA' : g'.adjacent := Graph.adjacent_strip [i] hE hN hA
    have hL' : ∀ i' ∈ ids, ∃ e t h, g'.edge i' = some e ∧ g'.node e.tail = some t ∧
        g'.node e.head = some h := by
      intro i' hi'
      obtain ⟨e1, t1, h1, a, b, c⟩ := hL i' (List.mem_cons_of_mem _ hi')
      exact ⟨e1, Node.strip [i] t1, Node.strip [i] h1, by rw [Graph.edge_congr hE, a],
        by rw [hN, b]; rfl, by rw [hN, c]; rfl⟩
    obtain ⟨g1, acc1, hfold, hE1, hd1, hd2, hlen1, hN1, hacc, hnd⟩ :=
      ih g' (if rn then emplace (emplace acc t.id) h.id else acc) hA' hL'
    refine ⟨g1, acc1, ?_, hE1.trans hE, hd1.trans hc1, hd2.trans hc2, hlen1.trans hlen,
      ?_, ?_, ?_⟩
    · rw [List.foldlM_cons, hstep]
      exact hfold
    · intro k
      rw [hN1, hN]
      cases hk : g.node k with
      | none => rfl
      | some n => simp only [Option.map_some', Node.strip_cons]
    · intro x
      rw [hacc]
      have key : g'.touched ids x ↔ g.touched ids x := by
        constructor
        · rintro ⟨j, hj, e1, t1, h1, a, b, c, d⟩
          obtain ⟨e2, t2, h2, a2, b2, c2⟩ := hL j (List.mem_cons_of_mem _ hj)
          rw [Graph.edge_congr hE, a2] at a
          cases a
          rw [hN, b2] at b
          rw [hN, c2] at c
          cases b
          cases c
          exact ⟨j, hj, _, t2, h2, a2, b2, c2, d⟩
        · rintro ⟨j, hj, e1, t1, h1, a, b, c, d⟩
          exact ⟨j, hj, e1, Node.strip [i] t1, Node.strip [i] h1,
            by rw [Graph.edge_congr hE, a], by rw [hN, b]; rfl, by rw [hN, c]; rfl, d⟩
      cases rn with
      | false =>
        simp
      | true =>
        simp only [if_true, mem_emplace, true_and, key]
        constructor
        · rintro (((h1 | h1) | h1) | h1)
          · exact Or.inl h1
          · exact Or.inr ⟨i, List.mem_cons_self _ _, e, t, h, he, ht, hh, Or.inl h1⟩
          · exact Or.inr ⟨i, List.mem_cons_self _ _, e, t, h, he, ht, hh, Or.inr h1⟩
          · obtain ⟨j, hj, rest⟩ := h1
            exact Or.inr ⟨j, List.mem_cons_of_mem _ hj, rest⟩
        · rintro (h1 | ⟨j, hj, e1, t1, h1, a, b, c, d⟩)
          · exact Or.inl (Or.inl (Or.inl h1))
          · rcases List.mem_cons.mp hj with rfl | hj'
            · rw [he] at a
              cases a
              rw [ht] at b
              rw [hh] at c
              cases b
              cases c
              rcases d with d | d
              · exact Or.inl (Or.inl (Or.inr d))
              · exact Or.inl (Or.inr d)
            · exact Or.inr ⟨j, hj', e1, t1, h1, a, b, c, d⟩
    · intro hnodup
      apply hnd
      cases rn with
      | false => exact hnodup
      | true => exact nodup_emplace _ (nodup_emplace _ hnodup)

theorem Graph.node_reset (g : Graph) (i k : Nat) :
    Graph.node { g with nodes_ := g.nodes_.set i none } k =
      if k = i then none else g.node k := by
  unfold Graph.node
  by_cases h : k = i
  · subst h
    by_cases hl : k < g.nodes_.length
    · simp [List.getElem?_set, hl]
    · simp [List.getElem?_set, hl]
  · have h' : ¬ i = k := fun e => h e.symm
    simp [List.getElem?_set, h, h']

theorem RemoveEdges.drop_fold :
    ∀ (l : List Nat) (g : Graph), l.Nodup → (∀ i ∈ l, ∃ n, g.node i = some n) →
      ∃ g2, l.foldlM RemoveEdges.drop g = some g2 ∧
        g2.edges_ = g.edges_ ∧ g2.node_num_objects = g.node_num_objects ∧
        g2.edge_num_objects = g.edge_num_objects ∧
        g2.nodes_.length = g.nodes_.length ∧
        (∀ k, k ∉ l → g2.node k = g.node k) ∧
        (∀ k ∈ l, ∀ n, g.node k = some n →
          g2.node k = if n.outdegree = 0 ∧ n.indegree = 0 then none else some n) := by
  intro l
  induction l with
  | nil =>
    intro g _ _
    exact ⟨g, rfl, rfl, rfl, rfl, rfl, fun _ _ => rfl, fun k hk => absurd hk (List.not_mem_nil k)⟩
  | cons i l ih =>
    intro g hnd hL
    obtain ⟨hi, hnd'⟩ := List.nodup_cons.mp hnd
    obtain ⟨n, hn⟩ := hL i (List.mem_cons_self _ _)
    by_cases hdeg : n.outdegree = 0 ∧ n.indegree = 0
    · have hstep : RemoveEdges.drop g i = some { g with nodes_ := g.nodes_.set i none } := by
        simp [RemoveEdges.drop, hn, hdeg]
      have hL' : ∀ j ∈ l, ∃ m, Graph.node { g with nodes_ := g.nodes_.set i none } j = some m := by
        intro j hj
        rw [Graph.node_reset]
        have : j ≠ i := fun e => hi (e ▸ hj)
        simp only [this, if_false]
        exact hL j (List.mem_cons_of_mem _ hj)
      obtain ⟨g2, hfold, hE, hc1, hc2, hlen, hout, hin⟩ := ih _ hnd' hL'
      refine ⟨g2, ?_, hE, hc1, hc2, ?_, ?_, ?_⟩
      · rw [List.foldlM_cons, hstep]
        exact hfold
      · rw [hlen]
        simp
      · intro k hk
        rw [hout k (fun h => hk (List.mem_cons_of_mem _ h)), Graph.node_reset]
        have : k ≠ i := fun e => hk (e ▸ List.mem_cons_self _ _)
        simp [this]
      · intro k hk m hm
        rcases List.mem_cons.mp hk with rfl | hk'
        · rw [hn] at hm
          cases hm
          rw [hout k hi, Graph.node_reset]
          simp [hdeg]
        · have hne : k ≠ i := fun e => hi (e ▸ hk')
          have := hin k hk' m (by rw [Graph.node_reset]; simp [hne, hm])
          exact this
    · have hstep : RemoveEdges.drop g i = some g := by
        simp [RemoveEdges.drop, hn, hdeg]
      obtain ⟨g2, hfold, hE, hc1, hc2, hlen, hout, hin⟩ :=
        ih g hnd' (fun j hj => hL j (List.mem_cons_of_mem _ hj))
      refine ⟨g2, ?_, hE, hc1, hc2, hlen, ?_, ?_⟩
      · rw [List.foldlM_cons, hstep]
        exact hfold
      · intro k hk
        exact hout k (fun h => hk (List.mem_cons_of_mem _ h))
      · intro k hk m hm
        rcases List.mem_cons.mp hk with rfl | hk'
        · rw [hn] at hm
          cases hm
          rw [hout k hi, hn]
          simp [hdeg]
        · exact hin k hk' m hm

theorem RemoveEdges.reset_fold :
    ∀ (ids : List Nat) (g : Graph), (∀ i ∈ ids, i < g.edges_.length) →
      ∃ g3, ids.foldlM RemoveEdges.reset g = some g3 ∧
        g3.nodes_ = g.nodes_ ∧ g3.node_num_objects = g.node_num_objects ∧
        g3.edge_num_objects = g.edge_num_objects ∧
        g3.edges_.length = g.edges_.length ∧
        (∀ j ∈ ids, g3.edges_[j]? = some none) ∧
        (∀ j, j ∉ ids → g3.edges_[j]? = g.edges_[j]?) := by
  intro ids
  induction ids with
  | nil =>
    intro g _
    exact ⟨g, rfl, rfl, rfl, rfl, rfl, fun j hj => absurd hj (List.not_mem_nil j),
      fun _ _ => rfl⟩
  | cons i ids ih =>
    intro g hL
    have hi := hL i (List.mem_cons_self _ _)
    have hstep : RemoveEdges.reset g i = some { g with edges_ := g.edges_.set i none } := by
      simp [RemoveEdges.reset, hi]
    obtain ⟨g3, hfold, hN, hc1, hc2, hlen, hin, hout⟩ :=
      ih { g with edges_ := g.edges_.set i none }
        (fun j hj => by simpa using hL j (List.mem_cons_of_mem _ hj))
    refine ⟨g3, ?_, hN, hc1, hc2, by simpa using hlen, ?_, ?_⟩
    · rw [List.foldlM_cons, hstep]
      exact hfold
    · intro j hj
      by_cases hj' : j ∈ ids
      · exact hin j hj'
      · rcases List.mem_cons.mp hj with rfl | h
        · rw [hout j hj']
          simp [List.getElem?_set, hi]
        · exact absurd h hj'
    · intro j hj
      have h1 : j ∉ ids := fun h => hj (List.mem_cons_of_mem _ h)
      have h2 : ¬ i = j := fun e => hj (e ▸ List.mem_cons_self _ _)
      rw [hout j h1]
      simp [List.getElem?_set, h2]

theorem Graph.touched_live {g : Graph} {ids : List Nat} {x : Nat}
    (hid : ∀ k n, g.node k = some n → n.id = k) (h : g.touched ids x) :
    ∃ n, g.node x = some n := by
  obtain ⟨i, _, e, t, hd, _, ht, hh, hx⟩ := h
  rcases hx with rfl | rfl
  · rw [hid _ _ ht]
    exact ⟨t, ht⟩
  · rw [hid _ _ hh]
    exact ⟨hd, hh⟩

theorem RemoveEdges_spec (g : Graph) (ids : List Nat) (rn : Bool) (hA : g.adjacent)
    (hid : ∀ k n, g.node k = some n → n.id = k)
    (hL : ∀ i ∈ ids, ∃ e t h, g.edge i = some e ∧ g.node e.tail = some t ∧
      g.node e.head = some h) :
    ∃ g', RemoveEdges g ids rn = some g' ∧
      g'.node_num_objects = g.node_num_objects ∧
      g'.edge_num_objects = g.edge_num_objects ∧
      g'.nodes_.length = g.nodes_.length ∧ g'.edges_.length = g.edges_.length ∧
      (∀ j ∈ ids, g'.edges_[j]? = some none) ∧
      (∀ j, j ∉ ids → g'.edges_[j]? = g.edges_[j]?) ∧
      (∀ k, g.node k = none → g'.node k = none) ∧
      (∀ k n, g.node k = some n →
        (g'.node k = none ∨ g'.node k = some (Node.strip ids n)) ∧
        (g'.node k = none ↔ (rn = true ∧ g.touched ids k ∧
          (Node.strip ids n).outdegree = 0 ∧ (Node.strip ids n).indegree = 0))) := by
  obtain ⟨g1, acc1, hfold1, hE1, ha1, hb1, hlen1, hN1, hacc, hnd⟩ :=
    RemoveEdges.detach_fold rn ids g [] hA hL
  have hLe : ∀ i ∈ ids, i < g.edges_.length := by
    intro i hi
    obtain ⟨e, _, _, he, _, _⟩ := hL i hi
    exact Graph.edge_lt he
  cases rn with
  | false =>
    obtain ⟨g3, hfold3, hN3, ha3, hb3, hlen3, hin3, hout3⟩ :=
      RemoveEdges.reset_fold ids g1 (fun i hi => by rw [hE1]; exact hLe i hi)
    have hnode : ∀ k, g3.node k = (g.node k).map (Node.strip ids) := by
      intro k
      rw [← hN1 k]
      unfold Graph.node
      rw [hN3]
    refine ⟨g3, ?_, ha3.trans ha1, hb3.trans hb1, by rw [hN3, hlen1],
      by rw [hlen3, hE1], hin3, fun j hj => by rw [hout3 j hj, hE1], ?_, ?_⟩
    · unfold RemoveEdges
      simp only [hfold1, Option.bind_eq_bind, Option.some_bind, Bool.false_eq_true, if_false,
        Option.pure_def]
      exact hfold3
    · intro k hk
      rw [hnode, hk]
      rfl
    · intro k n hk
      rw [hnode, hk]
      simp
  | true =>
    have hlive : ∀ x ∈ acc1, ∃ n, g1.node x = some n := by
      intro x hx
      rcases (hacc x).mp hx with h | ⟨_, h⟩
      · exact absurd h (List.not_mem_nil x)
      · obtain ⟨n, hn⟩ := Graph.touched_live hid h
        exact ⟨Node.strip ids n, by rw [hN1, hn]; rfl⟩
    obtain ⟨g2, hfold2, hE2, ha2, hb2, hlen2, hout2, hin2⟩ :=
      RemoveEdges.drop_fold acc1 g1 (hnd List.nodup_nil) hlive
    obtain ⟨g3, hfold3, hN3, ha3, hb3, hlen3, hin3, hout3⟩ :=
      RemoveEdges.reset_fold ids g2 (fun i hi => by rw [hE2, hE1]; exact hLe i hi)
    have hnode : ∀ k, g3.node k = g2.node k := by
      intro k
      unfold Graph.node
      rw [hN3]
    refine ⟨g3, ?_, ha3.trans (ha2.trans ha1), hb3.trans (hb2.trans hb1),
      by rw [hN3, hlen2, hlen1], by rw [hlen3, hE2, hE1], hin3,
      fun j hj => by rw [hout3 j hj, hE2, hE1], ?_, ?_⟩
    · unfold RemoveEdges
      simp only [hfold1, Option.bind_eq_bind, Option.some_bind, if_true, hfold2]
      exact hfold3
    · intro k hk
      rw [hnode]
      by_cases hmem : k ∈ acc1
      · obtain ⟨n, hn⟩ := hlive k hmem
        rw [hN1, hk] at hn
        exact absurd hn (by simp)
      · rw [hout2 k hmem, hN1, hk]
        rfl
    · intro k n hk
      rw [hnode]
      have hk1 : g1.node k = some (Node.strip ids n) := by rw [hN1, hk]; rfl
      by_cases hmem : k ∈ acc1
      · have ht : g.touched ids k := by
          rcases (hacc k).mp hmem with h | ⟨_, h⟩
          · exact absurd h (List.not_mem_nil k)
          · exact h
        rw [hin2 k hmem _ hk1]
        split_ifs with hdeg
        · exact ⟨Or.inl rfl, fun _ => ⟨rfl, ht, hdeg⟩, fun _ => rfl⟩
        · refine ⟨Or.inr rfl, fun h => absurd h (by simp), fun h => absurd h.2.2 hdeg⟩
      · have ht : ¬ g.touched ids k := fun h => hmem ((hacc k).mpr (Or.inr ⟨rfl, h⟩))
        rw [hout2 k hmem, hk1]
        exact ⟨Or.inr rfl, fun h => absurd h (by simp), fun h => absurd h.2.1 ht⟩

theorem Graph.touched_iff {g : Graph} (hg : g.wf) (ids : List Nat) (k : Nat) :
    g.touched ids k ↔ ∃ i ∈ ids, ∃ e, g.edge i = some e ∧ (e.tail = k ∨ e.head = k) := by
  constructor
  · rintro ⟨i, hi, e, t, h, he, ht, hh, hx⟩
    refine ⟨i, hi, e, he, ?_⟩
    rcases hx with rfl | rfl
    · exact Or.inl (hg.nodes _ _ ht).1.symm
    · exact Or.inr (hg.nodes _ _ hh).1.symm
  · rintro ⟨i, hi, e, he, hx⟩
    obtain ⟨-, t, h, -, -, ht, hh, -⟩ := hg.edges i e he
    refine ⟨i, hi, e, t, h, he, ht, hh, ?_⟩
    rcases hx with rfl | rfl
    · exact Or.inl (hg.nodes _ _ ht).1.symm
    · exact Or.inr (hg.nodes _ _ hh).1.symm

/-- C10: on a well-formed graph and for indices `ids` of existing edges,
`RemoveEdges` returns a graph in which no remaining node lists an edge of
`ids` (by pointer or by `id`), the slots of `ids` are empty and every other
edge slot is untouched.  The first loop leaves every node with the edges of
`ids` taken out of its lists.  Without `remove_nodes` no node is dropped; with
it a node is dropped exactly when it was tail or head of an edge of `ids` and
has no in-edge and no out-edge after the detachment. -/
theorem RemoveEdges_frame (g : Graph) (ids : List Nat) (remove_nodes : Bool)
    (hg : g.wf) (hids : ∀ i ∈ ids, ∃ e, g.edge i = some e) :
    ∃ g', RemoveEdges g ids remove_nodes = some g' ∧
      (∀ k n', g'.node k = some n' → ∀ j, (j ∈ n'.inedges ∨ j ∈ n'.outedges) →
        j ∉ ids ∧ ∃ e, g'.edge j = some e ∧ e.id ∉ ids) ∧
      (∀ j ∈ ids, g'.edges_[j]? = some none) ∧
      (∀ j, j ∉ ids → g'.edges_[j]? = g.edges_[j]?) ∧
      (∃ g₁ node_indices,
        ids.foldlM (RemoveEdges.detach remove_nodes) (g, []) = some (g₁, node_indices) ∧
        ∀ k, g₁.node k = (g.node k).map (Node.strip ids)) ∧
      (∀ k n', g'.node k = some n' → ∃ n, g.node k = some n ∧ n' = Node.strip ids n) ∧
      (remove_nodes = false → ∀ k n, g.node k = some n → g'.node k = some (Node.strip ids n)) ∧
      (remove_nodes = true → ∀ k n, g.node k = some n →
        (g'.node k = none ↔
          ((∃ i ∈ ids, ∃ e, g.edge i = some e ∧ (e.tail = k ∨ e.head = k)) ∧
            (Node.strip ids n).indegree = 0 ∧ (Node.strip ids n).outdegree = 0))) := by
  have hid : ∀ k n, g.node k = some n → n.id = k := fun k n h => (hg.nodes k n h).1
  have hL : ∀ i ∈ ids, ∃ e t h, g.edge i = some e ∧ g.node e.tail = some t ∧
      g.node e.head = some h := by
    intro i hi
    obtain ⟨e, he⟩ := hids i hi
    obtain ⟨-, t, h, -, -, ht, hh, -⟩ := hg.edges i e he
    exact ⟨e, t, h, he, ht, hh⟩
  obtain ⟨g', hrun, -, -, -, -, hin, hout, hnone, hsome⟩ :=
    RemoveEdges_spec g ids remove_nodes hg.adj hid hL
  have hback : ∀ k n', g'.node k = some n' → ∃ n, g.node k = some n ∧ n' = Node.strip ids n := by
    intro k n' hk
    cases hgk : g.node k with
    | none => rw [hnone k hgk] at hk; exact absurd hk (by simp)
    | some n =>
      rcases (hsome k n hgk).1 with h | h
      · rw [h] at hk; exact absurd hk (by simp)
      · rw [h] at hk
        exact ⟨n, rfl, (Option.some.inj hk).symm⟩
  have hedge : ∀ j, j ∉ ids → g'.edge j = g.edge j := by
    intro j hj
    unfold Graph.edge
    rw [hout j hj]
  refine ⟨g', hrun, ?_, hin, hout, ?_, hback, ?_, ?_⟩
  · intro k n' hk j hj
    obtain ⟨n, hn, rfl⟩ := hback k n' hk
    have hj' : j ∉ ids ∧ (j ∈ n.inedges ∨ j ∈ n.outedges) := by
      rcases hj with h | h
      · have := List.mem_filter.mp h
        exact ⟨by simpa using this.2, Or.inl this.1⟩
      · have := List.mem_filter.mp h
        exact ⟨by simpa using this.2, Or.inr this.1⟩
    refine ⟨hj'.1, ?_⟩
    have he : ∃ e, g.edge j = some e := by
      rcases hj'.2 with h | h
      · obtain ⟨e, he, -⟩ := (hg.adj k n hn).2 j h
        exact ⟨e, he⟩
      · obtain ⟨e, he, -⟩ := (hg.adj k n hn).1 j h
        exact ⟨e, he⟩
    obtain ⟨e, he⟩ := he
    refine ⟨e, by rw [hedge j hj'.1, he], ?_⟩
    rw [(hg.edges j e he).1]
    exact hj'.1
  · obtain ⟨g1, acc1, hfold1, -, -, -, -, hN1, -, -⟩ :=
      RemoveEdges.detach_fold remove_nodes ids g [] hg.adj hL
    exact ⟨g1, acc1, hfold1, hN1⟩
  · intro hrn k n hk
    rcases (hsome k n hk).1 with h | h
    · have := ((hsome k n hk).2.mp h).1
      rw [hrn] at this
      exact absurd this (by decide)
    · exact h
  · intro hrn k n hk
    rw [(hsome k n hk).2, Graph.touched_iff hg]
    constructor
    · rintro ⟨-, a, b, c⟩
      exact ⟨a, c, b⟩
    · rintro ⟨a, c, b⟩
      exact ⟨hrn, a, b, c⟩

/-! ## New nodes and edges keep the graph well-formed -/

theorem Node.push_nil (n : Node) : Node.push [] [] n = n := by
  simp [Node.push]

theorem Node.push_push (o₁ i₁ o₂ i₂ : List Nat) (n : Node) :
    Node.push o₂ i₂ (Node.push o₁ i₁ n) = Node.push (o₁ ++ o₂) (i₁ ++ i₂) n := by
  simp [Node.push]

theorem Graph.node_append_edges (g : Graph) (es : List (Option Edge)) (c : Nat) (k : Nat) :
    Graph.node { g with edges_ := g.edges_ ++ es, edge_num_objects := c } k = g.node k := rfl

theorem Graph.new_edge_spec (g : Graph) (tail head length : Nat) (t h : Node)
    (ht : g.node tail = some t) (hh : g.node head = some h) :
    ∃ g₁, g.new_edge tail head length = some (g₁, g.edges_.length) ∧
      g₁.edges_ = g.edges_ ++
        [some { id := g.edge_num_objects, length := length, tail := tail, head := head,
                pair := none }] ∧
      g₁.edge_num_objects = g.edge_num_objects + 1 ∧
      g₁.node_num_objects = g.node_num_objects ∧
      g₁.nodes_.length = g.nodes_.length ∧
      ∀ k, g₁.node k = (g.node k).map
        (Node.push (if k = tail then [g.edges_.length] else [])
          (if k = head then [g.edges_.length] else [])) := by
  have hlt := Graph.node_lt ht
  have hlh := Graph.node_lt hh
  have ht1 : Graph.node { g with edge_num_objects := g.edge_num_objects + 1 } tail = some t := ht
  have hlt1 : tail < (Graph.mk g.nodes_ g.edges_ g.node_num_objects
      (g.edge_num_objects + 1)).nodes_.length := hlt
  unfold Graph.new_edge
  simp only [Option.bind_eq_bind, Option.pure_def, ht1, Option.some_bind,
    Graph.node_set_node _ _ _ _ hlt1]
  by_cases hne : head = tail
  · subst hne
    rw [ht] at hh
    cases hh
    simp only [if_true, Option.some_bind]
    refine ⟨_, rfl, rfl, rfl, rfl, by simp [Graph.set_node], ?_⟩
    intro k
    rw [Graph.node_append_edges,
      Graph.node_set_node _ _ _ _ (by simpa [Graph.set_node] using hlt),
      Graph.node_set_node _ _ _ _ hlt1]
    by_cases hk : k = head
    · subst hk
      simp only [if_true]
      rw [ht]
      simp [Node.push]
    · simp only [hk, if_false, Node.push_nil]
      show g.node k = _
      cases g.node k <;> simp [Node.push_nil]
  · have hh1 : Graph.node { g with edge_num_objects := g.edge_num_objects + 1 } head = some h :=
      hh
    simp only [hne, if_false, hh1, Option.some_bind]
    refine ⟨_, rfl, rfl, rfl, rfl, by simp [Graph.set_node], ?_⟩
    intro k
    rw [Graph.node_append_edges,
      Graph.node_set_node _ _ _ _ (by simpa [Graph.set_node] using hlh),
      Graph.node_set_node _ _ _ _ hlt1]
    by_cases hk : k = head
    · subst hk
      simp only [if_true, hne, if_false]
      rw [hh]
      simp [Node.push]
    · by_cases hk2 : k = tail
      · subst hk2
        simp only [hk, if_false, if_true]
        rw [ht]
        simp [Node.push]
      · simp only [hk, hk2, if_false]
        show g.node k = _
        cases g.node k <;> simp [Node.push_nil]

theorem Graph.wf_of_bounded {g : Graph} (h : g.wf_bounded) : g.wf := by
  obtain ⟨hn, he, ha, hc1, hc2⟩ := h
  refine ⟨?_, ?_, ?_, hc1, hc2, ?_, ?_⟩
  · intro k n hk
    obtain ⟨hid, -, p, hp, m, hm, hmp⟩ := hn k (Graph.node_lt hk) n hk
    exact ⟨hid, p, m, hp, hm, hmp⟩
  · intro j e hj
    obtain ⟨hid, -, t, ht, h, hh, q, hq, f, hf, a1, a2, a3, a4, a5⟩ :=
      he j (Graph.edge_lt hj) e hj
    exact ⟨hid, t, h, q, f, ht, hh, a1, a2, hq, hf, a3, a4, a5⟩
  · intro k n hk
    obtain ⟨ho, hi⟩ := ha k (Graph.node_lt hk) n hk
    constructor
    · intro j hj
      obtain ⟨e, he', hk'⟩ := ho j hj
      exact ⟨e, he', hk'⟩
    · intro j hj
      obtain ⟨e, he', hk'⟩ := hi j hj
      exact ⟨e, he', hk'⟩
  · intro k n hk
    exact (hn k (Graph.node_lt hk) n hk).2.1
  · intro j e hj
    exact (he j (Graph.edge_lt hj) e hj).2.1

theorem Graph.edge_set_edge (g : Graph) (p q : Nat) (e : Edge) (hp : p < g.edges_.length) :
    (g.set_edge p e).edge q = if q = p then some e else g.edge q := by
  unfold Graph.edge Graph.set_edge
  by_cases h : q = p
  · subst h
    simp [List.getElem?_set, hp]
  · have h' : ¬ p = q := fun e => h e.symm
    simp [List.getElem?_set, h, h']

theorem Graph.node_set_edge (g : Graph) (p q : Nat) (e : Edge) :
    (g.set_edge p e).node q = g.node q := rfl

theorem Graph.link_edges_spec (g : Graph) (p q : Nat) (e f : Edge) (hpq : p ≠ q)
    (hp : g.edge p = some e) (hq : g.edge q = some f) :
    g.link_edges p q = some
      ((g.set_edge p { e with pair := some q }).set_edge q { f with pair := some p }) := by
  have hlp := Graph.edge_lt hp
  have hlq := Graph.edge_lt hq
  unfold Graph.link_edges
  have hqp : ¬ q = p := fun h => hpq h.symm
  simp [hp, Graph.edge_set_edge _ _ _ _ hlp, hqp, hq]

theorem Graph.edge_append_lt (g : Graph) (es : List (Option Edge)) (j : Nat)
    (h : j < g.edges_.length) :
    (g.edges_ ++ es)[j]? = g.edges_[j]? := by
  rw [List.getElem?_append_left h]

theorem getElem?_append_at {α : Type} (l : List α) (x : α) (r : List α) :
    (l ++ x :: r)[l.length]? = some x := by
  rw [List.getElem?_append_right (le_refl _)]
  simp

theorem getElem?_append_at_succ {α : Type} (l : List α) (x y : α) (r : List α) :
    (l ++ x :: y :: r)[l.length + 1]? = some y := by
  rw [List.getElem?_append_right (by omega)]
  simp

theorem set_set_append_two {α : Type} (l : List α) (a b a' b' : α) :
    ((l ++ [a] ++ [b]).set l.length a').set (l.length + 1) b' = l ++ [a', b'] := by
  induction l with
  | nil => rfl
  | cons x l ih => simpa using ih

theorem Graph.edge_pair_spec (g : Graph) (t h t₂ h₂ len len₂ : Nat)
    (ht : ∃ n, g.node t = some n) (hh : ∃ n, g.node h = some n)
    (ht₂ : ∃ n, g.node t₂ = some n) (hh₂ : ∃ n, g.node h₂ = some n) :
    ∃ g₁ g₂ g₃, g.new_edge t h len = some (g₁, g.edges_.length) ∧
      g₁.edges_.length = g.edges_.length + 1 ∧
      (∀ k, g₁.node k = (g.node k).map
        (Node.push (if k = t then [g.edges_.length] else [])
          (if k = h then [g.edges_.length] else []))) ∧
      (∀ j, j < g.edges_.length → g₁.edge j = g.edge j) ∧
      g₁.new_edge t₂ h₂ len₂ = some (g₂, g.edges_.length + 1) ∧
      g₂.link_edges g.edges_.length (g.edges_.length + 1) = some g₃ ∧
      g.with_edge_pair g₃ t h t₂ h₂ len len₂ := by
  obtain ⟨nt, hnt⟩ := ht
  obtain ⟨nh, hnh⟩ := hh
  obtain ⟨nt₂, hnt₂⟩ := ht₂
  obtain ⟨nh₂, hnh₂⟩ := hh₂
  obtain ⟨g₁, h1, hE1, hc1, hd1, hl1, hN1⟩ := Graph.new_edge_spec g t h len nt nh hnt hnh
  have hE1len : g₁.edges_.length = g.edges_.length + 1 := by simp [hE1]
  obtain ⟨g₂, h2, hE2, hc2, hd2, hl2, hN2⟩ := Graph.new_edge_spec g₁ t₂ h₂ len₂
    (Node.push (if t₂ = t then [g.edges_.length] else [])
      (if t₂ = h then [g.edges_.length] else []) nt₂)
    (Node.push (if h₂ = t then [g.edges_.length] else [])
      (if h₂ = h then [g.edges_.length] else []) nh₂)
    (by rw [hN1, hnt₂]; rfl) (by rw [hN1, hnh₂]; rfl)
  rw [hE1len] at h2
  have hp : g₂.edge g.edges_.length = some
      { id := g.edge_num_objects, length := len, tail := t, head := h, pair := none } := by
    rw [Graph.edge_eq_some, hE2, hE1, List.append_assoc]
    exact getElem?_append_at _ _ _
  have hq : g₂.edge (g.edges_.length + 1) = some
      { id := g₁.edge_num_objects, length := len₂, tail := t₂, head := h₂, pair := none } := by
    rw [Graph.edge_eq_some, hE2, hE1, List.append_assoc]
    exact getElem?_append_at_succ _ _ _ _
  have h3 := Graph.link_edges_spec g₂ g.edges_.length (g.edges_.length + 1) _ _ (by omega) hp hq
  refine ⟨g₁, g₂, _, h1, hE1len, hN1, ?_, h2, h3, ?_⟩
  · intro j hj
    unfold Graph.edge
    rw [hE1, List.getElem?_append_left hj]
  · refine ⟨?_, ?_, ?_, ?_, ?_⟩
    · simp only [Graph.set_edge, hE2, hE1, hc1]
      exact set_set_append_two _ _ _ _ _
    · simp [Graph.set_edge, hc2, hc1]
    · simp [Graph.set_edge, hd2, hd1]
    · simp [Graph.set_edge, hl2, hl1]
    · intro k
      simp only [Graph.node_set_edge]
      rw [hN2, hN1, hE1len]
      cases g.node k with
      | none => rfl
      | some n => simp [Node.push_push]

theorem Graph.with_edge_pair.edge_old {g g₃ : Graph} {t h t₂ h₂ len len₂ : Nat}
    (hs : g.with_edge_pair g₃ t h t₂ h₂ len len₂) {j : Nat} (hj : j < g.edges_.length) :
    g₃.edge j = g.edge j := by
  unfold Graph.edge
  rw [hs.edges, List.getElem?_append_left hj]

theorem Graph.with_edge_pair.edge_first {g g₃ : Graph} {t h t₂ h₂ len len₂ : Nat}
    (hs : g.with_edge_pair g₃ t h t₂ h₂ len len₂) :
    g₃.edge g.edges_.length = some
      { id := g.edge_num_objects, length := len, tail := t, head := h,
        pair := some (g.edges_.length + 1) } := by
  rw [Graph.edge_eq_some, hs.edges]
  exact getElem?_append_at _ _ _

theorem Graph.with_edge_pair.edge_second {g g₃ : Graph} {t h t₂ h₂ len len₂ : Nat}
    (hs : g.with_edge_pair g₃ t h t₂ h₂ len len₂) :
    g₃.edge (g.edges_.length + 1) = some
      { id := g.edge_num_objects + 1, length := len₂, tail := t₂, head := h₂,
        pair := some g.edges_.length } := by
  rw [Graph.edge_eq_some, hs.edges]
  exact getElem?_append_at_succ _ _ _ _

theorem Graph.with_edge_pair.edge_cases {g g₃ : Graph} {t h t₂ h₂ len len₂ : Nat}
    (hs : g.with_edge_pair g₃ t h t₂ h₂ len len₂) {j : Nat} {e : Edge}
    (he : g₃.edge j = some e) :
    (j < g.edges_.length ∧ g.edge j = some e) ∨
    (j = g.edges_.length ∧
      e = { id := g.edge_num_objects, length := len, tail := t, head := h,
            pair := some (g.edges_.length + 1) }) ∨
    (j = g.edges_.length + 1 ∧
      e = { id := g.edge_num_objects + 1, length := len₂, tail := t₂, head := h₂,
            pair := some g.edges_.length }) := by
  by_cases h1 : j < g.edges_.length
  · left
    rw [hs.edge_old h1] at he
    exact ⟨h1, he⟩
  · by_cases h2 : j = g.edges_.length
    · right; left
      subst h2
      rw [hs.edge_first] at he
      exact ⟨rfl, (Option.some.inj he).symm⟩
    · by_cases h3 : j = g.edges_.length + 1
      · right; right
        subst h3
        rw [hs.edge_second] at he
        exact ⟨rfl, (Option.some.inj he).symm⟩
      · exfalso
        have hlt := Graph.edge_lt he
        rw [hs.edges] at hlt
        simp at hlt
        omega

theorem Graph.with_edge_pair.edge_mono {g g₃ : Graph} {t h t₂ h₂ len len₂ : Nat}
    (hs : g.with_edge_pair g₃ t h t₂ h₂ len len₂) {j : Nat} {e : Edge}
    (he : g.edge j = some e) : g₃.edge j = some e := by
  rw [hs.edge_old (Graph.edge_lt he)]
  exact he

theorem Graph.with_edge_pair.node_some {g g₃ : Graph} {t h t₂ h₂ len len₂ : Nat}
    (hs : g.with_edge_pair g₃ t h t₂ h₂ len len₂) {k : Nat} {n : Node}
    (hk : g.node k = some n) :
    ∃ o i, g₃.node k = some (Node.push o i n) ∧
      (k = t → g.edges_.length ∈ o) ∧ (k = t₂ → g.edges_.length + 1 ∈ o) ∧
      (k = h → g.edges_.length ∈ i) ∧ (k = h₂ → g.edges_.length + 1 ∈ i) := by
  refine ⟨_, _, by rw [hs.nodes, hk]; rfl, ?_, ?_, ?_, ?_⟩ <;> intro hx <;> simp [hx]

theorem Node.mem_push_out {o i : List Nat} {n : Node} {j : Nat} (h : j ∈ n.outedges) :
    j ∈ (Node.push o i n).outedges := List.mem_append_left _ h

theorem Node.mem_push_in {o i : List Nat} {n : Node} {j : Nat} (h : j ∈ n.inedges) :
    j ∈ (Node.push o i n).inedges := List.mem_append_left _ h

theorem Graph.wf_of_edge_pair {g g₃ : Graph} {t h t₂ h₂ len len₂ : Nat} (hg : g.wf)
    (hs : g.with_edge_pair g₃ t h t₂ h₂ len len₂) (nt nh : Node)
    (ht : g.node t = some nt) (hh : g.node h = some nh)
    (hp₁ : nh.pair = some t₂) (hp₂ : nt.pair = some h₂) : g₃.wf := by
  obtain ⟨-, pt, mt, hpt, hmt, hmt'⟩ := hg.nodes t nt ht
  obtain ⟨-, ph, mh, hph, hmh, hmh'⟩ := hg.nodes h nh hh
  rw [hp₂] at hpt
  rw [hp₁] at hph
  cases hpt
  cases hph
  refine ⟨?_, ?_, ?_, by rw [hs.node_count, hs.length]; exact hg.node_count, ?_, ?_, ?_⟩
  · intro k n' hk
    rw [hs.nodes] at hk
    obtain ⟨n, hn, rfl⟩ := Option.map_eq_some'.mp hk
    obtain ⟨hid, p, m, hp, hm, hm'⟩ := hg.nodes k n hn
    obtain ⟨o, i, hm1, -⟩ := hs.node_some hm
    exact ⟨hid, p, _, hp, hm1, hm'⟩
  · intro j e he
    rcases hs.edge_cases he with ⟨hj, hold⟩ | ⟨rfl, rfl⟩ | ⟨rfl, rfl⟩
    · obtain ⟨hid, t', h', q, e', a1, a2, a3, a4, a5, a6, a7, a8, a9⟩ := hg.edges j e hold
      obtain ⟨o1, i1, b1, -⟩ := hs.node_some a1
      obtain ⟨o2, i2, c1, -⟩ := hs.node_some a2
      exact ⟨hid, _, _, q, e', b1, c1, Node.mem_push_out a3, Node.mem_push_in a4, a5,
        hs.edge_mono a6, a7, a8, a9⟩
    · obtain ⟨o1, i1, b1, b2, -, -, -⟩ := hs.node_some ht
      obtain ⟨o2, i2, c1, -, -, c2, -⟩ := hs.node_some hh
      exact ⟨hg.edge_count, _, _, _, _, b1, c1, List.mem_append_right _ (b2 rfl),
        List.mem_append_right _ (c2 rfl), rfl, hs.edge_second, rfl, hp₁, hp₂⟩
    · obtain ⟨o1, i1, b1, -, b2, -, -⟩ := hs.node_some hmh
      obtain ⟨o2, i2, c1, -, -, -, c2⟩ := hs.node_some hmt
      exact ⟨by rw [hg.edge_count], _, _, _, _, b1, c1, List.mem_append_right _ (b2 rfl),
        List.mem_append_right _ (c2 rfl), rfl, hs.edge_first, rfl, hmt', hmh'⟩
  · intro k n' hk
    rw [hs.nodes] at hk
    obtain ⟨n, hn, rfl⟩ := Option.map_eq_some'.mp hk
    obtain ⟨ho, hi⟩ := hg.adj k n hn
    constructor
    · intro j hj
      simp only [Node.push, List.mem_append] at hj
      rcases hj with hj | hj | hj
      · obtain ⟨e, he, hk'⟩ := ho j hj
        exact ⟨e, hs.edge_mono he, hk'⟩
      · split_ifs at hj with hkt
        · rw [List.mem_singleton] at hj
          subst hj
          exact ⟨_, hs.edge_first, hkt.symm⟩
        · exact absurd hj (List.not_mem_nil _)
      · split_ifs at hj with hkt
        · rw [List.mem_singleton] at hj
          subst hj
          exact ⟨_, hs.edge_second, hkt.symm⟩
        · exact absurd hj (List.not_mem_nil _)
    · intro j hj
      simp only [Node.push, List.mem_append] at hj
      rcases hj with hj | hj | hj
      · obtain ⟨e, he, hk'⟩ := hi j hj
        exact ⟨e, hs.edge_mono he, hk'⟩
      · split_ifs at hj with hkt
        · rw [List.mem_singleton] at hj
          subst hj
          exact ⟨_, hs.edge_first, hkt.symm⟩
        · exact absurd hj (List.not_mem_nil _)
      · split_ifs at hj with hkt
        · rw [List.mem_singleton] at hj
          subst hj
          exact ⟨_, hs.edge_second, hkt.symm⟩
        · exact absurd hj (List.not_mem_nil _)
  · rw [hs.edge_count, hs.edges, hg.edge_count]
    simp
  · intro k n' hk
    rw [hs.nodes] at hk
    obtain ⟨n, hn, rfl⟩ := Option.map_eq_some'.mp hk
    exact hg.nodes_distinct k n hn
  · intro j e he
    rcases hs.edge_cases he with ⟨hj, hold⟩ | ⟨rfl, rfl⟩ | ⟨rfl, rfl⟩
    · exact hg.edges_distinct j e hold
    · simp
    · simp

theorem Graph.with_node_pair.node_old {g g' : Graph} (hs : g.with_node_pair g') {k : Nat}
    (hk : k < g.nodes_.length) : g'.node k = g.node k := by
  obtain ⟨a, b, hn, -⟩ := hs.nodes
  unfold Graph.node
  rw [hn, List.getElem?_append_left hk]

theorem Graph.with_node_pair.node_mono {g g' : Graph} (hs : g.with_node_pair g') {k : Nat}
    {n : Node} (hk : g.node k = some n) : g'.node k = some n := by
  rw [hs.node_old (Graph.node_lt hk)]
  exact hk

theorem Graph.with_node_pair.edge_eq {g g' : Graph} (hs : g.with_node_pair g') (j : Nat) :
    g'.edge j = g.edge j := Graph.edge_congr hs.edges j

theorem Graph.with_node_pair.node_cases {g g' : Graph} (hs : g.with_node_pair g') {k : Nat}
    {n : Node} (hk : g'.node k = some n) :
    g.node k = some n ∨
    (k = g.nodes_.length ∧ n.fresh g.nodes_.length (g.nodes_.length + 1) ∧
      ∃ m, g'.node (g.nodes_.length + 1) = some m ∧ m.pair = some g.nodes_.length) ∨
    (k = g.nodes_.length + 1 ∧ n.fresh (g.nodes_.length + 1) g.nodes_.length ∧
      ∃ m, g'.node g.nodes_.length = some m ∧ m.pair = some (g.nodes_.length + 1)) := by
  obtain ⟨a, b, hn, ha, hb⟩ := hs.nodes
  have h1 : g'.node g.nodes_.length = some a := by
    rw [Graph.node_eq_some, hn]
    exact getElem?_append_at _ _ _
  have h2 : g'.node (g.nodes_.length + 1) = some b := by
    rw [Graph.node_eq_some, hn]
    exact getElem?_append_at_succ _ _ _ _
  by_cases c1 : k < g.nodes_.length
  · left
    rw [hs.node_old c1] at hk
    exact hk
  · by_cases c2 : k = g.nodes_.length
    · right; left
      subst c2
      rw [h1] at hk
      cases hk
      exact ⟨rfl, ha, b, h2, hb.pair⟩
    · by_cases c3 : k = g.nodes_.length + 1
      · right; right
        subst c3
        rw [h2] at hk
        cases hk
        exact ⟨rfl, hb, a, h1, ha.pair⟩
      · exfalso
        have hlt := Graph.node_lt hk
        rw [hn] at hlt
        simp at hlt
        omega

theorem Graph.wf_of_node_pair {g g' : Graph} (hg : g.wf) (hs : g.with_node_pair g') :
    g'.wf := by
  refine ⟨?_, ?_, ?_, ?_, by rw [hs.edge_count, hs.edges]; exact hg.edge_count, ?_, ?_⟩
  · intro k n hk
    rcases hs.node_cases hk with h | ⟨rfl, hf, m, hm, hmp⟩ | ⟨rfl, hf, m, hm, hmp⟩
    · obtain ⟨hid, p, m, hp, hm, hm'⟩ := hg.nodes k n h
      exact ⟨hid, p, m, hp, hs.node_mono hm, hm'⟩
    · exact ⟨hf.id, _, m, hf.pair, hm, hmp⟩
    · exact ⟨hf.id, _, m, hf.pair, hm, hmp⟩
  · intro j e he
    rw [hs.edge_eq] at he
    obtain ⟨hid, t, h, q, e', a1, a2, a3, a4, a5, a6, a7, a8, a9⟩ := hg.edges j e he
    exact ⟨hid, t, h, q, e', hs.node_mono a1, hs.node_mono a2, a3, a4, a5,
      by rw [hs.edge_eq]; exact a6, a7, a8, a9⟩
  · intro k n hk
    rcases hs.node_cases hk with h | ⟨rfl, hf, -⟩ | ⟨rfl, hf, -⟩
    · obtain ⟨ho, hi⟩ := hg.adj k n h
      constructor
      · intro j hj
        rw [hs.edge_eq]
        exact ho j hj
      · intro j hj
        rw [hs.edge_eq]
        exact hi j hj
    · rw [hf.inedges, hf.outedges]
      exact ⟨fun j hj => absurd hj (List.not_mem_nil j), fun j hj => absurd hj (List.not_mem_nil j)⟩
    · rw [hf.inedges, hf.outedges]
      exact ⟨fun j hj => absurd hj (List.not_mem_nil j), fun j hj => absurd hj (List.not_mem_nil j)⟩
  · obtain ⟨a, b, hn, -⟩ := hs.nodes
    rw [hs.node_count, hn, hg.node_count]
    simp
  · intro k n hk
    rcases hs.node_cases hk with h | ⟨rfl, hf, -⟩ | ⟨rfl, hf, -⟩
    · exact hg.nodes_distinct k n h
    · rw [hf.pair]; simp
    · rw [hf.pair]; simp
  · intro j e he
    rw [hs.edge_eq] at he
    exact hg.edges_distinct j e he

theorem Graph.link_nodes_spec (g : Graph) (p q : Nat) (n m : Node) (hpq : p ≠ q)
    (hp : g.node p = some n) (hq : g.node q = some m) :
    g.link_nodes p q = some
      ((g.set_node p { n with pair := some q }).set_node q { m with pair := some p }) := by
  have hlp := Graph.node_lt hp
  unfold Graph.link_nodes
  have hqp : ¬ q = p := fun h => hpq h.symm
  simp [hp, Graph.node_set_node _ _ _ _ hlp, hqp, hq]

/-- Two fresh nodes appended to the graph and linked give the shape
`with_node_pair`. -/
theorem Graph.link_fresh (g : Graph) (a b : Node) (c : Nat) :
    ∃ g', Graph.link_nodes
        { g with nodes_ := g.nodes_ ++ [some a] ++ [some b], node_num_objects := c }
        g.nodes_.length (g.nodes_.length + 1) = some g' ∧
      g'.nodes_ = g.nodes_ ++ [some { a with pair := some (g.nodes_.length + 1) },
        some { b with pair := some g.nodes_.length }] ∧
      g'.edges_ = g.edges_ ∧ g'.node_num_objects = c ∧
      g'.edge_num_objects = g.edge_num_objects := by
  have h1 : Graph.node
      { g with nodes_ := g.nodes_ ++ [some a] ++ [some b], node_num_objects := c }
      g.nodes_.length = some a := by
    rw [Graph.node_eq_some]
    simp only [List.append_assoc]
    exact getElem?_append_at _ _ _
  have h2 : Graph.node
      { g with nodes_ := g.nodes_ ++ [some a] ++ [some b], node_num_objects := c }
      (g.nodes_.length + 1) = some b := by
    rw [Graph.node_eq_some]
    simp only [List.append_assoc]
    exact getElem?_append_at_succ _ _ _ _
  refine ⟨_, Graph.link_nodes_spec _ _ _ _ _ (by omega) h1 h2, ?_, rfl, rfl, rfl⟩
  simp only [Graph.set_node]
  exact set_set_append_two _ _ _ _ _

theorem Graph.new_unitig_spec {fuel : Nat} {g g₁ : Graph} {b e p : Nat}
    (h : g.new_unitig fuel b e = some (g₁, p)) :
    p = g.nodes_.length ∧ ∃ a : Node, a.id = g.node_num_objects ∧ a.inedges = [] ∧
      a.outedges = [] ∧ a.transitive = [] ∧
      g₁ = { g with nodes_ := g.nodes_ ++ [some a],
                    node_num_objects := g.node_num_objects + 1 } := by
  unfold Graph.new_unitig at h
  simp only [Option.bind_eq_some, Option.some.injEq, Prod.mk.injEq] at h
  obtain ⟨r, -, r', -, hg, hp⟩ := h
  exact ⟨hp.symm, _, rfl, rfl, rfl, rfl, hg.symm⟩

theorem CreateUnitigs.new_unitig_pair_spec {fuel : Nat} {g g' : Graph} {b e u : Nat}
    (hg : g.wf) (h : CreateUnitigs.new_unitig_pair fuel g b e = some (g', u)) :
    u = g.nodes_.length ∧ g.with_node_pair g' := by
  unfold CreateUnitigs.new_unitig_pair at h
  simp only [Option.bind_eq_some, Option.some.injEq, Prod.mk.injEq] at h
  obtain ⟨⟨g₁, p₁⟩, h1, en, -, ep, -, bn, -, bp, -, ⟨g₂, p₂⟩, h2, g₃, h3, rfl, rfl⟩ := h
  obtain ⟨rfl, a, ha1, ha2, ha3, -, rfl⟩ := Graph.new_unitig_spec h1
  obtain ⟨rfl, c, hc1, hc2, hc3, -, rfl⟩ := Graph.new_unitig_spec h2
  simp only [List.length_append, List.length_singleton] at h3 hc1
  obtain ⟨g₄, h4, hn, he, hd1, hd2⟩ := Graph.link_fresh g a c (g.node_num_objects + 1 + 1)
  rw [h4] at h3
  cases h3
  refine ⟨rfl, ⟨⟨_, _, hn, ⟨ha1.trans hg.node_count, rfl, ha2, ha3⟩,
    ⟨hc1.trans (by rw [hg.node_count]), rfl, hc2, hc3⟩⟩, he, hd1, hd2⟩⟩

theorem ex_graph_constructed :
    Construct.graph Graph.empty ex_read_piles ex_sequences ex_read_overlaps = some ex_graph := by
  decide

theorem ex_graph_wf : ex_graph.wf := Graph.wf_of_bounded (by decide)

/-- Removing the edge pair `0, 1` of the example graph with `remove_nodes`
empties the two slots. -/
theorem RemoveEdges_frame_witness :
    ∃ g', RemoveEdges ex_graph [0, 1] true = some g' ∧
      (∀ j ∈ [0, 1], g'.edges_[j]? = some none) ∧
      (∀ j, j ∉ [0, 1] → g'.edges_[j]? = ex_graph.edges_[j]?) :=
  (RemoveEdges_frame ex_graph [0, 1] true (Graph.wf_of_bounded (by decide))
    (by
      intro i hi
      simp only [List.mem_cons, List.mem_singleton, List.not_mem_nil, or_false] at hi
      rcases hi with rfl | rfl <;> exact ⟨_, rfl⟩)).imp
    fun _ h => ⟨h.1, h.2.2.1, h.2.2.2.1⟩

/-! ## Contained reads -/

/-- C12 (what the code does): for two piles with the same valid region and
the full-length same-strand overlap recorded under both ids, the step
"resolve contained reads" marks both piles contained and makes both invalid,
and `Construct.graph` then makes no node for either of the two sequences. -/
theorem resolve_contained_twins :
    Construct.resolve_contained ex_twin_piles ex_twin_overlaps =
      some ([⟨0, 0, 5000, 5000, true, true, false⟩, ⟨1, 0, 5000, 5000, true, true, false⟩],
        [[], []]) ∧
    Construct.graph Graph.empty
      [⟨0, 0, 5000, 5000, true, true, false⟩, ⟨1, 0, 5000, 5000, true, true, false⟩]
      ex_twin_sequences [] = some Graph.empty := by
  constructor <;> decide

/-! ## Bubbles -/

theorem mem_foldl_emplace (x : Nat) :
    ∀ (l acc : List Nat), x ∈ l.foldl emplace acc ↔ x ∈ acc ∨ x ∈ l := by
  intro l
  induction l with
  | nil => intro acc; simp
  | cons y l ih =>
    intro acc
    rw [List.foldl_cons, ih, mem_emplace, List.mem_cons]
    constructor
    · rintro ((h | h) | h)
      · exact Or.inl h
      · exact Or.inr (Or.inl h)
      · exact Or.inr (Or.inr h)
    · rintro (h | h | h)
      · exact Or.inl (Or.inl h)
      · exact Or.inl (Or.inr h)
      · exact Or.inr h

theorem RemoveBubbles.pair_in_found (g : Graph) (intersection : List Nat) (x p : Nat)
    (n : Node) (hn : g.node x = some n) (hp : n.pair = some p) (hi : p ∈ intersection) :
    ∀ (l : List Nat), x ∈ l → (∀ y ∈ l, (g.node y).isSome = true) →
      RemoveBubbles.pair_in g intersection l = some true := by
  intro l
  induction l with
  | nil => intro hx; exact absurd hx (List.not_mem_nil x)
  | cons y l ih =>
    intro hx hl
    obtain ⟨m, hm⟩ := Option.isSome_iff_exists.mp (hl y (List.mem_cons_self _ _))
    simp only [RemoveBubbles.pair_in, hm, Option.some_bind]
    split_ifs with hc
    · rfl
    · rcases List.mem_cons.mp hx with rfl | hx
      · rw [hn] at hm
        cases hm
        rw [hp] at hc
        simp only [decide_eq_true_eq] at hc
        exact absurd hi hc
      · exact ih hx (fun z hz => hl z (List.mem_cons_of_mem _ hz))

/-- C19 (as the code has it): `bubble_type` returns false for every pair of
paths in which some node `x` of `lhs` has its pair in `lhs` or in `rhs`
(every node of `lhs` being a node of the graph), whatever the minimizer
engine returns; the nodes of `rhs` are not tested. -/
theorem bubble_type_pair_of_lhs (map : List Char → List Char → List Overlap) (g : Graph)
    (lhs rhs : List Nat) (x p : Nat) (n : Node)
    (hl : ∀ y ∈ lhs, (g.node y).isSome = true) (hx : x ∈ lhs)
    (hn : g.node x = some n) (hp : n.pair = some p) (hm : p ∈ lhs ∨ p ∈ rhs) :
    RemoveBubbles.bubble_type map g lhs rhs = some false := by
  have hi : p ∈ rhs.foldl emplace (lhs.foldl emplace []) := by
    rw [mem_foldl_emplace, mem_foldl_emplace]
    rcases hm with hm | hm
    · exact Or.inl (Or.inr hm)
    · exact Or.inr hm
  unfold RemoveBubbles.bubble_type
  by_cases h1 : lhs = [] ∨ rhs = []
  · rw [if_pos h1]
  · rw [if_neg h1]
    simp only [RemoveBubbles.pair_in_found g _ x p n hn hp hi lhs hx hl, Option.some_bind,
      if_true, ite_self]

/-- In the example graph the path `[0, 4, 6, 5, 8]` taken as `lhs` holds the
node 4 and its pair 5, and is rejected although the two paths spell the same
sequence. -/
theorem bubble_type_pair_of_lhs_witness :
    RemoveBubbles.bubble_type ex_engine ex_hairpin [0, 4, 6, 5, 8] [0, 2, 8] = some false :=
  bubble_type_pair_of_lhs ex_engine ex_hairpin [0, 4, 6, 5, 8] [0, 2, 8] 4 5
    ⟨4, ex_bases 120 2, 1, false, false, [], [4, 11], [6, 9], some 5⟩
    (by decide) (by decide) (by decide) rfl (by decide)

set_option maxRecDepth 1000000 in
theorem RemoveBubbles.bubble_type_hairpin (map : List Char → List Char → List Overlap) :
    RemoveBubbles.bubble_type map ex_hairpin [0, 2, 8] [0, 4, 6, 5, 8] =
      (RemoveBubbles.path_sequence ex_hairpin [0, 2, 8]).map fun s =>
        decide (520 < 2 * (map s s).foldl (fun m o => max m o.score) 0) := by
  have e1 : RemoveBubbles.pair_in ex_hairpin
      ([0, 4, 6, 5, 8].foldl emplace ([0, 2, 8].foldl emplace [])) [0, 2, 8] = some false := by
    decide
  have e2 : RemoveBubbles.path_type ex_hairpin [0, 2, 8] = some true := by decide
  have e3 : RemoveBubbles.path_type ex_hairpin [0, 4, 6, 5, 8] = some false := by decide
  have e4 : [0, 2, 8].length + [0, 4, 6, 5, 8].length - 2 =
      ([0, 4, 6, 5, 8].foldl emplace ([0, 2, 8].foldl emplace [])).length := by decide
  have e5 : RemoveBubbles.path_sequence ex_hairpin [0, 4, 6, 5, 8] =
      RemoveBubbles.path_sequence ex_hairpin [0, 2, 8] := by decide
  have e6 : (RemoveBubbles.path_sequence ex_hairpin [0, 2, 8]).map List.length = some 520 := by
    decide
  obtain ⟨s, hs⟩ : ∃ s, RemoveBubbles.path_sequence ex_hairpin [0, 2, 8] = some s := by
    cases h : RemoveBubbles.path_sequence ex_hairpin [0, 2, 8] with
    | none => rw [h] at e6; cases e6
    | some s => exact ⟨s, rfl⟩
  have hl : s.length = 520 := by
    rw [hs] at e6
    exact Option.some.inj e6
  unfold RemoveBubbles.bubble_type
  rw [if_neg (by decide)]
  simp only [e1, e2, e3, e5, hs, Option.some_bind, Option.map_some', hl]
  rw [if_neg (fun h => h e4)]
  simp

set_option maxRecDepth 1000000 in
/-- C19 (as stated) fails: in the well-formed graph `ex_hairpin` the path
`rhs = [0, 4, 6, 5, 8]` holds the node 4 and its pair 5, both paths are
duplicate-free with the same first and last node, and no node of
`lhs = [0, 2, 8]` has its pair on either path.  The node 4 is a junction, so
the two path sequences are compared: they are the same 520 bases, the test
of the lengths passes, and for every engine `bubble_type` returns the verdict
`matches > 260` on the overlaps that the engine finds between this sequence
and itself; it returns true for the engine of the example, which maps the
sequence onto itself in full. -/
theorem bubble_type_pair_in_rhs :
    ex_hairpin.wf_bounded ∧
    (ex_hairpin.node 4).bind (fun n => n.pair) = some 5 ∧
    [0, 2, 8].Nodup ∧ [0, 4, 6, 5, 8].Nodup ∧
    RemoveBubbles.path_sequence ex_hairpin [0, 2, 8] =
      RemoveBubbles.path_sequence ex_hairpin [0, 4, 6, 5, 8] ∧
    (RemoveBubbles.path_sequence ex_hairpin [0, 2, 8]).map List.length = some 520 ∧
    (∀ map : List Char → List Char → List Overlap,
      RemoveBubbles.bubble_type map ex_hairpin [0, 2, 8] [0, 4, 6, 5, 8] =
        (RemoveBubbles.path_sequence ex_hairpin [0, 2, 8]).map fun s =>
          decide (520 < 2 * (map s s).foldl (fun m o => max m o.score) 0)) ∧
    RemoveBubbles.bubble_type ex_engine ex_hairpin [0, 2, 8] [0, 4, 6, 5, 8] = some true :=
  ⟨by decide, by decide, by decide, by decide, by decide, by decide,
    RemoveBubbles.bubble_type_hairpin, by decide⟩

theorem FindRemovableEdges.find_edge_spec (g : Graph) (head : Nat) :
    ∀ (l : List Nat) (j : Nat), FindRemovableEdges.find_edge g head l = some (some j) →
      j ∈ l ∧ ∃ e, g.edge j = some e ∧ e.head = head := by
  intro l
  induction l with
  | nil => intro j h; simp [FindRemovableEdges.find_edge] at h
  | cons x l ih =>
    intro j h
    simp only [FindRemovableEdges.find_edge, Option.bind_eq_some] at h
    obtain ⟨e, he, h⟩ := h
    split_ifs at h with hh
    · simp only [Option.some.injEq] at h
      subst h
      exact ⟨List.mem_cons_self _ _, e, he, hh⟩
    · obtain ⟨h1, h2⟩ := ih j h
      exact ⟨List.mem_cons_of_mem _ h1, h2⟩

theorem Graph.Label_of_links {g : Graph} {p : Nat} {x : Node × Edge}
    (hn : g.node p = some x.1) (ht : x.2.tail = p) : g.Label x.2 = some (chain_label x) := by
  unfold Graph.Label
  rw [ht, hn]
  rfl

theorem Node.of_chain.walk_links (g : Graph) (end_ : Nat) :
    ∀ (l : List (Node × Edge)) (p : Nat) (data : List Char) (count fuel : Nat),
      g.links end_ p l → l.length ≤ fuel →
      Node.of_chain.walk g end_ fuel p data count =
        some (data ++ (l.map chain_label).flatten, (count + (l.map fun x => x.1.count).sum) % u32) := by
  intro l
  induction l with
  | nil => intro p data count fuel h; exact absurd h (by simp [Graph.links])
  | cons x l ih =>
    intro p data count fuel h hf
    obtain ⟨hn, he, ht, hrest⟩ := h
    cases fuel with
    | zero => simp at hf
    | succ fuel =>
      obtain ⟨j, hj, hej⟩ := Option.bind_eq_some.mp he
      have hlab := Graph.Label_of_links hn ht
      by_cases hl : l = []
      · subst hl
        rw [if_pos rfl] at hrest
        simp [Node.of_chain.walk, hn, hj, hej, hlab, hrest, add32]
      · rw [if_neg hl] at hrest
        have hlen : l.length ≤ fuel := by
          simp only [List.length_cons] at hf
          omega
        have := ih x.2.head (data ++ chain_label x) (add32 count x.1.count) fuel hrest.2 hlen
        simp only [Node.of_chain.walk, hn, hj, hej, hlab, Option.bind_eq_bind, Option.some_bind,
          Option.pure_def, if_neg hrest.1]
        rw [this]
        simp only [List.map_cons, List.flatten_cons, List.sum_cons, List.append_assoc, add32,
          Nat.mod_add_mod, Nat.add_assoc]

theorem chain_label_length (l : List (Node × Edge))
    (h : ∀ x ∈ l, x.2.length ≤ x.1.data.length) :
    (l.map chain_label).flatten.length = (l.map fun x => x.2.length).sum := by
  induction l with
  | nil => rfl
  | cons x l ih =>
    have hx := h x (List.mem_cons_self _ _)
    simp only [List.map_cons, List.flatten_cons, List.length_append, List.sum_cons,
      ih (fun y hy => h y (List.mem_cons_of_mem _ hy)), chain_label, List.length_take]
    omega

/-- C14: for a non-circular chain `n_0 → ... → n_k` (`l` holds `n_0 .. n_(k-1)`
with their first out-edges `e_0 .. e_(k-1)`, and `m` is `n_k`), the
constructor `Node(begin, end)` returns, with fuel for the `k` rounds of its
loop, a node whose data is `label(e_0) ++ ... ++ label(e_(k-1)) ++ n_k.data`
and whose count is the sum of the counts of `n_0 .. n_k` (in 32 bits); when
every edge length is at most the data length of its tail, the data length is
the sum of the edge lengths plus the data length of `n_k`. -/
theorem Node_of_chain_data (g : Graph) (fuel begin_ end_ : Nat) (l : List (Node × Edge))
    (m : Node) (hl : g.links end_ begin_ l) (hne : begin_ ≠ end_)
    (hm : g.node end_ = some m) (hf : l.length ≤ fuel) :
    ∃ g' u unitig, g.new_unitig fuel begin_ end_ = some (g', u) ∧
      g'.node u = some unitig ∧
      unitig.data = (l.map chain_label).flatten ++ m.data ∧
      unitig.count = ((l.map fun x => x.1.count).sum + m.count) % u32 ∧
      ((∀ x ∈ l, x.2.length ≤ x.1.data.length) →
        unitig.data.length = (l.map fun x => x.2.length).sum + m.data.length) := by
  have hw := Node.of_chain.walk_links g end_ l begin_ [] 0 fuel hl hf
  have hnew : g.new_unitig fuel begin_ end_ = some
      ( { g with
          nodes_ := g.nodes_ ++ [some
            { id := g.node_num_objects, data := (l.map chain_label).flatten ++ m.data,
              count := ((l.map fun x => x.1.count).sum + m.count) % u32,
              is_circular := decide (begin_ = end_), is_polished := false,
              transitive := [], inedges := [], outedges := [], pair := none }]
          node_num_objects := g.node_num_objects + 1 },
        g.nodes_.length ) := by
    unfold Graph.new_unitig
    rw [hw]
    simp only [Option.some_bind, Node.of_chain.close, if_pos hne, hm, add32, List.nil_append,
      Nat.zero_add, Nat.mod_add_mod]
  refine ⟨_, _,
    { id := g.node_num_objects, data := (l.map chain_label).flatten ++ m.data,
      count := ((l.map fun x => x.1.count).sum + m.count) % u32,
      is_circular := decide (begin_ = end_), is_polished := false,
      transitive := [], inedges := [], outedges := [], pair := none },
    hnew, ?_, rfl, rfl, ?_⟩
  · simp [Graph.node]
  · intro h
    simp only [List.length_append, chain_label_length l h]

/-- The chain `0 → 2 → 4` of the example graph gives a unitig of 22 bases
with count 3. -/
theorem Node_of_chain_data_witness :
    ∃ g' u unitig, ex_graph.new_unitig 2 0 4 = some (g', u) ∧
      g'.node u = some unitig ∧
      unitig.data = "AAAAAACCCCGGGGGGTTTTTT".toList ∧
      unitig.count = 3 ∧
      unitig.data.length = 22 := by
  obtain ⟨g', u, unitig, h1, h2, h3, h4, h5⟩ := Node_of_chain_data ex_graph 2 0 4
    [(⟨0, "AAAAAACCCC".toList, 1, false, false, [], [], [0], some 1⟩, ⟨0, 6, 0, 2, some 1⟩),
     (⟨2, "CCCCGGGGGG".toList, 1, false, false, [], [0], [2], some 3⟩, ⟨2, 6, 2, 4, some 3⟩)]
    ⟨4, "GGGGTTTTTT".toList, 1, false, false, [], [2], [], some 5⟩
    (by simp [Graph.links, ex_graph, Graph.node, Graph.edge]) (by decide) (by decide)
    (by decide)
  exact ⟨g', u, unitig, h1, h2, h3, h4, h5 (by decide)⟩

/-! ## The `transitive` set of a unitig -/

theorem Graph.links_set_node (g : Graph) (end_ u : Nat) (n : Node) (hu : u < g.nodes_.length) :
    ∀ (l : List (Node × Edge)) (p : Nat), (∀ x ∈ l, x.2.tail ≠ u) →
      g.links end_ p l → (g.set_node u n).links end_ p l := by
  intro l
  induction l with
  | nil => intro p _ h; exact h
  | cons x l ih =>
    intro p hne h
    obtain ⟨hn, he, ht, hrest⟩ := h
    have hpu : p ≠ u := ht ▸ hne x (List.mem_cons_self _ _)
    refine ⟨?_, he, ht, ?_⟩
    · rw [Graph.node_set_node g u p n hu, if_neg hpu]
      exact hn
    · by_cases hl : l = []
      · rw [if_pos hl] at hrest ⊢
        exact hrest
      · rw [if_neg hl] at hrest ⊢
        exact ⟨hrest.1, ih _ (fun y hy => hne y (List.mem_cons_of_mem _ hy)) hrest.2⟩

/-- The loop over the chain `begin .. end` that ends the body of
`CreateUnitigs` returns, with fuel for its rounds, and leaves in
the `transitive` set of the unitig `u` what it held before together with the
`transitive` sets of the nodes `nodes_[n.id & ~1]` for the nodes `n` of the
chain before `end` (the list `l`); the set of `end` is not read. -/
theorem mark_chain_transitive (size end_ u : Nat) :
    ∀ (l : List (Node × Edge)) (g : Graph) (fuel begin_ : Nat)
      (marked_edges node_updates : List Nat) (unitig : Node),
      g.links end_ begin_ l → l.length ≤ fuel → g.node u = some unitig → size ≤ u →
      (∀ x ∈ l, x.2.tail ≠ u) → (∀ x ∈ l, (g.edge_pair x.2).isSome = true) →
      (∀ x ∈ l, x.1.id / 2 * 2 < size ∧ x.1.id / 2 * 2 < node_updates.length ∧
        (g.node (x.1.id / 2 * 2)).isSome = true) →
      ∃ g' marked_edges' node_updates' unitig',
        CreateUnitigs.mark_chain size end_ u fuel begin_ g marked_edges node_updates =
          some (g', marked_edges', node_updates') ∧
        g'.node u = some unitig' ∧
        ∀ t, t ∈ unitig'.transitive ↔ t ∈ unitig.transitive ∨
          ∃ x ∈ l, ∃ n, g.node (x.1.id / 2 * 2) = some n ∧ t ∈ n.transitive := by
  intro l
  induction l with
  | nil => intro g fuel p _ _ _ h; exact absurd h (by simp [Graph.links])
  | cons x l ih =>
    intro g fuel p marked nu un h hf hu hsu hne hp ht
    obtain ⟨hn, he, htl, hrest⟩ := h
    cases fuel with
    | zero => simp at hf
    | succ fuel =>
      have hul := Graph.node_lt hu
      have hpu : p ≠ u := htl ▸ hne x (List.mem_cons_self _ _)
      have hfo : g.front_out p = some x.2 := by
        unfold Graph.front_out
        rw [hn]
        exact he
      obtain ⟨f, hf'⟩ := Option.isSome_iff_exists.mp (hp x (List.mem_cons_self _ _))
      obtain ⟨hk1, hk2, hk3⟩ := ht x (List.mem_cons_self _ _)
      obtain ⟨n, hk3⟩ := Option.isSome_iff_exists.mp hk3
      have hg : CreateUnitigs.gather size u p g nu = some
          (g.set_node u { un with transitive := n.transitive.foldl emplace un.transitive },
            nu.set (x.1.id / 2 * 2) un.id) := by
        unfold CreateUnitigs.gather
        simp only [hn, hu, Option.some_bind, set_checked, if_pos hk2, if_pos hk1, hk3]
      have hfo1 : (g.set_node u
          { un with transitive := n.transitive.foldl emplace un.transitive }).front_out p =
          some x.2 := by
        unfold Graph.front_out
        rw [Graph.node_set_node g u p _ hul, if_neg hpu, hn]
        exact he
      have hu1 : (g.set_node u
          { un with transitive := n.transitive.foldl emplace un.transitive }).node u =
          some { un with transitive := n.transitive.foldl emplace un.transitive } := by
        rw [Graph.node_set_node g u u _ hul, if_pos rfl]
      by_cases hl : l = []
      · subst hl
        rw [if_pos rfl] at hrest
        refine ⟨_, emplace (emplace marked x.2.id) f.id, nu.set (x.1.id / 2 * 2) un.id, _,
          ?_, hu1, ?_⟩
        · simp only [CreateUnitigs.mark_chain, hfo, hf', hg, hfo1, Option.some_bind,
            if_pos hrest]
        · intro t
          rw [mem_foldl_emplace]
          constructor
          · rintro (h | h)
            · exact Or.inl h
            · exact Or.inr ⟨x, List.mem_cons_self _ _, n, hk3, h⟩
          · rintro (h | ⟨y, hy, m, hm, h⟩)
            · exact Or.inl h
            · rw [List.mem_singleton] at hy
              subst hy
              rw [hk3] at hm
              cases hm
              exact Or.inr h
      · rw [if_neg hl] at hrest
        have hlen : l.length ≤ fuel := by
          simp only [List.length_cons] at hf
          omega
        have hnode : ∀ k, k < size → (g.set_node u
            { un with transitive := n.transitive.foldl emplace un.transitive }).node k =
            g.node k := by
          intro k hk
          rw [Graph.node_set_node g u k _ hul, if_neg (by omega)]
        obtain ⟨g', m', nu', un', hmc, hu', hmem⟩ := ih
          (g.set_node u { un with transitive := n.transitive.foldl emplace un.transitive })
          fuel x.2.head (emplace (emplace marked x.2.id) f.id)
          (nu.set (x.1.id / 2 * 2) un.id)
          { un with transitive := n.transitive.foldl emplace un.transitive }
          (Graph.links_set_node g end_ u _ hul l _
            (fun y hy => hne y (List.mem_cons_of_mem _ hy)) hrest.2)
          hlen hu1 hsu (fun y hy => hne y (List.mem_cons_of_mem _ hy))
          (fun y hy => hp y (List.mem_cons_of_mem _ hy))
          (fun y hy => by
            obtain ⟨a, b, c⟩ := ht y (List.mem_cons_of_mem _ hy)
            refine ⟨a, ?_, ?_⟩
            · rw [List.length_set]
              exact b
            · rw [hnode _ a]
              exact c)
        refine ⟨g', m', nu', un', ?_, hu', ?_⟩
        · simp only [CreateUnitigs.mark_chain, hfo, hf', hg, hfo1, Option.some_bind,
            if_neg hrest.1]
          exact hmc
        · intro t
          rw [hmem t, mem_foldl_emplace]
          constructor
          · rintro ((h | h) | ⟨y, hy, m, hm, h⟩)
            · exact Or.inl h
            · exact Or.inr ⟨x, List.mem_cons_self _ _, n, hk3, h⟩
            · rw [hnode _ (ht y (List.mem_cons_of_mem _ hy)).1] at hm
              exact Or.inr ⟨y, List.mem_cons_of_mem _ hy, m, hm, h⟩
          · rintro (h | ⟨y, hy, m, hm, h⟩)
            · exact Or.inl (Or.inl h)
            · rcases List.mem_cons.mp hy with rfl | hy
              · rw [hk3] at hm
                cases hm
                exact Or.inl (Or.inr h)
              · refine Or.inr ⟨y, hy, m, ?_, h⟩
                rw [hnode _ (ht y (List.mem_cons_of_mem _ hy)).1]
                exact hm

/-- The chain `0 → 2 → 4` of `ex_transitive` with the unitig in slot 8: the
loop returns and leaves the unitig in its slot. -/
theorem mark_chain_transitive_witness :
    ∃ g' marked_edges' node_updates' unitig',
      CreateUnitigs.mark_chain 8 4 8 2 0 ex_transitive_unitig [] (List.replicate 8 0) =
        some (g', marked_edges', node_updates') ∧
      g'.node 8 = some unitig' ∧
      ∀ t, t ∈ unitig'.transitive ↔ t ∈ ([] : List Nat) ∨
        ∃ x ∈ [((⟨0, "AAAAAACCCC".toList, 1, false, false, [], [], [0], some 1⟩ : Node),
                  (⟨0, 6, 0, 2, some 1⟩ : Edge)),
               (⟨2, "CCCCGGGGGG".toList, 1, false, false, [], [0], [2], some 3⟩,
                  ⟨2, 6, 2, 4, some 3⟩)],
          ∃ n, ex_transitive_unitig.node (x.1.id / 2 * 2) = some n ∧ t ∈ n.transitive :=
  mark_chain_transitive 8 4 8
    [(⟨0, "AAAAAACCCC".toList, 1, false, false, [], [], [0], some 1⟩, ⟨0, 6, 0, 2, some 1⟩),
     (⟨2, "CCCCGGGGGG".toList, 1, false, false, [], [0], [2], some 3⟩, ⟨2, 6, 2, 4, some 3⟩)]
    ex_transitive_unitig 2 0 [] (List.replicate 8 0)
    ⟨8, "AAAAAACCCCGGGGGGTTTTTT".toList, 3, false, false, [], [], [], some 9⟩
    (by simp [Graph.links, ex_transitive_unitig, Graph.node, Graph.edge]) (by decide)
    (by decide) (by decide) (by decide) (by decide) (by decide)

/-- C13 fails in the code: in `ex_transitive` the chain `0 → 2 → 4` is merged
into the unitig 8, the `transitive` set of the terminal node 4 holds 6, and
the `transitive` set of the unitig is empty after `CreateUnitigs`: the loop
over the chain stops before its body runs for `end`.  For the same reason
`node_updates` has no entry for the node 4, and the `transitive` set of the
node 6 still holds the id 4 of the removed node instead of the id 8 of the
unitig. -/
theorem CreateUnitigs_transitive_without_end :
    ex_transitive.wf_bounded ∧
    (ex_transitive.node 4).map (fun n => n.transitive) = some [6] ∧
    (CreateUnitigs 3 ex_transitive 0).map (fun r => (r.1.nodes_, r.2)) =
      some ([none, none, none, none, none, none,
          some ⟨6, "TTTTTTAAAA".toList, 1, false, false, [4], [], [], some 7⟩,
          some ⟨7, "TTTTAAAAAA".toList, 1, false, false, [], [], [], some 6⟩,
          some ⟨8, "AAAAAACCCCGGGGGGTTTTTT".toList, 3, false, false, [], [], [], some 9⟩,
          some ⟨9, "AAAAACCCCCCGGGGTTTTTT".toList, 3, false, false, [], [], [], some 8⟩],
        1) := by
  decide

theorem head?_append_of_ne_nil {α : Type} {l : List α} (r : List α) (h : l ≠ []) :
    (l ++ r).head? = l.head? := by
  cases l with
  | nil => exact absurd rfl h
  | cons x l => rfl

theorem head?_mem {α : Type} {l : List α} {x : α} (h : l.head? = some x) : x ∈ l := by
  cases l with
  | nil => simp at h
  | cons y l =>
    simp only [List.head?_cons, Option.some.injEq] at h
    subst h
    exact List.mem_cons_self _ _

theorem Graph.front_in_eq_some {g : Graph} {p : Nat} {e : Edge} :
    g.front_in p = some e ↔
      ∃ n j, g.node p = some n ∧ n.inedges.head? = some j ∧ g.edge j = some e := by
  unfold Graph.front_in
  simp only [Option.bind_eq_some]
  constructor
  · rintro ⟨n, hn, j, hj, he⟩
    exact ⟨n, j, hn, hj, he⟩
  · rintro ⟨n, j, hn, hj, he⟩
    exact ⟨n, hn, j, hj, he⟩

theorem Graph.front_out_eq_some {g : Graph} {p : Nat} {e : Edge} :
    g.front_out p = some e ↔
      ∃ n j, g.node p = some n ∧ n.outedges.head? = some j ∧ g.edge j = some e := by
  unfold Graph.front_out
  simp only [Option.bind_eq_some]
  constructor
  · rintro ⟨n, hn, j, hj, he⟩
    exact ⟨n, j, hn, hj, he⟩
  · rintro ⟨n, j, hn, hj, he⟩
    exact ⟨n, hn, j, hj, he⟩

theorem Graph.edge_pair_eq_some {g : Graph} {e f : Edge} :
    g.edge_pair e = some f ↔ ∃ q, e.pair = some q ∧ g.edge q = some f := by
  unfold Graph.edge_pair
  simp only [Option.bind_eq_some]

theorem Graph.node_pair_eq_some {g : Graph} {n m : Node} :
    g.node_pair n = some m ↔ ∃ p, n.pair = some p ∧ g.node p = some m := by
  unfold Graph.node_pair
  simp only [Option.bind_eq_some]

theorem Graph.wf.front_in {g : Graph} (hg : g.wf) {p : Nat} {n : Node}
    (hn : g.node p = some n) (hi : n.indegree ≠ 0) :
    ∃ j front q fp t bp bpn m, n.inedges.head? = some j ∧ g.edge j = some front ∧
      g.front_in p = some front ∧ front.head = p ∧ front.pair = some q ∧
      g.edge q = some fp ∧ g.edge_pair front = some fp ∧
      g.node front.tail = some t ∧ n.pair = some bp ∧ g.node bp = some bpn ∧ fp.tail = bp ∧
      g.node fp.head = some m ∧ t.pair = some fp.head ∧ fp.pair = some j := by
  cases hin : n.inedges with
  | nil => exact absurd (by simp [Node.indegree, hin]) hi
  | cons j rest =>
    have hj : j ∈ n.inedges := by rw [hin]; exact List.mem_cons_self _ _
    obtain ⟨front, hfront, hhead⟩ := (hg.adj p n hn).2 j hj
    obtain ⟨-, t, h, q, fp, a1, a2, -, -, a5, a6, a7, a8, a9⟩ := hg.edges j front hfront
    rw [hhead, hn] at a2
    cases a2
    obtain ⟨-, bp, bpn, hbp, hbpn, -⟩ := hg.nodes p n hn
    obtain ⟨-, tp, tpn, htp, htpn, -⟩ := hg.nodes _ t a1
    rw [hbp] at a8
    cases a8
    rw [htp] at a9
    cases a9
    refine ⟨j, front, q, fp, t, _, bpn, tpn, rfl, hfront, ?_, hhead, a5, a6, ?_, a1, hbp, hbpn,
      rfl, htpn, htp, a7⟩
    · exact Graph.front_in_eq_some.mpr ⟨n, j, hn, by rw [hin]; rfl, hfront⟩
    · exact Graph.edge_pair_eq_some.mpr ⟨q, a5, a6⟩

theorem Graph.wf.front_out {g : Graph} (hg : g.wf) {p : Nat} {n : Node}
    (hn : g.node p = some n) (hi : n.outdegree ≠ 0) :
    ∃ j front q fp h ep epn m, n.outedges.head? = some j ∧ g.edge j = some front ∧
      g.front_out p = some front ∧ front.tail = p ∧ front.pair = some q ∧
      g.edge q = some fp ∧ g.edge_pair front = some fp ∧
      g.node front.head = some h ∧ n.pair = some ep ∧ g.node ep = some epn ∧ fp.head = ep ∧
      g.node fp.tail = some m ∧ h.pair = some fp.tail ∧ fp.pair = some j := by
  cases hout : n.outedges with
  | nil => exact absurd (by simp [Node.outdegree, hout]) hi
  | cons j rest =>
    have hj : j ∈ n.outedges := by rw [hout]; exact List.mem_cons_self _ _
    obtain ⟨front, hfront, htail⟩ := (hg.adj p n hn).1 j hj
    obtain ⟨-, t, h, q, fp, a1, a2, -, -, a5, a6, a7, a8, a9⟩ := hg.edges j front hfront
    rw [htail, hn] at a1
    cases a1
    obtain ⟨-, ep, epn, hep, hepn, -⟩ := hg.nodes p n hn
    obtain ⟨-, hp, hpn, hhp, hhpn, -⟩ := hg.nodes _ h a2
    rw [hep] at a9
    cases a9
    rw [hhp] at a8
    cases a8
    refine ⟨j, front, q, fp, h, _, epn, hpn, rfl, hfront, ?_, htail, a5, a6, ?_, a2, hep, hepn,
      rfl, hhpn, hhp, a7⟩
    · exact Graph.front_out_eq_some.mpr ⟨n, j, hn, by rw [hout]; rfl, hfront⟩
    · exact Graph.edge_pair_eq_some.mpr ⟨q, a5, a6⟩

theorem CreateUnitigs.connect_in_spec (g : Graph) (marked : List Nat) (begin_ u : Nat)
    (b un : Node) (hg : g.wf) (hb : g.node begin_ = some b) (hu : g.node u = some un)
    (hi : b.indegree ≠ 0) :
    ∃ front fp up upn bp bpn g',
      g.front_in begin_ = some front ∧ g.edge_pair front = some fp ∧
      un.pair = some up ∧ g.node up = some upn ∧ b.pair = some bp ∧ g.node bp = some bpn ∧
      fp.tail = bp ∧ front.head = begin_ ∧
      (∃ t, g.node front.tail = some t ∧ t.pair = some fp.head) ∧
      (∃ j q, g.edge j = some front ∧ g.edge q = some fp ∧ front.pair = some q ∧
        fp.pair = some j) ∧
      CreateUnitigs.connect_in g marked begin_ u =
        some (g', emplace (emplace marked front.id) fp.id) ∧
      g.with_edge_pair g' front.tail u up fp.head front.length
        (unitig_edge_length fp.length upn.data.length bpn.data.length) := by
  obtain ⟨j, front, q, fp, t, bp, bpn, m, hj, hej, hfront, hhead, hq, hfq, hfp, ht, hbp, hbpn,
    hfpt, hm, htp, hfpj⟩ := hg.front_in hb hi
  obtain ⟨-, up, upn, hup, hupn, -⟩ := hg.nodes u un hu
  obtain ⟨g₁, g₂, g₃, h1, hE1, hN1, hO1, h2, h3, hs⟩ := Graph.edge_pair_spec g front.tail u up
    fp.head front.length (unitig_edge_length fp.length upn.data.length bpn.data.length)
    ⟨t, ht⟩ ⟨un, hu⟩ ⟨upn, hupn⟩ ⟨m, hm⟩
  refine ⟨front, fp, up, upn, bp, bpn, g₃, hfront, hfp, hup, hupn, hbp, hbpn, hfpt, hhead,
    ⟨t, ht, htp⟩, ⟨j, q, hej, hfq, hq, hfpj⟩, ?_, hs⟩
  have hjl := Graph.edge_lt hej
  have hql := Graph.edge_lt hfq
  have hne : b.inedges ≠ [] := by
    intro h
    rw [h] at hj
    simp at hj
  have hfront₁ : g₁.front_in begin_ = some front := by
    refine Graph.front_in_eq_some.mpr ⟨_, j, by rw [hN1, hb]; rfl, ?_, by rw [hO1 j hjl]; exact hej⟩
    simp only [Node.push]
    rw [head?_append_of_ne_nil _ hne]
    exact hj
  have hfp₁ : g₁.edge_pair front = some fp :=
    Graph.edge_pair_eq_some.mpr ⟨q, hq, by rw [hO1 q hql]; exact hfq⟩
  have htwin : CreateUnitigs.connect_in_twin g₁ g.edges_.length begin_ u = some g₃ := by
    unfold CreateUnitigs.connect_in_twin
    simp only [hN1, hu, hb, Option.map_some', Option.some_bind, Graph.node_pair, Node.push, hup,
      hupn, hbp, hbpn, hfront₁, hfp₁, h2, h3]
  unfold CreateUnitigs.connect_in
  simp only [hb, Option.some_bind, if_neg hi, hfront, hfp, h1, htwin]

theorem CreateUnitigs.connect_out_spec (g : Graph) (marked : List Nat) (end_ u : Nat)
    (b un : Node) (hg : g.wf) (hb : g.node end_ = some b) (hu : g.node u = some un)
    (hi : b.outdegree ≠ 0) :
    ∃ front fp up upn ep epn g',
      g.front_out end_ = some front ∧ g.edge_pair front = some fp ∧
      un.pair = some up ∧ g.node up = some upn ∧ b.pair = some ep ∧ g.node ep = some epn ∧
      fp.head = ep ∧ front.tail = end_ ∧
      (∃ h m, g.node front.head = some h ∧ h.pair = some fp.tail ∧ g.node fp.tail = some m) ∧
      (∃ j q, g.edge j = some front ∧ g.edge q = some fp ∧ front.pair = some q ∧
        fp.pair = some j) ∧
      CreateUnitigs.connect_out g marked end_ u =
        some (g', emplace (emplace marked front.id) fp.id) ∧
      g.with_edge_pair g' u front.head fp.tail up
        (unitig_edge_length front.length un.data.length b.data.length) fp.length := by
  obtain ⟨j, front, q, fp, h, ep, epn, m, hj, hej, hfront, htail, hq, hfq, hfp, hh, hep, hepn,
    hfph, hm, hhp, hfpj⟩ := hg.front_out hb hi
  obtain ⟨-, up, upn, hup, hupn, -⟩ := hg.nodes u un hu
  obtain ⟨g₁, g₂, g₃, h1, hE1, hN1, hO1, h2, h3, hs⟩ := Graph.edge_pair_spec g u front.head
    fp.tail up (unitig_edge_length front.length un.data.length b.data.length) fp.length
    ⟨un, hu⟩ ⟨h, hh⟩ ⟨m, hm⟩ ⟨upn, hupn⟩
  refine ⟨front, fp, up, upn, ep, epn, g₃, hfront, hfp, hup, hupn, hep, hepn, hfph, htail,
    ⟨h, m, hh, hhp, hm⟩, ⟨j, q, hej, hfq, hq, hfpj⟩, ?_, hs⟩
  have hjl := Graph.edge_lt hej
  have hql := Graph.edge_lt hfq
  have hne : b.outedges ≠ [] := by
    intro h
    rw [h] at hj
    simp at hj
  have hfront₁ : g₁.front_out end_ = some front := by
    refine Graph.front_out_eq_some.mpr ⟨_, j, by rw [hN1, hb]; rfl, ?_, by rw [hO1 j hjl]; exact hej⟩
    simp only [Node.push]
    rw [head?_append_of_ne_nil _ hne]
    exact hj
  have hfp₁ : g₁.edge_pair front = some fp :=
    Graph.edge_pair_eq_some.mpr ⟨q, hq, by rw [hO1 q hql]; exact hfq⟩
  have htwin : CreateUnitigs.connect_out_twin g₁ g.edges_.length end_ u = some g₃ := by
    unfold CreateUnitigs.connect_out_twin
    simp only [hN1, hu, Option.map_some', Option.some_bind, Node.push, hup, hfront₁, hfp₁, h2,
      h3]
  unfold CreateUnitigs.connect_out
  simp only [hb, Option.some_bind, if_neg hi, hfront, hfp, hu, h1, htwin]

theorem unitig_edge_length_exact {a b c : Nat} (h1 : a ≤ c) (h2 : c ≤ b) (h3 : b < u32) :
    unitig_edge_length a b c = a + b - c := by
  unfold unitig_edge_length
  simp only [u32, u64] at *
  have hc : c % 18446744073709551616 = c := Nat.mod_eq_of_lt (by omega)
  rw [hc]
  have : a + b + (18446744073709551616 - c) = (a + b - c) + 18446744073709551616 := by omega
  rw [this, Nat.add_mod_right, Nat.mod_eq_of_lt (by omega), Nat.mod_eq_of_lt (by omega)]

theorem Node.of_chain.walk_begin {g : Graph} {e fuel b : Nat} {d : List Char} {c : Nat}
    {r : List Char × Nat} (h : Node.of_chain.walk g e fuel b d c = some r) :
    ∃ n, g.node b = some n := by
  cases fuel with
  | zero => simp [Node.of_chain.walk] at h
  | succ fuel =>
    simp only [Node.of_chain.walk, Option.bind_eq_bind, Option.bind_eq_some] at h
    obtain ⟨n, hn, -⟩ := h
    exact ⟨n, hn⟩

theorem Graph.new_unitig_data {fuel : Nat} {g g₁ : Graph} {b e p : Nat} (hne : b ≠ e)
    (h : g.new_unitig fuel b e = some (g₁, p)) :
    ∃ (n nb a : Node) (d : List Char), g.node e = some n ∧ g.node b = some nb ∧
      a.data = d ++ n.data ∧ p = g.nodes_.length ∧
      g₁ = { g with nodes_ := g.nodes_ ++ [some a],
                    node_num_objects := g.node_num_objects + 1 } := by
  unfold Graph.new_unitig at h
  simp only [Option.bind_eq_some, Option.some.injEq, Prod.mk.injEq] at h
  obtain ⟨r, hw, r', hc, hg, hp⟩ := h
  obtain ⟨nb, hnb⟩ := Node.of_chain.walk_begin hw
  unfold Node.of_chain.close at hc
  rw [if_pos hne] at hc
  simp only [Option.bind_eq_some, Option.some.injEq] at hc
  obtain ⟨n, hn, rfl⟩ := hc
  exact ⟨n, nb, _, r.1, hn, hnb, rfl, hp.symm, hg.symm⟩

theorem Graph.node_append_old {g : Graph} {l : List (Option Node)} {c k : Nat}
    (hk : k < g.nodes_.length) :
    Graph.node { g with nodes_ := g.nodes_ ++ l, node_num_objects := c } k = g.node k := by
  unfold Graph.node
  simp only [List.getElem?_append_left hk]

theorem CreateUnitigs.new_unitig_pair_data {fuel : Nat} {g g' : Graph} {b e u : Nat}
    (hg : g.wf) (hne : b ≠ e) (h : CreateUnitigs.new_unitig_pair fuel g b e = some (g', u)) :
    ∃ bn en bp bpn un upn, g.node b = some bn ∧ g.node e = some en ∧ bn.pair = some bp ∧
      g.node bp = some bpn ∧ g'.node g.nodes_.length = some un ∧
      un.pair = some (g.nodes_.length + 1) ∧ g'.node (g.nodes_.length + 1) = some upn ∧
      en.data.length ≤ un.data.length ∧ bpn.data.length ≤ upn.data.length := by
  unfold CreateUnitigs.new_unitig_pair at h
  simp only [Option.bind_eq_some, Option.some.injEq, Prod.mk.injEq] at h
  obtain ⟨⟨g₁, p₁⟩, h1, en, hen, ep, hep, bn, hbn, bp, hbp, ⟨g₂, p₂⟩, h2, g₃, h3, rfl, rfl⟩ := h
  obtain ⟨n₁, nb₁, a₁, d₁, hn₁, hnb₁, hd₁, rfl, rfl⟩ := Graph.new_unitig_data hne h1
  simp only at hen hbn h2 h3
  rw [Graph.node_append_old (Graph.node_lt hn₁), hn₁] at hen
  cases hen
  rw [Graph.node_append_old (Graph.node_lt hnb₁), hnb₁] at hbn
  cases hbn
  obtain ⟨-, ep', epn, hep', hepn, hepp⟩ := hg.nodes e _ hn₁
  obtain ⟨-, bp', bpn, hbp', hbpn, hbpp⟩ := hg.nodes b _ hnb₁
  rw [hep] at hep'
  cases hep'
  rw [hbp] at hbp'
  cases hbp'
  have hpne : ep ≠ bp := by
    rintro rfl
    rw [hepn] at hbpn
    cases hbpn
    rw [hepp] at hbpp
    cases hbpp
    exact hne rfl
  obtain ⟨n₂, nb₂, a₂, d₂, hn₂, -, hd₂, rfl, rfl⟩ := Graph.new_unitig_data hpne h2
  rw [Graph.node_append_old (Graph.node_lt hbpn), hbpn] at hn₂
  cases hn₂
  simp only [List.length_append, List.length_singleton] at h3
  obtain ⟨g₄, h4, hn, -, -, -⟩ := Graph.link_fresh g a₁ a₂ (g.node_num_objects + 1 + 1)
  rw [h4] at h3
  cases h3
  refine ⟨_, _, bp, _, { a₁ with pair := some (g.nodes_.length + 1) },
    { a₂ with pair := some g.nodes_.length }, hnb₁, hn₁, hbp, hbpn, ?_, rfl, ?_, ?_, ?_⟩
  · rw [Graph.node_eq_some, hn]
    exact getElem?_append_at _ _ _
  · rw [Graph.node_eq_some, hn]
    exact getElem?_append_at_succ _ _ _ _
  · simp [hd₁]
  · simp [hd₂]

theorem Graph.with_edge_pair.overlap {g g₃ : Graph} {t h t₂ h₂ len len₂ : Nat}
    (hs : g.with_edge_pair g₃ t h t₂ h₂ len len₂) (e : Edge) :
    g₃.overlap_length e = g.overlap_length e := by
  unfold Graph.overlap_length
  rw [hs.nodes]
  cases g.node e.tail <;> rfl

theorem CreateUnitigs.connect_in_overlap (g : Graph) (marked : List Nat) (begin_ u : Nat)
    (b un : Node) (hg : g.wf) (hb : g.node begin_ = some b) (hu : g.node u = some un)
    (hi : b.indegree ≠ 0)
    (hd : ∀ bp bpn up upn f fp, b.pair = some bp → g.node bp = some bpn → un.pair = some up →
      g.node up = some upn → g.front_in begin_ = some f → g.edge_pair f = some fp →
      fp.length ≤ bpn.data.length ∧ bpn.data.length ≤ upn.data.length ∧
        upn.data.length < u32) :
    ∃ g' marked' front fp up len₂,
      CreateUnitigs.connect_in g marked begin_ u = some (g', marked') ∧ g'.wf ∧
      g.front_in begin_ = some front ∧ g.edge_pair front = some fp ∧ un.pair = some up ∧
      (∃ j q, g.edge j = some front ∧ g.edge q = some fp) ∧
      (∃ t m, g.node front.tail = some t ∧ g.node fp.tail = some m) ∧
      g.with_edge_pair g' front.tail u up fp.head front.length len₂ ∧
      ∀ j e, g.edges_.length ≤ j → g'.edge j = some e →
        ∃ old, ((old = front ∧ e.tail = old.tail ∧ e.head = u) ∨
            (old = fp ∧ e.tail = up ∧ e.head = old.head)) ∧
          (g'.overlap_length e).isSome = true ∧ g'.overlap_length e = g.overlap_length old := by
  obtain ⟨front, fp, up, upn, bp, bpn, g', hfront, hfp, hup, hupn, hbp, hbpn, hfpt, hhead,
    ⟨t, ht, htp⟩, ⟨j₀, q₀, hj₀, hq₀, -, -⟩, hc, hs⟩ :=
    CreateUnitigs.connect_in_spec g marked begin_ u b un hg hb hu hi
  obtain ⟨d1, d2, d3⟩ := hd bp bpn up upn front fp hbp hbpn hup hupn hfront hfp
  have hwf : g'.wf := Graph.wf_of_edge_pair hg hs t un ht hu hup htp
  refine ⟨g', _, front, fp, up, _, hc, hwf, hfront, hfp, hup, ⟨j₀, q₀, hj₀, hq₀⟩,
    ⟨t, bpn, ht, by rw [hfpt]; exact hbpn⟩, hs, ?_⟩
  intro j e hj he
  rcases hs.edge_cases he with ⟨hlt, -⟩ | ⟨-, rfl⟩ | ⟨-, rfl⟩
  · omega
  · refine ⟨front, Or.inl ⟨rfl, rfl, rfl⟩, ?_, ?_⟩
    · rw [hs.overlap]
      simp [Graph.overlap_length, ht]
    · rw [hs.overlap]
      rfl
  · refine ⟨fp, Or.inr ⟨rfl, rfl, rfl⟩, ?_, ?_⟩
    · rw [hs.overlap]
      simp [Graph.overlap_length, hupn]
    · rw [hs.overlap]
      simp only [Graph.overlap_length, hupn, hfpt, hbpn, Option.map_some', Option.some.injEq]
      rw [unitig_edge_length_exact d1 d2 d3]
      omega

theorem CreateUnitigs.connect_out_overlap (g : Graph) (marked : List Nat) (end_ u : Nat)
    (b un : Node) (hg : g.wf) (hb : g.node end_ = some b) (hu : g.node u = some un)
    (hi : b.outdegree ≠ 0)
    (hd : ∀ f, g.front_out end_ = some f →
      f.length ≤ b.data.length ∧ b.data.length ≤ un.data.length ∧ un.data.length < u32) :
    ∃ g' marked' front fp up len,
      CreateUnitigs.connect_out g marked end_ u = some (g', marked') ∧ g'.wf ∧
      g.front_out end_ = some front ∧ g.edge_pair front = some fp ∧ un.pair = some up ∧
      (∃ j q, g.edge j = some front ∧ g.edge q = some fp) ∧
      (∃ m, g.node fp.tail = some m) ∧
      g.with_edge_pair g' u front.head fp.tail up len fp.length ∧
      ∀ j e, g.edges_.length ≤ j → g'.edge j = some e →
        ∃ old, ((old = front ∧ e.tail = u ∧ e.head = old.head) ∨
            (old = fp ∧ e.tail = old.tail ∧ e.head = up)) ∧
          (g'.overlap_length e).isSome = true ∧ g'.overlap_length e = g.overlap_length old := by
  obtain ⟨front, fp, up, upn, ep, epn, g', hfront, hfp, hup, hupn, hep, hepn, hfph, htail,
    ⟨h, m, hh, hhp, hm⟩, ⟨j₀, q₀, hj₀, hq₀, -, -⟩, hc, hs⟩ :=
    CreateUnitigs.connect_out_spec g marked end_ u b un hg hb hu hi
  obtain ⟨d1, d2, d3⟩ := hd front hfront
  have hwf : g'.wf := Graph.wf_of_edge_pair hg hs un h hu hh hhp (by rw [hup])
  refine ⟨g', _, front, fp, up, _, hc, hwf, hfront, hfp, hup, ⟨j₀, q₀, hj₀, hq₀⟩, ⟨m, hm⟩, hs,
    ?_⟩
  intro j e hj he
  rcases hs.edge_cases he with ⟨hlt, -⟩ | ⟨-, rfl⟩ | ⟨-, rfl⟩
  · omega
  · refine ⟨front, Or.inl ⟨rfl, rfl, rfl⟩, ?_, ?_⟩
    · rw [hs.overlap]
      simp [Graph.overlap_length, hu]
    · rw [hs.overlap]
      simp only [Graph.overlap_length, hu, htail, hb, Option.map_some', Option.some.injEq]
      rw [unitig_edge_length_exact d1 d2 d3]
      omega
  · refine ⟨fp, Or.inr ⟨rfl, rfl, rfl⟩, ?_, ?_⟩
    · rw [hs.overlap]
      simp [Graph.overlap_length, hm]
    · rw [hs.overlap]
      rfl

/-! ## The edges of a unitig -/

/-- C16: on a well-formed graph in which every edge is at most as long as the
data of its tail, and for a chain `begin .. end` with `begin ≠ end` that no
edge from `end` to `begin` closes, the block "connect unitig to graph" returns,
and every edge it makes (the slots from `g.edges_.length` on) stands for the
first in-edge of `begin`, for the pair of that edge, for the first out-edge of
`end` or for the pair of that edge, with the end points moved to the unitig
`u` or to its twin `u + 1`, and has the overlap length `tail.data.size -
length` of that edge as an integer, so that no length has wrapped around;
the data of the nodes is taken to be shorter than `2^32`. -/
theorem CreateUnitigs_connect_overlap (fuel : Nat) (g g₁ : Graph) (marked_edges : List Nat)
    (begin_ end_ u : Nat) (hg : g.wf) (hne : begin_ ≠ end_)
    (hnew : CreateUnitigs.new_unitig_pair fuel g begin_ end_ = some (g₁, u))
    (hopen : ∀ f ∈ g.front_in begin_, f.tail ≠ end_)
    (hlen : ∀ x ∈ g.edges_, ∀ e ∈ x, ∀ t ∈ g.node e.tail, e.length ≤ t.data.length)
    (hsz : ∀ x ∈ g₁.nodes_, ∀ n ∈ x, n.data.length < u32) :
    ∃ g₂ marked_edges',
      CreateUnitigs.connect g₁ marked_edges begin_ end_ u = some (g₂, marked_edges') ∧
      ∀ j e, g.edges_.length ≤ j → g₂.edge j = some e →
        ∃ old,
          ((g.front_in begin_ = some old ∧ e.tail = old.tail ∧ e.head = u) ∨
           (∃ f, g.front_in begin_ = some f ∧ g.edge_pair f = some old ∧
              e.tail = u + 1 ∧ e.head = old.head) ∨
           (g.front_out end_ = some old ∧ e.tail = u ∧ e.head = old.head) ∨
           (∃ f, g.front_out end_ = some f ∧ g.edge_pair f = some old ∧
              e.tail = old.tail ∧ e.head = u + 1)) ∧
          (g₂.overlap_length e).isSome = true ∧
          g₂.overlap_length e = g.overlap_length old := by
  replace hopen : ∀ f, g.front_in begin_ = some f → f.tail ≠ end_ := fun f hf => hopen f hf
  replace hlen : ∀ j e t, g.edge j = some e → g.node e.tail = some t →
      e.length ≤ t.data.length :=
    fun j e t he ht =>
      hlen (some e) (List.getElem?_mem (Graph.edge_eq_some.mp he)) e rfl t ht
  replace hsz : ∀ k n, g₁.node k = some n → n.data.length < u32 :=
    fun k n hn => hsz (some n) (List.getElem?_mem (Graph.node_eq_some.mp hn)) n rfl
  obtain ⟨bn, en, bp, bpn, un, upn, hbn, hen, hbp, hbpn, hun, hunp, hupn, hsufe, hsufb⟩ :=
    CreateUnitigs.new_unitig_pair_data hg hne hnew
  obtain ⟨rfl, hs0⟩ := CreateUnitigs.new_unitig_pair_spec hg hnew
  have hg1 : g₁.wf := Graph.wf_of_node_pair hg hs0
  have hbn1 := hs0.node_mono hbn
  have hen1 := hs0.node_mono hen
  have hbpn1 := hs0.node_mono hbpn
  have hE : g₁.edge = g.edge := funext hs0.edge_eq
  have hEl : g₁.edges_.length = g.edges_.length := by rw [hs0.edges]
  have hfi : g₁.front_in begin_ = g.front_in begin_ := by
    unfold Graph.front_in
    rw [hbn1, hbn, hE]
  have hfo : g₁.front_out end_ = g.front_out end_ := by
    unfold Graph.front_out
    rw [hen1, hen, hE]
  have hep : ∀ f, g₁.edge_pair f = g.edge_pair f := by
    intro f
    unfold Graph.edge_pair
    rw [hE]
  have hov : ∀ (e : Edge) (t : Node), g.node e.tail = some t →
      g₁.overlap_length e = g.overlap_length e := by
    intro e t ht
    unfold Graph.overlap_length
    rw [hs0.node_mono ht, ht]
  -- the in-edge block
  have hin : ∃ g' m',
      CreateUnitigs.connect_in g₁ marked_edges begin_ g.nodes_.length = some (g', m') ∧
      g'.wf ∧ g.edges_.length ≤ g'.edges_.length ∧
      (∀ j, j < g.edges_.length → g'.edge j = g.edge j) ∧
      (∀ e, g'.overlap_length e = g₁.overlap_length e) ∧
      (∀ k n, g₁.node k = some n → ∃ o i, g'.node k = some (Node.push o i n) ∧
        (k = end_ → o = [])) ∧
      ∀ j e, g.edges_.length ≤ j → g'.edge j = some e →
        ∃ old,
          ((g.front_in begin_ = some old ∧ e.tail = old.tail ∧ e.head = g.nodes_.length) ∨
           (∃ f, g.front_in begin_ = some f ∧ g.edge_pair f = some old ∧
              e.tail = g.nodes_.length + 1 ∧ e.head = old.head)) ∧
          (g'.overlap_length e).isSome = true ∧
          g'.overlap_length e = g.overlap_length old := by
    by_cases hi : bn.indegree = 0
    · refine ⟨g₁, marked_edges, ?_, hg1, by rw [hEl], fun j _ => hs0.edge_eq j, fun _ => rfl,
        fun k n hk => ⟨[], [], by rw [Node.push_nil]; exact hk, fun _ => rfl⟩, ?_⟩
      · unfold CreateUnitigs.connect_in
        simp only [hbn1, Option.some_bind, if_pos hi]
      · intro j e hj he
        have := Graph.edge_lt he
        omega
    · obtain ⟨g', m', front, fp, up, len₂, hc, hwf, hfront, hfp, hup, ⟨j₀, q₀, hj₀, hq₀⟩,
        ⟨t, m, ht, hm⟩, hs, hall⟩ :=
        CreateUnitigs.connect_in_overlap g₁ marked_edges begin_ g.nodes_.length bn un hg1 hbn1
          hun hi (by
            intro bp' bpn' up' upn' f fp' h1 h2 h3 h4 h5 h6
            rw [hbp] at h1
            cases h1
            rw [hbpn1] at h2
            cases h2
            rw [hunp] at h3
            cases h3
            rw [hupn] at h4
            cases h4
            rw [hfi] at h5
            rw [hep] at h6
            obtain ⟨q, hq, hfq⟩ := Graph.edge_pair_eq_some.mp h6
            obtain ⟨nb, jf, hnb, hjf, hejf⟩ := Graph.front_in_eq_some.mp h5
            rw [hbn] at hnb
            cases hnb
            obtain ⟨fh, hfh, hhd⟩ := (hg.adj _ _ hbn).2 jf (head?_mem hjf)
            rw [hejf] at hfh
            cases hfh
            obtain ⟨-, t', h', q', e', a1, a2, -, -, a5, a6, -, a8, -⟩ := hg.edges jf f hejf
            rw [hq] at a5
            cases a5
            rw [hfq] at a6
            cases a6
            rw [hhd, hbn] at a2
            cases a2
            rw [hbp] at a8
            cases a8
            exact ⟨hlen q fp' bpn hfq hbpn, hsufb, hsz _ _ hupn⟩)
      rw [hunp] at hup
      cases hup
      rw [hfi] at hfront
      rw [hep] at hfp
      rw [hE] at hj₀ hq₀
      have htg : g.node front.tail = some t := by
        obtain ⟨-, t', -, -, -, a1, -⟩ := hg.edges j₀ front hj₀
        rw [hs0.node_mono a1] at ht
        cases ht
        exact a1
      have hmg : g.node fp.tail = some m := by
        obtain ⟨-, t', -, -, -, a1, -⟩ := hg.edges q₀ fp hq₀
        rw [hs0.node_mono a1] at hm
        cases hm
        exact a1
      refine ⟨g', m', hc, hwf, by rw [hs.edges, List.length_append]; omega, ?_, hs.overlap,
        ?_, ?_⟩
      · intro j hj
        rw [hs.edge_old (by rw [hEl]; exact hj), hs0.edge_eq]
      · intro k n hk
        refine ⟨_, _, by rw [hs.nodes, hk]; rfl, ?_⟩
        rintro rfl
        have h1 : ¬ k = front.tail := fun h => hopen front hfront h.symm
        have h2 : ¬ k = g.nodes_.length + 1 := by
          have := Graph.node_lt hen
          omega
        simp [h1, h2]
      · intro j e hj he
        obtain ⟨old, hrole, hsome, heq⟩ := hall j e (by rw [hEl]; exact hj) he
        refine ⟨old, ?_, hsome, ?_⟩
        · rcases hrole with ⟨rfl, h1, h2⟩ | ⟨rfl, h1, h2⟩
          · exact Or.inl ⟨hfront, h1, h2⟩
          · exact Or.inr ⟨front, hfront, hfp, h1, h2⟩
        · rw [heq]
          rcases hrole with ⟨rfl, -, -⟩ | ⟨rfl, -, -⟩
          · exact hov _ t htg
          · exact hov _ m hmg
  obtain ⟨g', m', hci, hwf', hEl', hold', hov', hnode', hall'⟩ := hin
  obtain ⟨o₁, i₁, hen', ho₁⟩ := hnode' end_ en hen1
  obtain ⟨o₂, i₂, hun', -⟩ := hnode' g.nodes_.length un hun
  have ho₁ := ho₁ rfl
  subst ho₁
  have hdeg : (Node.push [] i₁ en).outdegree = en.outdegree := by
    simp [Node.push, Node.outdegree]
  have hconn : ∀ r, CreateUnitigs.connect_out g' m' end_ g.nodes_.length = some r →
      CreateUnitigs.connect g₁ marked_edges begin_ end_ g.nodes_.length = some r := by
    intro r hr
    unfold CreateUnitigs.connect
    rw [if_pos hne, hci]
    exact hr
  by_cases ho : en.outdegree = 0
  · refine ⟨g', m', hconn _ ?_, ?_⟩
    · unfold CreateUnitigs.connect_out
      simp only [hen', Option.some_bind, hdeg, if_pos ho]
    · intro j e hj he
      obtain ⟨old, hrole, h2, h3⟩ := hall' j e hj he
      refine ⟨old, ?_, h2, h3⟩
      rcases hrole with h | h
      · exact Or.inl h
      · exact Or.inr (Or.inl h)
  · have hfo' : g'.front_out end_ = g.front_out end_ := by
      unfold Graph.front_out
      rw [hen', hen]
      simp only [Option.some_bind, Node.push, List.append_nil]
      cases hh : en.outedges.head? with
      | none => rfl
      | some j =>
        obtain ⟨e, he, -⟩ := (hg.adj _ _ hen).1 j (head?_mem hh)
        simp only [Option.some_bind]
        exact hold' j (Graph.edge_lt he)
    obtain ⟨g₂, m₂, front, fp, up, len, hc, hwf, hfront, hfp, hup, ⟨j₀, q₀, hj₀, hq₀⟩,
      ⟨m, hm⟩, hs, hall⟩ :=
      CreateUnitigs.connect_out_overlap g' m' end_ g.nodes_.length (Node.push [] i₁ en)
        (Node.push o₂ i₂ un) hwf' hen' hun' (by rw [hdeg]; exact ho) (by
          intro f hf
          rw [hfo'] at hf
          obtain ⟨nd, jf, hnd, hjf, hejf⟩ := Graph.front_out_eq_some.mp hf
          rw [hen] at hnd
          cases hnd
          obtain ⟨e, he, htl⟩ := (hg.adj _ _ hen).1 jf (head?_mem hjf)
          rw [hejf] at he
          cases he
          exact ⟨hlen jf f en hejf (by rw [htl]; exact hen), hsufe, hsz _ un hun⟩)
    have hup' : up = g.nodes_.length + 1 := by
      simp only [Node.push] at hup
      rw [hunp] at hup
      cases hup
      rfl
    subst hup'
    rw [hfo'] at hfront
    obtain ⟨nd, jf, hnd, hjf, hejf⟩ := Graph.front_out_eq_some.mp hfront
    rw [hen] at hnd
    cases hnd
    obtain ⟨-, t', h', q', e', a1, a2, -, -, a5, a6, -, -, -⟩ := hg.edges jf front hejf
    have hfpg : g.edge_pair front = some fp := by
      obtain ⟨q, hq, hfq⟩ := Graph.edge_pair_eq_some.mp hfp
      rw [a5] at hq
      cases hq
      rw [hold' q' (Graph.edge_lt a6)] at hfq
      exact Graph.edge_pair_eq_some.mpr ⟨q', a5, hfq⟩
    have hfq : g.edge q' = some fp := by
      obtain ⟨q, hq, hfq⟩ := Graph.edge_pair_eq_some.mp hfpg
      rw [a5] at hq
      cases hq
      exact hfq
    obtain ⟨-, tp, -, -, -, b1, -⟩ := hg.edges q' fp hfq
    refine ⟨g₂, m₂, hconn _ hc, ?_⟩
    intro j e hj he
    rcases hs.edge_cases he with ⟨hlt, he'⟩ | hnew'
    · obtain ⟨old, hrole, h2, h3⟩ := hall' j e hj he'
      refine ⟨old, ?_, by rw [hs.overlap]; exact h2, by rw [hs.overlap]; exact h3⟩
      rcases hrole with h | h
      · exact Or.inl h
      · exact Or.inr (Or.inl h)
    · have hj' : g'.edges_.length ≤ j := by
        rcases hnew' with ⟨rfl, -⟩ | ⟨rfl, -⟩ <;> omega
      obtain ⟨old, hrole, h2, h3⟩ := hall j e hj' he
      refine ⟨old, ?_, h2, ?_⟩
      · rcases hrole with ⟨rfl, h1, h2⟩ | ⟨rfl, h1, h2⟩
        · exact Or.inr (Or.inr (Or.inl ⟨hfront, h1, h2⟩))
        · exact Or.inr (Or.inr (Or.inr ⟨front, hfront, hfpg, h1, h2⟩))
      · rw [h3, hov']
        rcases hrole with ⟨rfl, -, -⟩ | ⟨rfl, -, -⟩
        · exact hov _ t' a1
        · exact hov _ tp b1

/-- The chain `2 → 4` of `ex_chain`, trimmed by one node at both ends: the
block returns and makes the four edges of the slots 6 to 9. -/
theorem CreateUnitigs_connect_overlap_witness :
    ∃ g₂ marked_edges',
      CreateUnitigs.connect ex_chain_unitig [] 2 4 8 = some (g₂, marked_edges') ∧
      g₂.edges_.drop 6 = [some ⟨6, 6, 0, 8, some 7⟩, some ⟨7, 12, 9, 1, some 6⟩,
        some ⟨8, 12, 8, 6, some 9⟩, some ⟨9, 6, 7, 9, some 8⟩] := by
  obtain ⟨g₂, m, h, -⟩ := CreateUnitigs_connect_overlap 1 ex_chain ex_chain_unitig [] 2 4 8
    (Graph.wf_of_bounded (by decide)) (by decide) (by decide) (by decide) (by decide)
    (by decide)
  refine ⟨g₂, m, h, ?_⟩
  have h' : CreateUnitigs.connect ex_chain_unitig [] 2 4 8 = some
      (⟨[some ⟨0, "AAAAAACCCC".toList, 1, false, false, [], [], [0, 6], some 1⟩,
         some ⟨1, "GGGGTTTTTT".toList, 1, false, false, [], [1, 7], [], some 0⟩,
         some ⟨2, "CCCCGGGGGG".toList, 1, false, false, [], [0], [2], some 3⟩,
         some ⟨3, "CCCCCCGGGG".toList, 1, false, false, [], [3], [1], some 2⟩,
         some ⟨4, "GGGGTTTTTT".toList, 1, false, false, [], [2], [4], some 5⟩,
         some ⟨5, "AAAAAACCCC".toList, 1, false, false, [], [5], [3], some 4⟩,
         some ⟨6, "TTTTAAAAAA".toList, 1, false, false, [], [4, 8], [], some 7⟩,
         some ⟨7, "TTTTTTAAAA".toList, 1, false, false, [], [], [5, 9], some 6⟩,
         some ⟨8, "CCCCGGGGGGTTTTTT".toList, 2, false, false, [], [6], [8], some 9⟩,
         some ⟨9, "AAAAAACCCCCCGGGG".toList, 2, false, false, [], [9], [7], some 8⟩],
        [some ⟨0, 6, 0, 2, some 1⟩, some ⟨1, 6, 3, 1, some 0⟩, some ⟨2, 6, 2, 4, some 3⟩,
         some ⟨3, 6, 5, 3, some 2⟩, some ⟨4, 6, 4, 6, some 5⟩, some ⟨5, 6, 7, 5, some 4⟩,
         some ⟨6, 6, 0, 8, some 7⟩, some ⟨7, 12, 9, 1, some 6⟩, some ⟨8, 12, 8, 6, some 9⟩,
         some ⟨9, 6, 7, 9, some 8⟩], 10, 10⟩, [0, 1, 4, 5]) := by decide
  rw [h'] at h
  cases h
  rfl

/-! ## Node pairs -/

/-- C9 (as the code has it): the two nodes that the loop "create nodes" of
`Construct` makes for a valid pile point at each other through `pair`, and the
data of the second is the reverse complement of the data of the first; the
two nodes that `CreateUnitigs` makes for a chain in a well-formed graph point
at each other through `pair` (nothing is said of their data). -/
theorem node_pairs_linked (sequences : List Sequence) (st st' : Graph × List Int) (it : Pile)
    (fuel : Nat) (g g' : Graph) (begin_ end_ u : Nat)
    (hv : it.is_invalid = false)
    (hc : Construct.create_node sequences st it = some st')
    (hg : g.wf) (hu : CreateUnitigs.new_unitig_pair fuel g begin_ end_ = some (g', u)) :
    (∃ n m, st'.1.nodes_ = st.1.nodes_ ++ [some n, some m] ∧
      n.pair = some (st.1.nodes_.length + 1) ∧ m.pair = some st.1.nodes_.length ∧
      m.data = ReverseAndComplement n.data) ∧
    (∃ n m, g'.nodes_ = g.nodes_ ++ [some n, some m] ∧ u = g.nodes_.length ∧
      n.pair = some (u + 1) ∧ m.pair = some u) := by
  constructor
  · unfold Construct.create_node at hc
    rw [hv] at hc
    simp only [Bool.false_eq_true, if_false, Option.bind_eq_some, Option.some.injEq] at hc
    obtain ⟨s, -, data, -, s2n, -, g₃, h3, rfl⟩ := hc
    simp only [Graph.new_node, List.length_append, List.length_singleton] at h3
    obtain ⟨g₄, h4, hn, -, -, -⟩ := Graph.link_fresh st.1
      { id := st.1.node_num_objects, data := data, count := 1, is_circular := false,
        is_polished := false, transitive := [], inedges := [], outedges := [], pair := none }
      { id := st.1.node_num_objects + 1, data := ReverseAndComplement data, count := 1,
        is_circular := false, is_polished := false, transitive := [], inedges := [],
        outedges := [], pair := none }
      (st.1.node_num_objects + 1 + 1)
    rw [h4] at h3
    cases h3
    exact ⟨_, _, hn, rfl, rfl, rfl⟩
  · obtain ⟨rfl, hs⟩ := CreateUnitigs.new_unitig_pair_spec hg hu
    obtain ⟨a, b, hn, ha, hb⟩ := hs.nodes
    exact ⟨a, b, hn, rfl, ha.pair, hb.pair⟩

/-- The first read of the example and the chain `0 → 2 → 4` of the graph
`ex_transitive`. -/
theorem node_pairs_linked_witness :
    (∃ n m, [some (⟨0, "AAAAAACCCC".toList, 1, false, false, [], [], [], some 1⟩ : Node),
        some ⟨1, "GGGGTTTTTT".toList, 1, false, false, [], [], [], some 0⟩] =
        Graph.empty.nodes_ ++ [some n, some m] ∧
      n.pair = some (Graph.empty.nodes_.length + 1) ∧ m.pair = some Graph.empty.nodes_.length ∧
      m.data = ReverseAndComplement n.data) ∧
    (∃ n m, ex_transitive_unitig.nodes_ = ex_transitive.nodes_ ++ [some n, some m] ∧
      8 = ex_transitive.nodes_.length ∧ n.pair = some (8 + 1) ∧ m.pair = some 8) :=
  node_pairs_linked ex_sequences (Graph.empty, [-1, -1, -1])
    (⟨[some ⟨0, "AAAAAACCCC".toList, 1, false, false, [], [], [], some 1⟩,
       some ⟨1, "GGGGTTTTTT".toList, 1, false, false, [], [], [], some 0⟩], [], 2, 0⟩,
      [0, -1, -1])
    ⟨0, 0, 10, 10, false, false, false⟩ 2 ex_transitive ex_transitive_unitig 0 4 8
    rfl (by decide) (Graph.wf_of_bounded (by decide)) (by decide)

/-- C9 (as stated) fails: `Construct` makes the graph `ex_graph` of three
reads, whose second overlap covers four bases of one read and five of the
other; `CreateUnitigs` merges the chain `0 → 2 → 4` into the node 6 with 22
bases, and the chain `5 → 3 → 1` into its pair 7 with 21 bases, which is not
the reverse complement of the data of the node 6. -/
theorem CreateUnitigs_twin_data :
    Construct.graph Graph.empty ex_read_piles ex_sequences ex_read_overlaps = some ex_graph ∧
    (CreateUnitigs 3 ex_graph 0).map (fun r => r.1.nodes_.drop 6) =
      some [some ⟨6, "AAAAAACCCCGGGGGGTTTTTT".toList, 3, false, false, [], [], [], some 7⟩,
            some ⟨7, "AAAAACCCCCCGGGGTTTTTT".toList, 3, false, false, [], [], [], some 6⟩] ∧
    ReverseAndComplement "AAAAAACCCCGGGGGGTTTTTT".toList ≠ "AAAAACCCCCCGGGGTTTTTT".toList ∧
    "AAAAAACCCCGGGGGGTTTTTT".toList.length ≠ "AAAAACCCCCCGGGGTTTTTT".toList.length := by
  decide

/-! ## Tips -/

theorem RemoveTips.walk_end (g : Graph) (it : Nat) :
    ∀ (fuel end_ num : Nat) (vis : List Bool) (w : Nat × Nat × Bool × List Bool) (n : Node),
      g.node end_ = some n → n.is_junction = false →
      RemoveTips.walk g it fuel end_ num vis = some w →
      ∃ e, g.node w.1 = some e ∧ e.is_junction = false := by
  intro fuel
  induction fuel with
  | zero => intro end_ num vis w n _ _ h; simp [RemoveTips.walk] at h
  | succ fuel ih =>
    intro end_ num vis w n hn hj h
    simp only [RemoveTips.walk, hn, Option.some_bind, hj, Bool.false_eq_true, if_false,
      Option.bind_eq_some] at h
    obtain ⟨v₁, -, p, -, v₂, -, h⟩ := h
    by_cases h0 : n.outdegree = 0
    · rw [if_pos h0] at h
      cases h
      exact ⟨n, hn, hj⟩
    · rw [if_neg h0] at h
      simp only [Option.bind_eq_some] at h
      obtain ⟨front, -, hd, hhd, h⟩ := h
      by_cases hjh : hd.is_junction = true
      · rw [if_pos hjh] at h
        cases h
        exact ⟨n, hn, hj⟩
      · rw [if_neg hjh] at h
        have hjh' : hd.is_junction = false := by simpa using hjh
        by_cases hit : front.head = it
        · rw [if_pos hit] at h
          cases h
          exact ⟨hd, hhd, hjh'⟩
        · rw [if_neg hit] at h
          exact ih _ _ _ _ hd hhd hjh' h

theorem RemoveEdges_nil (g : Graph) : RemoveEdges g [] true = some g := by
  simp [RemoveEdges]

theorem RemoveTips.excise_count (fuel : Nat) (st st' : RemoveTips.State) (it end_ : Nat)
    (h : RemoveTips.excise fuel st it end_ = some st') :
    st'.num_tips = st.num_tips ∨ st'.num_tips = add32 st.num_tips 1 := by
  unfold RemoveTips.excise at h
  simp only [Option.bind_eq_some] at h
  obtain ⟨e, -, marked, -, h⟩ := h
  by_cases hc : marked.length / 2 = e.outedges.length
  · rw [if_pos hc] at h
    simp only [Option.bind_eq_some, Option.some.injEq] at h
    obtain ⟨m, -, g, -, rfl⟩ := h
    exact Or.inr rfl
  · rw [if_neg hc] at h
    simp only [Option.bind_eq_some, Option.some.injEq] at h
    obtain ⟨g, -, rfl⟩ := h
    exact Or.inl rfl

theorem RemoveTips.excise_same (fuel : Nat) (st st' : RemoveTips.State) (it end_ : Nat)
    (e : Node) (hg : st.g.wf) (he : st.g.node end_ = some e) (hj : e.is_junction = false)
    (h0 : e.outdegree ≠ 0) (h : RemoveTips.excise fuel st it end_ = some st') :
    (st'.g = st.g ∧ st'.num_tips = st.num_tips) ∨ st'.num_tips = add32 st.num_tips 1 := by
  unfold RemoveTips.excise at h
  simp only [he, Option.some_bind, Option.bind_eq_some] at h
  obtain ⟨marked, hm, h⟩ := h
  by_cases hc : marked.length / 2 = e.outedges.length
  · rw [if_pos hc] at h
    simp only [Option.bind_eq_some, Option.some.injEq] at h
    obtain ⟨m, -, g, -, rfl⟩ := h
    exact Or.inr rfl
  · rw [if_neg hc] at h
    simp only [Option.bind_eq_some, Option.some.injEq] at h
    obtain ⟨g, hr, rfl⟩ := h
    left
    refine ⟨?_, rfl⟩
    -- the node `end` has exactly one out-edge
    have hout : e.outdegree ≤ 1 := by
      unfold Node.is_junction at hj
      simp only [Bool.or_eq_false_iff, decide_eq_false_iff_not] at hj
      omega
    unfold Node.outdegree at hout h0
    obtain ⟨j, hej⟩ : ∃ j, e.outedges = [j] := by
      match hl : e.outedges with
      | [] => simp [hl] at h0
      | [j] => exact ⟨j, rfl⟩
      | _ :: _ :: _ => simp [hl] at hout
    rw [hej] at hm hc
    simp only [List.foldlM_cons, List.foldlM_nil, Option.bind_eq_bind, Option.pure_def,
      Option.bind_some] at hm
    unfold RemoveTips.mark_out at hm
    simp only [Option.bind_eq_some] at hm
    obtain ⟨ed, hed, hd, -, hm⟩ := hm
    by_cases hi : hd.indegree > 1
    · exfalso
      rw [if_pos hi] at hm
      simp only [Option.bind_eq_some, Option.some.injEq] at hm
      obtain ⟨f, hf, rfl⟩ := hm
      obtain ⟨q, hq, hfq⟩ := Graph.edge_pair_eq_some.mp hf
      have hid := (hg.edges j ed hed).1
      have hidf := (hg.edges q f hfq).1
      have hne : q ≠ j := by
        rintro rfl
        exact hg.edges_distinct _ ed hed hq
      apply hc
      have : f.id ≠ ed.id := by rw [hid, hidf]; exact hne
      simp [emplace, this]
    · rw [if_neg hi] at hm
      cases hm
      rw [RemoveEdges_nil] at hr
      cases hr
      rfl

theorem RemoveTips.step_count (is_tip : Node → Bool) (fuel : Nat) (st st' : RemoveTips.State)
    (k : Nat) (h : RemoveTips.step is_tip fuel st k = some st') :
    st'.num_tips = st.num_tips ∨ st'.num_tips = add32 st.num_tips 1 := by
  unfold RemoveTips.step at h
  cases hk : st.g.node k with
  | none =>
    simp only [hk] at h
    cases h
    exact Or.inl rfl
  | some it =>
    simp only [hk, Option.bind_eq_some] at h
    obtain ⟨visited, -, h⟩ := h
    by_cases hv : visited = true ∨ is_tip it = false
    · rw [if_pos hv] at h
      cases h
      exact Or.inl rfl
    · rw [if_neg hv] at h
      simp only [Option.bind_eq_some] at h
      obtain ⟨w, -, e, -, h⟩ := h
      by_cases hc : w.2.2.1 = true ∨ e.outdegree = 0 ∨ w.2.1 > 5
      · rw [if_pos hc] at h
        cases h
        exact Or.inl rfl
      · rw [if_neg hc] at h
        exact RemoveTips.excise_count fuel { st with is_visited := w.2.2.2 } st' k w.1 h

theorem RemoveTips.step_same (is_tip : Node → Bool) (fuel : Nat) (st st' : RemoveTips.State)
    (k : Nat) (hg : st.g.wf) (htip : ∀ n, is_tip n = true → n.is_junction = false)
    (h : RemoveTips.step is_tip fuel st k = some st') :
    (st'.g = st.g ∧ st'.num_tips = st.num_tips) ∨ st'.num_tips = add32 st.num_tips 1 := by
  unfold RemoveTips.step at h
  cases hk : st.g.node k with
  | none =>
    simp only [hk] at h
    cases h
    exact Or.inl ⟨rfl, rfl⟩
  | some it =>
    simp only [hk, Option.bind_eq_some] at h
    obtain ⟨visited, -, h⟩ := h
    by_cases hv : visited = true ∨ is_tip it = false
    · rw [if_pos hv] at h
      cases h
      exact Or.inl ⟨rfl, rfl⟩
    · rw [if_neg hv] at h
      simp only [not_or, Bool.not_eq_false] at hv
      simp only [Option.bind_eq_some] at h
      obtain ⟨w, hw, e, he, h⟩ := h
      by_cases hc : w.2.2.1 = true ∨ e.outdegree = 0 ∨ w.2.1 > 5
      · rw [if_pos hc] at h
        cases h
        exact Or.inl ⟨rfl, rfl⟩
      · rw [if_neg hc] at h
        simp only [not_or] at hc
        obtain ⟨e', he', hj'⟩ := RemoveTips.walk_end st.g k fuel k 0 st.is_visited w it hk
          (htip it hv.2) hw
        rw [he] at he'
        cases he'
        exact RemoveTips.excise_same fuel { st with is_visited := w.2.2.2 } st' k w.1 e hg he
          hj' hc.2.1 h

theorem RemoveTips.fold_same (is_tip : Node → Bool) (fuel : Nat) (g : Graph) (hg : g.wf)
    (htip : ∀ n, is_tip n = true → n.is_junction = false) :
    ∀ (l : List Nat) (i : Nat) (st st' : RemoveTips.State),
      l.foldlM (RemoveTips.step is_tip fuel) st = some st' → i + l.length < u32 →
      ((st.num_tips = 0 ∧ st.g = g) ∨ (1 ≤ st.num_tips ∧ st.num_tips ≤ i)) →
      ((st'.num_tips = 0 ∧ st'.g = g) ∨ (1 ≤ st'.num_tips ∧ st'.num_tips ≤ i + l.length)) := by
  intro l
  induction l with
  | nil =>
    intro i st st' h _ hP
    simp only [List.foldlM_nil, Option.pure_def, Option.some.injEq] at h
    subst h
    simpa using hP
  | cons k l ih =>
    intro i st st' h hlt hP
    simp only [List.foldlM_cons, Option.bind_eq_bind, Option.bind_eq_some] at h
    obtain ⟨st₁, h1, h2⟩ := h
    simp only [List.length_cons] at hlt ⊢
    have := ih (i + 1) st₁ st' h2 (by omega) (by
      rcases hP with ⟨h0, hg0⟩ | ⟨ha, hb⟩
      · rcases RemoveTips.step_same is_tip fuel st st₁ k (hg0 ▸ hg) htip h1 with ⟨e1, e2⟩ | e
        · exact Or.inl ⟨by rw [e2, h0], by rw [e1, hg0]⟩
        · right
          rw [e, h0]
          simp [add32, u32]
      · right
        rcases RemoveTips.step_count is_tip fuel st st₁ k h1 with e | e
        · rw [e]
          exact ⟨ha, by omega⟩
        · rw [e, add32, Nat.mod_eq_of_lt (by omega)]
          exact ⟨by omega, by omega⟩)
    rcases this with h | h
    · exact Or.inl h
    · exact Or.inr ⟨h.1, by omega⟩

/-- On a well-formed graph with fewer than `2^32` node slots, and for a
predicate `is_tip` that holds of non-junction nodes only, a call of
`RemoveTips` that returns 0 returns the graph it was given. -/
theorem RemoveTips_zero (is_tip : Node → Bool) (fuel : Nat) (g g' : Graph) (hg : g.wf)
    (htip : ∀ n, is_tip n = true → n.is_junction = false) (hsize : g.nodes_.length < u32)
    (h : RemoveTips is_tip fuel g = some (g', 0)) : g' = g := by
  unfold RemoveTips at h
  simp only [Option.map_eq_some', Prod.mk.injEq] at h
  obtain ⟨st, hf, rfl, h0⟩ := h
  have := RemoveTips.fold_same is_tip fuel g hg htip (List.range g.nodes_.length) 0 _ st hf
    (by simpa using hsize) (Or.inl ⟨rfl, rfl⟩)
  rcases this with h | h
  · exact h.2
  · omega

/-- In the example graph the only unvisited tip starts a chain that ends in
a node without out-edge: `RemoveTips` returns 0 and the graph. -/
theorem RemoveTips_zero_witness :
    RemoveTips
      (fun n => !n.is_junction && decide (n.indegree = 0) && decide (0 < n.outdegree))
      3 ex_graph = some (ex_graph, 0) ∧
    ex_graph = ex_graph :=
  ⟨by decide,
    RemoveTips_zero
      (fun n => !n.is_junction && decide (n.indegree = 0) && decide (0 < n.outdegree))
      3 ex_graph ex_graph (Graph.wf_of_bounded (by decide))
      (by
        intro n hn
        simp only [Bool.and_eq_true, Bool.not_eq_true'] at hn
        exact hn.1.1)
      (by decide) (by decide)⟩

/-- C18 fails in the code: in the well-formed graph `ex_shortcut` the node 0
has no in-edge and two out-edges, so it is a junction at which the walk of
`RemoveTips` stops at once; its out-edge `0 → 2` leads to a node of
in-degree 2 and its out-edge `0 → 4` does not, so the edge `0 → 2` is removed
with its pair and no tip is counted.  `RemoveTips` returns 0 and a graph
without the edges 0 and 1.  A tip start is taken to be a node with an
out-edge, no in-edge and a count below 6. -/
theorem RemoveTips_uncounted_removal :
    ex_shortcut.wf_bounded ∧
    ex_shortcut.edges_.take 2 = [some ⟨0, 8, 0, 2, some 1⟩, some ⟨1, 8, 3, 1, some 0⟩] ∧
    (RemoveTips (fun n => decide (0 < n.outdegree ∧ n.indegree = 0 ∧ n.count < 6)) 4
        ex_shortcut).map (fun r => (r.1.edges_, r.2)) =
      some ([none, none, some ⟨2, 6, 0, 4, some 3⟩, some ⟨3, 6, 5, 1, some 2⟩,
        some ⟨4, 6, 4, 2, some 5⟩, some ⟨5, 6, 3, 5, some 4⟩], 0) := by
  decide

/-! ## Excision of a tip -/

theorem RemoveTips.visit_tip (g : Graph) (hg : g.wf) (p : Nat) (n : Node) (vis : List Bool)
    (hn : g.node p = some n) (hv : vis.length = g.nodes_.length) :
    ∃ v₁ m v₂, set_checked vis n.id true = some v₁ ∧ g.node_pair n = some m ∧
      set_checked v₁ m.id true = some v₂ ∧ v₂.length = g.nodes_.length := by
  obtain ⟨hid, q, m, hq, hm, -⟩ := hg.nodes p n hn
  have hidm := (hg.nodes q m hm).1
  have h1 : n.id < vis.length := by rw [hid, hv]; exact Graph.node_lt hn
  have h2 : m.id < (vis.set n.id true).length := by
    rw [List.length_set, hidm, hv]
    exact Graph.node_lt hm
  refine ⟨vis.set n.id true, m, (vis.set n.id true).set m.id true, ?_, ?_, ?_, ?_⟩
  · simp [set_checked, h1]
  · exact Graph.node_pair_eq_some.mpr ⟨q, hq, hm⟩
  · simp only [set_checked, if_pos h2]
  · simp [hv]

theorem Graph.walks_head {g : Graph} {end_ p : Nat} {l : List (Node × Edge)} {e : Node}
    (he : g.node end_ = some e) (hw : g.walks end_ p l) :
    ∃ h, g.node p = some h ∧ (l = [] → h = e) ∧ (∀ x ∈ l.head?, h = x.1) := by
  cases l with
  | nil =>
    have : p = end_ := hw
    subst this
    exact ⟨e, he, fun _ => rfl, by simp⟩
  | cons x l =>
    obtain ⟨-, hn, -, -⟩ := hw
    exact ⟨x.1, hn, by simp, by simp⟩

theorem RemoveTips.walk_spec (g : Graph) (hg : g.wf) (it end_ : Nat) (e : Node)
    (he : g.node end_ = some e) (hje : e.is_junction = false) (h0 : e.outdegree ≠ 0)
    (hhead : ∀ f ∈ g.front_out end_, ∀ h ∈ g.node f.head, h.indegree > 1) :
    ∀ (l : List (Node × Edge)) (p num : Nat) (vis : List Bool) (fuel : Nat),
      g.walks end_ p l → (∀ x ∈ l, x.1.is_junction = false ∧ x.2.head ≠ it) →
      vis.length = g.nodes_.length → l.length < fuel →
      ∃ vis', RemoveTips.walk g it fuel p num vis =
        some (end_, (num + (l.map fun x => x.1.count).sum + e.count) % u32, false, vis') := by
  intro l
  induction l with
  | nil =>
    intro p num vis fuel hw _ hv hf
    have : p = end_ := hw
    subst this
    cases fuel with
    | zero => simp at hf
    | succ fuel =>
      obtain ⟨v₁, m, v₂, hs1, hm, hs2, -⟩ := RemoveTips.visit_tip g hg p e vis he hv
      obtain ⟨j, front, q, fp, h, ep, epn, m', -, -, hfront, -, -, -, -, hh, -⟩ :=
        hg.front_out he h0
      have hjh : h.is_junction = true := by
        have := hhead front hfront h hh
        simp [Node.is_junction, this]
      refine ⟨v₂, ?_⟩
      simp only [RemoveTips.walk, he, Option.some_bind, hje, Bool.false_eq_true, if_false, hs1,
        hm, hs2, if_neg h0, hfront, hh, hjh, if_true, List.map_nil, List.sum_nil, Nat.add_zero,
        add32]
  | cons x l ih =>
    intro p num vis fuel hw hx hv hf
    obtain ⟨hpe, hn, hfr, hw'⟩ := hw
    obtain ⟨hjx, hxit⟩ := hx x (List.mem_cons_self _ _)
    cases fuel with
    | zero => simp at hf
    | succ fuel =>
      obtain ⟨v₁, m, v₂, hs1, hm, hs2, hv₂⟩ := RemoveTips.visit_tip g hg p x.1 vis hn hv
      have h0x : x.1.outdegree ≠ 0 := by
        intro h
        unfold Node.outdegree at h
        rw [List.length_eq_zero] at h
        rw [h] at hfr
        simp at hfr
      have hfront : g.front_out p = some x.2 := by
        unfold Graph.front_out
        rw [hn]
        exact hfr
      obtain ⟨h, hh, hnil, hcons⟩ := Graph.walks_head he hw'
      have hjh : h.is_junction = false := by
        cases l with
        | nil => rw [hnil rfl]; exact hje
        | cons y l =>
          rw [hcons y (by simp)]
          exact (hx y (by simp)).1
      have hlen : l.length < fuel := by
        simp only [List.length_cons] at hf
        omega
      obtain ⟨vis', hrec⟩ := ih x.2.head (add32 num x.1.count) v₂ fuel hw'
        (fun y hy => hx y (List.mem_cons_of_mem _ hy)) hv₂ hlen
      refine ⟨vis', ?_⟩
      simp only [RemoveTips.walk, hn, Option.some_bind, hjx, Bool.false_eq_true, if_false, hs1,
        hm, hs2, if_neg h0x, hfront, hh, hjh, if_neg hxit, hrec, List.map_cons, List.sum_cons,
        Option.some.injEq, Prod.mk.injEq, true_and, and_true]
      rw [add32, Nat.add_assoc ((num + x.1.count) % u32), Nat.mod_add_mod]
      congr 1
      omega

theorem Graph.wf.walks_front {g : Graph} (hg : g.wf) {p : Nat} {n : Node} {e : Edge}
    (hn : g.node p = some n) (hfr : n.outedges.head?.bind g.edge = some e) :
    ∃ q fp, n.outedges.head? = some e.id ∧ g.edge e.id = some e ∧ e.tail = p ∧
      g.front_out p = some e ∧ e.pair = some q ∧ g.edge q = some fp ∧ fp.id = q ∧
      g.edge_pair e = some fp ∧ fp.pair = some e.id ∧ q ≠ e.id := by
  obtain ⟨j, hj, hej⟩ := Option.bind_eq_some.mp hfr
  obtain ⟨e', he', htl⟩ := (hg.adj p n hn).1 j (head?_mem hj)
  rw [hej] at he'
  cases he'
  obtain ⟨hid, t, h, q, fp, -, -, -, -, a5, a6, a7, -, -⟩ := hg.edges j e hej
  have hidf := (hg.edges q fp a6).1
  subst hid
  refine ⟨q, fp, hj, hej, htl, ?_, a5, a6, hidf, Graph.edge_pair_eq_some.mpr ⟨q, a5, a6⟩, a7, ?_⟩
  · unfold Graph.front_out
    rw [hn]
    exact hfr
  · rintro rfl
    exact hg.edges_distinct _ e hej a5

theorem RemoveTips.mark_chain_spec (g : Graph) (hg : g.wf) (end_ : Nat) :
    ∀ (l : List (Node × Edge)) (p : Nat) (marked : List Nat) (fuel : Nat),
      g.walks end_ p l → l.length < fuel →
      ∃ marked', RemoveTips.mark_chain g end_ fuel p marked = some marked' ∧
        ∀ i, i ∈ marked' ↔ i ∈ marked ∨ ∃ x ∈ l, i = x.2.id ∨ x.2.pair = some i := by
  intro l
  induction l with
  | nil =>
    intro p marked fuel hw hf
    have : p = end_ := hw
    subst this
    cases fuel with
    | zero => simp at hf
    | succ fuel =>
      refine ⟨marked, by simp [RemoveTips.mark_chain], ?_⟩
      intro i
      simp
  | cons x l ih =>
    intro p marked fuel hw hf
    obtain ⟨hpe, hn, hfr, hw'⟩ := hw
    cases fuel with
    | zero => simp at hf
    | succ fuel =>
      obtain ⟨q, fp, -, -, -, hfront, hq, -, hidf, hfp, -, -⟩ := hg.walks_front hn hfr
      have hlen : l.length < fuel := by
        simp only [List.length_cons] at hf
        omega
      obtain ⟨marked', hm, hmem⟩ := ih x.2.head (emplace (emplace marked x.2.id) fp.id) fuel
        hw' hlen
      refine ⟨marked', ?_, ?_⟩
      · simp only [RemoveTips.mark_chain, if_neg hpe, hfront, hfp, Option.some_bind]
        exact hm
      · intro i
        rw [hmem, mem_emplace, mem_emplace, hidf]
        constructor
        · rintro (((h | h) | h) | ⟨y, hy, h⟩)
          · exact Or.inl h
          · exact Or.inr ⟨x, List.mem_cons_self _ _, Or.inl h⟩
          · exact Or.inr ⟨x, List.mem_cons_self _ _, Or.inr (h ▸ hq)⟩
          · exact Or.inr ⟨y, List.mem_cons_of_mem _ hy, h⟩
        · rintro (h | ⟨y, hy, h⟩)
          · exact Or.inl (Or.inl (Or.inl h))
          · rcases List.mem_cons.mp hy with rfl | hy
            · rcases h with h | h
              · exact Or.inl (Or.inl (Or.inr h))
              · rw [hq] at h
                cases h
                exact Or.inl (Or.inr rfl)
            · exact Or.inr ⟨y, hy, h⟩

theorem Node.strip_all {ids : List Nat} {n : Node} (hi : ∀ j ∈ n.inedges, j ∈ ids)
    (ho : ∀ j ∈ n.outedges, j ∈ ids) :
    (Node.strip ids n).outdegree = 0 ∧ (Node.strip ids n).indegree = 0 := by
  unfold Node.strip Node.outdegree Node.indegree
  simp only [List.length_eq_zero, List.filter_eq_nil_iff, decide_eq_true_eq, not_not]
  exact ⟨ho, hi⟩

theorem Graph.wf.pair_edges {g : Graph} (hg : g.wf) {ids : List Nat} (hc : g.pair_closed ids)
    {k p : Nat} {n m : Node} (hn : g.node k = some n) (hp : n.pair = some p)
    (hm : g.node p = some m) (hi : ∀ j ∈ n.inedges, j ∈ ids) (ho : ∀ j ∈ n.outedges, j ∈ ids) :
    (∀ j ∈ m.inedges, j ∈ ids) ∧ (∀ j ∈ m.outedges, j ∈ ids) := by
  obtain ⟨-, p', m', hp', hm', hmk⟩ := hg.nodes k n hn
  rw [hp] at hp'
  cases hp'
  rw [hm] at hm'
  cases hm'
  constructor
  · intro j hj
    obtain ⟨e, he, hhd⟩ := (hg.adj p m hm).2 j hj
    obtain ⟨-, t, h, q, e', a1, a2, a3, a4, a5, a6, a7, a8, a9⟩ := hg.edges j e he
    rw [hhd, hm] at a2
    cases a2
    rw [hmk] at a8
    cases a8
    obtain ⟨-, t', h', q', e'', b1, b2, b3, b4, b5, b6, b7, b8, b9⟩ := hg.edges q e' a6
    rw [hn] at b1
    cases b1
    exact hc q (ho q b3) e' a6 j a7
  · intro j hj
    obtain ⟨e, he, htl⟩ := (hg.adj p m hm).1 j hj
    obtain ⟨-, t, h, q, e', a1, a2, a3, a4, a5, a6, a7, a8, a9⟩ := hg.edges j e he
    rw [htl, hm] at a1
    cases a1
    rw [hmk] at a9
    cases a9
    obtain ⟨-, t', h', q', e'', b1, b2, b3, b4, b5, b6, b7, b8, b9⟩ := hg.edges q e' a6
    rw [hn] at b2
    cases b2
    exact hc q (hi q b4) e' a6 j a7

theorem Node.single_in {n : Node} {j : Nat} (hj : n.is_junction = false) (h : j ∈ n.inedges) :
    n.inedges = [j] := by
  unfold Node.is_junction Node.indegree at hj
  simp only [Bool.or_eq_false_iff, decide_eq_false_iff_not] at hj
  match hl : n.inedges with
  | [] => rw [hl] at h; simp at h
  | [i] => rw [hl] at h; simp at h; rw [h]
  | _ :: _ :: _ => rw [hl] at hj; simp at hj

theorem Node.single_out {n : Node} {j : Nat} (hj : n.is_junction = false)
    (h : n.outedges.head? = some j) : n.outedges = [j] := by
  unfold Node.is_junction Node.outdegree at hj
  simp only [Bool.or_eq_false_iff, decide_eq_false_iff_not] at hj
  match hl : n.outedges with
  | [] => rw [hl] at h; simp at h
  | [i] => rw [hl] at h; simp at h; rw [h]
  | _ :: _ :: _ => rw [hl] at hj; simp at hj

theorem Graph.wf.walks_inedges {g : Graph} (hg : g.wf) (ids : List Nat) (end_ : Nat) (e : Node)
    (he : g.node end_ = some e) :
    ∀ (l : List (Node × Edge)) (p : Nat) (n : Node), g.walks end_ p l →
      (∀ x ∈ l, x.1.is_junction = false) → (l ≠ [] → e.is_junction = false) →
      (∀ x ∈ l, x.2.id ∈ ids) →
      g.node p = some n → (∀ j ∈ n.inedges, j ∈ ids) →
      (∀ j ∈ e.inedges, j ∈ ids) ∧
      ∀ x ∈ l, ∃ p', g.node p' = some x.1 ∧
        x.1.outedges.head?.bind g.edge = some x.2 ∧ ∀ j ∈ x.1.inedges, j ∈ ids := by
  intro l
  induction l with
  | nil =>
    intro p n hw _ _ _ hn hin
    have : p = end_ := hw
    subst this
    rw [he] at hn
    cases hn
    exact ⟨hin, fun x hx => absurd hx (List.not_mem_nil x)⟩
  | cons y l ih =>
    intro p n hw hj hje hid hn hin
    obtain ⟨hpe, hny, hfr, hw'⟩ := hw
    rw [hny] at hn
    cases hn
    obtain ⟨h, hh, hnil, hcons⟩ := Graph.walks_head he hw'
    have hjh : h.is_junction = false := by
      cases l with
      | nil => rw [hnil rfl]; exact hje (List.cons_ne_nil _ _)
      | cons z l =>
        rw [hcons z (by simp)]
        exact hj z (by simp)
    obtain ⟨q, fp, -, hej, -, -, -, -, -, -, -, -⟩ := hg.walks_front hny hfr
    obtain ⟨-, t, h', -, -, -, a2, -, a4, -⟩ := hg.edges _ _ hej
    rw [hh] at a2
    cases a2
    have hsingle := Node.single_in hjh a4
    obtain ⟨r1, r2⟩ := ih y.2.head h hw' (fun z hz => hj z (List.mem_cons_of_mem _ hz))
      (fun _ => hje (List.cons_ne_nil _ _))
      (fun z hz => hid z (List.mem_cons_of_mem _ hz)) hh (by
        intro j hj'
        rw [hsingle, List.mem_singleton] at hj'
        rw [hj']
        exact hid y (List.mem_cons_self _ _))
    refine ⟨r1, ?_⟩
    intro x hx
    rcases List.mem_cons.mp hx with rfl | hx'
    · exact ⟨p, hny, hfr, hin⟩
    · exact r2 x hx'

theorem RemoveTips.mark_out_fold (g : Graph) (hg : g.wf) :
    ∀ (outs marked : List Nat),
      (∀ j ∈ outs, ∃ f, g.edge j = some f ∧ ∀ h ∈ g.node f.head, h.indegree > 1) →
      ∃ marked', outs.foldlM (RemoveTips.mark_out g) marked = some marked' ∧
        ∀ i, i ∈ marked' ↔
          i ∈ marked ∨ ∃ j ∈ outs, ∃ f, g.edge j = some f ∧ (i = j ∨ f.pair = some i) := by
  intro outs
  induction outs with
  | nil =>
    intro marked _
    refine ⟨marked, rfl, ?_⟩
    intro i
    simp
  | cons j outs ih =>
    intro marked hall
    obtain ⟨f, hf, hin⟩ := hall j (List.mem_cons_self _ _)
    obtain ⟨hid, t, h, q, fp, -, a2, -, -, a5, a6, -, -, -⟩ := hg.edges j f hf
    have hidq := (hg.edges q fp a6).1
    have hpair : g.edge_pair f = some fp := Graph.edge_pair_eq_some.mpr ⟨q, a5, a6⟩
    obtain ⟨marked', hm, hmem⟩ := ih (emplace (emplace marked f.id) fp.id)
      (fun j' hj' => hall j' (List.mem_cons_of_mem _ hj'))
    refine ⟨marked', ?_, ?_⟩
    · simp only [List.foldlM_cons, Option.bind_eq_bind, RemoveTips.mark_out, hf,
        Option.some_bind, a2, if_pos (hin h a2), hpair]
      exact hm
    · intro i
      rw [hmem, mem_emplace, mem_emplace, hid, hidq]
      constructor
      · rintro (((h1 | h1) | h1) | ⟨j', hj', f', hf', h1⟩)
        · exact Or.inl h1
        · exact Or.inr ⟨j, List.mem_cons_self _ _, f, hf, Or.inl h1⟩
        · exact Or.inr ⟨j, List.mem_cons_self _ _, f, hf, Or.inr (h1 ▸ a5)⟩
        · exact Or.inr ⟨j', List.mem_cons_of_mem _ hj', f', hf', h1⟩
      · rintro (h1 | ⟨j', hj', f', hf', h1⟩)
        · exact Or.inl (Or.inl (Or.inl h1))
        · rcases List.mem_cons.mp hj' with rfl | hj'
          · rw [hf] at hf'
            cases hf'
            rcases h1 with h1 | h1
            · exact Or.inl (Or.inl (Or.inr h1))
            · rw [a5] at h1
              cases h1
              exact Or.inl (Or.inr rfl)
          · exact Or.inr ⟨j', hj', f', hf', h1⟩

theorem Graph.walks_mem {g : Graph} {end_ : Nat} :
    ∀ (l : List (Node × Edge)) (p : Nat), g.walks end_ p l →
      ∀ x ∈ l, ∃ p', g.node p' = some x.1 ∧ x.1.outedges.head?.bind g.edge = some x.2 := by
  intro l
  induction l with
  | nil => intro p _ x hx; exact absurd hx (List.not_mem_nil x)
  | cons y l ih =>
    intro p hw x hx
    obtain ⟨-, hn, hfr, hw'⟩ := hw
    rcases List.mem_cons.mp hx with rfl | hx
    · exact ⟨p, hn, hfr⟩
    · exact ih _ hw' x hx

theorem Graph.edge_none_of_reset {g : Graph} {j : Nat} (h : g.edges_[j]? = some none) :
    g.edge j = none := by
  unfold Graph.edge
  rw [h]
  rfl

/-- The removal at the end of a round of `RemoveTips`: when the set `M`
holds the edges of the chain `l`, the out-edges of its last node `e` and the
pairs of all these edges, and nothing else, `RemoveEdges` with `remove_nodes`
set empties the slots of these edges, of the nodes of the chain with `e`, and
of the pairs of these nodes. -/
theorem RemoveTips.removal (g : Graph) (hg : g.wf) (k end_ : Nat) (it e : Node)
    (l : List (Node × Edge)) (M : List Nat)
    (hk : g.node k = some it) (hin : it.indegree = 0) (hw : g.walks end_ k l)
    (hl : ∀ x ∈ l, x.1.is_junction = false)
    (he : g.node end_ = some e) (hje : e.is_junction = true → l = [])
    (h0 : e.outdegree ≠ 0)
    (hM : ∀ i, i ∈ M ↔ (∃ x ∈ l, i = x.2.id ∨ x.2.pair = some i) ∨
      ∃ j ∈ e.outedges, ∃ f, g.edge j = some f ∧ (i = j ∨ f.pair = some i)) :
    ∃ g', RemoveEdges g M true = some g' ∧
      (∀ x ∈ l,
        g'.edge x.2.id = none ∧ (∀ q, x.2.pair = some q → g'.edge q = none) ∧
        g'.node x.2.tail = none ∧ (∀ p, x.1.pair = some p → g'.node p = none)) ∧
      (∀ j ∈ e.outedges, ∀ f, g.edge j = some f →
        g'.edge j = none ∧ ∀ q, f.pair = some q → g'.edge q = none) ∧
      g'.node end_ = none ∧ (∀ p, e.pair = some p → g'.node p = none) := by
  have hinl : it.inedges = [] := by
    unfold Node.indegree at hin
    exact List.length_eq_zero.mp hin
  have hids : ∀ x ∈ l, x.2.id ∈ M := fun x hx => (hM _).mpr (Or.inl ⟨x, hx, Or.inl rfl⟩)
  obtain ⟨hine, hchain⟩ := hg.walks_inedges M end_ e he l k it hw hl
    (by
      intro hne
      cases hj : e.is_junction with
      | false => rfl
      | true => exact absurd (hje hj) hne)
    hids hk (by rw [hinl]; intro j hj; exact absurd hj (List.not_mem_nil j))
  have houte : ∀ j ∈ e.outedges, j ∈ M := by
    intro j hj
    obtain ⟨f, hf, -⟩ := (hg.adj end_ e he).1 j hj
    exact (hM j).mpr (Or.inr ⟨j, hj, f, hf, Or.inl rfl⟩)
  -- every marked edge is an edge of the graph, and so is its pair, which is marked
  have hlive : ∀ i ∈ M, ∃ ed, g.edge i = some ed ∧ ∀ q, ed.pair = some q → q ∈ M := by
    intro i hi
    rcases (hM i).mp hi with ⟨x, hx, h⟩ | ⟨j, hj, f, hf, h⟩
    · obtain ⟨p', hn', hfr', -⟩ := hchain x hx
      obtain ⟨q', fp, -, hej, -, -, hq', hfq, -, -, hfpj, -⟩ := hg.walks_front hn' hfr'
      rcases h with rfl | h
      · refine ⟨_, hej, ?_⟩
        intro q hq
        exact (hM q).mpr (Or.inl ⟨x, hx, Or.inr hq⟩)
      · rw [hq'] at h
        cases h
        refine ⟨_, hfq, ?_⟩
        intro q hq
        rw [hfpj] at hq
        cases hq
        exact hids x hx
    · obtain ⟨hid, -, -, q', fp, -, -, -, -, a5, a6, a7, -, -⟩ := hg.edges j f hf
      rcases h with rfl | h
      · refine ⟨_, hf, ?_⟩
        intro q hq
        exact (hM q).mpr (Or.inr ⟨i, hj, f, hf, Or.inr hq⟩)
      · rw [a5] at h
        cases h
        refine ⟨_, a6, ?_⟩
        intro q hq
        rw [a7] at hq
        cases hq
        exact houte _ hj
  have hclosed : g.pair_closed M := by
    intro i hi ed hed q hq
    obtain ⟨ed', hed', hc⟩ := hlive i hi
    rw [hed] at hed'
    cases hed'
    exact hc q hq
  have hL : ∀ i ∈ M, ∃ ed t h, g.edge i = some ed ∧ g.node ed.tail = some t ∧
      g.node ed.head = some h := by
    intro i hi
    obtain ⟨ed, hed, -⟩ := hlive i hi
    obtain ⟨-, t, h, -, -, a1, a2, -⟩ := hg.edges _ _ hed
    exact ⟨ed, t, h, hed, a1, a2⟩
  obtain ⟨g', hre, -, -, -, -, hrem, -, -, hnode⟩ := RemoveEdges_spec g M true hg.adj
    (fun k n h => (hg.nodes k n h).1) hL
  -- a node all of whose edges are marked, with an out-edge, is dropped with its pair
  have key : ∀ p' n, g.node p' = some n → (∀ j ∈ n.inedges, j ∈ M) →
      (∀ j ∈ n.outedges, j ∈ M) → ∀ j ∈ n.outedges,
      g'.node p' = none ∧ ∀ p, n.pair = some p → g'.node p = none := by
    intro p' n hn' hinx houtx j hj
    obtain ⟨f, hf, htl⟩ := (hg.adj p' n hn').1 j hj
    obtain ⟨-, t, h, q, fp, a1, -, -, -, a5, a6, -, -, a9⟩ := hg.edges j f hf
    rw [htl, hn'] at a1
    cases a1
    obtain ⟨-, pp, m, hpp, hm, -⟩ := hg.nodes p' _ hn'
    rw [hpp] at a9
    cases a9
    have hq : q ∈ M := hclosed j (houtx j hj) f hf q a5
    constructor
    · exact ((hnode p' _ hn').2).mpr ⟨rfl,
        (Graph.touched_iff hg M p').mpr ⟨j, houtx j hj, f, hf, Or.inl htl⟩,
        Node.strip_all hinx houtx⟩
    · intro p'' hp''
      rw [hpp] at hp''
      cases hp''
      obtain ⟨hmi, hmo⟩ := hg.pair_edges hclosed hn' hpp hm hinx houtx
      exact ((hnode _ _ hm).2).mpr ⟨rfl,
        (Graph.touched_iff hg M _).mpr ⟨q, hq, fp, a6, Or.inr rfl⟩,
        Node.strip_all hmi hmo⟩
  refine ⟨g', hre, ?_, ?_, ?_⟩
  · intro x hx
    obtain ⟨p', hn', hfr', hinx⟩ := hchain x hx
    obtain ⟨q, fp, hhx, hej, htl, -, hq, hfq, -, -, -, -⟩ := hg.walks_front hn' hfr'
    have hi1 : x.2.id ∈ M := hids x hx
    have hi2 : q ∈ M := (hM _).mpr (Or.inl ⟨x, hx, Or.inr hq⟩)
    have houtx : ∀ j ∈ x.1.outedges, j ∈ M := by
      intro j hj
      rw [Node.single_out (hl x hx) hhx, List.mem_singleton] at hj
      rw [hj]
      exact hi1
    obtain ⟨k1, k2⟩ := key p' x.1 hn' hinx houtx x.2.id (List.mem_of_mem_head? hhx)
    refine ⟨Graph.edge_none_of_reset (hrem _ hi1), ?_, ?_, k2⟩
    · intro q'' hq''
      rw [hq] at hq''
      cases hq''
      exact Graph.edge_none_of_reset (hrem _ hi2)
    · rw [htl]
      exact k1
  · intro j hj f hf
    refine ⟨Graph.edge_none_of_reset (hrem _ (houte j hj)), ?_⟩
    intro q hq
    exact Graph.edge_none_of_reset (hrem _ (hclosed j (houte j hj) f hf q hq))
  · have hne : e.outedges ≠ [] := by
      intro h
      apply h0
      unfold Node.outdegree
      rw [h]
      rfl
    obtain ⟨j, hj⟩ := List.exists_mem_of_ne_nil _ hne
    exact key end_ e he hine houte j hj

/-- C17: in a well-formed graph, for a node `it` that is a tip, is not yet
visited and has no in-edge, and for the chain `l` of non-junction nodes that
the walk along the first out-edges takes from `it` to the node `end`, where
`end` has an out-edge and every out-edge of `end` leads to a node of
in-degree above 1.  The node `end` is not a junction, or it is the node `it`
itself, at which the walk stops at once with the count 0.  When the
accumulated count is at most 5, the round of `RemoveTips` for `it` returns
and leaves empty the slot of every edge of the chain, of every out-edge of
`end`, of the pairs of these edges, of every node of the chain with `end`,
and of the pairs of these nodes; one tip is counted, unless `end` is a
junction whose marked edges do not number twice its out-edges.  When the
accumulated count is more than 5 (and less than `2^32`) the round returns the
graph unchanged. -/
theorem RemoveTips_excises_chain (is_tip : Node → Bool) (fuel : Nat) (st : RemoveTips.State)
    (k end_ : Nat) (it e : Node) (l : List (Node × Edge))
    (hg : st.g.wf) (hk : st.g.node k = some it) (hvis : st.is_visited[it.id]? = some false)
    (hlenv : st.is_visited.length = st.g.nodes_.length) (htip : is_tip it = true)
    (hin : it.indegree = 0) (hw : st.g.walks end_ k l)
    (hl : ∀ x ∈ l, x.1.is_junction = false)
    (he : st.g.node end_ = some e) (hje : e.is_junction = true → l = [])
    (h0 : e.outdegree ≠ 0)
    (hhead : ∀ j ∈ e.outedges, ∀ f ∈ st.g.edge j, ∀ h ∈ st.g.node f.head, h.indegree > 1)
    (hf : l.length < fuel) :
    ((e.is_junction = false → (l.map fun x => x.1.count).sum + e.count ≤ 5) →
      ∃ st', RemoveTips.step is_tip fuel st k = some st' ∧
        (st'.num_tips = add32 st.num_tips 1 ∨
          (e.is_junction = true ∧ st'.num_tips = st.num_tips)) ∧
        (∀ x ∈ l,
          st'.g.edge x.2.id = none ∧ (∀ q, x.2.pair = some q → st'.g.edge q = none) ∧
          st'.g.node x.2.tail = none ∧ (∀ p, x.1.pair = some p → st'.g.node p = none)) ∧
        (∀ j ∈ e.outedges, ∀ f, st.g.edge j = some f →
          st'.g.edge j = none ∧ ∀ q, f.pair = some q → st'.g.edge q = none) ∧
        st'.g.node end_ = none ∧ (∀ p, e.pair = some p → st'.g.node p = none)) ∧
    (e.is_junction = false → 5 < (l.map fun x => x.1.count).sum + e.count →
      (l.map fun x => x.1.count).sum + e.count < u32 →
      ∃ st', RemoveTips.step is_tip fuel st k = some st' ∧ st'.g = st.g ∧
        st'.num_tips = st.num_tips) := by
  have hinl : it.inedges = [] := by
    unfold Node.indegree at hin
    exact List.length_eq_zero.mp hin
  have hlive : ∀ j ∈ e.outedges, ∃ f, st.g.edge j = some f ∧
      ∀ h ∈ st.g.node f.head, h.indegree > 1 := by
    intro j hj
    obtain ⟨f, hf', -⟩ := (hg.adj end_ e he).1 j hj
    exact ⟨f, hf', hhead j hj f hf'⟩
  -- the walk
  have hwalk : ∃ vis' num, RemoveTips.walk st.g k fuel k 0 st.is_visited =
      some (end_, num, false, vis') ∧
      (e.is_junction = false → num = ((l.map fun x => x.1.count).sum + e.count) % u32) ∧
      (e.is_junction = true → num = 0) := by
    cases hj : e.is_junction with
    | true =>
      have hnil := hje hj
      subst hnil
      have hke : k = end_ := hw
      subst hke
      cases fuel with
      | zero => simp at hf
      | succ fuel =>
        refine ⟨st.is_visited, 0, ?_, fun h => Bool.noConfusion h, fun _ => rfl⟩
        simp only [RemoveTips.walk, he, Option.some_bind, hj, if_true]
    | false =>
      have hxit : ∀ x ∈ l, x.1.is_junction = false ∧ x.2.head ≠ k := by
        intro x hx
        refine ⟨hl x hx, ?_⟩
        intro hhd
        obtain ⟨p', hn', hfr'⟩ := Graph.walks_mem l k hw x hx
        obtain ⟨q, fp, -, hej, -, -, -, -, -, -, -, -⟩ := hg.walks_front hn' hfr'
        obtain ⟨-, t, h', -, -, -, a2, -, a4, -⟩ := hg.edges _ _ hej
        rw [hhd, hk] at a2
        cases a2
        rw [hinl] at a4
        simp at a4
      obtain ⟨vis', hwalk⟩ := RemoveTips.walk_spec st.g hg k end_ e he hj h0
        (by
          intro f hf' h hh
          have hfo : st.g.front_out end_ = some f := hf'
          unfold Graph.front_out at hfo
          rw [he, Option.some_bind] at hfo
          obtain ⟨j, hj', hej⟩ := Option.bind_eq_some.mp hfo
          exact hhead j (List.mem_of_mem_head? hj') f hej h hh)
        l k 0 st.is_visited fuel hw hxit hlenv hf
      rw [Nat.zero_add] at hwalk
      exact ⟨vis', _, hwalk, fun _ => rfl, fun h => Bool.noConfusion h⟩
  obtain ⟨vis', num, hwalk, hnum0, hnum1⟩ := hwalk
  have hstep : RemoveTips.step is_tip fuel st k =
      if (false = true ∨ e.outdegree = 0 ∨ num > 5) then
        some { st with is_visited := vis' }
      else RemoveTips.excise fuel { st with is_visited := vis' } k end_ := by
    unfold RemoveTips.step
    simp only [hk, hvis, Option.some_bind, htip, Bool.false_eq_true, Bool.true_eq_false,
      or_self, if_false, hwalk, he]
  constructor
  · intro htot
    have hnum : ¬ (false = true ∨ e.outdegree = 0 ∨ num > 5) := by
      have h5 : num ≤ 5 := by
        cases hj : e.is_junction with
        | true => rw [hnum1 hj]; exact Nat.zero_le 5
        | false =>
          rw [hnum0 hj]
          exact Nat.le_trans (Nat.mod_le _ _) (htot hj)
      simp only [Bool.false_eq_true, false_or, not_or]
      exact ⟨h0, by omega⟩
    rw [if_neg hnum] at hstep
    obtain ⟨M0, hmark, hM0⟩ := RemoveTips.mark_out_fold st.g hg e.outedges [] hlive
    obtain ⟨M1, hchain, hM1⟩ := RemoveTips.mark_chain_spec st.g hg end_ l k M0 fuel hw hf
    have hM1' : ∀ i, i ∈ M1 ↔ (∃ x ∈ l, i = x.2.id ∨ x.2.pair = some i) ∨
        ∃ j ∈ e.outedges, ∃ f, st.g.edge j = some f ∧ (i = j ∨ f.pair = some i) := by
      intro i
      rw [hM1, hM0]
      constructor
      · rintro ((h | h) | h)
        · exact absurd h (List.not_mem_nil i)
        · exact Or.inr h
        · exact Or.inl h
      · rintro (h | h)
        · exact Or.inr h
        · exact Or.inl (Or.inr h)
    by_cases hc : M0.length / 2 = e.outedges.length
    · obtain ⟨g', hre, r1, r2, r3, r4⟩ := RemoveTips.removal st.g hg k end_ it e l M1 hk hin hw
        hl he hje h0 hM1'
      refine ⟨{ g := g', num_tips := add32 st.num_tips 1, is_visited := vis' }, ?_,
        Or.inl rfl, r1, r2, r3, r4⟩
      rw [hstep]
      unfold RemoveTips.excise
      simp only [he, Option.some_bind, hmark, if_pos hc, hchain, hre]
    · have hj : e.is_junction = true := by
        cases hj : e.is_junction with
        | true => rfl
        | false =>
          exfalso
          apply hc
          have hne : e.outedges ≠ [] := by
            intro h
            apply h0
            unfold Node.outdegree
            rw [h]
            rfl
          obtain ⟨j, hj'⟩ := List.head?_isSome.mpr hne |> Option.isSome_iff_exists.mp
          have hout : e.outedges = [j] := Node.single_out hj hj'
          obtain ⟨f, hf', hin'⟩ := hlive j (List.mem_of_mem_head? hj')
          obtain ⟨hid, t, h, q, fp, -, a2, -, -, a5, a6, -, -, -⟩ := hg.edges j f hf'
          have hqj : q ≠ j := by
            rintro rfl
            exact hg.edges_distinct _ f hf' a5
          have hM0eq : M0 = emplace (emplace [] j) q := by
            have hidq := (hg.edges q fp a6).1
            have hpair : st.g.edge_pair f = some fp := Graph.edge_pair_eq_some.mpr ⟨q, a5, a6⟩
            have := hmark
            rw [hout] at this
            simp only [List.foldlM_cons, List.foldlM_nil, Option.bind_eq_bind, Option.pure_def,
              Option.bind_some, RemoveTips.mark_out, hf', a2, Option.some_bind,
              if_pos (hin' h a2), hpair, hid, hidq,
              Option.some.injEq] at this
            exact this.symm
          rw [hM0eq, hout]
          simp [emplace, hqj]
      have hnil := hje hj
      have hM0' : ∀ i, i ∈ M0 ↔ (∃ x ∈ l, i = x.2.id ∨ x.2.pair = some i) ∨
          ∃ j ∈ e.outedges, ∃ f, st.g.edge j = some f ∧ (i = j ∨ f.pair = some i) := by
        intro i
        rw [hM0, hnil]
        constructor
        · rintro (h | h)
          · exact absurd h (List.not_mem_nil i)
          · exact Or.inr h
        · rintro (⟨x, hx, -⟩ | h)
          · exact absurd hx (List.not_mem_nil x)
          · exact Or.inr h
      obtain ⟨g', hre, r1, r2, r3, r4⟩ := RemoveTips.removal st.g hg k end_ it e l M0 hk hin hw
        hl he hje h0 hM0'
      refine ⟨{ g := g', num_tips := st.num_tips, is_visited := vis' }, ?_,
        Or.inr ⟨hj, rfl⟩, r1, r2, r3, r4⟩
      rw [hstep]
      unfold RemoveTips.excise
      simp only [he, Option.some_bind, hmark, if_neg hc, hre]
  · intro hj h5 hlt
    rw [hnum0 hj, Nat.mod_eq_of_lt hlt, if_pos (Or.inr (Or.inr h5))] at hstep
    exact ⟨_, hstep, rfl, rfl⟩

/-- The dead end `6 → 8 → 10` of `ex_tip`, with three reads: the round for
the node 6 counts one tip and empties the slots of the edges 4 to 9 and of
the nodes 6 to 11.  In `ex_fork` the tip start 0 is a junction whose two
out-edges lead to nodes of in-degree 2: the round for the node 0 counts one
tip and empties the slots of the edges 0 to 3 and of the nodes 0 and 1. -/
theorem RemoveTips_excises_chain_witness :
    (∃ st', RemoveTips.step (fun n => decide (0 < n.outdegree ∧ n.indegree = 0 ∧ n.count < 6)) 3
        ⟨ex_tip, 0, List.replicate 12 false⟩ 6 = some st' ∧
      st'.num_tips = 1 ∧
      st'.g.edges_.drop 4 = [none, none, none, none, none, none] ∧
      st'.g.nodes_.drop 6 = [none, none, none, none, none, none]) ∧
    (∃ st', RemoveTips.step (fun n => decide (0 < n.outdegree ∧ n.indegree = 0 ∧ n.count < 6)) 1
        ⟨ex_fork, 0, List.replicate 8 false⟩ 0 = some st' ∧
      st'.num_tips = 1 ∧
      st'.g.edges_.take 4 = [none, none, none, none] ∧
      st'.g.nodes_.take 2 = [none, none]) := by
  constructor
  · obtain ⟨st', h, -⟩ := (RemoveTips_excises_chain
      (fun n => decide (0 < n.outdegree ∧ n.indegree = 0 ∧ n.count < 6)) 3
      ⟨ex_tip, 0, List.replicate 12 false⟩ 6 10
      ⟨6, "TTTTTTACAC".toList, 1, false, false, [], [], [4], some 7⟩
      ⟨10, "GTGTCCCCGG".toList, 1, false, false, [], [6], [8], some 11⟩
      [(⟨6, "TTTTTTACAC".toList, 1, false, false, [], [], [4], some 7⟩, ⟨4, 6, 6, 8, some 5⟩),
       (⟨8, "ACACGTGTGT".toList, 1, false, false, [], [4], [6], some 9⟩, ⟨6, 6, 8, 10, some 7⟩)]
      (Graph.wf_of_bounded (by decide)) (by decide) (by decide) (by decide) (by decide)
      (by decide) (by simp [Graph.walks, ex_tip, Graph.node, Graph.edge]) (by decide)
      (by decide) (by decide) (by decide) (by decide) (by decide)).1 (by decide)
    have h' : RemoveTips.step (fun n => decide (0 < n.outdegree ∧ n.indegree = 0 ∧ n.count < 6))
        3 ⟨ex_tip, 0, List.replicate 12 false⟩ 6 = some
        ⟨⟨[some ⟨0, "AAAAAACCCC".toList, 1, false, false, [], [], [0], some 1⟩,
           some ⟨1, "GGGGTTTTTT".toList, 1, false, false, [], [1], [], some 0⟩,
           some ⟨2, "CCCCGGGGGG".toList, 1, false, false, [], [0], [2], some 3⟩,
           some ⟨3, "CCCCCCGGGG".toList, 1, false, false, [], [3], [1], some 2⟩,
           some ⟨4, "GGGGTTTTTT".toList, 1, false, false, [], [2], [], some 5⟩,
           some ⟨5, "AAAAAACCCC".toList, 1, false, false, [], [], [3], some 4⟩,
           none, none, none, none, none, none],
          [some ⟨0, 6, 0, 2, some 1⟩, some ⟨1, 6, 3, 1, some 0⟩, some ⟨2, 6, 2, 4, some 3⟩,
           some ⟨3, 6, 5, 3, some 2⟩, none, none, none, none, none, none], 12, 10⟩, 1,
          [false, false, false, false, false, false, true, true, true, true, true, true]⟩ := by
      decide
    rw [h'] at h
    cases h
    exact ⟨_, h', rfl, rfl, rfl⟩
  · obtain ⟨st', h, -⟩ := (RemoveTips_excises_chain
      (fun n => decide (0 < n.outdegree ∧ n.indegree = 0 ∧ n.count < 6)) 1
      ⟨ex_fork, 0, List.replicate 8 false⟩ 0 0
      ⟨0, "AAAAAACCCC".toList, 1, false, false, [], [], [0, 2], some 1⟩
      ⟨0, "AAAAAACCCC".toList, 1, false, false, [], [], [0, 2], some 1⟩
      []
      (Graph.wf_of_bounded (by decide)) (by decide) (by decide) (by decide) (by decide)
      (by decide) rfl (by decide) (by decide) (fun _ => rfl) (by decide) (by decide)
      (by decide)).1 (fun h => absurd h (by decide))
    have h' : RemoveTips.step (fun n => decide (0 < n.outdegree ∧ n.indegree = 0 ∧ n.count < 6))
        1 ⟨ex_fork, 0, List.replicate 8 false⟩ 0 = some
        ⟨⟨[none, none,
           some ⟨2, "GGGGTTTTTT".toList, 1, false, false, [], [4], [], some 3⟩,
           some ⟨3, "AAAAAACCCC".toList, 1, false, false, [], [], [5], some 2⟩,
           some ⟨4, "CCCCGGGGGG".toList, 1, false, false, [], [6], [4], some 5⟩,
           some ⟨5, "CCCCCCGGGG".toList, 1, false, false, [], [5], [7], some 4⟩,
           some ⟨6, "ACACACCCCC".toList, 1, false, false, [], [], [6], some 7⟩,
           some ⟨7, "GGGGGTGTGT".toList, 1, false, false, [], [7], [], some 6⟩],
          [none, none, none, none, some ⟨4, 6, 4, 2, some 5⟩, some ⟨5, 6, 3, 5, some 4⟩,
           some ⟨6, 6, 6, 4, some 7⟩, some ⟨7, 6, 5, 7, some 6⟩], 8, 8⟩, 1,
          [false, false, false, false, false, false, false, false]⟩ := by
      decide
    rw [h'] at h
    cases h
    exact ⟨_, h', rfl, rfl, rfl⟩

/-! ## Short chains -/

theorem Graph.wf.visit {g : Graph} (hg : g.wf) {p : Nat} {n : Node} (vis : List Bool)
    (hn : g.node p = some n) (hv : vis.length = g.nodes_.length) :
    ∃ v₁ q m v₂, set_checked vis n.id true = some v₁ ∧ n.pair = some q ∧ g.node q = some m ∧
      set_checked v₁ m.id true = some v₂ ∧ v₂.length = g.nodes_.length := by
  obtain ⟨hid, q, m, hq, hm, -⟩ := hg.nodes p n hn
  have hidm := (hg.nodes q m hm).1
  have h1 : n.id < vis.length := by rw [hid, hv]; exact Graph.node_lt hn
  have h2 : m.id < (vis.set n.id true).length := by
    rw [List.length_set, hidm, hv]
    exact Graph.node_lt hm
  refine ⟨vis.set n.id true, q, m, (vis.set n.id true).set m.id true, ?_, hq, hm, ?_, ?_⟩
  · simp [set_checked, h1]
  · simp only [set_checked, if_pos h2]
  · simp [hv]

theorem Graph.walks_left_head {g : Graph} {begin_ p : Nat} {l : List (Node × Edge)}
    {b : Node} (hb : g.node begin_ = some b) (hw : g.walks_left begin_ p l) :
    ∃ h, g.node p = some h ∧ (l = [] → h = b) ∧ (∀ x ∈ l.head?, h = x.1) := by
  cases l with
  | nil =>
    have : p = begin_ := hw
    subst this
    exact ⟨b, hb, fun _ => rfl, by simp⟩
  | cons x l =>
    obtain ⟨-, hn, -, -⟩ := hw
    exact ⟨x.1, hn, by simp, by simp⟩

theorem CreateUnitigs.extend_left_spec (g : Graph) (hg : g.wf) (it begin_ : Nat) (b : Node)
    (hb : g.node begin_ = some b) (hjb : b.is_junction = false)
    (hstop : b.indegree = 0 ∨ ∀ f ∈ g.front_in begin_, ∀ t ∈ g.node f.tail,
      t.is_junction = true) :
    ∀ (l : List (Node × Edge)) (p ext : Nat) (vis : List Bool) (fuel : Nat),
      g.walks_left begin_ p l → (∀ x ∈ l, x.1.is_junction = false ∧ x.2.tail ≠ it) →
      vis.length = g.nodes_.length → l.length < fuel → ext + l.length < u32 →
      ∃ vis', CreateUnitigs.extend_left g it fuel p ext vis =
          some (begin_, ext + l.length, false, vis') ∧
        vis'.length = g.nodes_.length := by
  intro l
  induction l with
  | nil =>
    intro p ext vis fuel hw _ hv hf _
    have : p = begin_ := hw
    subst this
    cases fuel with
    | zero => simp at hf
    | succ fuel =>
      obtain ⟨v₁, q, m, v₂, hs1, hq, hm, hs2, hv₂⟩ := hg.visit vis hb hv
      refine ⟨v₂, ?_, hv₂⟩
      by_cases h0 : b.indegree = 0
      · simp [CreateUnitigs.extend_left, hb, hjb, hs1, hq, hm, hs2, h0]
      · obtain ⟨j, front, -, -, t, -, -, -, hj, hej, hfront, -, -, -, -, ht, -⟩ :=
          hg.front_in hb h0
        have hjt : t.is_junction = true := by
          rcases hstop with h | h
          · exact absurd h h0
          · exact h front hfront t ht
        simp [CreateUnitigs.extend_left, hb, hjb, hs1, hq, hm, hs2, h0, hj, hej, ht, hjt]
  | cons x l ih =>
    intro p ext vis fuel hw hx hv hf hext
    obtain ⟨hpe, hn, hfr, hw'⟩ := hw
    obtain ⟨hjx, hxit⟩ := hx x (List.mem_cons_self _ _)
    cases fuel with
    | zero => simp at hf
    | succ fuel =>
      obtain ⟨v₁, q, m, v₂, hs1, hq, hm, hs2, hv₂⟩ := hg.visit vis hn hv
      obtain ⟨j, hj, hej⟩ := Option.bind_eq_some.mp hfr
      have h0x : x.1.indegree ≠ 0 := by
        intro h
        unfold Node.indegree at h
        rw [List.length_eq_zero] at h
        rw [h] at hj
        simp at hj
      obtain ⟨h, hh, hnil, hcons⟩ := Graph.walks_left_head hb hw'
      have hjh : h.is_junction = false := by
        cases l with
        | nil => rw [hnil rfl]; exact hjb
        | cons y l =>
          rw [hcons y (by simp)]
          exact (hx y (by simp)).1
      simp only [List.length_cons] at hf hext
      obtain ⟨vis', hrec, hvl⟩ := ih x.2.tail (add32 ext 1) v₂ fuel hw'
        (fun y hy => hx y (List.mem_cons_of_mem _ hy)) hv₂ (by omega)
        (by rw [add32, Nat.mod_eq_of_lt (by omega)]; omega)
      refine ⟨vis', ?_, hvl⟩
      simp only [CreateUnitigs.extend_left, hn, hjx, hs1, hq, hm, hs2, h0x, hj, hej, hh, hjh,
        Option.bind_eq_bind, Option.some_bind, Option.pure_def, Bool.false_eq_true, if_false,
        if_neg hxit, hrec, List.length_cons, Option.some.injEq, Prod.mk.injEq, true_and,
        and_true]
      rw [add32, Nat.mod_eq_of_lt (by omega)]
      omega

theorem CreateUnitigs.extend_right_spec (g : Graph) (hg : g.wf) (it end_ : Nat) (e : Node)
    (c : Bool) (he : g.node end_ = some e) (hje : e.is_junction = false)
    (hstop : e.outdegree = 0 ∨ ∀ f ∈ g.front_out end_, ∀ h ∈ g.node f.head,
      h.is_junction = true) :
    ∀ (l : List (Node × Edge)) (p ext : Nat) (vis : List Bool) (fuel : Nat),
      g.walks end_ p l → (∀ x ∈ l, x.1.is_junction = false ∧ x.2.head ≠ it) →
      vis.length = g.nodes_.length → l.length < fuel → ext + l.length < u32 →
      ∃ vis', CreateUnitigs.extend_right g it fuel p ext c vis =
          some (end_, ext + l.length, c, vis') ∧
        vis'.length = g.nodes_.length := by
  intro l
  induction l with
  | nil =>
    intro p ext vis fuel hw _ hv hf _
    have : p = end_ := hw
    subst this
    cases fuel with
    | zero => simp at hf
    | succ fuel =>
      obtain ⟨v₁, q, m, v₂, hs1, hq, hm, hs2, hv₂⟩ := hg.visit vis he hv
      refine ⟨v₂, ?_, hv₂⟩
      by_cases h0 : e.outdegree = 0
      · simp [CreateUnitigs.extend_right, he, hje, hs1, hq, hm, hs2, h0]
      · obtain ⟨j, front, -, -, h, -, -, -, hj, hej, hfront, -, -, -, -, hh, -⟩ :=
          hg.front_out he h0
        have hjh : h.is_junction = true := by
          rcases hstop with h' | h'
          · exact absurd h' h0
          · exact h' front hfront h hh
        simp [CreateUnitigs.extend_right, he, hje, hs1, hq, hm, hs2, h0, hj, hej, hh, hjh]
  | cons x l ih =>
    intro p ext vis fuel hw hx hv hf hext
    obtain ⟨hpe, hn, hfr, hw'⟩ := hw
    obtain ⟨hjx, hxit⟩ := hx x (List.mem_cons_self _ _)
    cases fuel with
    | zero => simp at hf
    | succ fuel =>
      obtain ⟨v₁, q, m, v₂, hs1, hq, hm, hs2, hv₂⟩ := hg.visit vis hn hv
      obtain ⟨j, hj, hej⟩ := Option.bind_eq_some.mp hfr
      have h0x : x.1.outdegree ≠ 0 := by
        intro h
        unfold Node.outdegree at h
        rw [List.length_eq_zero] at h
        rw [h] at hj
        simp at hj
      obtain ⟨h, hh, hnil, hcons⟩ := Graph.walks_head he hw'
      have hjh : h.is_junction = false := by
        cases l with
        | nil => rw [hnil rfl]; exact hje
        | cons y l =>
          rw [hcons y (by simp)]
          exact (hx y (by simp)).1
      simp only [List.length_cons] at hf hext
      obtain ⟨vis', hrec, hvl⟩ := ih x.2.head (add32 ext 1) v₂ fuel hw'
        (fun y hy => hx y (List.mem_cons_of_mem _ hy)) hv₂ (by omega)
        (by rw [add32, Nat.mod_eq_of_lt (by omega)]; omega)
      refine ⟨vis', ?_, hvl⟩
      simp only [CreateUnitigs.extend_right, hn, hjx, hs1, hq, hm, hs2, h0x, hj, hej, hh, hjh,
        Option.bind_eq_bind, Option.some_bind, Option.pure_def, Bool.false_eq_true, if_false,
        if_neg hxit, hrec, List.length_cons, Option.some.injEq, Prod.mk.injEq, true_and,
        and_true]
      rw [add32, Nat.mod_eq_of_lt (by omega)]
      omega

/-- C15 (as the code has it): in a well-formed graph, for an unvisited
non-junction node `it` on a chain of non-junction nodes that does not come
back to `it` (`lft` holds the nodes from `it` to the left before `begin`,
`rgt` the nodes from `it` to the right before `end`), where the chain stops at
`begin` and at `end` for want of an edge or at a junction: when the number
`lft.length + rgt.length + 1` of the nodes of the chain is below
`2 * epsilon + 2 < 2^32`, the round of `CreateUnitigs` for `it` returns and
changes `is_visited` only, so that it makes no unitig and marks no edge. -/
theorem CreateUnitigs_step_short (fuel epsilon : Nat) (st : CreateUnitigs.State)
    (k begin_ end_ : Nat) (it b e : Node) (lft rgt : List (Node × Edge))
    (hg : st.g.wf) (hk : st.g.node k = some it) (hvis : st.is_visited[it.id]? = some false)
    (hlenv : st.is_visited.length = st.g.nodes_.length) (hjit : it.is_junction = false)
    (hwl : st.g.walks_left begin_ k lft) (hwr : st.g.walks end_ k rgt)
    (hl : ∀ x ∈ lft, x.1.is_junction = false ∧ x.2.tail ≠ k)
    (hr : ∀ x ∈ rgt, x.1.is_junction = false ∧ x.2.head ≠ k)
    (hb : st.g.node begin_ = some b) (hjb : b.is_junction = false)
    (hbs : b.indegree = 0 ∨ ∀ f ∈ st.g.front_in begin_, ∀ t ∈ st.g.node f.tail,
      t.is_junction = true)
    (he : st.g.node end_ = some e) (hje : e.is_junction = false)
    (hes : e.outdegree = 0 ∨ ∀ f ∈ st.g.front_out end_, ∀ h ∈ st.g.node f.head,
      h.is_junction = true)
    (hfl : lft.length < fuel) (hfr : rgt.length < fuel)
    (hshort : lft.length + rgt.length + 1 < 2 * epsilon + 2) (hwrap : 2 * epsilon + 2 < u32) :
    ∃ is_visited, CreateUnitigs.step fuel epsilon st k =
      some { st with is_visited := is_visited } := by
  obtain ⟨v₁, h1, hv₁⟩ := CreateUnitigs.extend_left_spec st.g hg k begin_ b hb hjb hbs lft k 1
    st.is_visited fuel hwl hl hlenv hfl (by omega)
  obtain ⟨v₂, h2, -⟩ := CreateUnitigs.extend_right_spec st.g hg k end_ e false he hje hes rgt k
    (1 + lft.length) v₁ fuel hwr hr hv₁ hfr (by omega)
  refine ⟨v₂, ?_⟩
  have hlt : 1 + lft.length + rgt.length < add32 (2 * epsilon % u32) 2 := by
    have h1 : 2 * epsilon % u32 = 2 * epsilon := Nat.mod_eq_of_lt (by omega)
    rw [add32, h1, Nat.mod_eq_of_lt hwrap]
    omega
  unfold CreateUnitigs.step
  simp only [hk, hvis, Option.some_bind, hjit, Bool.false_eq_true, or_self, if_false, h1, h2,
    true_and]
  by_cases hbe : begin_ = end_
  · rw [if_pos hbe]
  · rw [if_neg hbe, if_pos hlt]

/-- The chain `0 → 2 → 4 → 6` of `ex_chain` has four nodes; with `epsilon = 2`
the round for the node 2 changes `is_visited` only. -/
theorem CreateUnitigs_step_short_witness :
    ∃ is_visited,
      CreateUnitigs.step 5 2
        ⟨ex_chain, 8, [], 0, List.replicate 8 0, List.replicate 8 false⟩ 2 =
      some ⟨ex_chain, 8, [], 0, List.replicate 8 0, is_visited⟩ :=
  CreateUnitigs_step_short 5 2 ⟨ex_chain, 8, [], 0, List.replicate 8 0, List.replicate 8 false⟩
    2 0 6
    ⟨2, "CCCCGGGGGG".toList, 1, false, false, [], [0], [2], some 3⟩
    ⟨0, "AAAAAACCCC".toList, 1, false, false, [], [], [0], some 1⟩
    ⟨6, "TTTTAAAAAA".toList, 1, false, false, [], [4], [], some 7⟩
    [(⟨2, "CCCCGGGGGG".toList, 1, false, false, [], [0], [2], some 3⟩, ⟨0, 6, 0, 2, some 1⟩)]
    [(⟨2, "CCCCGGGGGG".toList, 1, false, false, [], [0], [2], some 3⟩, ⟨2, 6, 2, 4, some 3⟩),
     (⟨4, "GGGGTTTTTT".toList, 1, false, false, [], [2], [4], some 5⟩, ⟨4, 6, 4, 6, some 5⟩)]
    (Graph.wf_of_bounded (by decide)) (by decide) (by decide) (by decide) (by decide)
    (by simp [Graph.walks_left, ex_chain, Graph.node, Graph.edge])
    (by simp [Graph.walks, ex_chain, Graph.node, Graph.edge])
    (by decide) (by decide) (by decide) (by decide) (by decide) (by decide) (by decide)
    (by decide) (by decide) (by decide) (by decide) (by decide)

/-- C15 (as stated) fails: the two nodes 0 and 2 of `ex_cycle` are
non-junction nodes in a chain that comes back to its first node; with
`epsilon = 5` the chain has fewer than `2 * 5 + 2` nodes, and `CreateUnitigs`
makes the unitig 4 of it, with its twin 5, and removes its edges. -/
theorem CreateUnitigs_merges_short_cycle :
    ex_cycle.wf_bounded ∧
    CreateUnitigs 5 ex_cycle 5 = some
      (⟨[none, none, none, none,
          some ⟨4, "AAAAAACCCCGG".toList, 2, true, false, [], [], [], some 5⟩,
          some ⟨5, "GGGGTTTTTTCC".toList, 2, true, false, [], [], [], some 4⟩],
        [none, none, none, none], 6, 4⟩, 1) := by
  decide

/-! ## Transitive edges -/

theorem Graph.last_to_cons (g : Graph) (x : Nat) (xs : List Nat) (w : Nat) :
    g.last_to (x :: xs) w =
      match g.last_to xs w with
      | some y => some y
      | none => if (g.edge x).map (fun e => e.head) = some w then some x else none := rfl

theorem Graph.last_to_mem (g : Graph) (w : Nat) :
    ∀ (outs : List Nat) (x : Nat), g.last_to outs w = some x →
      x ∈ outs ∧ (g.edge x).map (fun e => e.head) = some w := by
  intro outs
  induction outs with
  | nil => intro x h; simp [Graph.last_to] at h
  | cons y outs ih =>
    intro x h
    unfold Graph.last_to at h
    cases hl : g.last_to outs w with
    | some z =>
      rw [hl] at h
      simp only [Option.some.injEq] at h
      subst h
      exact ⟨List.mem_cons_of_mem _ (ih z hl).1, (ih z hl).2⟩
    | none =>
      rw [hl] at h
      simp only at h
      split_ifs at h with hc
      simp only [Option.some.injEq] at h
      subst h
      exact ⟨List.mem_cons_self _ _, hc⟩

theorem Graph.last_to_none (g : Graph) (w : Nat) :
    ∀ (outs : List Nat), g.last_to outs w = none →
      ∀ x ∈ outs, (g.edge x).map (fun e => e.head) ≠ some w := by
  intro outs
  induction outs with
  | nil => intro _ x hx; exact absurd hx (List.not_mem_nil x)
  | cons y outs ih =>
    intro h x hx
    unfold Graph.last_to at h
    cases hl : g.last_to outs w with
    | some z => rw [hl] at h; simp at h
    | none =>
      rw [hl] at h
      simp only at h
      split_ifs at h with hc
      rcases List.mem_cons.mp hx with rfl | hx
      · exact hc
      · exact ih hl x hx

theorem getD_set {α : Type} (l : List α) (i w : Nat) (a d : α) (hi : i < l.length) :
    (l.set i a).getD w d = if w = i then a else l.getD w d := by
  simp only [List.getD_eq_getElem?_getD, List.getElem?_set]
  by_cases h : i = w
  · subst h
    simp [hi]
  · have h' : ¬ w = i := fun e => h e.symm
    simp [h, h']

theorem RemoveTransitiveEdges.set_fold (g : Graph) (hg : g.wf) :
    ∀ (outs : List Nat) (cand : List (Option Nat)),
      (∀ x ∈ outs, ∃ e, g.edge x = some e) → cand.length = g.nodes_.length →
      ∃ cand', outs.foldlM (RemoveTransitiveEdges.set_candidate g) cand = some cand' ∧
        cand'.length = g.nodes_.length ∧
        ∀ w, cand'.getD w none =
          match g.last_to outs w with
          | some y => some y
          | none => cand.getD w none := by
  intro outs
  induction outs with
  | nil =>
    intro cand _ hl
    exact ⟨cand, rfl, hl, fun w => rfl⟩
  | cons x outs ih =>
    intro cand hlive hl
    obtain ⟨e, he⟩ := hlive x (List.mem_cons_self _ _)
    obtain ⟨-, t, h, -, -, -, hh, -⟩ := hg.edges x e he
    have hid := (hg.nodes _ h hh).1
    have hlt : e.head < cand.length := by rw [hl]; exact Graph.node_lt hh
    have hstep : RemoveTransitiveEdges.set_candidate g cand x =
        some (cand.set e.head (some x)) := by
      simp [RemoveTransitiveEdges.set_candidate, he, hh, hid, set_checked, hlt]
    obtain ⟨cand', hf, hl', hget⟩ := ih (cand.set e.head (some x))
      (fun y hy => hlive y (List.mem_cons_of_mem _ hy)) (by rw [List.length_set]; exact hl)
    refine ⟨cand', ?_, hl', ?_⟩
    · simp only [List.foldlM_cons, Option.bind_eq_bind, hstep, Option.some_bind]
      exact hf
    · intro w
      rw [hget w, Graph.last_to_cons]
      cases hlast : g.last_to outs w with
      | some y => rfl
      | none =>
        simp only [he, Option.map_some', Option.some.injEq]
        rw [getD_set _ _ _ _ _ hlt]
        by_cases hw : w = e.head
        · rw [if_pos hw, if_pos hw.symm]
        · rw [if_neg hw, if_neg (fun h => hw h.symm)]

theorem RemoveTransitiveEdges.clear_fold (g : Graph) (hg : g.wf) :
    ∀ (outs : List Nat) (cand : List (Option Nat)),
      (∀ x ∈ outs, ∃ e, g.edge x = some e) → cand.length = g.nodes_.length →
      (∀ w, cand.getD w none ≠ none →
        ∃ x ∈ outs, (g.edge x).map (fun e => e.head) = some w) →
      ∃ cand', outs.foldlM (RemoveTransitiveEdges.clear_candidate g) cand = some cand' ∧
        cand'.length = g.nodes_.length ∧ ∀ w, cand'.getD w none = none := by
  intro outs
  induction outs with
  | nil =>
    intro cand _ hl hc
    refine ⟨cand, rfl, hl, ?_⟩
    intro w
    by_contra h
    obtain ⟨x, hx, -⟩ := hc w h
    exact absurd hx (List.not_mem_nil x)
  | cons x outs ih =>
    intro cand hlive hl hc
    obtain ⟨e, he⟩ := hlive x (List.mem_cons_self _ _)
    obtain ⟨-, t, h, -, -, -, hh, -⟩ := hg.edges x e he
    have hid := (hg.nodes _ h hh).1
    have hlt : e.head < cand.length := by rw [hl]; exact Graph.node_lt hh
    have hstep : RemoveTransitiveEdges.clear_candidate g cand x =
        some (cand.set e.head none) := by
      simp [RemoveTransitiveEdges.clear_candidate, he, hh, hid, set_checked, hlt]
    obtain ⟨cand', hf, hl', hget⟩ := ih (cand.set e.head none)
      (fun y hy => hlive y (List.mem_cons_of_mem _ hy)) (by rw [List.length_set]; exact hl)
      (by
        intro w hw
        rw [getD_set _ _ _ _ _ hlt] at hw
        by_cases hwe : w = e.head
        · rw [if_pos hwe] at hw
          exact absurd rfl hw
        · rw [if_neg hwe] at hw
          obtain ⟨y, hy, hyw⟩ := hc w hw
          rcases List.mem_cons.mp hy with rfl | hy
          · rw [he] at hyw
            simp only [Option.map_some', Option.some.injEq] at hyw
            exact absurd hyw.symm hwe
          · exact ⟨y, hy, hyw⟩)
    refine ⟨cand', ?_, hl', hget⟩
    simp only [List.foldlM_cons, Option.bind_eq_bind, hstep, Option.some_bind]
    exact hf

theorem RemoveTransitiveEdges.test_step (cmp : Nat → Nat → Bool) (g : Graph) (hg : g.wf)
    (cand : List (Option Nat)) (j : Edge) (marked : List Nat) (kt : Nat)
    (hcl : cand.length = g.nodes_.length)
    (hcv : ∀ w d_i, cand.getD w none = some d_i → ∃ d, g.edge d_i = some d)
    (hkt : ∃ e, g.edge kt = some e) (hm : ∀ i ∈ marked, ∃ e, g.edge i = some e) :
    ∃ marked₁, RemoveTransitiveEdges.test cmp g cand j marked kt = some marked₁ ∧
      (∀ i ∈ marked, i ∈ marked₁) ∧ (∀ i ∈ marked₁, ∃ e, g.edge i = some e) ∧
      ∀ kk d_i d, g.edge kt = some kk → cand.getD kk.head none = some d_i →
        g.edge d_i = some d → cmp (add32 j.length kk.length) d.length = true →
        d_i ∈ marked₁ := by
  obtain ⟨kk, hkk⟩ := hkt
  obtain ⟨-, t, w, -, -, -, hw, -⟩ := hg.edges kt kk hkk
  have hid := (hg.nodes _ w hw).1
  have hlt : kk.head < cand.length := by rw [hcl]; exact Graph.node_lt hw
  have hget : cand[w.id]? = some (cand.getD kk.head none) := by
    rw [hid, List.getD_eq_getElem?_getD, List.getElem?_eq_getElem hlt]
    rfl
  cases hc : cand.getD kk.head none with
  | none =>
    refine ⟨marked, ?_, fun i hi => hi, hm, ?_⟩
    · simp only [RemoveTransitiveEdges.test, hkk, hw, hget, hc, Option.some_bind]
    · intro kk' d_i d hkk' hcd
      rw [hkk] at hkk'
      cases hkk'
      rw [hc] at hcd
      cases hcd
  | some ci =>
    obtain ⟨d, hd⟩ := hcv _ _ hc
    obtain ⟨hidd, -, -, q, dp, -, -, -, -, hq, hdp, hdpp, -, -⟩ := hg.edges ci d hd
    have hiddp := (hg.edges q dp hdp).1
    have hpair : g.edge_pair d = some dp := Graph.edge_pair_eq_some.mpr ⟨q, hq, hdp⟩
    by_cases hcmp : cmp (add32 j.length kk.length) d.length = true
    · refine ⟨emplace (emplace marked d.id) dp.id, ?_, ?_, ?_, ?_⟩
      · simp only [RemoveTransitiveEdges.test, hkk, hw, hget, hc, Option.some_bind, hd,
          if_pos hcmp, hpair]
      · intro i hi
        exact mem_emplace.mpr (Or.inl (mem_emplace.mpr (Or.inl hi)))
      · intro i hi
        rw [mem_emplace, mem_emplace] at hi
        rcases hi with (hi | rfl) | rfl
        · exact hm i hi
        · exact ⟨d, by rw [hidd]; exact hd⟩
        · exact ⟨dp, by rw [hiddp]; exact hdp⟩
      · intro kk' d_i d' hkk' hcd hd' _
        rw [hkk] at hkk'
        cases hkk'
        rw [hc] at hcd
        cases hcd
        rw [← hidd]
        exact mem_emplace.mpr (Or.inl (mem_emplace.mpr (Or.inr rfl)))
    · refine ⟨marked, ?_, fun i hi => hi, hm, ?_⟩
      · simp only [RemoveTransitiveEdges.test, hkk, hw, hget, hc, Option.some_bind, hd,
          if_neg hcmp]
      · intro kk' d_i d' hkk' hcd hd' hcmp'
        rw [hkk] at hkk'
        cases hkk'
        rw [hc] at hcd
        cases hcd
        rw [hd] at hd'
        cases hd'
        exact absurd hcmp' hcmp

theorem RemoveTransitiveEdges.test_fold (cmp : Nat → Nat → Bool) (g : Graph) (hg : g.wf)
    (cand : List (Option Nat)) (j : Edge) (hcl : cand.length = g.nodes_.length)
    (hcv : ∀ w d_i, cand.getD w none = some d_i → ∃ d, g.edge d_i = some d) :
    ∀ (outs : List Nat) (marked : List Nat), (∀ x ∈ outs, ∃ e, g.edge x = some e) →
      (∀ i ∈ marked, ∃ e, g.edge i = some e) →
      ∃ marked', outs.foldlM (RemoveTransitiveEdges.test cmp g cand j) marked = some marked' ∧
        (∀ i ∈ marked, i ∈ marked') ∧ (∀ i ∈ marked', ∃ e, g.edge i = some e) ∧
        ∀ kt ∈ outs, ∀ kk d_i d, g.edge kt = some kk → cand.getD kk.head none = some d_i →
          g.edge d_i = some d → cmp (add32 j.length kk.length) d.length = true →
          d_i ∈ marked' := by
  intro outs
  induction outs with
  | nil =>
    intro marked _ hm
    exact ⟨marked, rfl, fun i hi => hi, hm, fun kt hkt => absurd hkt (List.not_mem_nil kt)⟩
  | cons kt outs ih =>
    intro marked hlive hm
    obtain ⟨m₁, h1, hsub1, hlive1, hc1⟩ := RemoveTransitiveEdges.test_step cmp g hg cand j
      marked kt hcl hcv (hlive kt (List.mem_cons_self _ _)) hm
    obtain ⟨m', h2, hsub2, hlive2, hc2⟩ := ih m₁
      (fun y hy => hlive y (List.mem_cons_of_mem _ hy)) hlive1
    refine ⟨m', ?_, fun i hi => hsub2 i (hsub1 i hi), hlive2, ?_⟩
    · simp only [List.foldlM_cons, Option.bind_eq_bind, h1, Option.some_bind]
      exact h2
    · intro kt' hkt' kk d_i d hkk hcd hd hcmp
      rcases List.mem_cons.mp hkt' with rfl | hkt'
      · exact hsub2 _ (hc1 kk d_i d hkk hcd hd hcmp)
      · exact hc2 kt' hkt' kk d_i d hkk hcd hd hcmp

theorem RemoveTransitiveEdges.scan_fold (cmp : Nat → Nat → Bool) (g : Graph) (hg : g.wf)
    (cand : List (Option Nat)) (hcl : cand.length = g.nodes_.length)
    (hcv : ∀ w d_i, cand.getD w none = some d_i → ∃ d, g.edge d_i = some d) :
    ∀ (outs : List Nat) (marked : List Nat), (∀ x ∈ outs, ∃ e, g.edge x = some e) →
      (∀ i ∈ marked, ∃ e, g.edge i = some e) →
      ∃ marked', outs.foldlM (RemoveTransitiveEdges.scan cmp g cand) marked = some marked' ∧
        (∀ i ∈ marked, i ∈ marked') ∧ (∀ i ∈ marked', ∃ e, g.edge i = some e) ∧
        ∀ jt ∈ outs, ∀ j v, g.edge jt = some j → g.node j.head = some v →
          ∀ kt ∈ v.outedges, ∀ kk d_i d, g.edge kt = some kk →
            cand.getD kk.head none = some d_i → g.edge d_i = some d →
            cmp (add32 j.length kk.length) d.length = true → d_i ∈ marked' := by
  intro outs
  induction outs with
  | nil =>
    intro marked _ hm
    exact ⟨marked, rfl, fun i hi => hi, hm, fun jt hjt => absurd hjt (List.not_mem_nil jt)⟩
  | cons jt outs ih =>
    intro marked hlive hm
    obtain ⟨j, hj⟩ := hlive jt (List.mem_cons_self _ _)
    obtain ⟨-, t, v, -, -, -, hv, -⟩ := hg.edges jt j hj
    obtain ⟨m₁, h1, hsub1, hlive1, hc1⟩ := RemoveTransitiveEdges.test_fold cmp g hg cand j hcl
      hcv v.outedges marked
      (fun kt hkt => by
        obtain ⟨e, he, -⟩ := (hg.adj _ v hv).1 kt hkt
        exact ⟨e, he⟩) hm
    obtain ⟨m', h2, hsub2, hlive2, hc2⟩ := ih m₁
      (fun y hy => hlive y (List.mem_cons_of_mem _ hy)) hlive1
    refine ⟨m', ?_, fun i hi => hsub2 i (hsub1 i hi), hlive2, ?_⟩
    · simp only [List.foldlM_cons, Option.bind_eq_bind, RemoveTransitiveEdges.scan, hj, hv,
        Option.some_bind, h1]
      exact h2
    · intro jt' hjt' j' v' hj' hv' kt hkt kk d_i d hkk hcd hd hcmp
      rcases List.mem_cons.mp hjt' with rfl | hjt'
      · rw [hj] at hj'
        cases hj'
        rw [hv] at hv'
        cases hv'
        exact hsub2 _ (hc1 kt hkt kk d_i d hkk hcd hd hcmp)
      · exact hc2 jt' hjt' j' v' hj' hv' kt hkt kk d_i d hkk hcd hd hcmp

theorem RemoveTransitiveEdges.mark_node_spec (cmp : Nat → Nat → Bool) (g : Graph)
    (hg : g.wf) (cand : List (Option Nat)) (marked : List Nat) (k : Nat)
    (hcl : cand.length = g.nodes_.length) (hnone : ∀ w, cand.getD w none = none)
    (hm : ∀ i ∈ marked, ∃ e, g.edge i = some e) :
    ∃ cand' marked', RemoveTransitiveEdges.mark_node cmp g (cand, marked) k =
        some (cand', marked') ∧
      cand'.length = g.nodes_.length ∧ (∀ w, cand'.getD w none = none) ∧
      (∀ i ∈ marked, i ∈ marked') ∧ (∀ i ∈ marked', ∃ e, g.edge i = some e) ∧
      ∀ it, g.node k = some it → ∀ jt ∈ it.outedges, ∀ j v, g.edge jt = some j →
        g.node j.head = some v → ∀ kt ∈ v.outedges, ∀ kk d_i d, g.edge kt = some kk →
          g.last_to it.outedges kk.head = some d_i → g.edge d_i = some d →
          cmp (add32 j.length kk.length) d.length = true → d_i ∈ marked' := by
  cases hk : g.node k with
  | none =>
    refine ⟨cand, marked, ?_, hcl, hnone, fun i hi => hi, hm, ?_⟩
    · simp only [RemoveTransitiveEdges.mark_node, hk]
    · intro it hit
      cases hit
  | some it =>
    have hlive : ∀ x ∈ it.outedges, ∃ e, g.edge x = some e := by
      intro x hx
      obtain ⟨e, he, -⟩ := (hg.adj k it hk).1 x hx
      exact ⟨e, he⟩
    obtain ⟨cand₁, h1, hcl₁, hget₁⟩ := RemoveTransitiveEdges.set_fold g hg it.outedges cand
      hlive hcl
    have hget : ∀ w, cand₁.getD w none = g.last_to it.outedges w := by
      intro w
      rw [hget₁ w]
      cases g.last_to it.outedges w with
      | some y => rfl
      | none => exact hnone w
    have hcv : ∀ w d_i, cand₁.getD w none = some d_i → ∃ d, g.edge d_i = some d := by
      intro w d_i h
      rw [hget w] at h
      exact hlive d_i (Graph.last_to_mem g w _ _ h).1
    obtain ⟨marked', h2, hsub, hlive', hc⟩ := RemoveTransitiveEdges.scan_fold cmp g hg cand₁
      hcl₁ hcv it.outedges marked hlive hm
    obtain ⟨cand', h3, hcl', hnone'⟩ := RemoveTransitiveEdges.clear_fold g hg it.outedges
      cand₁ hlive hcl₁ (by
        intro w hw
        rw [hget w] at hw
        cases hl : g.last_to it.outedges w with
        | none => exact absurd hl hw
        | some y => exact ⟨y, (Graph.last_to_mem g w _ _ hl).1, (Graph.last_to_mem g w _ _ hl).2⟩)
    refine ⟨cand', marked', ?_, hcl', hnone', hsub, hlive', ?_⟩
    · simp only [RemoveTransitiveEdges.mark_node, hk, h1, h2, h3, Option.some_bind]
    · intro it' hit' jt hjt j v hj hv kt hkt kk d_i d hkk hlast hd hcmp
      cases hit'
      exact hc jt hjt j v hj hv kt hkt kk d_i d hkk (by rw [hget]; exact hlast) hd hcmp

theorem RemoveTransitiveEdges.node_fold (cmp : Nat → Nat → Bool) (g : Graph) (hg : g.wf) :
    ∀ (l : List Nat) (cand : List (Option Nat)) (marked : List Nat),
      cand.length = g.nodes_.length → (∀ w, cand.getD w none = none) →
      (∀ i ∈ marked, ∃ e, g.edge i = some e) →
      ∃ cand' marked', l.foldlM (RemoveTransitiveEdges.mark_node cmp g) (cand, marked) =
          some (cand', marked') ∧
        (∀ i ∈ marked, i ∈ marked') ∧ (∀ i ∈ marked', ∃ e, g.edge i = some e) ∧
        ∀ k ∈ l, ∀ it, g.node k = some it → ∀ jt ∈ it.outedges, ∀ j v, g.edge jt = some j →
          g.node j.head = some v → ∀ kt ∈ v.outedges, ∀ kk d_i d, g.edge kt = some kk →
            g.last_to it.outedges kk.head = some d_i → g.edge d_i = some d →
            cmp (add32 j.length kk.length) d.length = true → d_i ∈ marked' := by
  intro l
  induction l with
  | nil =>
    intro cand marked _ _ hm
    exact ⟨cand, marked, rfl, fun i hi => hi, hm, fun k hk => absurd hk (List.not_mem_nil k)⟩
  | cons k l ih =>
    intro cand marked hcl hnone hm
    obtain ⟨c₁, m₁, h1, hcl₁, hnone₁, hsub₁, hlive₁, hc₁⟩ :=
      RemoveTransitiveEdges.mark_node_spec cmp g hg cand marked k hcl hnone hm
    obtain ⟨c', m', h2, hsub₂, hlive₂, hc₂⟩ := ih c₁ m₁ hcl₁ hnone₁ hlive₁
    refine ⟨c', m', ?_, fun i hi => hsub₂ i (hsub₁ i hi), hlive₂, ?_⟩
    · simp only [List.foldlM_cons, Option.bind_eq_bind, h1, Option.some_bind]
      exact h2
    · intro k' hk' it hit jt hjt j v hj hv kt hkt kk d_i d hkk hlast hd hcmp
      rcases List.mem_cons.mp hk' with rfl | hk'
      · exact hsub₂ _ (hc₁ it hit jt hjt j v hj hv kt hkt kk d_i d hkk hlast hd hcmp)
      · exact hc₂ k' hk' it hit jt hjt j v hj hv kt hkt kk d_i d hkk hlast hd hcmp

theorem Graph.same_links.node {g g₁ : Graph} (hR : g.same_links g₁) {k : Nat} {n : Node}
    (hn : g.node k = some n) : ∃ tr, g₁.node k = some { n with transitive := tr } := by
  rcases hR.2.2 k with ⟨h, -⟩ | ⟨n', tr, h, h'⟩
  · rw [hn] at h
    cases h
  · rw [hn] at h
    cases h
    exact ⟨tr, h'⟩

theorem Graph.same_links.node_inv {g g₁ : Graph} (hR : g.same_links g₁) {k : Nat} {n₁ : Node}
    (hn : g₁.node k = some n₁) :
    ∃ n tr, g.node k = some n ∧ n₁ = { n with transitive := tr } := by
  rcases hR.2.2 k with ⟨-, h⟩ | ⟨n', tr, h, h'⟩
  · rw [hn] at h
    cases h
  · rw [hn] at h'
    cases h'
    exact ⟨n', tr, h, rfl⟩

theorem Graph.same_links.set {g g₁ : Graph} (hR : g.same_links g₁) {p : Nat} {n : Node}
    (hn : g.node p = some n) (tr : List Nat) :
    g.same_links (g₁.set_node p { n with transitive := tr }) := by
  obtain ⟨hE, hL, hN⟩ := hR
  have hp : p < g₁.nodes_.length := by rw [hL]; exact Graph.node_lt hn
  refine ⟨hE, by rw [Graph.set_node_length]; exact hL, ?_⟩
  intro k
  rw [Graph.node_set_node g₁ p k _ hp]
  by_cases hk : k = p
  · subst hk
    rw [if_pos rfl]
    exact Or.inr ⟨n, tr, hn, rfl⟩
  · rw [if_neg hk]
    exact hN k

theorem RemoveTransitiveEdges.store_step (g g₁ : Graph) (hg : g.wf) (hR : g.same_links g₁)
    (hp : ∀ k n, g.node k = some n → (g.node (k / 2 * 2)).isSome = true) (i : Nat)
    (hi : ∃ e, g.edge i = some e) :
    ∃ g₂, RemoveTransitiveEdges.store g₁ i = some g₂ ∧ g.same_links g₂ := by
  unfold RemoveTransitiveEdges.store
  by_cases hodd : i % 2 = 1
  · rw [if_pos hodd]
    obtain ⟨e, he⟩ := hi
    obtain ⟨-, t, h, -, -, ht, hh, -⟩ := hg.edges i e he
    have hidt := (hg.nodes _ t ht).1
    have hidh := (hg.nodes _ h hh).1
    obtain ⟨trt, ht₁⟩ := hR.node ht
    obtain ⟨trh, hh₁⟩ := hR.node hh
    obtain ⟨a, ha⟩ := Option.isSome_iff_exists.mp (hp _ t ht)
    obtain ⟨b, hb⟩ := Option.isSome_iff_exists.mp (hp _ h hh)
    obtain ⟨tra, ha₁⟩ := hR.node ha
    have he₁ : g₁.edge i = some e := by
      unfold Graph.edge
      rw [hR.1]
      exact he
    have hR₂ := hR.set ha (emplace tra (e.head / 2 * 2))
    obtain ⟨trb, hb₂⟩ := hR₂.node hb
    have hR₃ := hR₂.set hb (emplace trb (e.tail / 2 * 2))
    refine ⟨_, ?_, hR₃⟩
    simp only [he₁, ht₁, hh₁, Option.some_bind, hidt, hidh, ha₁, hb₂]
  · rw [if_neg hodd]
    exact ⟨g₁, rfl, hR⟩

theorem RemoveTransitiveEdges.store_fold (g : Graph) (hg : g.wf)
    (hp : ∀ k n, g.node k = some n → (g.node (k / 2 * 2)).isSome = true) :
    ∀ (ids : List Nat) (g₁ : Graph), g.same_links g₁ → (∀ i ∈ ids, ∃ e, g.edge i = some e) →
      ∃ g₂, ids.foldlM RemoveTransitiveEdges.store g₁ = some g₂ ∧ g.same_links g₂ := by
  intro ids
  induction ids with
  | nil => intro g₁ hR _; exact ⟨g₁, rfl, hR⟩
  | cons i ids ih =>
    intro g₁ hR hlive
    obtain ⟨g₂, h1, hR₂⟩ := RemoveTransitiveEdges.store_step g g₁ hg hR hp i
      (hlive i (List.mem_cons_self _ _))
    obtain ⟨g₃, h2, hR₃⟩ := ih g₂ hR₂ (fun j hj => hlive j (List.mem_cons_of_mem _ hj))
    refine ⟨g₃, ?_, hR₃⟩
    simp only [List.foldlM_cons, Option.bind_eq_bind, h1, Option.some_bind]
    exact h2

theorem getD_replicate_none (n w : Nat) :
    (List.replicate n (none : Option Nat)).getD w none = none := by
  rw [List.getD_eq_getElem?_getD]
  by_cases h : w < n
  · simp [List.getElem?_replicate, h]
  · simp [List.getElem?_replicate, h]

theorem Node.mem_strip_out {ids : List Nat} {n : Node} {tr : List Nat} {j : Nat}
    (h : j ∈ (Node.strip ids { n with transitive := tr }).outedges) :
    j ∈ n.outedges ∧ j ∉ ids := by
  simp only [Node.strip, List.mem_filter, decide_eq_true_eq] at h
  exact h

/-- C11 (as stated) fails: in the well-formed graph `ex_parallel` the edges
`0 : 0 → 2`, `2 : 2 → 4` of length 2 and the edge `4 : 0 → 4` of length 4 form
a triangle with `|4 - (2 + 2)| = 0`; the table of candidates holds the later
edge `6 : 0 → 4` of length 9, which is not comparable with 4, and
`RemoveTransitiveEdges` returns the graph unchanged, with the count 0. -/
theorem RemoveTransitiveEdges_keeps_triangle :
    ex_parallel.wf_bounded ∧
    RemoveTransitiveEdges is_comparable_exact ex_parallel = some (ex_parallel, 0) ∧
    ex_parallel.edge 0 = some ⟨0, 2, 0, 2, some 1⟩ ∧
    ex_parallel.edge 2 = some ⟨2, 2, 2, 4, some 3⟩ ∧
    ex_parallel.edge 4 = some ⟨4, 4, 0, 4, some 5⟩ ∧
    is_comparable_exact (2 + 2) 4 = true ∧ is_comparable_exact (2 + 2) 9 = false := by
  decide

/-! ## The invariant of the graph -/

theorem Graph.wf_of_same_links {g g₁ : Graph} (hg : g.wf) (hR : g.same_links g₁)
    (hn : g₁.node_num_objects = g.node_num_objects)
    (he : g₁.edge_num_objects = g.edge_num_objects) : g₁.wf := by
  have hE : ∀ i, g₁.edge i = g.edge i := Graph.edge_congr hR.1
  refine ⟨?_, ?_, ?_, by rw [hn, hR.2.1]; exact hg.node_count,
    by rw [he, hR.1]; exact hg.edge_count, ?_, ?_⟩
  · intro k n₁ hn₁
    obtain ⟨n, tr, hn', rfl⟩ := hR.node_inv hn₁
    obtain ⟨hid, p, m, hp, hm, hmp⟩ := hg.nodes k n hn'
    obtain ⟨trm, hm₁⟩ := hR.node hm
    exact ⟨hid, p, _, hp, hm₁, hmp⟩
  · intro j e hj
    rw [hE] at hj
    obtain ⟨hid, t, h, q, e', a1, a2, a3, a4, a5, a6, a7, a8, a9⟩ := hg.edges j e hj
    obtain ⟨trt, ht₁⟩ := hR.node a1
    obtain ⟨trh, hh₁⟩ := hR.node a2
    exact ⟨hid, _, _, q, e', ht₁, hh₁, a3, a4, a5, by rw [hE]; exact a6, a7, a8, a9⟩
  · intro k n₁ hn₁
    obtain ⟨n, tr, hn', rfl⟩ := hR.node_inv hn₁
    obtain ⟨ho, hi⟩ := hg.adj k n hn'
    constructor
    · intro j hj
      rw [hE]
      exact ho j hj
    · intro j hj
      rw [hE]
      exact hi j hj
  · intro k n₁ hn₁
    obtain ⟨n, tr, hn', rfl⟩ := hR.node_inv hn₁
    exact hg.nodes_distinct k n hn'
  · intro j e hj
    rw [hE] at hj
    exact hg.edges_distinct j e hj

theorem Node.strip_degrees {ids : List Nat} {n : Node}
    (h : (Node.strip ids n).outdegree = 0 ∧ (Node.strip ids n).indegree = 0) :
    (∀ j ∈ n.inedges, j ∈ ids) ∧ (∀ j ∈ n.outedges, j ∈ ids) := by
  unfold Node.strip Node.outdegree Node.indegree at h
  simp only [List.length_eq_zero, List.filter_eq_nil_iff, decide_eq_true_eq, not_not] at h
  exact ⟨h.2, h.1⟩

theorem RemoveEdges_wf (g g' : Graph) (ids : List Nat) (rn : Bool) (hg : g.wf)
    (hlive : ∀ i ∈ ids, ∃ e, g.edge i = some e) (hc : g.pair_closed ids)
    (h : RemoveEdges g ids rn = some g') : g'.wf := by
  have hL : ∀ i ∈ ids, ∃ e t h, g.edge i = some e ∧ g.node e.tail = some t ∧
      g.node e.head = some h := by
    intro i hi
    obtain ⟨e, he⟩ := hlive i hi
    obtain ⟨-, t, h, -, -, ht, hh, -⟩ := hg.edges i e he
    exact ⟨e, t, h, he, ht, hh⟩
  obtain ⟨g'', hre, hnc, hec, hnl, hel, hrem, hkeep, hnone, hnode⟩ :=
    RemoveEdges_spec g ids rn hg.adj (fun k n h => (hg.nodes k n h).1) hL
  rw [h] at hre
  cases hre
  have F1 : ∀ j e, g'.edge j = some e → j ∉ ids ∧ g.edge j = some e := by
    intro j e he
    have hni : j ∉ ids := by
      intro hi
      rw [Graph.edge_none_of_reset (hrem j hi)] at he
      cases he
    refine ⟨hni, ?_⟩
    unfold Graph.edge at he ⊢
    rw [← hkeep j hni]
    exact he
  have F2 : ∀ j e, g.edge j = some e → j ∉ ids → g'.edge j = some e := by
    intro j e he hni
    unfold Graph.edge at he ⊢
    rw [hkeep j hni]
    exact he
  have F3 : ∀ k n', g'.node k = some n' → ∃ n, g.node k = some n ∧ n' = Node.strip ids n := by
    intro k n' hn'
    cases hk : g.node k with
    | none =>
      rw [hnone k hk] at hn'
      cases hn'
    | some n =>
      rcases (hnode k n hk).1 with h1 | h1
      · rw [h1] at hn'
        cases hn'
      · rw [h1] at hn'
        cases hn'
        exact ⟨n, rfl, rfl⟩
  have F4 : ∀ k n, g.node k = some n →
      ((∃ j ∈ n.outedges, j ∉ ids) ∨ (∃ j ∈ n.inedges, j ∉ ids)) →
      g'.node k = some (Node.strip ids n) := by
    intro k n hk hj
    rcases (hnode k n hk).1 with h1 | h1
    · exfalso
      obtain ⟨-, -, hdo, hdi⟩ := (hnode k n hk).2.mp h1
      obtain ⟨hi, ho⟩ := Node.strip_degrees ⟨hdo, hdi⟩
      rcases hj with ⟨j, hj, hni⟩ | ⟨j, hj, hni⟩
      · exact hni (ho j hj)
      · exact hni (hi j hj)
    · exact h1
  have F5 : ∀ k n p m, g.node k = some n → n.pair = some p → g.node p = some m →
      g'.node k = some (Node.strip ids n) → g'.node p = some (Node.strip ids m) := by
    intro k n p m hk hp hm hk'
    rcases (hnode p m hm).1 with h1 | h1
    · exfalso
      obtain ⟨hrn, ht, hdo, hdi⟩ := (hnode p m hm).2.mp h1
      obtain ⟨hi, ho⟩ := Node.strip_degrees ⟨hdo, hdi⟩
      obtain ⟨-, p', m', hp', hm', hmk⟩ := hg.nodes k n hk
      rw [hp] at hp'
      cases hp'
      rw [hm] at hm'
      cases hm'
      obtain ⟨hi', ho'⟩ := hg.pair_edges hc hm hmk hk hi ho
      have htk : g.touched ids k := by
        obtain ⟨i, hi0, e, he, hx⟩ := (Graph.touched_iff hg ids p).mp ht
        obtain ⟨-, t, hd, q, e', a1, a2, -, -, a5, a6, -, a8, a9⟩ := hg.edges i e he
        have hq : q ∈ ids := hc i hi0 e he q a5
        refine (Graph.touched_iff hg ids k).mpr ⟨q, hq, e', a6, ?_⟩
        rcases hx with hx | hx
        · rw [hx, hm] at a1
          cases a1
          rw [hmk] at a9
          cases a9
          exact Or.inr rfl
        · rw [hx, hm] at a2
          cases a2
          rw [hmk] at a8
          cases a8
          exact Or.inl rfl
      have := (hnode k n hk).2.mpr ⟨hrn, htk, (Node.strip_all hi' ho').1,
        (Node.strip_all hi' ho').2⟩
      rw [this] at hk'
      cases hk'
    · exact h1
  refine ⟨?_, ?_, ?_, by rw [hnc, hnl]; exact hg.node_count,
    by rw [hec, hel]; exact hg.edge_count, ?_, ?_⟩
  · intro k n' hn'
    obtain ⟨n, hn, rfl⟩ := F3 k n' hn'
    obtain ⟨hid, p, m, hp, hm, hmp⟩ := hg.nodes k n hn
    exact ⟨hid, p, _, hp, F5 k n p m hn hp hm hn', hmp⟩
  · intro j e he
    obtain ⟨hni, he0⟩ := F1 j e he
    obtain ⟨hid, t, hd, q, e', a1, a2, a3, a4, a5, a6, a7, a8, a9⟩ := hg.edges j e he0
    have hqn : q ∉ ids := fun hq => hni (hc q hq e' a6 j a7)
    refine ⟨hid, _, _, q, e', F4 _ t a1 (Or.inl ⟨j, a3, hni⟩), F4 _ hd a2 (Or.inr ⟨j, a4, hni⟩),
      ?_, ?_, a5, F2 q e' a6 hqn, a7, a8, a9⟩
    · simp only [Node.strip, List.mem_filter, decide_eq_true_eq]
      exact ⟨a3, hni⟩
    · simp only [Node.strip, List.mem_filter, decide_eq_true_eq]
      exact ⟨a4, hni⟩
  · intro k n' hn'
    obtain ⟨n, hn, rfl⟩ := F3 k n' hn'
    obtain ⟨ho, hi⟩ := hg.adj k n hn
    constructor
    · intro j hj
      simp only [Node.strip, List.mem_filter, decide_eq_true_eq] at hj
      obtain ⟨e, he, htl⟩ := ho j hj.1
      exact ⟨e, F2 j e he hj.2, htl⟩
    · intro j hj
      simp only [Node.strip, List.mem_filter, decide_eq_true_eq] at hj
      obtain ⟨e, he, hhd⟩ := hi j hj.1
      exact ⟨e, F2 j e he hj.2, hhd⟩
  · intro k n' hn'
    obtain ⟨n, hn, rfl⟩ := F3 k n' hn'
    exact hg.nodes_distinct k n hn
  · intro j e he
    exact hg.edges_distinct j e (F1 j e he).2

/-! ## The invariant through `CreateUnitigs` -/

theorem Graph.same_links.refl (g : Graph) : g.same_links g := by
  refine ⟨rfl, rfl, ?_⟩
  intro k
  cases hk : g.node k with
  | none => exact Or.inl ⟨rfl, rfl⟩
  | some n => exact Or.inr ⟨n, n.transitive, rfl, rfl⟩

theorem Graph.same_links.trans {g g₁ g₂ : Graph} (h₁ : g.same_links g₁)
    (h₂ : g₁.same_links g₂) : g.same_links g₂ := by
  refine ⟨by rw [h₂.1, h₁.1], by rw [h₂.2.1, h₁.2.1], ?_⟩
  intro k
  rcases h₁.2.2 k with ⟨a, b⟩ | ⟨n, tr, a, b⟩
  · rcases h₂.2.2 k with ⟨c, d⟩ | ⟨n', tr', c, d⟩
    · exact Or.inl ⟨a, d⟩
    · rw [b] at c
      cases c
  · obtain ⟨tr', c⟩ := h₂.node b
    exact Or.inr ⟨n, tr', a, c⟩

theorem Graph.marked_ok.mono {g g' : Graph} {marked : List Nat} (hm : g.marked_ok marked)
    (he : ∀ j e, g.edge j = some e → g'.edge j = some e) : g'.marked_ok marked := by
  refine ⟨fun i hi => ?_, fun i hi e hie q hq => ?_⟩
  · obtain ⟨e, h⟩ := hm.1 i hi
    exact ⟨e, he i e h⟩
  · obtain ⟨e₀, h⟩ := hm.1 i hi
    have hee : e₀ = e := by
      rw [he i e₀ h] at hie
      exact Option.some.inj hie
    rw [hee] at h
    exact hm.2 i hi e h q hq

theorem Graph.marked_ok.emplace {g : Graph} {marked : List Nat} (hg : g.wf)
    (hm : g.marked_ok marked) {e f : Edge} {j : Nat} (he : g.edge j = some e)
    (hf : g.edge_pair e = some f) :
    g.marked_ok (raven.emplace (raven.emplace marked e.id) f.id) := by
  obtain ⟨q, hq, hfq⟩ := Graph.edge_pair_eq_some.mp hf
  obtain ⟨hid, -, -, q', e', -, -, -, -, a5, a6, a7, -⟩ := hg.edges j e he
  rw [hq] at a5
  cases a5
  rw [hfq] at a6
  cases a6
  have hidf := (hg.edges q f hfq).1
  refine ⟨fun i hi => ?_, fun i hi e₁ hie q₁ hq₁ => ?_⟩
  · rw [mem_emplace, mem_emplace] at hi
    rcases hi with (hi | rfl) | rfl
    · exact hm.1 i hi
    · exact ⟨e, by rw [hid]; exact he⟩
    · exact ⟨f, by rw [hidf]; exact hfq⟩
  · rw [mem_emplace, mem_emplace] at hi ⊢
    rcases hi with (hi | rfl) | rfl
    · exact Or.inl (Or.inl (hm.2 i hi e₁ hie q₁ hq₁))
    · rw [hid, he] at hie
      cases hie
      rw [hq] at hq₁
      cases hq₁
      exact Or.inr hidf.symm
    · rw [hidf, hfq] at hie
      cases hie
      rw [a7] at hq₁
      cases hq₁
      exact Or.inl (Or.inr hid.symm)

theorem CreateUnitigs.connect_in_wf {g g' : Graph} {marked marked' : List Nat} {b u : Nat}
    {un : Node} (hg : g.wf) (hm : g.marked_ok marked) (hu : g.node u = some un)
    (h : CreateUnitigs.connect_in g marked b u = some (g', marked')) :
    g'.wf ∧ g'.marked_ok marked' ∧ g'.nodes_.length = g.nodes_.length ∧
      ∀ k n, g.node k = some n → ∃ o i, g'.node k = some (Node.push o i n) := by
  have hb : ∃ bn, g.node b = some bn := by
    unfold CreateUnitigs.connect_in at h
    obtain ⟨bn, hbn, -⟩ := Option.bind_eq_some.mp h
    exact ⟨bn, hbn⟩
  obtain ⟨bn, hbn⟩ := hb
  by_cases hi : bn.indegree = 0
  · have : CreateUnitigs.connect_in g marked b u = some (g, marked) := by
      unfold CreateUnitigs.connect_in
      simp only [hbn, Option.some_bind, if_pos hi]
    rw [this] at h
    cases h
    exact ⟨hg, hm, rfl, fun k n hk => ⟨[], [], by rw [Node.push_nil]; exact hk⟩⟩
  · obtain ⟨front, fp, up, upn, bp, bpn, g₂, hfront, hfp, hup, hupn, hbp, hbpn, hfpt, hhead,
      ⟨t, ht, htp⟩, ⟨j₀, q₀, hj₀, hq₀, -, -⟩, hc, hs⟩ :=
      CreateUnitigs.connect_in_spec g marked b u bn un hg hbn hu hi
    rw [hc] at h
    cases h
    refine ⟨Graph.wf_of_edge_pair hg hs t un ht hu hup htp,
      (Graph.marked_ok.emplace hg hm hj₀ hfp).mono (fun j e he => hs.edge_mono he),
      hs.length, ?_⟩
    intro k n hk
    exact ⟨_, _, by rw [hs.nodes, hk]; rfl⟩

theorem CreateUnitigs.connect_out_wf {g g' : Graph} {marked marked' : List Nat} {b u : Nat}
    {un : Node} (hg : g.wf) (hm : g.marked_ok marked) (hu : g.node u = some un)
    (h : CreateUnitigs.connect_out g marked b u = some (g', marked')) :
    g'.wf ∧ g'.marked_ok marked' ∧ g'.nodes_.length = g.nodes_.length ∧
      ∀ k n, g.node k = some n → ∃ o i, g'.node k = some (Node.push o i n) := by
  have hb : ∃ bn, g.node b = some bn := by
    unfold CreateUnitigs.connect_out at h
    obtain ⟨bn, hbn, -⟩ := Option.bind_eq_some.mp h
    exact ⟨bn, hbn⟩
  obtain ⟨bn, hbn⟩ := hb
  by_cases hi : bn.outdegree = 0
  · have : CreateUnitigs.connect_out g marked b u = some (g, marked) := by
      unfold CreateUnitigs.connect_out
      simp only [hbn, Option.some_bind, if_pos hi]
    rw [this] at h
    cases h
    exact ⟨hg, hm, rfl, fun k n hk => ⟨[], [], by rw [Node.push_nil]; exact hk⟩⟩
  · obtain ⟨front, fp, up, upn, ep, epn, g₂, hfront, hfp, hup, hupn, hep, hepn, hfph, htail,
      ⟨hd, m, hh, hhp, hm'⟩, ⟨j₀, q₀, hj₀, hq₀, -, -⟩, hc, hs⟩ :=
      CreateUnitigs.connect_out_spec g marked b u bn un hg hbn hu hi
    rw [hc] at h
    cases h
    refine ⟨Graph.wf_of_edge_pair hg hs un hd hu hh hhp (by rw [hup]),
      (Graph.marked_ok.emplace hg hm hj₀ hfp).mono (fun j e he => hs.edge_mono he),
      hs.length, ?_⟩
    intro k n hk
    exact ⟨_, _, by rw [hs.nodes, hk]; rfl⟩

theorem CreateUnitigs.connect_wf {g g' : Graph} {marked marked' : List Nat} {b e u : Nat}
    {un : Node} (hg : g.wf) (hm : g.marked_ok marked) (hu : g.node u = some un)
    (h : CreateUnitigs.connect g marked b e u = some (g', marked')) :
    g'.wf ∧ g'.marked_ok marked' ∧ g'.nodes_.length = g.nodes_.length := by
  unfold CreateUnitigs.connect at h
  by_cases hbe : b ≠ e
  · rw [if_pos hbe] at h
    simp only [Option.bind_eq_some] at h
    obtain ⟨⟨g₁, m₁⟩, h1, h2⟩ := h
    obtain ⟨hg₁, hm₁, hl₁, hn₁⟩ := CreateUnitigs.connect_in_wf hg hm hu h1
    obtain ⟨o, i, hu₁⟩ := hn₁ u un hu
    obtain ⟨hg₂, hm₂, hl₂, -⟩ := CreateUnitigs.connect_out_wf hg₁ hm₁ hu₁ h2
    exact ⟨hg₂, hm₂, by rw [hl₂, hl₁]⟩
  · rw [if_neg hbe] at h
    cases h
    exact ⟨hg, hm, rfl⟩

theorem CreateUnitigs.mark_chain_wf (size end_ u : Nat) :
    ∀ (fuel jt : Nat) (g g' : Graph) (marked marked' nu nu' : List Nat),
      g.wf → g.marked_ok marked →
      CreateUnitigs.mark_chain size end_ u fuel jt g marked nu = some (g', marked', nu') →
      g'.wf ∧ g'.marked_ok marked' ∧ g.same_links g' ∧
        g'.node_num_objects = g.node_num_objects ∧
        g'.edge_num_objects = g.edge_num_objects := by
  intro fuel
  induction fuel with
  | zero => intro jt g g' marked marked' nu nu' _ _ h; simp [CreateUnitigs.mark_chain] at h
  | succ fuel ih =>
    intro jt g g' marked marked' nu nu' hg hm h
    simp only [CreateUnitigs.mark_chain, Option.bind_eq_some] at h
    obtain ⟨front, hfront, fp, hfp, ⟨g₁, nu₁⟩, hgather, front₁, hfront₁, h⟩ := h
    obtain ⟨n, j, hn, hj, hej⟩ := Graph.front_out_eq_some.mp hfront
    unfold CreateUnitigs.gather at hgather
    simp only [Option.bind_eq_some, Option.some.injEq, Prod.mk.injEq] at hgather
    obtain ⟨jn, -, un, hun, nu₂, -, tn, -, rfl, rfl⟩ := hgather
    have hR : g.same_links (g.set_node u
        { un with transitive := tn.transitive.foldl raven.emplace un.transitive }) :=
      (Graph.same_links.refl g).set hun _
    have hg₁ := Graph.wf_of_same_links hg hR rfl rfl
    have hm₁ : (g.set_node u
        { un with transitive := tn.transitive.foldl raven.emplace un.transitive }).marked_ok
        (raven.emplace (raven.emplace marked front.id) fp.id) :=
      (Graph.marked_ok.emplace hg hm hej hfp).mono (fun _ _ he => he)
    by_cases hend : front₁.head = end_
    · rw [if_pos hend] at h
      simp only [Option.some.injEq, Prod.mk.injEq] at h
      obtain ⟨rfl, rfl, rfl⟩ := h
      exact ⟨hg₁, hm₁, hR, rfl, rfl⟩
    · rw [if_neg hend] at h
      obtain ⟨a, b, c, d, e⟩ := ih _ _ _ _ _ _ _ hg₁ hm₁ h
      exact ⟨a, b, hR.trans c, d, e⟩

theorem foldlM_option_inv {α β : Type} (P : β → Prop) (f : β → α → Option β)
    (hf : ∀ s a s', P s → f s a = some s' → P s') :
    ∀ (l : List α) (s s' : β), P s → l.foldlM f s = some s' → P s' := by
  intro l
  induction l with
  | nil =>
    intro s s' hs h
    simp only [List.foldlM_nil, Option.pure_def, Option.some.injEq] at h
    rw [← h]
    exact hs
  | cons a l ih =>
    intro s s' hs h
    simp only [List.foldlM_cons, Option.bind_eq_bind, Option.bind_eq_some] at h
    obtain ⟨s₁, h1, h2⟩ := h
    exact ih s₁ s' (hf s a s₁ hs h1) h2

theorem CreateUnitigs.merge_wf {fuel : Nat} {st st' : CreateUnitigs.State} {b e : Nat}
    (hg : st.g.wf) (hm : st.g.marked_ok st.marked_edges)
    (h : CreateUnitigs.merge fuel st b e = some st') :
    st'.g.wf ∧ st'.g.marked_ok st'.marked_edges := by
  unfold CreateUnitigs.merge at h
  simp only [Option.bind_eq_some, Option.some.injEq] at h
  obtain ⟨⟨g₁, u⟩, h1, ⟨g₂, m₂⟩, h2, ⟨g₃, m₃, nu₃⟩, h3, rfl⟩ := h
  obtain ⟨rfl, hs⟩ := CreateUnitigs.new_unitig_pair_spec hg h1
  have hg₁ := Graph.wf_of_node_pair hg hs
  have hm₁ : g₁.marked_ok st.marked_edges :=
    hm.mono (fun j e he => by rw [hs.edge_eq]; exact he)
  obtain ⟨a, c, hn, -, -⟩ := hs.nodes
  have hu : g₁.node st.g.nodes_.length = some a := by
    rw [Graph.node_eq_some, hn]
    exact getElem?_append_at _ _ _
  obtain ⟨hg₂, hm₂, -⟩ := CreateUnitigs.connect_wf hg₁ hm₁ hu h2
  obtain ⟨hg₃, hm₃, -⟩ := CreateUnitigs.mark_chain_wf _ _ _ _ _ _ _ _ _ _ _ hg₂ hm₂ h3
  exact ⟨hg₃, hm₃⟩

theorem CreateUnitigs.step_wf {fuel epsilon : Nat} {st st' : CreateUnitigs.State} {k : Nat}
    (hI : st.g.wf ∧ st.g.marked_ok st.marked_edges)
    (h : CreateUnitigs.step fuel epsilon st k = some st') :
    st'.g.wf ∧ st'.g.marked_ok st'.marked_edges := by
  unfold CreateUnitigs.step at h
  cases hk : st.g.node k with
  | none =>
    rw [hk] at h
    cases h
    exact hI
  | some it =>
    rw [hk] at h
    simp only [Option.bind_eq_some] at h
    obtain ⟨visited, -, h⟩ := h
    by_cases c₁ : visited = true ∨ it.is_junction = true
    · rw [if_pos c₁] at h
      cases h
      exact hI
    · rw [if_neg c₁] at h
      simp only [Option.bind_eq_some] at h
      obtain ⟨l, -, r, -, h⟩ := h
      by_cases c₂ : r.2.2.1 = false ∧ l.1 = r.1
      · rw [if_pos c₂] at h
        cases h
        exact hI
      · rw [if_neg c₂] at h
        by_cases c₃ : r.2.2.1 = false ∧ r.2.1 < add32 ((2 * epsilon) % u32) 2
        · rw [if_pos c₃] at h
          cases h
          exact hI
        · rw [if_neg c₃] at h
          simp only [Option.bind_eq_some] at h
          obtain ⟨c, -, h⟩ := h
          exact @CreateUnitigs.merge_wf fuel { st with is_visited := r.2.2.2 } st' c.1 c.2 hI.1 hI.2 h

theorem CreateUnitigs.update_transitive_wf {nu : List Nat} {g g' : Graph} {k : Nat}
    (hg : g.wf) (h : CreateUnitigs.update_transitive nu g k = some g') : g'.wf := by
  unfold CreateUnitigs.update_transitive at h
  cases hk : g.node k with
  | none =>
    rw [hk] at h
    cases h
    exact hg
  | some it =>
    rw [hk] at h
    simp only [Option.bind_eq_some, Option.some.injEq] at h
    obtain ⟨valid, -, rfl⟩ := h
    exact Graph.wf_of_same_links hg ((Graph.same_links.refl g).set hk valid) rfl rfl

theorem CreateUnitigs_wf {fuel epsilon : Nat} {g g' : Graph} {n : Nat} (hg : g.wf)
    (h : CreateUnitigs fuel g epsilon = some (g', n)) : g'.wf := by
  unfold CreateUnitigs at h
  simp only [Option.bind_eq_some, Option.some.injEq, Prod.mk.injEq] at h
  obtain ⟨st, h1, g₁, h2, g₂, h3, rfl, -⟩ := h
  have h0 : g.marked_ok [] :=
    ⟨fun i hi => absurd hi (List.not_mem_nil i), fun i hi => absurd hi (List.not_mem_nil i)⟩
  have hI := foldlM_option_inv
    (fun s : CreateUnitigs.State => s.g.wf ∧ s.g.marked_ok s.marked_edges)
    (CreateUnitigs.step fuel epsilon) (fun s a s' hs hh => CreateUnitigs.step_wf hs hh)
    _ _ st ⟨hg, h0⟩ h1
  have hg₁ := RemoveEdges_wf st.g g₁ st.marked_edges true hI.1 hI.2.1 hI.2.2 h2
  exact foldlM_option_inv Graph.wf (CreateUnitigs.update_transitive st.node_updates)
    (fun s a s' hs hh => CreateUnitigs.update_transitive_wf hs hh) _ _ _ hg₁ h3

/-! ## The invariant through `Construct` -/

theorem Graph.new_edge_live {g : Graph} {t h len : Nat} {r : Graph × Nat}
    (hh : g.new_edge t h len = some r) :
    (∃ n, g.node t = some n) ∧ ∃ n, g.node h = some n := by
  unfold Graph.new_edge at hh
  simp only [Option.bind_eq_bind, Option.pure_def, Option.bind_eq_some] at hh
  obtain ⟨nt, hnt, nh, hnh, -⟩ := hh
  have hnt' : g.node t = some nt := hnt
  refine ⟨⟨nt, hnt'⟩, ?_⟩
  rw [Graph.node_set_node _ _ _ _ (Graph.node_lt hnt)] at hnh
  by_cases c : h = t
  · rw [c]
    exact ⟨nt, hnt'⟩
  · rw [if_neg c] at hnh
    exact ⟨nh, hnh⟩

theorem Construct.new_edge_pair_wf {g g' : Graph} {t h len len₂ : Nat} (hg : g.wf)
    (hh : Construct.new_edge_pair g t h len len₂ = some g') : g'.wf := by
  unfold Construct.new_edge_pair at hh
  simp only [Option.bind_eq_some] at hh
  obtain ⟨⟨g₁', i₁⟩, h1, nh', hnh', hp, hhp, nt', hnt', tp, htp, ⟨g₂', i₂⟩, h2, h3⟩ := hh
  obtain ⟨⟨nt, hnt⟩, ⟨nh, hnh⟩⟩ := Graph.new_edge_live h1
  obtain ⟨g₁, e1, -, -, -, -, hN1⟩ := Graph.new_edge_spec g t h len nt nh hnt hnh
  rw [e1] at h1
  cases h1
  simp only at hnh' hnt' h2 h3
  rw [hN1, hnh] at hnh'
  rw [hN1, hnt] at hnt'
  simp only [Option.map_some', Option.some.injEq] at hnh' hnt'
  have hhp' : nh.pair = some hp := by rw [← hnh'] at hhp; exact hhp
  have htp' : nt.pair = some tp := by rw [← hnt'] at htp; exact htp
  obtain ⟨-, ph, mh, hph, hmh, -⟩ := hg.nodes h nh hnh
  obtain ⟨-, pt, mt, hpt, hmt, -⟩ := hg.nodes t nt hnt
  rw [hhp'] at hph
  cases hph
  rw [htp'] at hpt
  cases hpt
  obtain ⟨g₁'', g₂, g₃, e1', -, -, -, e2, e3, hs⟩ :=
    Graph.edge_pair_spec g t h hp tp len len₂ ⟨nt, hnt⟩ ⟨nh, hnh⟩ ⟨mh, hmh⟩ ⟨mt, hmt⟩
  rw [e1] at e1'
  cases e1'
  rw [e2] at h2
  cases h2
  rw [e3] at h3
  cases h3
  exact Graph.wf_of_edge_pair hg hs nt nh hnt hnh hhp' htp'

theorem Construct.create_edge_wf {piles : List Pile} {s2n : List Int} {g g' : Graph}
    {it : Overlap} (hg : g.wf) (hh : Construct.create_edge piles s2n g it = some g') :
    g'.wf := by
  unfold Construct.create_edge at hh
  simp only [Option.bind_eq_some] at hh
  obtain ⟨r, -, hh⟩ := hh
  by_cases c : r.1 = false
  · rw [if_pos c] at hh
    cases hh
    exact hg
  · rw [if_neg c] at hh
    simp only [Option.bind_eq_some] at hh
    obtain ⟨i, -, tail, -, j, -, head, -, pr, -, pl, -, hh⟩ := hh
    unfold Construct.add_edges at hh
    by_cases c₄ : r.2.score = 4
    · rw [if_pos c₄] at hh
      exact Construct.new_edge_pair_wf hg hh
    · rw [if_neg c₄] at hh
      exact Construct.new_edge_pair_wf hg hh

theorem Construct.create_node_wf {sequences : List Sequence} {st st' : Graph × List Int}
    {it : Pile} (hg : st.1.wf) (hh : Construct.create_node sequences st it = some st') :
    st'.1.wf := by
  unfold Construct.create_node at hh
  by_cases c : it.is_invalid = true
  · rw [if_pos c] at hh
    cases hh
    exact hg
  · rw [if_neg c] at hh
    simp only [Option.bind_eq_some, Option.some.injEq] at hh
    obtain ⟨s, -, data, -, s2n, -, g', hl, rfl⟩ := hh
    simp only [Graph.new_node, List.length_append, List.length_singleton] at hl
    obtain ⟨g₄, h4, hn, he, hd1, hd2⟩ := Graph.link_fresh st.1
      { id := st.1.node_num_objects, data := data, count := 1, is_circular := false,
        is_polished := false, transitive := [], inedges := [], outedges := [], pair := none }
      { id := st.1.node_num_objects + 1, data := ReverseAndComplement data, count := 1,
        is_circular := false, is_polished := false, transitive := [], inedges := [],
        outedges := [], pair := none }
      (st.1.node_num_objects + 1 + 1)
    have e : g' = g₄ := Option.some.inj (hl.symm.trans h4)
    rw [e]
    exact Graph.wf_of_node_pair hg
      ⟨⟨_, _, hn, ⟨hg.node_count, rfl, rfl, rfl⟩,
        ⟨by rw [hg.node_count], rfl, rfl, rfl⟩⟩, he, hd1, hd2⟩

theorem Construct.graph_wf {g g' : Graph} {piles : List Pile} {sequences : List Sequence}
    {overlaps : List Overlap} (hg : g.wf)
    (hh : Construct.graph g piles sequences overlaps = some g') : g'.wf := by
  unfold Construct.graph at hh
  simp only [Option.bind_eq_some] at hh
  obtain ⟨st, h1, h2⟩ := hh
  have hst := foldlM_option_inv (fun s : Graph × List Int => s.1.wf)
    (Construct.create_node sequences) (fun s a s' hs e => Construct.create_node_wf hs e)
    _ _ st hg h1
  exact foldlM_option_inv Graph.wf (Construct.create_edge piles st.2)
    (fun s a s' hs e => Construct.create_edge_wf hs e) _ _ _ hst h2

/-- C8: the invariant of the graph (`Graph.wf`: paired nodes, paired edges,
adjacency lists of live edges, ids that are the slots) is kept by the part of
`Graph::Construct` that creates the nodes and the edges, and by
`Graph::CreateUnitigs`.  So every edge `e` of the graph after either of them
sits in the slot of its id, has a live tail that lists it in `outedges` and a
live head that lists it in `inedges`, and has a live `pair` with
`e.pair.pair == e`, `e.head.pair == e.pair.tail` and
`e.tail.pair == e.pair.head` (`Graph.edges_paired`). -/
theorem Graph.edges_paired_preserved (g₀ g₁ : Graph) (piles : List Pile)
    (sequences : List Sequence) (overlaps : List Overlap) (fuel epsilon : Nat)
    (h₀ : g₀.wf) (h₁ : g₁.wf) :
    (∀ g, Construct.graph g₀ piles sequences overlaps = some g → g.wf ∧ g.edges_paired) ∧
    (∀ g n, CreateUnitigs fuel g₁ epsilon = some (g, n) → g.wf ∧ g.edges_paired) := by
  refine ⟨fun g h => ?_, fun g n h => ?_⟩
  · have hw := Construct.graph_wf h₀ h
    exact ⟨hw, hw.edges⟩
  · have hw := CreateUnitigs_wf h₁ h
    exact ⟨hw, hw.edges⟩

/-- `Construct` on the empty graph makes `ex_graph` of the three reads, and
`CreateUnitigs` with `epsilon = 1` makes `ex_chain_merged` of `ex_chain`; both
results keep the invariant. -/
theorem Graph.edges_paired_preserved_witness :
    Graph.empty.wf ∧ ex_chain.wf ∧
    Construct.graph Graph.empty ex_read_piles ex_sequences ex_read_overlaps = some ex_graph ∧
    CreateUnitigs 4 ex_chain 1 = some (ex_chain_merged, 1) ∧
    (ex_graph.wf ∧ ex_graph.edges_paired) ∧
    (ex_chain_merged.wf ∧ ex_chain_merged.edges_paired) := by
  have h₀ : Graph.empty.wf := Graph.wf_of_bounded (by decide)
  have h₁ : ex_chain.wf := Graph.wf_of_bounded (by decide)
  have hc : Construct.graph Graph.empty ex_read_piles ex_sequences ex_read_overlaps =
      some ex_graph := by decide
  have hu : CreateUnitigs 4 ex_chain 1 = some (ex_chain_merged, 1) := by decide
  have h := Graph.edges_paired_preserved Graph.empty ex_chain ex_read_piles ex_sequences
    ex_read_overlaps 4 1 h₀ h₁
  exact ⟨h₀, h₁, hc, hu, h.1 _ hc, h.2 _ _ hu⟩

/-! ## What `RemoveTransitiveEdges` removes -/

theorem RemoveTransitiveEdges.test_ok (cmp : Nat → Nat → Bool) (g : Graph) (hg : g.wf)
    (cand : List (Option Nat)) (j : Edge) (marked marked' : List Nat) (kt : Nat)
    (hm : g.marked_ok marked)
    (h : RemoveTransitiveEdges.test cmp g cand j marked kt = some marked') :
    g.marked_ok marked' := by
  unfold RemoveTransitiveEdges.test at h
  simp only [Option.bind_eq_some] at h
  obtain ⟨kk, -, w, -, c, -, h⟩ := h
  cases c with
  | none =>
    cases h
    exact hm
  | some ci =>
    simp only [Option.bind_eq_some] at h
    obtain ⟨d, hd, h⟩ := h
    by_cases hc : cmp (add32 j.length kk.length) d.length = true
    · rw [if_pos hc] at h
      obtain ⟨dp, hdp, h⟩ := Option.bind_eq_some.mp h
      cases h
      exact Graph.marked_ok.emplace hg hm hd hdp
    · rw [if_neg hc] at h
      cases h
      exact hm

theorem RemoveTransitiveEdges.mark_node_ok (cmp : Nat → Nat → Bool) (g : Graph) (hg : g.wf)
    (st st' : List (Option Nat) × List Nat) (k : Nat) (hm : g.marked_ok st.2)
    (h : RemoveTransitiveEdges.mark_node cmp g st k = some st') : g.marked_ok st'.2 := by
  unfold RemoveTransitiveEdges.mark_node at h
  cases hk : g.node k with
  | none =>
    rw [hk] at h
    cases h
    exact hm
  | some it =>
    rw [hk] at h
    simp only [Option.bind_eq_some] at h
    obtain ⟨cand, -, marked, h2, cand', -, h⟩ := h
    cases h
    refine foldlM_option_inv (fun m => g.marked_ok m)
      (RemoveTransitiveEdges.scan cmp g cand) ?_ it.outedges st.2 marked hm h2
    intro m jt m' hm' hs
    unfold RemoveTransitiveEdges.scan at hs
    simp only [Option.bind_eq_some] at hs
    obtain ⟨j, -, v, -, hs⟩ := hs
    exact foldlM_option_inv (fun m => g.marked_ok m)
      (RemoveTransitiveEdges.test cmp g cand j)
      (fun s a s' hs₁ hs₂ => RemoveTransitiveEdges.test_ok cmp g hg cand j s s' a hs₁ hs₂)
      v.outedges m m' hm' hs

theorem RemoveTransitiveEdges.store_counts (g g' : Graph) (i : Nat)
    (h : RemoveTransitiveEdges.store g i = some g') :
    g'.node_num_objects = g.node_num_objects ∧ g'.edge_num_objects = g.edge_num_objects := by
  unfold RemoveTransitiveEdges.store at h
  by_cases hodd : i % 2 = 1
  · rw [if_pos hodd] at h
    simp only [Option.bind_eq_some] at h
    obtain ⟨e, -, t, -, hh, -, a, -, b, -, h⟩ := h
    cases h
    exact ⟨rfl, rfl⟩
  · rw [if_neg hodd] at h
    cases h
    exact ⟨rfl, rfl⟩

/-- C11 (as the code has it): on a well-formed graph in which the slot
`k & ~1` of every node `k` holds a node, `RemoveTransitiveEdges` returns a
well-formed graph.  For all edges `jt : u → v`, `kt : v → w` and `d : u → w`
of the graph before the call such that `d` is the last edge to `w` in the
out-list of `u` and `is_comparable(jt.length + kt.length, d.length)` holds,
the sum taken in 32 bits, the slots of `d` and of its pair are empty after
the call; and the graph after the call has no three edges `jt`, `kt`, `d` of
this kind.  The verdict of `is_comparable` is a parameter. -/
theorem RemoveTransitiveEdges_last_candidate (is_comparable : Nat → Nat → Bool) (g : Graph)
    (hg : g.wf) (hp : ∀ x ∈ g.nodes_, ∀ n ∈ x, (g.node (n.id / 2 * 2)).isSome = true) :
    ∃ g' num, RemoveTransitiveEdges is_comparable g = some (g', num) ∧ g'.wf ∧
      (∀ u nu, g.node u = some nu →
        ∀ jt ∈ nu.outedges, ∀ j v, g.edge jt = some j → g.node j.head = some v →
        ∀ kt ∈ v.outedges, ∀ kk, g.edge kt = some kk →
        ∀ d_i d, g.last_to nu.outedges kk.head = some d_i → g.edge d_i = some d →
        is_comparable (add32 j.length kk.length) d.length = true →
        g'.edge d_i = none ∧ ∀ q, d.pair = some q → g'.edge q = none) ∧
      ∀ u nu nu', g.node u = some nu → g'.node u = some nu' →
        ∀ jt ∈ nu'.outedges, ∀ j v, g'.edge jt = some j → g'.node j.head = some v →
        ∀ kt ∈ v.outedges, ∀ kk, g'.edge kt = some kk →
        ∀ d_i ∈ nu'.outedges, ∀ d, g'.edge d_i = some d →
        g.last_to nu.outedges kk.head = some d_i →
        is_comparable (add32 j.length kk.length) d.length = false := by
  have hp' : ∀ k n, g.node k = some n → (g.node (k / 2 * 2)).isSome = true := by
    intro k n hn
    have := hp (some n) (List.getElem?_mem (Graph.node_eq_some.mp hn)) n rfl
    rw [(hg.nodes k n hn).1] at this
    exact this
  obtain ⟨cand', marked, hfold, -, hlive, hcomp⟩ := RemoveTransitiveEdges.node_fold
    is_comparable g hg (List.range g.nodes_.length) (List.replicate g.nodes_.length none) []
    (by simp) (getD_replicate_none _) (fun i hi => absurd hi (List.not_mem_nil i))
  have h0 : g.marked_ok [] :=
    ⟨fun i hi => absurd hi (List.not_mem_nil i), fun i hi => absurd hi (List.not_mem_nil i)⟩
  have hok : g.marked_ok marked :=
    foldlM_option_inv (fun s : List (Option Nat) × List Nat => g.marked_ok s.2)
      (RemoveTransitiveEdges.mark_node is_comparable g)
      (fun s a s' hs₁ hs₂ => RemoveTransitiveEdges.mark_node_ok is_comparable g hg s s' a hs₁ hs₂)
      (List.range g.nodes_.length) (List.replicate g.nodes_.length none, []) (cand', marked) h0
      hfold
  obtain ⟨g₁, hstore, hR⟩ := RemoveTransitiveEdges.store_fold g hg hp' marked g
    (Graph.same_links.refl g) hlive
  have hcount : g₁.node_num_objects = g.node_num_objects ∧
      g₁.edge_num_objects = g.edge_num_objects :=
    foldlM_option_inv
      (fun s : Graph => s.node_num_objects = g.node_num_objects ∧
        s.edge_num_objects = g.edge_num_objects)
      RemoveTransitiveEdges.store
      (fun s a s' hs₁ hs₂ => by
        obtain ⟨c1, c2⟩ := RemoveTransitiveEdges.store_counts s s' a hs₂
        exact ⟨c1.trans hs₁.1, c2.trans hs₁.2⟩)
      marked g g₁ ⟨rfl, rfl⟩ hstore
  have hg₁ : g₁.wf := Graph.wf_of_same_links hg hR hcount.1 hcount.2
  have hE : ∀ i, g₁.edge i = g.edge i := Graph.edge_congr hR.1
  have hok₁ : g₁.marked_ok marked := hok.mono (fun j e h => by rw [hE]; exact h)
  have hL : ∀ i ∈ marked, ∃ e t h, g₁.edge i = some e ∧ g₁.node e.tail = some t ∧
      g₁.node e.head = some h := by
    intro i hi
    obtain ⟨e, he⟩ := hok₁.1 i hi
    obtain ⟨-, t, h, -, -, ht, hh, -⟩ := hg₁.edges i e he
    exact ⟨e, t, h, he, ht, hh⟩
  obtain ⟨g', hre, -, -, -, -, hrem, hkeep, -, hnode⟩ := RemoveEdges_spec g₁ marked false
    hg₁.adj (fun k n h => (hg₁.nodes k n h).1) hL
  have hwf : g'.wf := RemoveEdges_wf g₁ g' marked false hg₁ hok₁.1 hok₁.2 hre
  have hedge : ∀ i e, g'.edge i = some e → i ∉ marked ∧ g.edge i = some e := by
    intro i e he
    have hni : i ∉ marked := by
      intro hi
      rw [Graph.edge_none_of_reset (hrem i hi)] at he
      cases he
    refine ⟨hni, ?_⟩
    rw [← hE]
    unfold Graph.edge at he ⊢
    rw [← hkeep i hni]
    exact he
  have hnd : ∀ k n n', g.node k = some n → g'.node k = some n' →
      ∃ tr, n' = Node.strip marked { n with transitive := tr } := by
    intro k n n' hn hn'
    obtain ⟨tr, hn₁⟩ := hR.node hn
    rcases (hnode k _ hn₁).1 with h | h
    · rw [hn'] at h
      cases h
    · rw [hn'] at h
      cases h
      exact ⟨tr, rfl⟩
  refine ⟨g', marked.length / 2, ?_, hwf, ?_, ?_⟩
  · unfold RemoveTransitiveEdges
    simp only [hfold, Option.some_bind, hstore, hre]
  · intro u nu hu jt hjt j v hj hv kt hkt kk hkk d_i d hlast hd hc
    have hdm : d_i ∈ marked := hcomp u (List.mem_range.mpr (Graph.node_lt hu)) nu hu jt hjt j v
      hj hv kt hkt kk d_i d hkk hlast hd hc
    refine ⟨Graph.edge_none_of_reset (hrem d_i hdm), ?_⟩
    intro q hq
    exact Graph.edge_none_of_reset (hrem q (hok.2 d_i hdm d hd q hq))
  · intro u nu nu' hu hu' jt hjt j v hj hv kt hkt kk hkk d_i hdi d hd hlast
    obtain ⟨tru, rfl⟩ := hnd u nu nu' hu hu'
    obtain ⟨hjt', -⟩ := Node.mem_strip_out hjt
    obtain ⟨-, hj'⟩ := hedge jt j hj
    obtain ⟨-, -, v₀, -, -, -, hv₀, -⟩ := hg.edges jt j hj'
    obtain ⟨trv, rfl⟩ := hnd _ v₀ v hv₀ hv
    obtain ⟨hkt', -⟩ := Node.mem_strip_out hkt
    obtain ⟨-, hkk'⟩ := hedge kt kk hkk
    obtain ⟨hdn, hd'⟩ := hedge d_i d hd
    cases hc : is_comparable (add32 j.length kk.length) d.length with
    | false => rfl
    | true =>
      exfalso
      exact hdn (hcomp u (List.mem_range.mpr (Graph.node_lt hu)) nu hu jt hjt' j v₀ hj' hv₀ kt
        hkt' kk d_i d hkk' hlast hd' hc)

/-- In the triangle of `ex_triangle` the edge `4 : 0 → 4` is the only edge from
0 to 4 and its length 4 is the sum of the lengths of `0 → 2` and `2 → 4`;
`RemoveTransitiveEdges` returns a graph without it and without its pair 5. -/
theorem RemoveTransitiveEdges_last_candidate_witness :
    ∃ g' num, RemoveTransitiveEdges is_comparable_exact ex_triangle = some (g', num) ∧
      g'.edge 4 = none ∧ g'.edge 5 = none ∧
      g'.edges_ = [some ⟨0, 2, 0, 2, some 1⟩, some ⟨1, 2, 3, 1, some 0⟩,
        some ⟨2, 2, 2, 4, some 3⟩, some ⟨3, 2, 5, 3, some 2⟩, none, none] ∧ num = 1 := by
  obtain ⟨g', num, h, -, hrm, -⟩ := RemoveTransitiveEdges_last_candidate is_comparable_exact
    ex_triangle (Graph.wf_of_bounded (by decide)) (by decide)
  have h4 := hrm 0 ⟨0, "AAAAAACCCC".toList, 1, false, false, [], [], [0, 4], some 1⟩ rfl
    0 (by decide) ⟨0, 2, 0, 2, some 1⟩ ⟨2, "AACCCCGGGG".toList, 1, false, false, [], [0], [2], some 3⟩
    rfl rfl 2 (by decide) ⟨2, 2, 2, 4, some 3⟩ rfl 4 ⟨4, 4, 0, 4, some 5⟩ (by decide) rfl
    (by decide)
  have h' : RemoveTransitiveEdges is_comparable_exact ex_triangle = some
      (⟨[some ⟨0, "AAAAAACCCC".toList, 1, false, false, [4], [], [0], some 1⟩,
         some ⟨1, "GGGGTTTTTT".toList, 1, false, false, [], [1], [], some 0⟩,
         some ⟨2, "AACCCCGGGG".toList, 1, false, false, [], [0], [2], some 3⟩,
         some ⟨3, "CCCCGGGGTT".toList, 1, false, false, [], [3], [1], some 2⟩,
         some ⟨4, "CCGGGGTTTT".toList, 1, false, false, [0], [2], [], some 5⟩,
         some ⟨5, "AAAACCCCGG".toList, 1, false, false, [], [], [3], some 4⟩],
        [some ⟨0, 2, 0, 2, some 1⟩, some ⟨1, 2, 3, 1, some 0⟩, some ⟨2, 2, 2, 4, some 3⟩,
         some ⟨3, 2, 5, 3, some 2⟩, none, none], 6, 6⟩, 1) := by decide
  rw [h'] at h
  cases h
  exact ⟨_, _, h', h4.1, h4.2 5 rfl, rfl, rfl⟩

/-! ## `OverlapUpdate` called again -/

theorem OverlapUpdate_true_lookup {piles : List Pile} {o o' : Overlap}
    (h : OverlapUpdate piles o = some (true, o')) :
    ∃ pl pr, piles[o.lhs_id]? = some pl ∧ piles[o.rhs_id]? = some pr ∧
      pl.is_invalid = false ∧ pr.is_invalid = false ∧
      o'.lhs_end < u32 ∧ o'.rhs_end < u32 ∧
      ¬ sub32 o'.lhs_end o'.lhs_begin < 84 ∧ ¬ sub32 o'.rhs_end o'.rhs_begin < 84 := by
  unfold OverlapUpdate at h
  cases hl : piles[o.lhs_id]? with
  | none => simp [hl] at h
  | some pl =>
    cases hr : piles[o.rhs_id]? with
    | none =>
      exfalso
      simp only [hl, hr] at h
      split_ifs at h
      simp at h
    | some pr =>
      simp only [hl, hr] at h
      split_ifs at h with h1 h2 h3 h4 h5 <;>
        simp only [Option.some.injEq, Prod.mk.injEq, true_and, Bool.false_eq_true,
          false_and] at h
      subst h
      simp only [OverlapUpdate.clipped, OverlapUpdate.shifted] at h5 ⊢
      simp only [not_or] at h5
      obtain ⟨-, b, -, d⟩ := h5
      have e1 : ∀ x y : Nat, sub32 x y < u32 := fun x y => Nat.mod_lt _ (by decide)
      refine ⟨pl, pr, rfl, rfl, by simpa using h1, by simpa using h2, ?_, ?_, b, d⟩
      · exact lt_of_le_of_lt (min_le_left _ _) (e1 _ _)
      · exact lt_of_le_of_lt (min_le_left _ _) (e1 _ _)

/-- An overlap that lies inside the valid regions of two valid piles, with
both intervals non-empty and not below 84 bases, is accepted as it is. -/
theorem OverlapUpdate_fixed (piles : List Pile) (o : Overlap) (pl pr : Pile)
    (hl : piles[o.lhs_id]? = some pl) (hr : piles[o.rhs_id]? = some pr)
    (vl : pl.is_invalid = false) (vr : pr.is_invalid = false)
    (a1 : pl.begin_ ≤ o.lhs_begin) (a2 : o.lhs_begin < o.lhs_end) (a3 : o.lhs_end ≤ pl.end_)
    (b1 : pr.begin_ ≤ o.rhs_begin) (b2 : o.rhs_begin < o.rhs_end) (b3 : o.rhs_end ≤ pr.end_)
    (ul : o.lhs_end < u32) (ur : o.rhs_end < u32)
    (ml : ¬ sub32 o.lhs_end o.lhs_begin < 84) (mr : ¬ sub32 o.rhs_end o.rhs_begin < 84) :
    OverlapUpdate piles o = some (true, o) := by
  have s1 : shortfall o.rhs_begin pr.begin_ = 0 := by
    unfold shortfall; rw [if_neg (by omega)]
  have s2 : shortfall o.lhs_begin pl.begin_ = 0 := by
    unfold shortfall; rw [if_neg (by omega)]
  have s3 : excess o.rhs_end pr.end_ = 0 := by
    unfold excess; rw [if_neg (by omega)]
  have s4 : excess o.lhs_end pl.end_ = 0 := by
    unfold excess; rw [if_neg (by omega)]
  have hs : OverlapUpdate.shifted pl pr o = (o.lhs_begin, o.lhs_end, o.rhs_begin, o.rhs_end) := by
    unfold OverlapUpdate.shifted
    simp only [s1, s2, s3, s4, Bool.cond_self]
    simp only [u32] at ul ur
    have e1 : add32 o.lhs_begin 0 = o.lhs_begin := by unfold add32 u32; omega
    have e2 : sub32 o.lhs_end 0 = o.lhs_end := by unfold sub32 u32; omega
    have e3 : add32 o.rhs_begin 0 = o.rhs_begin := by unfold add32 u32; omega
    have e4 : sub32 o.rhs_end 0 = o.rhs_end := by unfold sub32 u32; omega
    rw [e1, e2, e3, e4]
  have hc : OverlapUpdate.clipped pl pr o = (o.lhs_begin, o.lhs_end, o.rhs_begin, o.rhs_end) := by
    unfold OverlapUpdate.clipped
    rw [hs]
    simp only [max_eq_left a1, min_eq_left a3, max_eq_left b1, min_eq_left b3]
  unfold OverlapUpdate
  simp only [hl, hr, vl, vr, hs, hc, Bool.false_eq_true, if_false]
  rw [if_neg (by omega), if_neg (by omega), if_neg (by omega)]

/-- C27: `OverlapUpdate` is idempotent on success: when it returns true and
leaves the overlap `o'`, a second call on `o'` with the same piles returns
true and leaves `o'` as it is. -/
theorem OverlapUpdate_idempotent (piles : List Pile) (o o' : Overlap)
    (h : OverlapUpdate piles o = some (true, o')) :
    OverlapUpdate piles o' = some (true, o') := by
  obtain ⟨pl, pr, hl, hr, vl, vr, ul, ur, ml, mr⟩ := OverlapUpdate_true_lookup h
  obtain ⟨⟨a1, a2, a3⟩, ⟨b1, b2, b3⟩, -, -⟩ :=
    OverlapUpdate_true_bounds piles o o' pl pr hl hr h
  obtain ⟨i1, i2, -, -⟩ := OverlapUpdate_keeps_ids piles o o' true h
  exact OverlapUpdate_fixed piles o' pl pr (by rw [i1]; exact hl) (by rw [i2]; exact hr)
    vl vr a1 a2 a3 b1 b2 b3 ul ur ml mr

/-- The overlap of the example is clipped by the first call and is accepted
unchanged by the second. -/
theorem OverlapUpdate_idempotent_witness :
    OverlapUpdate ex_piles ex_overlap = some (true, ex_overlap_updated) ∧
    ex_overlap ≠ ex_overlap_updated ∧
    OverlapUpdate ex_piles ex_overlap_updated = some (true, ex_overlap_updated) :=
  ⟨by decide, by decide,
    OverlapUpdate_idempotent ex_piles ex_overlap ex_overlap_updated (by decide)⟩

/-- C28: `OverlapUpdate` is atomic on failure: whenever it returns false the
overlap is the one it was given (the four coordinates, the two ids, the strand
and the score), and with both piles in the vector it does return.  The piles
are only read. -/
theorem OverlapUpdate_atomic (piles : List Pile) (o : Overlap) :
    (∀ o', OverlapUpdate piles o = some (false, o') → o' = o) ∧
    (∀ pl pr, piles[o.lhs_id]? = some pl → piles[o.rhs_id]? = some pr →
      ∃ b o', OverlapUpdate piles o = some (b, o')) := by
  constructor
  · intro o' h
    unfold OverlapUpdate at h
    cases hl : piles[o.lhs_id]? with
    | none => simp [hl] at h
    | some pl =>
      cases hr : piles[o.rhs_id]? with
      | none =>
        simp only [hl, hr] at h
        split_ifs at h
        simp only [Option.some.injEq, Prod.mk.injEq] at h
        exact h.2.symm
      | some pr =>
        simp only [hl, hr] at h
        split_ifs at h <;>
          simp only [Option.some.injEq, Prod.mk.injEq, true_and, Bool.true_eq_false,
            false_and] at h <;> exact h.symm
  · intro pl pr hl hr
    unfold OverlapUpdate
    simp only [hl, hr]
    split_ifs <;> exact ⟨_, _, rfl⟩

/-- With the second pile invalid the call returns false and the overlap of
the example is as before. -/
theorem OverlapUpdate_atomic_witness :
    OverlapUpdate ex_piles_invalid ex_overlap = some (false, ex_overlap) ∧
    ∃ b o', OverlapUpdate ex_piles_invalid ex_overlap = some (b, o') :=
  ⟨by decide,
    (OverlapUpdate_atomic ex_piles_invalid ex_overlap).2 ex_pile_0 ex_pile_1_invalid
      (by decide) (by decide)⟩

/-! ## `TrimSequences` -/

theorem sub64_wrap {n : Nat} (h1 : n < 1600) : n ≤ sub64 n (2 * kTrimLim % u64) := by
  unfold sub64 kTrimLim u64
  omega

theorem sub64_exact {n : Nat} (h1 : 1600 ≤ n) (h2 : n < u64) :
    sub64 n (2 * kTrimLim % u64) = n - 1600 := by
  unfold sub64 kTrimLim u64 at *
  omega

theorem TrimSequences.trim_str_spec (s : List Char) (h1 : 1000 < s.length)
    (h2 : s.length < u64) : TrimSequences.trim_str s = some (trimmed s) := by
  unfold TrimSequences.trim_str substr trimmed
  rw [if_pos (by unfold kTrimLim; omega), if_neg (by omega)]
  by_cases c : s.length < 1600
  · rw [if_pos c]
    have := sub64_wrap c
    rw [List.take_of_length_le (by rw [List.length_drop]; omega)]
    rfl
  · rw [if_neg c, sub64_exact (by omega) h2]
    rfl

theorem TrimSequences_map : ∀ (sequences : List Sequence),
    (∀ s ∈ sequences, s.data.length < u64) →
    TrimSequences sequences = some (sequences.map fun s => { s with data := trimmed s.data })
  | [], _ => rfl
  | it :: rest, h => by
    have ih := TrimSequences_map rest (fun s hs => h s (List.mem_cons_of_mem _ hs))
    unfold TrimSequences
    rw [ih]
    by_cases c : it.data.length > kMinSequenceLen
    · rw [if_pos c, TrimSequences.trim_str_spec it.data c (h it (List.mem_cons_self _ _))]
      rfl
    · rw [if_neg c]
      have : trimmed it.data = it.data := by
        unfold trimmed
        rw [if_pos (by unfold kMinSequenceLen at c; omega)]
      simp only [Option.some_bind, List.map_cons, this]

theorem trimmed_length (s : List Char) :
    (s.length ≤ 1000 → trimmed s = s) ∧
    (1000 < s.length → s.length < 1600 →
      trimmed s = s.drop 800 ∧ (trimmed s).length = s.length - 800) ∧
    (1600 ≤ s.length →
      trimmed s = (s.drop 800).take (s.length - 1600) ∧
      (trimmed s).length = s.length - 1600) := by
  unfold trimmed
  refine ⟨fun h => by rw [if_pos h], fun h1 h2 => ?_, fun h => ?_⟩
  · rw [if_neg (by omega), if_pos h2]
    exact ⟨rfl, by rw [List.length_drop]⟩
  · rw [if_neg (by omega), if_neg (by omega)]
    refine ⟨rfl, ?_⟩
    rw [List.length_take, List.length_drop]
    omega

/-- What `TrimSequences` does: it returns as many sequences in the same
order; a sequence of at most 1000 bases is left as it is, one of at least
1600 bases `s` becomes `s[800 .. |s| - 800)` of length `|s| - 1600`, and one
with more than 1000 and fewer than 1600 bases loses only its first 800 bases:
the `std::size_t` value `|s| - 1600` wraps around and `substr` takes the rest
of the string. -/
theorem TrimSequences_spec (sequences : List Sequence)
    (h : ∀ s ∈ sequences, s.data.length < u64) :
    ∃ r, TrimSequences sequences = some r ∧ r.length = sequences.length ∧
      ∀ (i : Nat) (s : Sequence), sequences[i]? = some s → ∃ t : Sequence, r[i]? = some t ∧
        (s.data.length ≤ 1000 → t.data = s.data) ∧
        (1000 < s.data.length → s.data.length < 1600 →
          t.data = s.data.drop 800 ∧ t.data.length = s.data.length - 800) ∧
        (1600 ≤ s.data.length →
          t.data = (s.data.drop 800).take (s.data.length - 1600) ∧
          t.data.length = s.data.length - 1600) := by
  refine ⟨_, TrimSequences_map sequences h, by rw [List.length_map], ?_⟩
  intro i s hs
  refine ⟨{ s with data := trimmed s.data }, by rw [List.getElem?_map, hs]; rfl, ?_⟩
  exact trimmed_length s.data

/-- Three sequences of 900, 1200 and 1700 bases come back with 900, 400 and
100 bases. -/
theorem TrimSequences_spec_witness :
    (∀ s ∈ ex_trim_sequences, s.data.length < u64) ∧
    ∃ r, TrimSequences ex_trim_sequences = some r ∧ r.length = 3 ∧
      r.map (fun t => t.data.length) = [900, 400, 100] := by
  have h : ∀ s ∈ ex_trim_sequences, s.data.length < u64 := by
    intro s hs
    simp only [ex_trim_sequences, List.mem_cons, List.mem_singleton, List.not_mem_nil,
      or_false] at hs
    rcases hs with rfl | rfl | rfl <;>
      (show (List.replicate _ _).length < u64) <;> rw [List.length_replicate] <;> decide
  obtain ⟨r, hr, hl, hi⟩ := TrimSequences_spec ex_trim_sequences h
  refine ⟨h, r, hr, hl, ?_⟩
  obtain ⟨t0, h0, a0, -, -⟩ := hi 0 ⟨List.replicate 900 'A'⟩ rfl
  obtain ⟨t1, h1, -, a1, -⟩ := hi 1 ⟨List.replicate 1200 'C'⟩ rfl
  obtain ⟨t2, h2, -, -, a2⟩ := hi 2 ⟨List.replicate 1700 'G'⟩ rfl
  have l0 : (Sequence.mk (List.replicate 900 'A')).data.length = 900 := List.length_replicate _ _
  have l1 : (Sequence.mk (List.replicate 1200 'C')).data.length = 1200 :=
    List.length_replicate _ _
  have l2 : (Sequence.mk (List.replicate 1700 'G')).data.length = 1700 :=
    List.length_replicate _ _
  have e0 := congrArg List.length (a0 (by rw [l0]; decide))
  have e1 := (a1 (by rw [l1]; decide) (by rw [l1]; decide)).2
  have e2 := (a2 (by rw [l2]; decide)).2
  rw [l0] at e0
  rw [l1] at e1
  rw [l2] at e2
  match r, hl, h0, h1, h2 with
  | [x, y, z], _, h0, h1, h2 =>
    simp only [List.getElem?_cons_zero, List.getElem?_cons_succ, Option.some.injEq] at h0 h1 h2
    subst h0 h1 h2
    simp only [List.map_cons, List.map_nil, e0, e1, e2]

theorem drop_replicate_eq {α : Type} (n k : Nat) (a : α) :
    (List.replicate n a).drop k = List.replicate (n - k) a := by
  apply List.ext_getElem
  · simp
  · intro i h1 h2
    simp

/-- C30 fails in the code: a sequence of 1200 bases is longer than
`kMinSequenceLen`, so it is trimmed, but it is shorter than `2 * kTrimLim`:
the `std::size_t` value `1200 - 1600` wraps around, `substr` takes the rest
of the string, and `TrimSequences` leaves the last 400 bases, with 800 bases
removed from the front and none from the back, while `s[800 .. 1200 - 800)`
is empty and `1200 - 1600` is negative. -/
theorem TrimSequences_short :
    TrimSequences [⟨List.replicate 1200 'C'⟩] = some [⟨List.replicate 400 'C'⟩] ∧
    (List.replicate 1200 'C').length > kMinSequenceLen ∧
    ((List.replicate 1200 'C').drop 800).take (1200 - 800 - 800) = [] ∧
    ((400 : Nat) : Int) ≠ 1200 - 1600 := by
  have l1 : (List.replicate 1200 'C').length = 1200 := List.length_replicate _ _
  refine ⟨?_, by rw [l1]; decide, List.take_zero _, by decide⟩
  rw [TrimSequences_map _ (by
    intro s hs
    rw [List.mem_singleton] at hs
    subst hs
    show (List.replicate 1200 'C').length < u64
    rw [l1]
    decide)]
  have e : trimmed (List.replicate 1200 'C') = List.replicate 400 'C' := by
    unfold trimmed
    rw [l1, if_neg (by decide), if_pos (by decide), drop_replicate_eq]
  simp only [List.map_cons, List.map_nil, e]

/-! ## The cap on the overlaps of a sequence -/

/-- C25: the cap of `Construct` keeps the 16 longest overlaps.  A list with
fewer than 16 entries is left unchanged; of a list with at least 16 entries
exactly 16 are kept, the kept ones are in the order of non-increasing
`OverlapLength`, kept and dropped ones together are the entries of the input,
and every kept overlap is at least as long as every dropped one.  This holds
for whatever order `std::sort` gives to overlaps of equal length. -/
theorem Construct_cap_spec (sort : List Overlap → List Overlap)
    (hs : is_sort_by_length sort) (l : List Overlap) :
    (l.length < 16 → Construct.cap sort l = l) ∧
    (16 ≤ l.length →
      (Construct.cap sort l).length = 16 ∧
      (Construct.cap sort l).Subperm l ∧
      (Construct.cap sort l).Pairwise (fun a b => OverlapLength b ≤ OverlapLength a) ∧
      ∃ dropped, l.Perm (Construct.cap sort l ++ dropped) ∧
        ∀ a ∈ Construct.cap sort l, ∀ b ∈ dropped, OverlapLength b ≤ OverlapLength a) := by
  unfold Construct.cap
  refine ⟨fun h => by rw [if_pos h], fun h => ?_⟩
  rw [if_neg (by omega)]
  obtain ⟨hp, hw⟩ := hs l
  have hw' : (sort l).Pairwise (fun a b => OverlapLength b ≤ OverlapLength a) :=
    hw.imp (fun h => Nat.le_of_not_lt h)
  have hsplit : (sort l).take 16 ++ (sort l).drop 16 = sort l := List.take_append_drop _ _
  rw [← hsplit, List.pairwise_append] at hw'
  refine ⟨?_, ?_, hw'.1, (sort l).drop 16, ?_, hw'.2.2⟩
  · rw [List.length_take, hp.length_eq]
    omega
  · exact ((List.take_sublist _ _).subperm).trans hp.subperm
  · rw [hsplit]
    exact hp.symm

/-- Insertion sort is one possible `std::sort`; of the seventeen overlaps of
the lengths 100 to 116 the cap keeps those of the lengths 116 down to 101. -/
theorem Construct_cap_spec_witness :
    is_sort_by_length (List.insertionSort Overlap.longer) ∧
    16 ≤ ex_cap_overlaps.length ∧
    (Construct.cap (List.insertionSort Overlap.longer) ex_cap_overlaps).length = 16 ∧
    (Construct.cap (List.insertionSort Overlap.longer) ex_cap_overlaps).map OverlapLength =
      [116, 115, 114, 113, 112, 111, 110, 109, 108, 107, 106, 105, 104, 103, 102, 101] := by
  have hs : is_sort_by_length (List.insertionSort Overlap.longer) := by
    intro l
    haveI : IsTotal Overlap Overlap.longer := ⟨fun a b => Nat.le_total _ _⟩
    haveI : IsTrans Overlap Overlap.longer := ⟨fun a b c h1 h2 => Nat.le_trans h2 h1⟩
    refine ⟨List.perm_insertionSort _ _, ?_⟩
    have := List.sorted_insertionSort Overlap.longer l
    exact List.Pairwise.imp (fun h => Nat.not_lt.mpr h) this
  refine ⟨hs, by decide,
    ((Construct_cap_spec _ hs ex_cap_overlaps).2 (by decide)).1, by decide⟩

/-! ## `OverlapType` of the reversed overlap -/

theorem Overlap.inside_reverse {pl pr : Pile} {o : Overlap} (h : o.inside pl pr) :
    (OverlapReverse o).inside pr pl := ⟨h.2, h.1⟩

theorem classify_cases (c : RelCoords) :
    (classify c = 0 ↔ (lt_0_875 c.lhs_matched (c.lhs_matched + c.overhang) ∨
      lt_0_875 c.rhs_matched (c.rhs_matched + c.overhang))) ∧
    (classify c = 1 ↔ (¬ (lt_0_875 c.lhs_matched (c.lhs_matched + c.overhang) ∨
        lt_0_875 c.rhs_matched (c.rhs_matched + c.overhang)) ∧
      (c.lhs_begin ≤ c.rhs_begin ∧ c.lhs_tail ≤ c.rhs_tail))) ∧
    (classify c = 2 ↔ (¬ (lt_0_875 c.lhs_matched (c.lhs_matched + c.overhang) ∨
        lt_0_875 c.rhs_matched (c.rhs_matched + c.overhang)) ∧
      ¬ (c.lhs_begin ≤ c.rhs_begin ∧ c.lhs_tail ≤ c.rhs_tail) ∧
      (c.rhs_begin ≤ c.lhs_begin ∧ c.rhs_tail ≤ c.lhs_tail))) ∧
    (classify c = 3 ↔ (¬ (lt_0_875 c.lhs_matched (c.lhs_matched + c.overhang) ∨
        lt_0_875 c.rhs_matched (c.rhs_matched + c.overhang)) ∧
      ¬ (c.lhs_begin ≤ c.rhs_begin ∧ c.lhs_tail ≤ c.rhs_tail) ∧
      ¬ (c.rhs_begin ≤ c.lhs_begin ∧ c.rhs_tail ≤ c.lhs_tail) ∧
      c.lhs_begin > c.rhs_begin)) ∧
    (classify c = 4 ↔ (¬ (lt_0_875 c.lhs_matched (c.lhs_matched + c.overhang) ∨
        lt_0_875 c.rhs_matched (c.rhs_matched + c.overhang)) ∧
      ¬ (c.lhs_begin ≤ c.rhs_begin ∧ c.lhs_tail ≤ c.rhs_tail) ∧
      ¬ (c.rhs_begin ≤ c.lhs_begin ∧ c.rhs_tail ≤ c.lhs_tail) ∧
      ¬ c.lhs_begin > c.rhs_begin)) := by
  unfold classify
  by_cases h0 : lt_0_875 c.lhs_matched (c.lhs_matched + c.overhang) ∨
      lt_0_875 c.rhs_matched (c.rhs_matched + c.overhang)
  · rw [if_pos h0]
    simp [h0]
  · rw [if_neg h0]
    by_cases h1 : c.lhs_begin ≤ c.rhs_begin ∧ c.lhs_tail ≤ c.rhs_tail
    · rw [if_pos h1]
      simp [h0, h1]
    · rw [if_neg h1]
      by_cases h2 : c.rhs_begin ≤ c.lhs_begin ∧ c.rhs_tail ≤ c.lhs_tail
      · rw [if_pos h2]
        simp [h0, h1, h2]
      · rw [if_neg h2]
        by_cases h3 : c.lhs_begin > c.rhs_begin
        · rw [if_pos h3]
          simp [h0, h1, h2, h3]
        · rw [if_neg h3]
          simp [h0, h1, h2, h3]

theorem relCoords_reverse (pl pr : Pile) (o : Overlap) (hin : o.inside pl pr) :
    (o.strand = true →
      (relCoords pr pl (OverlapReverse o)).lhs_begin = (relCoords pl pr o).rhs_begin ∧
      (relCoords pr pl (OverlapReverse o)).rhs_begin = (relCoords pl pr o).lhs_begin ∧
      (relCoords pr pl (OverlapReverse o)).lhs_tail = (relCoords pl pr o).rhs_tail ∧
      (relCoords pr pl (OverlapReverse o)).rhs_tail = (relCoords pl pr o).lhs_tail) ∧
    (o.strand = false →
      (relCoords pr pl (OverlapReverse o)).lhs_begin = (relCoords pl pr o).rhs_tail ∧
      (relCoords pr pl (OverlapReverse o)).rhs_begin = (relCoords pl pr o).lhs_tail ∧
      (relCoords pr pl (OverlapReverse o)).lhs_tail = (relCoords pl pr o).rhs_begin ∧
      (relCoords pr pl (OverlapReverse o)).rhs_tail = (relCoords pl pr o).lhs_begin) ∧
    (relCoords pr pl (OverlapReverse o)).lhs_matched = (relCoords pl pr o).rhs_matched ∧
    (relCoords pr pl (OverlapReverse o)).rhs_matched = (relCoords pl pr o).lhs_matched := by
  obtain ⟨⟨a1, a2, a3⟩, b1, b2, b3⟩ := hin
  obtain ⟨li, lb, le, ri, rb, re, sc, st⟩ := o
  simp only at a1 a2 a3 b1 b2 b3
  cases st
  · simp only [relCoords, OverlapReverse, RelCoords.lhs_matched,
      RelCoords.rhs_matched, RelCoords.lhs_tail, RelCoords.rhs_tail,
      Bool.false_eq_true, if_false]
    refine ⟨fun h => absurd h (by decide), fun _ => ⟨?_, ?_, ?_, ?_⟩, ?_, ?_⟩ <;>
      first | trivial | omega
  · simp only [relCoords, OverlapReverse, RelCoords.lhs_matched,
      RelCoords.rhs_matched, RelCoords.lhs_tail, RelCoords.rhs_tail, if_true]
    refine ⟨fun _ => ⟨?_, ?_, ?_, ?_⟩, fun h => absurd h (by decide), ?_, ?_⟩ <;> trivial

theorem classify_reverse (pl pr : Pile) (o : Overlap) (hin : o.inside pl pr) :
    (classify (relCoords pl pr o) = 0 → classify (relCoords pr pl (OverlapReverse o)) = 0) ∧
    (classify (relCoords pl pr o) = 1 →
      ¬ ((relCoords pl pr o).rhs_begin ≤ (relCoords pl pr o).lhs_begin ∧
          (relCoords pl pr o).rhs_tail ≤ (relCoords pl pr o).lhs_tail) →
      classify (relCoords pr pl (OverlapReverse o)) = 2) ∧
    (classify (relCoords pl pr o) = 2 → classify (relCoords pr pl (OverlapReverse o)) = 1) ∧
    (o.strand = true →
      (classify (relCoords pl pr o) = 3 →
        classify (relCoords pr pl (OverlapReverse o)) = 4) ∧
      (classify (relCoords pl pr o) = 4 →
        classify (relCoords pr pl (OverlapReverse o)) = 3)) ∧
    (o.strand = false →
      (classify (relCoords pl pr o) = 3 →
        classify (relCoords pr pl (OverlapReverse o)) = 3) ∧
      (classify (relCoords pl pr o) = 4 →
        classify (relCoords pr pl (OverlapReverse o)) = 4)) := by
  obtain ⟨rt, rf, m1, m2⟩ := relCoords_reverse pl pr o hin
  obtain ⟨p0, p1, p2, p3, p4⟩ := classify_cases (relCoords pl pr o)
  obtain ⟨q0, q1, q2, q3, q4⟩ := classify_cases (relCoords pr pl (OverlapReverse o))
  rw [p0, p1, p2, p3, p4, q0, q1, q2, q3, q4]
  simp only [RelCoords.overhang, lt_0_875, m1, m2]
  cases hst : o.strand
  · obtain ⟨e1, e2, e3, e4⟩ := rf hst
    rw [e1, e2, e3, e4]
    generalize (relCoords pl pr o).lhs_begin = a
    generalize (relCoords pl pr o).rhs_begin = c
    generalize (relCoords pl pr o).lhs_tail = u
    generalize (relCoords pl pr o).rhs_tail = v
    generalize (relCoords pl pr o).lhs_matched = m
    generalize (relCoords pl pr o).rhs_matched = n
    have hmin1 : min v u = min u v := Nat.min_comm _ _
    have hmin2 : min c a = min a c := Nat.min_comm _ _
    rw [hmin1, hmin2, Nat.add_comm (min u v) (min a c)]
    generalize min a c + min u v = w
    refine ⟨fun h => ?_, fun h h' => ?_, fun h => ?_, fun h => ?_, fun _ => ⟨fun h => ?_, fun h => ?_⟩⟩
    · omega
    · refine ⟨?_, ?_, ?_⟩ <;> omega
    · refine ⟨?_, ?_⟩ <;> omega
    · exact absurd h (by decide)
    · refine ⟨?_, ?_, ?_, ?_⟩ <;> omega
    · refine ⟨?_, ?_, ?_, ?_⟩ <;> omega
  · obtain ⟨e1, e2, e3, e4⟩ := rt hst
    rw [e1, e2, e3, e4]
    generalize (relCoords pl pr o).lhs_begin = a
    generalize (relCoords pl pr o).rhs_begin = c
    generalize (relCoords pl pr o).lhs_tail = u
    generalize (relCoords pl pr o).rhs_tail = v
    generalize (relCoords pl pr o).lhs_matched = m
    generalize (relCoords pl pr o).rhs_matched = n
    have hmin1 : min v u = min u v := Nat.min_comm _ _
    have hmin2 : min c a = min a c := Nat.min_comm _ _
    rw [hmin1, hmin2]
    generalize min a c + min u v = w
    refine ⟨fun h => ?_, fun h h' => ?_, fun h => ?_, fun _ => ⟨fun h => ?_, fun h => ?_⟩, fun h => ?_⟩
    · omega
    · refine ⟨?_, ?_, ?_⟩ <;> omega
    · refine ⟨?_, ?_⟩ <;> omega
    · refine ⟨?_, ?_, ?_, ?_⟩ <;> omega
    · refine ⟨?_, ?_, ?_, ?_⟩ <;> omega
    · exact absurd h (by decide)

/-- C26: classification is consistent with reversal.  For an overlap inside
both valid regions, `OverlapType` of the reversed overlap is 0 when the type
is 0, 1 when it is 2, and 2 when it is 1 unless the overlap also meets the
condition of type 2 (both sides contained in each other); with `strand = true`
it is 4 when the type is 3 and 3 when it is 4, and with `strand = false` it is
3 when the type is 3 and 4 when it is 4. -/
theorem OverlapType_reverse (piles : List Pile) (o : Overlap) (pl pr : Pile)
    (hl : piles[o.lhs_id]? = some pl) (hr : piles[o.rhs_id]? = some pr)
    (hpl : pl.is_u32) (hpr : pr.is_u32) (hin : o.inside pl pr) :
    ∃ t t', OverlapType piles o = some t ∧ OverlapType piles (OverlapReverse o) = some t' ∧
      (t = 0 → t' = 0) ∧
      (t = 1 →
        ¬ ((relCoords pl pr o).rhs_begin ≤ (relCoords pl pr o).lhs_begin ∧
            (relCoords pl pr o).rhs_tail ≤ (relCoords pl pr o).lhs_tail) → t' = 2) ∧
      (t = 2 → t' = 1) ∧
      (o.strand = true → (t = 3 → t' = 4) ∧ (t = 4 → t' = 3)) ∧
      (o.strand = false → (t = 3 → t' = 3) ∧ (t = 4 → t' = 4)) :=
  ⟨_, _, OverlapType_exact piles o pl pr hl hr hpl hpr hin,
    OverlapType_exact piles (OverlapReverse o) pr pl hr hl hpr hpl (Overlap.inside_reverse hin),
    classify_reverse pl pr o hin⟩

/-- The overlap of the example after `OverlapUpdate` has the type 4 and the
strand `true`; reversed it has the type 3. -/
theorem OverlapType_reverse_witness :
    OverlapType ex_piles ex_overlap_updated = some 4 ∧
    OverlapType ex_piles (OverlapReverse ex_overlap_updated) = some 3 := by
  obtain ⟨t, t', h, h', -, -, -, hs, -⟩ := OverlapType_reverse ex_piles ex_overlap_updated
    ex_pile_0 ex_pile_1 (by decide) (by decide) (by decide) (by decide) (by decide)
  have e : OverlapType ex_piles ex_overlap_updated = some 4 := by decide
  rw [e] at h
  cases h
  rw [h', (hs rfl).2 rfl]
  exact ⟨e, rfl⟩

/-! ## The stage counter -/

theorem GreedyConstruct_count (fillers : List Sequence) (overlaps : List (List Overlap))
    (fuel : Nat) (g g' : Graph) (sequences : List Sequence) (n : Nat)
    (h : GreedyConstruct fillers overlaps fuel g sequences = some (g', n)) : n = 1 := by
  unfold GreedyConstruct at h
  cases sequences with
  | nil => simp at h
  | cons s rest =>
    simp only [List.take_succ_cons, List.take_zero, Option.bind_eq_some, Option.some.injEq,
      Prod.mk.injEq, List.length_singleton] at h
    obtain ⟨_, -, _, -, -, rfl⟩ := h
    rfl

/-- C24 (as stated) fails: given the three sequences of the example as
unitigs, `GreedyConstruct` on the empty graph keeps the first one only
(`sequences.resize(1)`), makes the node pair of that one and no other node,
and returns 1. -/
theorem GreedyConstruct_first_only :
    ex_sequences.length = 3 ∧
    GreedyConstruct [] [[]] 1 Graph.empty ex_sequences = some
      (⟨[some ⟨0, "AAAAAACCCC".toList, 1, false, false, [], [], [], some 1⟩,
         some ⟨1, "GGGGTTTTTT".toList, 1, false, false, [], [], [], some 0⟩], [], 2, 0⟩, 1) := by
  decide

/-! ## Properties kept by every change of the graph -/

theorem CreateUnitigs.connect_in_stable {Q : Graph → Prop} (hQ : Graph.stable Q)
    {g g' : Graph} {marked marked' : List Nat} {b u : Nat} {un : Node} (hg : g.wf)
    (hu : g.node u = some un) (q : Q g)
    (h : CreateUnitigs.connect_in g marked b u = some (g', marked')) : Q g' := by
  have hb : ∃ bn, g.node b = some bn := by
    unfold CreateUnitigs.connect_in at h
    obtain ⟨bn, hbn, -⟩ := Option.bind_eq_some.mp h
    exact ⟨bn, hbn⟩
  obtain ⟨bn, hbn⟩ := hb
  by_cases hi : bn.indegree = 0
  · have : CreateUnitigs.connect_in g marked b u = some (g, marked) := by
      unfold CreateUnitigs.connect_in
      simp only [hbn, Option.some_bind, if_pos hi]
    rw [this] at h
    cases h
    exact q
  · obtain ⟨front, fp, up, upn, bp, bpn, g₂, -, -, -, -, -, -, -, -, -, -, hc, hs⟩ :=
      CreateUnitigs.connect_in_spec g marked b u bn un hg hbn hu hi
    rw [hc] at h
    cases h
    exact hQ.edge_pair _ _ _ _ _ _ _ _ q hs

theorem CreateUnitigs.connect_out_stable {Q : Graph → Prop} (hQ : Graph.stable Q)
    {g g' : Graph} {marked marked' : List Nat} {b u : Nat} {un : Node} (hg : g.wf)
    (hu : g.node u = some un) (q : Q g)
    (h : CreateUnitigs.connect_out g marked b u = some (g', marked')) : Q g' := by
  have hb : ∃ bn, g.node b = some bn := by
    unfold CreateUnitigs.connect_out at h
    obtain ⟨bn, hbn, -⟩ := Option.bind_eq_some.mp h
    exact ⟨bn, hbn⟩
  obtain ⟨bn, hbn⟩ := hb
  by_cases hi : bn.outdegree = 0
  · have : CreateUnitigs.connect_out g marked b u = some (g, marked) := by
      unfold CreateUnitigs.connect_out
      simp only [hbn, Option.some_bind, if_pos hi]
    rw [this] at h
    cases h
    exact q
  · obtain ⟨front, fp, up, upn, ep, epn, g₂, -, -, -, -, -, -, -, -, -, -, hc, hs⟩ :=
      CreateUnitigs.connect_out_spec g marked b u bn un hg hbn hu hi
    rw [hc] at h
    cases h
    exact hQ.edge_pair _ _ _ _ _ _ _ _ q hs

theorem CreateUnitigs.connect_stable {Q : Graph → Prop} (hQ : Graph.stable Q)
    {g g' : Graph} {marked marked' : List Nat} {b e u : Nat} {un : Node} (hg : g.wf)
    (hm : g.marked_ok marked) (hu : g.node u = some un) (q : Q g)
    (h : CreateUnitigs.connect g marked b e u = some (g', marked')) : Q g' := by
  unfold CreateUnitigs.connect at h
  by_cases hbe : b ≠ e
  · rw [if_pos hbe] at h
    simp only [Option.bind_eq_some] at h
    obtain ⟨⟨g₁, m₁⟩, h1, h2⟩ := h
    obtain ⟨hg₁, hm₁, hl₁, hn₁⟩ := CreateUnitigs.connect_in_wf hg hm hu h1
    obtain ⟨o, i, hu₁⟩ := hn₁ u un hu
    exact CreateUnitigs.connect_out_stable hQ hg₁ hu₁
      (CreateUnitigs.connect_in_stable hQ hg hu q h1) h2
  · rw [if_neg hbe] at h
    cases h
    exact q

theorem CreateUnitigs.merge_stable {Q : Graph → Prop} (hQ : Graph.stable Q) {fuel : Nat}
    {st st' : CreateUnitigs.State} {b e : Nat}
    (hg : st.g.wf) (hm : st.g.marked_ok st.marked_edges) (q : Q st.g)
    (h : CreateUnitigs.merge fuel st b e = some st') : Q st'.g := by
  unfold CreateUnitigs.merge at h
  simp only [Option.bind_eq_some, Option.some.injEq] at h
  obtain ⟨⟨g₁, u⟩, h1, ⟨g₂, m₂⟩, h2, ⟨g₃, m₃, nu₃⟩, h3, rfl⟩ := h
  obtain ⟨rfl, hs⟩ := CreateUnitigs.new_unitig_pair_spec hg h1
  have hg₁ := Graph.wf_of_node_pair hg hs
  have hm₁ : g₁.marked_ok st.marked_edges :=
    hm.mono (fun j e he => by rw [hs.edge_eq]; exact he)
  obtain ⟨a, c, hn, -, -⟩ := hs.nodes
  have hu : g₁.node st.g.nodes_.length = some a := by
    rw [Graph.node_eq_some, hn]
    exact getElem?_append_at _ _ _
  have q₁ := hQ.node_pair _ _ q hs
  have q₂ := CreateUnitigs.connect_stable hQ hg₁ hm₁ hu q₁ h2
  obtain ⟨hg₂, hm₂, -⟩ := CreateUnitigs.connect_wf hg₁ hm₁ hu h2
  obtain ⟨-, -, hR, -, -⟩ := CreateUnitigs.mark_chain_wf _ _ _ _ _ _ _ _ _ _ _ hg₂ hm₂ h3
  exact hQ.links _ _ q₂ hR

theorem CreateUnitigs.step_stable {Q : Graph → Prop} (hQ : Graph.stable Q)
    {fuel epsilon : Nat} {st st' : CreateUnitigs.State} {k : Nat}
    (hI : st.g.wf ∧ st.g.marked_ok st.marked_edges) (q : Q st.g)
    (h : CreateUnitigs.step fuel epsilon st k = some st') : Q st'.g := by
  unfold CreateUnitigs.step at h
  cases hk : st.g.node k with
  | none =>
    rw [hk] at h
    cases h
    exact q
  | some it =>
    rw [hk] at h
    simp only [Option.bind_eq_some] at h
    obtain ⟨visited, -, h⟩ := h
    by_cases c₁ : visited = true ∨ it.is_junction = true
    · rw [if_pos c₁] at h
      cases h
      exact q
    · rw [if_neg c₁] at h
      simp only [Option.bind_eq_some] at h
      obtain ⟨l, -, r, -, h⟩ := h
      by_cases c₂ : r.2.2.1 = false ∧ l.1 = r.1
      · rw [if_pos c₂] at h
        cases h
        exact q
      · rw [if_neg c₂] at h
        by_cases c₃ : r.2.2.1 = false ∧ r.2.1 < add32 ((2 * epsilon) % u32) 2
        · rw [if_pos c₃] at h
          cases h
          exact q
        · rw [if_neg c₃] at h
          simp only [Option.bind_eq_some] at h
          obtain ⟨c, -, h⟩ := h
          exact @CreateUnitigs.merge_stable Q hQ fuel { st with is_visited := r.2.2.2 } st'
            c.1 c.2 hI.1 hI.2 q h

theorem RemoveEdges_removed (g g' : Graph) (ids : List Nat) (rn : Bool) (hg : g.wf)
    (hlive : ∀ i ∈ ids, ∃ e, g.edge i = some e)
    (h : RemoveEdges g ids rn = some g') : g.removed g' := by
  have hL : ∀ i ∈ ids, ∃ e t h, g.edge i = some e ∧ g.node e.tail = some t ∧
      g.node e.head = some h := by
    intro i hi
    obtain ⟨e, he⟩ := hlive i hi
    obtain ⟨-, t, h, -, -, ht, hh, -⟩ := hg.edges i e he
    exact ⟨e, t, h, he, ht, hh⟩
  obtain ⟨g'', hre, -, -, hnl, hel, hrem, hkeep, hnone, hnode⟩ :=
    RemoveEdges_spec g ids rn hg.adj (fun k n h => (hg.nodes k n h).1) hL
  rw [h] at hre
  cases hre
  refine ⟨hnl, hel, ?_, ?_⟩
  · intro k n' hk
    cases hgk : g.node k with
    | none =>
      rw [hnone k hgk] at hk
      cases hk
    | some n =>
      rcases (hnode k n hgk).1 with h0 | h1
      · rw [h0] at hk
        cases hk
      · rw [h1] at hk
        cases hk
        exact ⟨n, rfl, rfl⟩
  · intro j e he
    by_cases c : j ∈ ids
    · have := hrem j c
      rw [Graph.edge_eq_some, this] at he
      cases he
    · rw [Graph.edge_eq_some, hkeep j c] at he
      exact Graph.edge_eq_some.mpr he

theorem CreateUnitigs_stable {Q : Graph → Prop} (hQ : Graph.stable Q) {fuel epsilon : Nat}
    {g g' : Graph} {n : Nat} (hg : g.wf) (q : Q g)
    (h : CreateUnitigs fuel g epsilon = some (g', n)) : Q g' := by
  unfold CreateUnitigs at h
  simp only [Option.bind_eq_some, Option.some.injEq, Prod.mk.injEq] at h
  obtain ⟨st, h1, g₁, h2, g₂, h3, rfl, -⟩ := h
  have h0 : g.marked_ok [] :=
    ⟨fun i hi => absurd hi (List.not_mem_nil i), fun i hi => absurd hi (List.not_mem_nil i)⟩
  have hI := foldlM_option_inv
    (fun s : CreateUnitigs.State => (s.g.wf ∧ s.g.marked_ok s.marked_edges) ∧ Q s.g)
    (CreateUnitigs.step fuel epsilon)
    (fun s a s' hs hh => ⟨CreateUnitigs.step_wf hs.1 hh, CreateUnitigs.step_stable hQ hs.1 hs.2 hh⟩)
    _ _ st ⟨⟨hg, h0⟩, q⟩ h1
  have hg₁ := RemoveEdges_wf st.g g₁ st.marked_edges true hI.1.1 hI.1.2.1 hI.1.2.2 h2
  have q₁ := hQ.removed _ _ hI.2
    (RemoveEdges_removed st.g g₁ st.marked_edges true hI.1.1 hI.1.2.1 h2)
  have := foldlM_option_inv (fun s : Graph => s.wf ∧ Q s)
    (CreateUnitigs.update_transitive st.node_updates)
    (fun s a s' hs hh => by
      refine ⟨CreateUnitigs.update_transitive_wf hs.1 hh, ?_⟩
      unfold CreateUnitigs.update_transitive at hh
      cases hk : s.node a with
      | none =>
        rw [hk] at hh
        cases hh
        exact hs.2
      | some it =>
        rw [hk] at hh
        simp only [Option.bind_eq_some, Option.some.injEq] at hh
        obtain ⟨valid, -, rfl⟩ := hh
        exact hQ.links _ _ hs.2 ((Graph.same_links.refl s).set hk valid)) _ _ _ ⟨hg₁, q₁⟩ h3
  exact this.2

/-! ### `Construct` -/

theorem Construct.new_edge_pair_shape {g g' : Graph} {t h len len₂ : Nat} (hg : g.wf)
    (hh : Construct.new_edge_pair g t h len len₂ = some g') :
    ∃ nt nh t₂ h₂, g.node t = some nt ∧ g.node h = some nh ∧ nh.pair = some t₂ ∧
      nt.pair = some h₂ ∧ g.with_edge_pair g' t h t₂ h₂ len len₂ := by
  unfold Construct.new_edge_pair at hh
  simp only [Option.bind_eq_some] at hh
  obtain ⟨⟨g₁', i₁⟩, h1, nh', hnh', hp, hhp, nt', hnt', tp, htp, ⟨g₂', i₂⟩, h2, h3⟩ := hh
  obtain ⟨⟨nt, hnt⟩, ⟨nh, hnh⟩⟩ := Graph.new_edge_live h1
  obtain ⟨g₁, e1, -, -, -, -, hN1⟩ := Graph.new_edge_spec g t h len nt nh hnt hnh
  rw [e1] at h1
  cases h1
  simp only at hnh' hnt' h2 h3
  rw [hN1, hnh] at hnh'
  rw [hN1, hnt] at hnt'
  simp only [Option.map_some', Option.some.injEq] at hnh' hnt'
  have hhp' : nh.pair = some hp := by rw [← hnh'] at hhp; exact hhp
  have htp' : nt.pair = some tp := by rw [← hnt'] at htp; exact htp
  obtain ⟨-, ph, mh, hph, hmh, -⟩ := hg.nodes h nh hnh
  obtain ⟨-, pt, mt, hpt, hmt, -⟩ := hg.nodes t nt hnt
  rw [hhp'] at hph
  cases hph
  rw [htp'] at hpt
  cases hpt
  obtain ⟨g₁'', g₂, g₃, e1', -, -, -, e2, e3, hs⟩ :=
    Graph.edge_pair_spec g t h hp tp len len₂ ⟨nt, hnt⟩ ⟨nh, hnh⟩ ⟨mh, hmh⟩ ⟨mt, hmt⟩
  rw [e1] at e1'
  cases e1'
  rw [e2] at h2
  cases h2
  rw [e3] at h3
  cases h3
  exact ⟨nt, nh, hp, tp, hnt, hnh, hhp', htp', hs⟩

theorem Construct.create_edge_stable {Q : Graph → Prop} (hQ : Graph.stable Q)
    {piles : List Pile} {s2n : List Int} {g g' : Graph}
    {it : Overlap} (hg : g.wf) (q : Q g)
    (hh : Construct.create_edge piles s2n g it = some g') : Q g' := by
  unfold Construct.create_edge at hh
  simp only [Option.bind_eq_some] at hh
  obtain ⟨r, -, hh⟩ := hh
  by_cases c : r.1 = false
  · rw [if_pos c] at hh
    cases hh
    exact q
  · rw [if_neg c] at hh
    simp only [Option.bind_eq_some] at hh
    obtain ⟨i, -, tail, -, j, -, head, -, pr, -, pl, -, hh⟩ := hh
    unfold Construct.add_edges at hh
    by_cases c₄ : r.2.score = 4
    · rw [if_pos c₄] at hh
      obtain ⟨_, _, _, _, -, -, -, -, hs⟩ := Construct.new_edge_pair_shape hg hh
      exact hQ.edge_pair _ _ _ _ _ _ _ _ q hs
    · rw [if_neg c₄] at hh
      obtain ⟨_, _, _, _, -, -, -, -, hs⟩ := Construct.new_edge_pair_shape hg hh
      exact hQ.edge_pair _ _ _ _ _ _ _ _ q hs

theorem Construct.create_node_shape {sequences : List Sequence} {st st' : Graph × List Int}
    {it : Pile} (hg : st.1.wf) (hh : Construct.create_node sequences st it = some st') :
    st'.1 = st.1 ∨ st.1.with_node_pair st'.1 := by
  unfold Construct.create_node at hh
  by_cases c : it.is_invalid = true
  · rw [if_pos c] at hh
    cases hh
    exact Or.inl rfl
  · rw [if_neg c] at hh
    simp only [Option.bind_eq_some, Option.some.injEq] at hh
    obtain ⟨s, -, data, -, s2n, -, g', hl, rfl⟩ := hh
    simp only [Graph.new_node, List.length_append, List.length_singleton] at hl
    obtain ⟨g₄, h4, hn, he, hd1, hd2⟩ := Graph.link_fresh st.1
      { id := st.1.node_num_objects, data := data, count := 1, is_circular := false,
        is_polished := false, transitive := [], inedges := [], outedges := [], pair := none }
      { id := st.1.node_num_objects + 1, data := ReverseAndComplement data, count := 1,
        is_circular := false, is_polished := false, transitive := [], inedges := [],
        outedges := [], pair := none }
      (st.1.node_num_objects + 1 + 1)
    have e : g' = g₄ := Option.some.inj (hl.symm.trans h4)
    rw [e]
    exact Or.inr ⟨⟨_, _, hn, ⟨hg.node_count, rfl, rfl, rfl⟩,
        ⟨by rw [hg.node_count], rfl, rfl, rfl⟩⟩, he, hd1, hd2⟩

theorem Construct.graph_stable {Q : Graph → Prop} (hQ : Graph.stable Q) {g g' : Graph}
    {piles : List Pile} {sequences : List Sequence} {overlaps : List Overlap} (hg : g.wf)
    (q : Q g) (hh : Construct.graph g piles sequences overlaps = some g') : Q g' := by
  unfold Construct.graph at hh
  simp only [Option.bind_eq_some] at hh
  obtain ⟨st, h1, h2⟩ := hh
  have hst := foldlM_option_inv (fun s : Graph × List Int => s.1.wf ∧ Q s.1)
    (Construct.create_node sequences)
    (fun s a s' hs e => by
      refine ⟨Construct.create_node_wf hs.1 e, ?_⟩
      rcases Construct.create_node_shape hs.1 e with h | h
      · rw [h]
        exact hs.2
      · exact hQ.node_pair _ _ hs.2 h)
    _ _ st ⟨hg, q⟩ h1
  exact (foldlM_option_inv (fun s : Graph => s.wf ∧ Q s) (Construct.create_edge piles st.2)
    (fun s a s' hs e => ⟨Construct.create_edge_wf hs.1 e,
      Construct.create_edge_stable hQ hs.1 hs.2 e⟩) _ _ _ hst h2).2

/-! ## Dense ids -/

theorem xor_one_even {k : Nat} (h : k % 2 = 0) : k ^^^ 1 = k + 1 := by
  obtain ⟨m, rfl⟩ : ∃ m, k = 2 * m := ⟨k / 2, by omega⟩
  have h1 : (2 * m) = Nat.bit false m := by simp [Nat.bit]
  have h2 : (1 : Nat) = Nat.bit true 0 := by simp [Nat.bit]
  rw [h1, h2, Nat.xor_bit]
  simp [Nat.bit]

theorem xor_one_odd {k : Nat} (h : k % 2 = 0) : (k + 1) ^^^ 1 = k := by
  obtain ⟨m, rfl⟩ : ∃ m, k = 2 * m := ⟨k / 2, by omega⟩
  have h1 : (2 * m + 1) = Nat.bit true m := by simp [Nat.bit]
  have h2 : (1 : Nat) = Nat.bit true 0 := by simp [Nat.bit]
  rw [h1, h2, Nat.xor_bit]
  simp [Nat.bit]

theorem Graph.paired_slots_stable : Graph.stable Graph.paired_slots := by
  refine ⟨?_, ?_, ?_, ?_⟩
  · intro g g' ⟨e1, e2, pn, pe⟩ hs
    obtain ⟨a, b, hn, -, -⟩ := hs.nodes
    refine ⟨by rw [hn, List.length_append]; simp; omega, by rw [hs.edges]; exact e2, ?_, ?_⟩
    · intro i n hi
      rcases hs.node_cases hi with h | ⟨rfl, hf, -⟩ | ⟨rfl, hf, -⟩
      · exact pn i n h
      · rw [hf.pair, xor_one_even e1]
      · rw [hf.pair, xor_one_odd e1]
    · intro j e he
      rw [hs.edge_eq] at he
      exact pe j e he
  · intro g g' t h t₂ h₂ len len₂ ⟨e1, e2, pn, pe⟩ hs
    refine ⟨by rw [hs.length]; exact e1, by rw [hs.edges, List.length_append]; simp; omega,
      ?_, ?_⟩
    · intro i n hi
      rw [hs.nodes] at hi
      cases hgi : g.node i with
      | none =>
        rw [hgi] at hi
        cases hi
      | some n₀ =>
        rw [hgi] at hi
        simp only [Option.map_some', Option.some.injEq] at hi
        rw [← hi]
        exact pn i n₀ hgi
    · intro j e he
      rcases hs.edge_cases he with ⟨-, h0⟩ | ⟨rfl, rfl⟩ | ⟨rfl, rfl⟩
      · exact pe j e h0
      · simp only [xor_one_even e2]
      · simp only [xor_one_odd e2]
  · intro g g' ⟨e1, e2, pn, pe⟩ hR
    refine ⟨by rw [hR.2.1]; exact e1, by rw [hR.1]; exact e2, ?_, ?_⟩
    · intro i n hi
      obtain ⟨n₀, tr, h0, rfl⟩ := hR.node_inv hi
      exact pn i n₀ h0
    · intro j e he
      rw [Graph.edge_congr hR.1] at he
      exact pe j e he
  · intro g g' ⟨e1, e2, pn, pe⟩ ⟨l1, l2, hn, he⟩
    refine ⟨by rw [l1]; exact e1, by rw [l2]; exact e2, ?_, ?_⟩
    · intro i n hi
      obtain ⟨n₀, h0, hp⟩ := hn i n hi
      rw [hp]
      exact pn i n₀ h0
    · intro j e hj
      exact pe j e (he j e hj)

theorem Graph.dense_of_paired_slots {g : Graph} (hg : g.wf) (hp : g.paired_slots) :
    g.dense := by
  obtain ⟨-, -, pn, pe⟩ := hp
  constructor
  · intro i n hi
    obtain ⟨hid, p, m, hpr, hm, -⟩ := hg.nodes i n hi
    refine ⟨hid, p, m, hpr, hm, ?_⟩
    rw [pn i n hi] at hpr
    cases hpr
    exact (hg.nodes _ m hm).1
  · intro j e hj
    obtain ⟨hid, -, -, q, f, -, -, -, -, hpr, hf, -⟩ := hg.edges j e hj
    refine ⟨hid, q, f, hpr, hf, ?_⟩
    rw [pe j e hj] at hpr
    cases hpr
    exact (hg.edges _ f hf).1

theorem Graph.empty_paired_slots : Graph.empty.wf ∧ Graph.empty.paired_slots := by
  refine ⟨Graph.wf_of_bounded (by decide), rfl, rfl, ?_, ?_⟩
  · intro i n h
    simp [Graph.node, Graph.empty] at h
  · intro j e h
    simp [Graph.edge, Graph.empty] at h

/-- C29: the dense-id invariant.  The graph that `Construct` makes from the
cleared graph is well formed, holds its objects in slot pairs `2 k`, `2 k + 1`
and so has the property `Graph.dense`: every non-empty slot `i` of `nodes_`
holds a node with the id `i` whose `pair` has the id `i xor 1`, and every
non-empty slot `j` of `edges_` holds an edge with the id `j` whose `pair` has
the id `j xor 1`.  `CreateUnitigs`, and `RemoveEdges` for a set of live edges
that holds the pair of each of its edges, keep all of this. -/
theorem dense_ids (g : Graph) :
    (∀ piles sequences overlaps,
      Construct.graph Graph.empty piles sequences overlaps = some g →
      g.wf ∧ g.paired_slots ∧ g.dense) ∧
    (g.wf → g.paired_slots →
      (∀ fuel epsilon g' n, CreateUnitigs fuel g epsilon = some (g', n) →
        g'.wf ∧ g'.paired_slots ∧ g'.dense) ∧
      (∀ ids remove_nodes g', (∀ i ∈ ids, ∃ e, g.edge i = some e) → g.pair_closed ids →
        RemoveEdges g ids remove_nodes = some g' →
        g'.wf ∧ g'.paired_slots ∧ g'.dense)) := by
  constructor
  · intro piles sequences overlaps h
    have hw := Construct.graph_wf Graph.empty_paired_slots.1 h
    have hp := Construct.graph_stable Graph.paired_slots_stable Graph.empty_paired_slots.1
      Graph.empty_paired_slots.2 h
    exact ⟨hw, hp, Graph.dense_of_paired_slots hw hp⟩
  · intro hg hp
    constructor
    · intro fuel epsilon g' n h
      have hw := CreateUnitigs_wf hg h
      have hp' := CreateUnitigs_stable Graph.paired_slots_stable hg hp h
      exact ⟨hw, hp', Graph.dense_of_paired_slots hw hp'⟩
    · intro ids rn g' hl hc h
      have hw := RemoveEdges_wf g g' ids rn hg hl hc h
      have hp' := Graph.paired_slots_stable.removed _ _ hp (RemoveEdges_removed g g' ids rn hg hl h)
      exact ⟨hw, hp', Graph.dense_of_paired_slots hw hp'⟩

/-- `Construct` makes `ex_graph` of the three reads, `CreateUnitigs` merges
its chain into the unitig pair of the slots 6 and 7, and `RemoveEdges` takes
the edge pair 0, 1 out of `ex_graph`; the three graphs are dense. -/
theorem dense_ids_witness :
    Construct.graph Graph.empty ex_read_piles ex_sequences ex_read_overlaps = some ex_graph ∧
    ex_graph.dense ∧
    (∃ g' n, CreateUnitigs 3 ex_graph 0 = some (g', n) ∧ g'.dense ∧
      g'.nodes_.drop 6 =
        [some ⟨6, "AAAAAACCCCGGGGGGTTTTTT".toList, 3, false, false, [], [], [], some 7⟩,
         some ⟨7, "AAAAACCCCCCGGGGTTTTTT".toList, 3, false, false, [], [], [], some 6⟩]) ∧
    (∃ g', RemoveEdges ex_graph [0, 1] true = some g' ∧ g'.dense ∧
      g'.edges_ = [none, none, some ⟨2, 6, 2, 4, some 3⟩, some ⟨3, 5, 5, 3, some 2⟩]) := by
  have hc : Construct.graph Graph.empty ex_read_piles ex_sequences ex_read_overlaps =
      some ex_graph := by decide
  obtain ⟨hw, hp, hd⟩ := (dense_ids ex_graph).1 _ _ _ hc
  have hu : CreateUnitigs 3 ex_graph 0 = some
      (⟨[none, none, none, none, none, none,
         some ⟨6, "AAAAAACCCCGGGGGGTTTTTT".toList, 3, false, false, [], [], [], some 7⟩,
         some ⟨7, "AAAAACCCCCCGGGGTTTTTT".toList, 3, false, false, [], [], [], some 6⟩],
        [none, none, none, none], 8, 4⟩, 1) := by decide
  have hr : RemoveEdges ex_graph [0, 1] true = some
      ⟨[none, none,
        some ⟨2, "CCCCGGGGGG".toList, 1, false, false, [], [], [2], some 3⟩,
        some ⟨3, "CCCCCCGGGG".toList, 1, false, false, [], [3], [], some 2⟩,
        some ⟨4, "GGGGTTTTTT".toList, 1, false, false, [], [2], [], some 5⟩,
        some ⟨5, "AAAAAACCCC".toList, 1, false, false, [], [], [3], some 4⟩],
       [none, none, some ⟨2, 6, 2, 4, some 3⟩, some ⟨3, 5, 5, 3, some 2⟩], 6, 4⟩ := by decide
  refine ⟨hc, hd, ⟨_, _, hu, (((dense_ids ex_graph).2 hw hp).1 _ _ _ _ hu).2.2, rfl⟩,
    ⟨_, hr, (((dense_ids ex_graph).2 hw hp).2 [0, 1] true _ ?_ ?_ hr).2.2, rfl⟩⟩
  · intro i hi
    simp only [List.mem_cons, List.mem_singleton, List.not_mem_nil, or_false] at hi
    rcases hi with rfl | rfl
    · exact ⟨_, rfl⟩
    · exact ⟨_, rfl⟩
  · intro i hi e he q hq
    simp only [List.mem_cons, List.mem_singleton, List.not_mem_nil, or_false] at hi ⊢
    rcases hi with rfl | rfl
    · have : ex_graph.edge 0 = some ⟨0, 6, 0, 2, some 1⟩ := rfl
      rw [this] at he
      cases he
      cases hq
      exact Or.inr rfl
    · have : ex_graph.edge 1 = some ⟨1, 6, 3, 1, some 0⟩ := rfl
      rw [this] at he
      cases he
      cases hq
      exact Or.inl rfl

/-- The set given to `RemoveEdges` has to hold the pair of each of its edges,
as the sets of every caller do: called for the edge 0 alone on the graph that
`Construct` made of the three reads, `RemoveEdges` empties the slot 0 of
`edges_` and leaves the edge 1, whose `pair` is the emptied slot 0. -/
theorem RemoveEdges_single_not_dense :
    Construct.graph Graph.empty ex_read_piles ex_sequences ex_read_overlaps = some ex_graph ∧
    ∃ g', RemoveEdges ex_graph [0] false = some g' ∧
      g'.edge 0 = none ∧ g'.edge 1 = some ⟨1, 6, 3, 1, some 0⟩ ∧ ¬ g'.dense := by
  have hr : RemoveEdges ex_graph [0] false = some
      ⟨[some ⟨0, "AAAAAACCCC".toList, 1, false, false, [], [], [], some 1⟩,
        some ⟨1, "GGGGTTTTTT".toList, 1, false, false, [], [1], [], some 0⟩,
        some ⟨2, "CCCCGGGGGG".toList, 1, false, false, [], [], [2], some 3⟩,
        some ⟨3, "CCCCCCGGGG".toList, 1, false, false, [], [3], [1], some 2⟩,
        some ⟨4, "GGGGTTTTTT".toList, 1, false, false, [], [2], [], some 5⟩,
        some ⟨5, "AAAAAACCCC".toList, 1, false, false, [], [], [3], some 4⟩],
       [none, some ⟨1, 6, 3, 1, some 0⟩, some ⟨2, 6, 2, 4, some 3⟩,
        some ⟨3, 5, 5, 3, some 2⟩], 6, 4⟩ := by decide
  refine ⟨by decide, _, hr, rfl, rfl, ?_⟩
  intro hd
  obtain ⟨_, q, f, hq, hf, _⟩ := hd.2 1 ⟨1, 6, 3, 1, some 0⟩ rfl
  cases hq
  cases hf

/-! ## `FindRemovableEdges` -/

theorem FindRemovableEdges.find_edge_total (g : Graph) (head : Nat) :
    ∀ l : List Nat, (∀ x ∈ l, ∃ e, g.edge x = some e) →
      (∃ x ∈ l, ∃ e, g.edge x = some e ∧ e.head = head) →
      ∃ j, FindRemovableEdges.find_edge g head l = some (some j) := by
  intro l
  induction l with
  | nil => intro _ ⟨x, hx, _⟩; cases hx
  | cons y l ih =>
    intro hl ⟨x, hx, e, he, hh⟩
    obtain ⟨ey, hey⟩ := hl y (List.mem_cons_self _ _)
    simp only [FindRemovableEdges.find_edge, hey, Option.some_bind]
    by_cases c : ey.head = head
    · rw [if_pos c]
      exact ⟨y, rfl⟩
    · rw [if_neg c]
      rw [List.mem_cons] at hx
      rcases hx with rfl | hx
      · rw [he] at hey
        cases hey
        exact absurd hh c
      · exact ih (fun z hz => hl z (List.mem_cons_of_mem _ hz)) ⟨x, hx, e, he, hh⟩

theorem Graph.joined.path_edge {g : Graph} {path : List Nat} (hg : g.wf)
    (hj : g.joined path) {k : Nat} (hk : k + 1 < path.length) :
    ∃ j e f q, g.path_edge path k j ∧ g.edge j = some e ∧ g.edge_pair e = some f ∧
      e.id = j ∧ e.pair = some q ∧ g.edge q = some f ∧ f.id = q ∧ f.pair = some j := by
  obtain ⟨t, h, n, ht, hh, hn, j₀, hj₀, e₀, he₀, hh₀⟩ := hj k hk
  obtain ⟨j, hf⟩ := FindRemovableEdges.find_edge_total g h n.outedges
    (fun x hx => by
      obtain ⟨e, he, -⟩ := (hg.adj t n hn).1 x hx
      exact ⟨e, he⟩) ⟨j₀, hj₀, e₀, he₀, hh₀⟩
  obtain ⟨-, e, he, -⟩ := FindRemovableEdges.find_edge_spec g h _ j hf
  obtain ⟨hid, -, -, q, f, -, -, -, -, hq, hfq, hfp, -⟩ := hg.edges j e he
  exact ⟨j, e, f, q, ⟨t, h, n, ht, hh, hn, hf⟩, he, by rw [Graph.edge_pair, hq]; exact hfq,
    hid, hq, hfq, (hg.edges q f hfq).1, hfp⟩

theorem Graph.path_edge.unique {g : Graph} {path : List Nat} {k j j' : Nat}
    (h : g.path_edge path k j) (h' : g.path_edge path k j') : j = j' := by
  obtain ⟨t, hd, n, ht, hh, hn, hf⟩ := h
  obtain ⟨t', hd', n', ht', hh', hn', hf'⟩ := h'
  rw [ht] at ht'
  cases ht'
  rw [hh] at hh'
  cases hh'
  rw [hn] at hn'
  cases hn'
  rw [hf] at hf'
  cases hf'
  rfl

theorem FindRemovableEdges.mark_total {g : Graph} {path : List Nat} (hg : g.wf)
    (hj : g.joined path) (dst : List Nat) {k : Nat} (hk : k + 1 < path.length) :
    ∃ dst', FindRemovableEdges.mark g path dst k = some dst' ∧
      ∀ i, i ∈ dst' ↔ (i ∈ dst ∨ g.marks path k i) := by
  obtain ⟨j, e, f, q, hp, he, hf, hid, hq, hfq, hfid, hfp⟩ := hj.path_edge hg hk
  obtain ⟨t, h, n, ht, hh, hn, hfe⟩ := hp
  refine ⟨emplace (emplace dst e.id) f.id, ?_, ?_⟩
  · unfold FindRemovableEdges.mark
    simp only [ht, hh, hn, hfe, he, hf, Option.some_bind]
  · intro i
    rw [mem_emplace, mem_emplace]
    constructor
    · rintro ((h1 | rfl) | rfl)
      · exact Or.inl h1
      · exact Or.inr ⟨j, e, f, ⟨t, h, n, ht, hh, hn, hfe⟩, he, hf, Or.inl rfl⟩
      · exact Or.inr ⟨j, e, f, ⟨t, h, n, ht, hh, hn, hfe⟩, he, hf, Or.inr rfl⟩
    · rintro (h1 | ⟨j', e', f', hp', he', hf', hi⟩)
      · exact Or.inl (Or.inl h1)
      · have := Graph.path_edge.unique hp' ⟨t, h, n, ht, hh, hn, hfe⟩
        subst this
        rw [he] at he'
        cases he'
        rw [hf] at hf'
        cases hf'
        rcases hi with rfl | rfl
        · exact Or.inl (Or.inr rfl)
        · exact Or.inr rfl

theorem FindRemovableEdges.mark_fold_total {g : Graph} {path : List Nat} (hg : g.wf)
    (hj : g.joined path) :
    ∀ (ks : List Nat) (dst : List Nat), (∀ k ∈ ks, k + 1 < path.length) →
      ∃ dst', ks.foldlM (FindRemovableEdges.mark g path) dst = some dst' ∧
        ∀ i, i ∈ dst' ↔ (i ∈ dst ∨ ∃ k ∈ ks, g.marks path k i) := by
  intro ks
  induction ks with
  | nil =>
    intro dst _
    exact ⟨dst, rfl, fun i => ⟨fun h => Or.inl h, fun h => h.elim id
      (fun ⟨k, hk, _⟩ => absurd hk (List.not_mem_nil k))⟩⟩
  | cons k ks ih =>
    intro dst hks
    obtain ⟨d₁, h1, m1⟩ := FindRemovableEdges.mark_total hg hj dst
      (hks k (List.mem_cons_self _ _))
    obtain ⟨d₂, h2, m2⟩ := ih d₁ (fun x hx => hks x (List.mem_cons_of_mem _ hx))
    refine ⟨d₂, by simp only [List.foldlM_cons, Option.bind_eq_bind, h1, Option.some_bind, h2],
      ?_⟩
    intro i
    rw [m2, m1]
    constructor
    · rintro ((h | h) | ⟨x, hx, h⟩)
      · exact Or.inl h
      · exact Or.inr ⟨k, List.mem_cons_self _ _, h⟩
      · exact Or.inr ⟨x, List.mem_cons_of_mem _ hx, h⟩
    · rintro (h | ⟨x, hx, h⟩)
      · exact Or.inl (Or.inl h)
      · rw [List.mem_cons] at hx
        rcases hx with rfl | hx
        · exact Or.inl (Or.inr h)
        · exact Or.inr ⟨x, hx, h⟩

theorem FindRemovableEdges.pref_spec (g : Graph) :
    ∀ (l : List Nat) (i : Nat), (∀ x ∈ l, ∃ n, g.node x = some n) →
      ∃ r, FindRemovableEdges.pref g i l = some r ∧
        (r = none → ∀ (m x : Nat) (n : Node), l[m]? = some x → g.node x = some n → n.indegree ≤ 1) ∧
        (∀ p, r = some p → i ≤ p ∧ p < i + l.length ∧
          (∃ (x : Nat) (n : Node), l[p - i]? = some x ∧ g.node x = some n ∧ n.indegree > 1) ∧
          ∀ m : Nat, m < p - i → ∀ (x : Nat) (n : Node), l[m]? = some x → g.node x = some n → n.indegree ≤ 1) := by
  intro l
  induction l with
  | nil =>
    intro i _
    refine ⟨none, rfl, fun _ m x n h => by simp at h, ?_⟩
    intro p h
    cases h
  | cons y l ih =>
    intro i hl
    obtain ⟨ny, hny⟩ := hl y (List.mem_cons_self _ _)
    simp only [FindRemovableEdges.pref, hny, Option.some_bind]
    by_cases c : ny.indegree > 1
    · rw [if_pos c]
      refine ⟨some i, rfl, ?_, ?_⟩
      · intro h
        cases h
      · intro p hp
        cases hp
        refine ⟨le_refl _, by simp, ⟨y, ny, by simp, hny, c⟩, fun m hm => by omega⟩
    · rw [if_neg c]
      obtain ⟨r, hr, h1, h2⟩ := ih (i + 1) (fun x hx => hl x (List.mem_cons_of_mem _ hx))
      refine ⟨r, hr, ?_, ?_⟩
      · intro hn m x n hx hxn
        cases m with
        | zero =>
          simp only [List.getElem?_cons_zero, Option.some.injEq] at hx
          subst hx
          rw [hny] at hxn
          cases hxn
          omega
        | succ m =>
          simp only [List.getElem?_cons_succ] at hx
          exact h1 hn m x n hx hxn
      · intro p hp
        obtain ⟨a, b, ⟨x, n, hx, hxn, hd⟩, d⟩ := h2 p hp
        refine ⟨by omega, by simp only [List.length_cons]; omega, ⟨x, n, ?_, hxn, hd⟩, ?_⟩
        · have : p - i = (p - (i + 1)) + 1 := by omega
          rw [this, List.getElem?_cons_succ]
          exact hx
        · intro m hm x' n' hx' hxn'
          cases m with
          | zero =>
            simp only [List.getElem?_cons_zero, Option.some.injEq] at hx'
            subst hx'
            rw [hny] at hxn'
            cases hxn'
            omega
          | succ m =>
            simp only [List.getElem?_cons_succ] at hx'
            exact d m (by omega) x' n' hx' hxn'

theorem FindRemovableEdges.suff_spec (g : Graph) :
    ∀ (l : List Nat) (i : Nat) (s₀ : Option Nat), (∀ x ∈ l, ∃ n, g.node x = some n) →
      ∃ r, FindRemovableEdges.suff g i l s₀ = some r ∧
        ((r = s₀ ∧ ∀ (m x : Nat) (n : Node), l[m]? = some x → g.node x = some n → n.outdegree ≤ 1) ∨
          ∃ p, r = some p ∧ i ≤ p ∧ p < i + l.length ∧
            (∃ (x : Nat) (n : Node), l[p - i]? = some x ∧ g.node x = some n ∧ n.outdegree > 1) ∧
            ∀ m : Nat, p - i < m → ∀ (x : Nat) (n : Node), l[m]? = some x → g.node x = some n → n.outdegree ≤ 1) := by
  intro l
  induction l with
  | nil =>
    intro i s₀ _
    exact ⟨s₀, rfl, Or.inl ⟨rfl, fun m x n h => by simp at h⟩⟩
  | cons y l ih =>
    intro i s₀ hl
    obtain ⟨ny, hny⟩ := hl y (List.mem_cons_self _ _)
    simp only [FindRemovableEdges.suff, hny, Option.some_bind]
    obtain ⟨r, hr, h⟩ := ih (i + 1) (if ny.outdegree > 1 then some i else s₀)
      (fun x hx => hl x (List.mem_cons_of_mem _ hx))
    refine ⟨r, hr, ?_⟩
    rcases h with ⟨h1, h2⟩ | ⟨p, hp, a, b, ⟨x, n, hx, hxn, hd⟩, d⟩
    · by_cases c : ny.outdegree > 1
      · rw [if_pos c] at h1
        right
        refine ⟨i, h1, le_refl _, by simp, ⟨y, ny, by simp, hny, c⟩, ?_⟩
        intro m hm x n hx hxn
        cases m with
        | zero => omega
        | succ m =>
          simp only [List.getElem?_cons_succ] at hx
          exact h2 m x n hx hxn
      · rw [if_neg c] at h1
        left
        refine ⟨h1, ?_⟩
        intro m x n hx hxn
        cases m with
        | zero =>
          simp only [List.getElem?_cons_zero, Option.some.injEq] at hx
          subst hx
          rw [hny] at hxn
          cases hxn
          omega
        | succ m =>
          simp only [List.getElem?_cons_succ] at hx
          exact h2 m x n hx hxn
    · right
      refine ⟨p, hp, by omega, by simp only [List.length_cons]; omega, ⟨x, n, ?_, hxn, hd⟩, ?_⟩
      · have : p - i = (p - (i + 1)) + 1 := by omega
        rw [this, List.getElem?_cons_succ]
        exact hx
      · intro m hm x' n' hx' hxn'
        cases m with
        | zero => omega
        | succ m =>
          simp only [List.getElem?_cons_succ] at hx'
          exact d m (by omega) x' n' hx' hxn'

theorem interior_getElem? (path : List Nat) (m : Nat) :
    ((path.drop 1).dropLast)[m]? = if m + 2 < path.length then path[m + 1]? else none := by
  rw [List.dropLast_eq_take, List.getElem?_take, List.length_drop]
  by_cases c : m + 2 < path.length
  · rw [if_pos c, if_pos (by omega), List.getElem?_drop, Nat.add_comm]
  · rw [if_neg c, if_neg (by omega)]

theorem FindRemovableEdges.scan {g : Graph} {path : List Nat} (hj : g.joined path) :
    ∃ pref suff,
      FindRemovableEdges.pref g 1 (path.drop 1).dropLast = some pref ∧
      FindRemovableEdges.suff g 1 (path.drop 1).dropLast none = some suff ∧
      (pref = none → ∀ m, 0 < m → m + 1 < path.length → g.simple_in path m) ∧
      (∀ p, pref = some p → 0 < p ∧ p + 1 < path.length ∧
        (∃ x n, path[p]? = some x ∧ g.node x = some n ∧ n.indegree > 1) ∧
        ∀ m, 0 < m → m < p → g.simple_in path m) ∧
      (suff = none → ∀ m, 0 < m → m + 1 < path.length → g.simple_out path m) ∧
      (∀ s, suff = some s → 0 < s ∧ s + 1 < path.length ∧
        (∃ x n, path[s]? = some x ∧ g.node x = some n ∧ n.outdegree > 1) ∧
        ∀ m, s < m → m + 1 < path.length → g.simple_out path m) := by
  have hlen : ((path.drop 1).dropLast).length = path.length - 2 := by
    rw [List.length_dropLast, List.length_drop]
    omega
  have hget : ∀ m x, ((path.drop 1).dropLast)[m]? = some x →
      m + 2 < path.length ∧ path[m + 1]? = some x := by
    intro m x h
    rw [interior_getElem?] at h
    by_cases c : m + 2 < path.length
    · rw [if_pos c] at h
      exact ⟨c, h⟩
    · rw [if_neg c] at h
      cases h
  have hback : ∀ m x, 0 < m → m + 1 < path.length → path[m]? = some x →
      ((path.drop 1).dropLast)[m - 1]? = some x := by
    intro m x h0 h1 h
    rw [interior_getElem?, if_pos (by omega)]
    have : m - 1 + 1 = m := by omega
    rw [this]
    exact h
  have hlive : ∀ x ∈ (path.drop 1).dropLast, ∃ n, g.node x = some n := by
    intro x hx
    obtain ⟨m, hm⟩ := List.getElem?_of_mem hx
    obtain ⟨c, hp⟩ := hget m x hm
    obtain ⟨t, h, n, ht, -, hn, -⟩ := hj (m + 1) (by omega)
    rw [hp] at ht
    cases ht
    exact ⟨n, hn⟩
  obtain ⟨pref, hp, p1, p2⟩ := FindRemovableEdges.pref_spec g _ 1 hlive
  obtain ⟨suff, hs, s1⟩ := FindRemovableEdges.suff_spec g _ 1 none hlive
  refine ⟨pref, suff, hp, hs, ?_, ?_, ?_, ?_⟩
  · intro hn m h0 h1 x n hx hxn
    exact p1 hn (m - 1) x n (hback m x h0 h1 hx) hxn
  · intro p hpp
    obtain ⟨a, b, ⟨x, n, hx, hxn, hd⟩, d⟩ := p2 p hpp
    rw [hlen] at b
    obtain ⟨c, hx'⟩ := hget _ _ hx
    have e : p - 1 + 1 = p := by omega
    rw [e] at hx'
    refine ⟨by omega, by omega, ⟨x, n, hx', hxn, hd⟩, ?_⟩
    intro m h0 h1 x' n' hx'' hxn'
    exact d (m - 1) (by omega) x' n' (hback m x' h0 (by omega) hx'') hxn'
  · intro hn m h0 h1 x n hx hxn
    rcases s1 with ⟨-, h2⟩ | ⟨p, hpp, -⟩
    · exact h2 (m - 1) x n (hback m x h0 h1 hx) hxn
    · rw [hn] at hpp
      cases hpp
  · intro s hss
    rcases s1 with ⟨h1, -⟩ | ⟨p, hpp, a, b, ⟨x, n, hx, hxn, hd⟩, d⟩
    · rw [hss] at h1
      cases h1
    · rw [hss] at hpp
      cases hpp
      rw [hlen] at b
      obtain ⟨c, hx'⟩ := hget _ _ hx
      have e : s - 1 + 1 = s := by omega
      rw [e] at hx'
      refine ⟨by omega, by omega, ⟨x, n, hx', hxn, hd⟩, ?_⟩
      intro m h0 h1 x' n' hx'' hxn'
      exact d (m - 1) (by omega) x' n' (hback m x' (by omega) h1 hx'') hxn'

theorem FindRemovableEdges.choose_spec {g : Graph} {path : List Nat} (hg : g.wf)
    (hj : g.joined path) (pref suff : Option Nat)
    (p1 : pref = none → ∀ m, 0 < m → m + 1 < path.length → g.simple_in path m)
    (p2 : ∀ p, pref = some p → 0 < p ∧ p + 1 < path.length ∧
        (∃ x n, path[p]? = some x ∧ g.node x = some n ∧ n.indegree > 1) ∧
        ∀ m, 0 < m → m < p → g.simple_in path m)
    (s1 : suff = none → ∀ m, 0 < m → m + 1 < path.length → g.simple_out path m)
    (s2 : ∀ s, suff = some s → 0 < s ∧ s + 1 < path.length ∧
        (∃ x n, path[s]? = some x ∧ g.node x = some n ∧ n.outdegree > 1) ∧
        ∀ m, s < m → m + 1 < path.length → g.simple_out path m) :
    ∃ (ks : List Nat) (dst : List Nat),
      FindRemovableEdges.choose g path pref suff = some dst ∧
      (∀ k ∈ ks, g.removable_at path k) ∧
      (∀ i, i ∈ dst ↔ ∃ k ∈ ks, g.marks path k i) ∧
      ((∀ m, 0 < m → m + 1 < path.length → g.simple_in path m ∧ g.simple_out path m) →
        ∀ k, k + 1 < path.length → k ∈ ks) := by
  have fold : ∀ ks : List Nat, (∀ k ∈ ks, g.removable_at path k) →
      ∃ dst, ks.foldlM (FindRemovableEdges.mark g path) [] = some dst ∧
        (∀ k ∈ ks, g.removable_at path k) ∧
        (∀ i, i ∈ dst ↔ ∃ k ∈ ks, g.marks path k i) := by
    intro ks hks
    obtain ⟨dst, h, hm⟩ := FindRemovableEdges.mark_fold_total hg hj ks []
      (fun k hk => (hks k hk).1)
    refine ⟨dst, h, hks, fun i => ?_⟩
    rw [hm]
    exact ⟨fun h => h.elim (fun h => absurd h (List.not_mem_nil i)) id, fun h => Or.inr h⟩
  have empty : ∃ ks : List Nat, (∀ k ∈ ks, g.removable_at path k) ∧
      (∀ i, i ∈ ([] : List Nat) ↔ ∃ k ∈ ks, g.marks path k i) :=
    ⟨[], fun k hk => absurd hk (List.not_mem_nil k),
      fun i => ⟨fun h => absurd h (List.not_mem_nil i),
        fun ⟨k, hk, _⟩ => absurd hk (List.not_mem_nil k)⟩⟩
  cases pref with
  | none =>
    cases suff with
    | none =>
      obtain ⟨dst, h, hr, hm⟩ := fold (List.range (path.length - 1)) (by
        intro k hk
        rw [List.mem_range] at hk
        exact ⟨by omega, fun m h0 h1 => p1 rfl m h0 (by omega),
          fun m h0 h1 => s1 rfl m (by omega) h1⟩)
      refine ⟨List.range (path.length - 1), dst, h, hr, hm, ?_⟩
      intro _ k hk
      rw [List.mem_range]
      omega
    | some s =>
      obtain ⟨s0, s3, ⟨y, m, hy, hym, hd⟩, s4⟩ := s2 s rfl
      have hsimple := p1 rfl s s0 s3 y m hy hym
      obtain ⟨dst, h, hr, hm⟩ := fold (List.range' s (path.length - 1 - s)) (by
        intro k hk
        rw [List.mem_range'_1] at hk
        exact ⟨by omega, fun m h0 h1 => p1 rfl m h0 (by omega),
          fun m h0 h1 => s4 m (by omega) h1⟩)
      refine ⟨List.range' s (path.length - 1 - s), dst, ?_, hr, hm, ?_⟩
      · simp only [FindRemovableEdges.choose, hy, hym, Option.some_bind]
        rw [if_neg (by omega)]
        exact h
      · intro hall
        have := (hall s s0 s3).2 y m hy hym
        omega
  | some p =>
    obtain ⟨q0, q3, ⟨x, n, hx, hxn, hdx⟩, q4⟩ := p2 p rfl
    cases suff with
    | none =>
      have hsimple := s1 rfl p q0 q3 x n hx hxn
      obtain ⟨dst, h, hr, hm⟩ := fold (List.range p) (by
        intro k hk
        rw [List.mem_range] at hk
        exact ⟨by omega, fun m h0 h1 => q4 m h0 (by omega),
          fun m h0 h1 => s1 rfl m (by omega) h1⟩)
      refine ⟨List.range p, dst, ?_, hr, hm, ?_⟩
      · simp only [FindRemovableEdges.choose, hx, hxn, Option.some_bind]
        rw [if_neg (by omega)]
        exact h
      · intro hall
        have := (hall p q0 q3).1 x n hx hxn
        omega
    | some s =>
      obtain ⟨s0, s3, ⟨y, m, hy, hym, hd⟩, s4⟩ := s2 s rfl
      have hno : (∀ m, 0 < m → m + 1 < path.length →
          g.simple_in path m ∧ g.simple_out path m) →
          ∀ k, k + 1 < path.length → k ∈ ([] : List Nat) := by
        intro hall
        have := (hall p q0 q3).1 x n hx hxn
        omega
      simp only [FindRemovableEdges.choose, hx, hxn, hy, hym, Option.some_bind]
      by_cases c1 : n.outdegree > 1
      · rw [if_pos c1]
        obtain ⟨ks, h1, h2⟩ := empty
        exact ⟨[], [], rfl, fun k hk => absurd hk (List.not_mem_nil k),
          fun i => ⟨fun h => absurd h (List.not_mem_nil i),
            fun ⟨k, hk, _⟩ => absurd hk (List.not_mem_nil k)⟩, hno⟩
      · rw [if_neg c1]
        by_cases c2 : m.indegree > 1
        · rw [if_pos c2]
          exact ⟨[], [], rfl, fun k hk => absurd hk (List.not_mem_nil k),
            fun i => ⟨fun h => absurd h (List.not_mem_nil i),
              fun ⟨k, hk, _⟩ => absurd hk (List.not_mem_nil k)⟩, hno⟩
        · rw [if_neg c2]
          by_cases c3 : s < p
          · rw [if_pos c3]
            obtain ⟨dst, h, hr, hm⟩ := fold (List.range' s (p - s)) (by
              intro k hk
              rw [List.mem_range'_1] at hk
              exact ⟨by omega, fun m h0 h1 => q4 m h0 (by omega),
                fun m h0 h1 => s4 m (by omega) h1⟩)
            refine ⟨List.range' s (p - s), dst, h, hr, hm, ?_⟩
            intro hall
            have := (hall p q0 q3).1 x n hx hxn
            omega
          · rw [if_neg c3]
            exact ⟨[], [], rfl, fun k hk => absurd hk (List.not_mem_nil k),
              fun i => ⟨fun h => absurd h (List.not_mem_nil i),
                fun ⟨k, hk, _⟩ => absurd hk (List.not_mem_nil k)⟩, hno⟩

theorem nodup_index_eq {path : List Nat} (hn : path.Nodup) {k k' t : Nat}
    (h : path[k]? = some t) (h' : path[k']? = some t) : k = k' := by
  rw [List.nodup_iff_getElem?_ne_getElem?] at hn
  have l1 := (List.getElem?_eq_some.mp h).1
  have l2 := (List.getElem?_eq_some.mp h').1
  rcases Nat.lt_trichotomy k k' with c | c | c
  · exact absurd (h.trans h'.symm) (hn k k' c l2)
  · exact c
  · exact absurd (h'.trans h.symm) (hn k' k c l1)

/-- C21: on a path whose consecutive nodes are joined by an edge, in a
well-formed graph, `FindRemovableEdges` returns a set `dst` that holds the
pair of each of its edges; every id in it is the id of the path edge
`path[k] → path[k + 1]`, or of its pair, for a position `k` that is
`removable_at`: no interior node up to `path[k]` has in-degree above 1 and no
interior node after `path[k]` has out-degree above 1.  When no interior node
has in-degree or out-degree above 1, `dst` holds all path edges and their
pairs.  On a path without repeated nodes that does not hold the pair of any of
its nodes, a path edge whose position is not `removable_at` is not in `dst`. -/
theorem FindRemovableEdges_spec (g : Graph) (path : List Nat) (hg : g.wf)
    (hj : g.joined path) :
    ∃ dst, FindRemovableEdges g path = some dst ∧
      g.pair_closed dst ∧
      (∀ i ∈ dst, ∃ k, g.removable_at path k ∧ g.marks path k i) ∧
      ((∀ m, 0 < m → m + 1 < path.length → g.simple_in path m ∧ g.simple_out path m) →
        ∀ k i, k + 1 < path.length → g.marks path k i → i ∈ dst) ∧
      (path.Nodup →
        (∀ x ∈ path, ∀ n p, g.node x = some n → n.pair = some p → p ∉ path) →
        ∀ k j e, g.path_edge path k j → g.edge j = some e → e.id ∈ dst →
          g.removable_at path k) := by
  by_cases hp : path = []
  · subst hp
    refine ⟨[], by simp [FindRemovableEdges], fun i hi => absurd hi (List.not_mem_nil i),
      fun i hi => absurd hi (List.not_mem_nil i), fun _ k i hk => by simp at hk,
      fun _ _ k j e _ _ hi => absurd hi (List.not_mem_nil _)⟩
  obtain ⟨pref, suff, h1, h2, p1, p2, s1, s2⟩ := FindRemovableEdges.scan hj
  obtain ⟨ks, dst, hc, hr, hm, hall⟩ :=
    FindRemovableEdges.choose_spec hg hj pref suff p1 p2 s1 s2
  have facts : ∀ k i, g.marks path k i → ∃ j e f q t h n,
      path[k]? = some t ∧ path[k + 1]? = some h ∧ g.node t = some n ∧ j ∈ n.outedges ∧
      g.path_edge path k j ∧ g.edge j = some e ∧ g.edge q = some f ∧
      e.pair = some q ∧ f.pair = some j ∧ e.head = h ∧ e.tail = t ∧
      (i = j ∨ i = q) ∧ g.marks path k j ∧ g.marks path k q := by
    intro k i ⟨j, e, f, hpe, he, hf, hi⟩
    obtain ⟨t, h, n, ht, hh, hn, hfe⟩ := hpe
    obtain ⟨hjm, e', he', hhead⟩ := FindRemovableEdges.find_edge_spec g h _ j hfe
    rw [he] at he'
    cases he'
    obtain ⟨q, hq, hfq⟩ := Graph.edge_pair_eq_some.mp hf
    obtain ⟨hid, -, -, q', f', -, -, -, -, a5, a6, a7, -⟩ := hg.edges j e he
    rw [hq] at a5
    cases a5
    rw [hfq] at a6
    cases a6
    have hfid := (hg.edges q f hfq).1
    obtain ⟨e'', he'', htail⟩ := (hg.adj t n hn).1 j hjm
    rw [he] at he''
    cases he''
    have hpe : g.path_edge path k j := ⟨t, h, n, ht, hh, hn, hfe⟩
    refine ⟨j, e, f, q, t, h, n, ht, hh, hn, hjm, hpe, he, hfq, hq, a7, hhead, htail, ?_,
      ⟨j, e, f, hpe, he, hf, Or.inl hid.symm⟩, ⟨j, e, f, hpe, he, hf, Or.inr hfid.symm⟩⟩
    rw [hid, hfid] at hi
    exact hi
  refine ⟨dst, ?_, ?_, ?_, ?_, ?_⟩
  · unfold FindRemovableEdges
    rw [if_neg hp, h1, h2]
    exact hc
  · intro i hi e₁ he₁ q₁ hq₁
    obtain ⟨k, hk, hmk⟩ := (hm i).mp hi
    obtain ⟨j, e, f, q, t, h, n, -, -, -, -, -, he, hfq, hq, hfp, -, -, hi', mj, mq⟩ :=
      facts k i hmk
    rw [hm]
    rcases hi' with rfl | rfl
    · rw [he] at he₁
      cases he₁
      rw [hq] at hq₁
      cases hq₁
      exact ⟨k, hk, mq⟩
    · rw [hfq] at he₁
      cases he₁
      rw [hfp] at hq₁
      cases hq₁
      exact ⟨k, hk, mj⟩
  · intro i hi
    obtain ⟨k, hk, hmk⟩ := (hm i).mp hi
    exact ⟨k, hr k hk, hmk⟩
  · intro hs k i hk hmk
    exact (hm i).mpr ⟨k, hall hs k hk, hmk⟩
  · intro hnd hpf k' j' e' hpe' he' hi
    obtain ⟨k, hk, hmk⟩ := (hm _).mp hi
    obtain ⟨j, e, f, q, t, h, n, ht, hh, hn, hjm, hpe, he, hfq, hq, hfp, hhead, htail, hi', -, -⟩ :=
      facts k _ hmk
    have hid' := (hg.edges j' e' he').1
    rw [hid'] at hi'
    obtain ⟨t', h', n', ht', hh', hn', hfe'⟩ := hpe'
    obtain ⟨hjm', -⟩ := FindRemovableEdges.find_edge_spec g h' _ j' hfe'
    obtain ⟨e'', he'', htail'⟩ := (hg.adj t' n' hn').1 j' hjm'
    rw [he'] at he''
    cases he''
    rcases hi' with rfl | rfl
    · rw [he] at he'
      cases he'
      rw [htail] at htail'
      subst htail'
      have := nodup_index_eq hnd ht' ht
      subst this
      exact hr _ hk
    · exfalso
      rw [hfq] at he'
      cases he'
      obtain ⟨-, tt, nh, q₃, f₃, -, hnh, -, -, c5, c6, -, c8, -⟩ := hg.edges j e he
      rw [hhead] at hnh
      rw [hq] at c5
      cases c5
      rw [hfq] at c6
      cases c6
      rw [htail'] at c8
      exact hpf h (List.getElem?_mem hh) nh t' hnh c8 (List.getElem?_mem ht')

/-- The arm `0 → 4 → 6` of the example bubble has no interior junction, and
its two edges 4 and 6 are returned with their pairs 5 and 7. -/
theorem FindRemovableEdges_spec_witness :
    FindRemovableEdges ex_bubble [0, 4, 6] = some [4, 5, 6, 7] ∧
    ex_bubble.pair_closed [4, 5, 6, 7] ∧
    ∀ i ∈ ([4, 5, 6, 7] : List Nat), ∃ k, ex_bubble.removable_at [0, 4, 6] k ∧
      ex_bubble.marks [0, 4, 6] k i := by
  obtain ⟨dst, h, hc, hm, -, -⟩ := FindRemovableEdges_spec ex_bubble [0, 4, 6]
    (Graph.wf_of_bounded (by decide)) (by
      intro k hk
      simp only [List.length_cons, List.length_nil] at hk
      have : k = 0 ∨ k = 1 := by omega
      rcases this with rfl | rfl
      · exact ⟨0, 4, _, rfl, rfl, rfl, 4, by decide, _, rfl, rfl⟩
      · exact ⟨4, 6, _, rfl, rfl, rfl, 6, by decide, _, rfl, rfl⟩)
  have e : FindRemovableEdges ex_bubble [0, 4, 6] = some [4, 5, 6, 7] := by decide
  rw [e] at h
  cases h
  exact ⟨e, hc, hm⟩

/-! ## The lengths of the edges of an overlap -/

/-- The finalized overlap of an overlap inside the valid regions, for piles
whose `length()` is the length of the valid region: the coordinates are the
region-relative, strand-normalised ones, and the score is the type. -/
theorem OverlapFinalize_relCoords (piles : List Pile) (it o : Overlap) (pl pr : Pile)
    (hl : piles[it.lhs_id]? = some pl) (hr : piles[it.rhs_id]? = some pr)
    (hpl : pl.is_u32) (hpr : pr.is_u32) (hLr : pr.length = pr.end_ - pr.begin_)
    (hin : it.inside pl pr) (hf : OverlapFinalize piles it = some (true, o)) :
    o.score = classify (relCoords pl pr it) ∧ (o.score = 3 ∨ o.score = 4) ∧
    o.lhs_id = it.lhs_id ∧ o.rhs_id = it.rhs_id ∧ o.strand = it.strand ∧
    o.lhs_begin = (relCoords pl pr it).lhs_begin ∧ o.lhs_end = (relCoords pl pr it).lhs_end ∧
    o.rhs_begin = (relCoords pl pr it).rhs_begin ∧ o.rhs_end = (relCoords pl pr it).rhs_end := by
  have ht := OverlapType_exact piles it pl pr hl hr hpl hpr hin
  have h4 := classify_le_four (relCoords pl pr it)
  obtain ⟨y1, y2, y3⟩ := hpl
  obtain ⟨z1, z2, z3⟩ := hpr
  obtain ⟨⟨a1, a2, a3⟩, b1, b2, b3⟩ := hin
  simp only [u32] at y1 y2 y3 z1 z2 z3
  unfold OverlapFinalize at hf
  simp only [ht, hl, hr] at hf
  generalize classify (relCoords pl pr it) = t at hf h4 ⊢
  split_ifs at hf with h3 hs <;>
    simp only [Option.some.injEq, Prod.mk.injEq, true_and, Bool.false_eq_true,
      false_and] at hf
  · subst hf
    simp only [relCoords, hs, Bool.false_eq_true, if_false]
    simp (disch := omega) only [sub32_exact]
    and_intros <;> first | trivial | omega
  · subst hf
    simp only [Bool.not_eq_false] at hs
    simp only [relCoords, hs, if_true]
    simp (disch := omega) only [sub32_exact]
    and_intros <;> first | trivial | omega

theorem Construct.new_edge_pair_total (g : Graph) (t h len len₂ : Nat) (nt nh mh mt : Node)
    (hp tp : Nat) (hnt : g.node t = some nt) (hnh : g.node h = some nh)
    (hhp : nh.pair = some hp) (htp : nt.pair = some tp)
    (hmh : g.node hp = some mh) (hmt : g.node tp = some mt) :
    ∃ g', Construct.new_edge_pair g t h len len₂ = some g' ∧
      g.with_edge_pair g' t h hp tp len len₂ := by
  obtain ⟨g₁, g₂, g₃, e1, -, hN1, -, e2, e3, hs⟩ :=
    Graph.edge_pair_spec g t h hp tp len len₂ ⟨nt, hnt⟩ ⟨nh, hnh⟩ ⟨mh, hmh⟩ ⟨mt, hmt⟩
  refine ⟨g₃, ?_, hs⟩
  unfold Construct.new_edge_pair
  have n1 : g₁.node h = some (Node.push (if h = t then [g.edges_.length] else [])
      (if h = h then [g.edges_.length] else []) nh) := by rw [hN1, hnh]; rfl
  have n2 : g₁.node t = some (Node.push (if t = t then [g.edges_.length] else [])
      (if t = h then [g.edges_.length] else []) nt) := by rw [hN1, hnt]; rfl
  have pp : ∀ (o i : List Nat) (n : Node), (Node.push o i n).pair = n.pair := fun _ _ _ => rfl
  simp only [e1, Option.some_bind, n1, n2, pp, hhp, htp, e2, e3]

theorem Construct.lengths_spec (pl pr : Pile) (it : Overlap) (hpl : pl.is_u32)
    (hpr : pr.is_u32) (hin : it.inside pl pr) (h1 : it.lhs_begin < it.lhs_end)
    (h2 : it.rhs_begin < it.rhs_end) :
    (relCoords pl pr it).lhs_begin < (relCoords pl pr it).lhs_end ∧
    (relCoords pl pr it).lhs_end ≤ pl.end_ - pl.begin_ ∧
    (relCoords pl pr it).rhs_begin < (relCoords pl pr it).rhs_end ∧
    (relCoords pl pr it).rhs_end ≤ pr.end_ - pr.begin_ ∧
    pl.end_ - pl.begin_ < 4294967296 ∧ pr.end_ - pr.begin_ < 4294967296 ∧
    (classify (relCoords pl pr it) = 3 →
      (relCoords pl pr it).rhs_begin < (relCoords pl pr it).lhs_begin ∧
      (pl.end_ - pl.begin_) - (relCoords pl pr it).lhs_end <
        (pr.end_ - pr.begin_) - (relCoords pl pr it).rhs_end) ∧
    (classify (relCoords pl pr it) = 4 →
      (relCoords pl pr it).lhs_begin < (relCoords pl pr it).rhs_begin ∧
      (pr.end_ - pr.begin_) - (relCoords pl pr it).rhs_end <
        (pl.end_ - pl.begin_) - (relCoords pl pr it).lhs_end) := by
  obtain ⟨-, -, -, p3, p4⟩ := classify_cases (relCoords pl pr it)
  rw [p3, p4]
  obtain ⟨y1, y2, y3⟩ := hpl
  obtain ⟨z1, z2, z3⟩ := hpr
  obtain ⟨⟨a1, a2, a3⟩, b1, b2, b3⟩ := hin
  simp only [u32] at y1 y2 y3 z1 z2 z3
  have e1 : (relCoords pl pr it).lhs_tail =
      (pl.end_ - pl.begin_) - (relCoords pl pr it).lhs_end := rfl
  have e2 : (relCoords pl pr it).rhs_tail =
      (pr.end_ - pr.begin_) - (relCoords pl pr it).rhs_end := rfl
  rw [e1, e2]
  have f1 : (relCoords pl pr it).lhs_begin = it.lhs_begin - pl.begin_ := rfl
  have f2 : (relCoords pl pr it).lhs_end = it.lhs_end - pl.begin_ := rfl
  have f3 : (relCoords pl pr it).rhs_begin < (relCoords pl pr it).rhs_end ∧
      (relCoords pl pr it).rhs_end ≤ pr.end_ - pr.begin_ := by
    simp only [relCoords]
    split_ifs <;> omega
  generalize (relCoords pl pr it).rhs_begin = c at f3 ⊢
  generalize (relCoords pl pr it).rhs_end = d at f3 ⊢
  rw [f1, f2]
  refine ⟨by omega, by omega, f3.1, f3.2, by omega, by omega, ?_, ?_⟩
  · rintro ⟨-, n1, n2, n3⟩
    omega
  · rintro ⟨-, n1, n2, n3⟩
    omega

theorem sub32_neg {a b : Nat} (ha : a < 4294967296) (hb : b < 4294967296) (h : a < b) :
    sub32 0 (sub32 a b) = b - a := by
  unfold sub32 u32
  omega

theorem Construct.lengths_type3 (a b c d L R : Nat) (hL : L < 4294967296)
    (hR : R < 4294967296) (h1 : a < b) (h2 : b ≤ L) (h3 : c < d) (h4 : d ≤ R) (u1 : c < a)
    (u2 : L - b < R - d) :
    ((sub32 a c : Nat) : Int) = |(a : Int) - c| ∧
    ((sub32 (sub32 R d) (sub32 L b) : Nat) : Int) = |((R : Int) - d) - ((L : Int) - b)| ∧
    0 < sub32 a c ∧ sub32 a c < L ∧
    0 < sub32 (sub32 R d) (sub32 L b) ∧ sub32 (sub32 R d) (sub32 L b) < R := by
  have k1 : sub32 R d = R - d := sub32_exact (by omega) (by omega)
  have k2 : sub32 L b = L - b := sub32_exact (by omega) (by omega)
  have l1 : sub32 a c = a - c := sub32_exact (by omega) (by omega)
  have l2 : sub32 (R - d) (L - b) = (R - d) - (L - b) := sub32_exact (by omega) (by omega)
  rw [k1, k2, l1, l2]
  have p1 : (0 : Int) < (a : Int) - c := by omega
  have p2 : (0 : Int) < ((R : Int) - d) - ((L : Int) - b) := by omega
  rw [abs_of_pos p1, abs_of_pos p2]
  refine ⟨?_, ?_, ?_, ?_, ?_, ?_⟩ <;> omega

theorem Construct.lengths_type4 (a b c d L R : Nat) (hL : L < 4294967296)
    (hR : R < 4294967296) (h1 : a < b) (h2 : b ≤ L) (h3 : c < d) (h4 : d ≤ R) (u1 : a < c)
    (u2 : R - d < L - b) :
    ((sub32 0 (sub32 a c) : Nat) : Int) = |(a : Int) - c| ∧
    ((sub32 0 (sub32 (sub32 R d) (sub32 L b)) : Nat) : Int) =
      |((R : Int) - d) - ((L : Int) - b)| ∧
    0 < sub32 0 (sub32 a c) ∧ sub32 0 (sub32 a c) < R ∧
    0 < sub32 0 (sub32 (sub32 R d) (sub32 L b)) ∧
    sub32 0 (sub32 (sub32 R d) (sub32 L b)) < L := by
  have k1 : sub32 R d = R - d := sub32_exact (by omega) (by omega)
  have k2 : sub32 L b = L - b := sub32_exact (by omega) (by omega)
  have l1 : sub32 0 (sub32 a c) = c - a := sub32_neg (by omega) (by omega) u1
  have l2 : sub32 0 (sub32 (R - d) (L - b)) = (L - b) - (R - d) :=
    sub32_neg (by omega) (by omega) u2
  rw [k1, k2, l1, l2]
  have p1 : (a : Int) - c < 0 := by omega
  have p2 : ((R : Int) - d) - ((L : Int) - b) < 0 := by omega
  rw [abs_of_neg p1, abs_of_neg p2]
  refine ⟨?_, ?_, ?_, ?_, ?_, ?_⟩ <;> omega

/-- The facts about the finalized overlap that the lengths of the edges rest
on. -/
theorem Construct.finalized_facts (piles : List Pile) (raw it o : Overlap) (pl pr : Pile)
    (hu : OverlapUpdate piles raw = some (true, it))
    (hf : OverlapFinalize piles it = some (true, o))
    (hl : piles[it.lhs_id]? = some pl) (hr : piles[it.rhs_id]? = some pr)
    (hpl : pl.is_u32) (hpr : pr.is_u32)
    (hLl : pl.length = pl.end_ - pl.begin_) (hLr : pr.length = pr.end_ - pr.begin_) :
    o.lhs_id = it.lhs_id ∧ o.rhs_id = it.rhs_id ∧
    pl.length < 4294967296 ∧ pr.length < 4294967296 ∧
    o.lhs_begin < o.lhs_end ∧ o.lhs_end ≤ pl.length ∧
    o.rhs_begin < o.rhs_end ∧ o.rhs_end ≤ pr.length ∧
    ((o.score = 3 ∧ o.rhs_begin < o.lhs_begin ∧
        pl.length - o.lhs_end < pr.length - o.rhs_end) ∨
      (o.score = 4 ∧ o.lhs_begin < o.rhs_begin ∧
        pr.length - o.rhs_end < pl.length - o.lhs_end)) := by
  obtain ⟨i1, i2, -, -⟩ := OverlapUpdate_keeps_ids piles raw it true hu
  obtain ⟨⟨a1, a2, a3⟩, ⟨b1, b2, b3⟩, -, -⟩ :=
    OverlapUpdate_true_bounds piles raw it pl pr (i1 ▸ hl) (i2 ▸ hr) hu
  have hin : it.inside pl pr := ⟨⟨a1, le_of_lt a2, a3⟩, b1, le_of_lt b2, b3⟩
  obtain ⟨hsc, h34, j1, j2, j3, c1, c2, c3, c4⟩ :=
    OverlapFinalize_relCoords piles it o pl pr hl hr hpl hpr hLr hin hf
  obtain ⟨q1, q2, q3, q4, q5, q6, t3, t4⟩ := Construct.lengths_spec pl pr it hpl hpr hin a2 b2
  rw [← c1, ← c2] at q1
  rw [← c2, ← hLl] at q2
  rw [← c3, ← c4] at q3
  rw [← c4, ← hLr] at q4
  rw [← hsc, ← c1, ← c2, ← c3, ← c4, ← hLl, ← hLr] at t3 t4
  rw [← hLl] at q5
  rw [← hLr] at q6
  refine ⟨j1, j2, q5, q6, q1, q2, q3, q4, ?_⟩
  rcases h34 with c | c
  · exact Or.inl ⟨c, t3 c⟩
  · exact Or.inr ⟨c, t4 c⟩

/-- C22: for an overlap that passed `OverlapUpdate` and `OverlapFinalize`,
with piles whose `length()` is the length of the valid region and whose node
pairs hold data of that length, the round of the loop "create edges" returns
and puts two edges, each the `pair` of the other, into the next two slots.
The first has the length `|lhs_begin - rhs_begin|` and the second the length
`|(rhs_length - rhs_end) - (lhs_length - lhs_end)|` of the finalized overlap;
both are positive and below the length of the data of the tail of their edge. -/
theorem Construct_edge_lengths (piles : List Pile) (s2n : List Int) (g : Graph)
    (raw it o : Overlap) (pl pr : Pile) (sl sr : Nat)
    (hu : OverlapUpdate piles raw = some (true, it))
    (hf : OverlapFinalize piles it = some (true, o))
    (hl : piles[it.lhs_id]? = some pl) (hr : piles[it.rhs_id]? = some pr)
    (hpl : pl.is_u32) (hpr : pr.is_u32)
    (hLl : pl.length = pl.end_ - pl.begin_) (hLr : pr.length = pr.end_ - pr.begin_)
    (hsl : s2n[it.lhs_id]? = some (sl : Int)) (hsr : s2n[it.rhs_id]? = some (sr : Int))
    (hnl : Construct.node_of g pl sl) (hnr : Construct.node_of g pr sr) :
    ∃ g' e e' te te',
      Construct.create_edge piles s2n g it = some g' ∧
      g'.edge g.edges_.length = some e ∧ g'.edge (g.edges_.length + 1) = some e' ∧
      e.pair = some (g.edges_.length + 1) ∧ e'.pair = some g.edges_.length ∧
      (e.length : Int) = |(o.lhs_begin : Int) - o.rhs_begin| ∧
      (e'.length : Int) =
        |((pr.length : Int) - o.rhs_end) - ((pl.length : Int) - o.lhs_end)| ∧
      g'.node e.tail = some te ∧ g'.node e'.tail = some te' ∧
      0 < e.length ∧ e.length < te.data.length ∧
      0 < e'.length ∧ e'.length < te'.data.length := by
  obtain ⟨j1, j2, q5, q6, q1, q2, q3, q4, hty⟩ :=
    Construct.finalized_facts piles raw it o pl pr hu hf hl hr hpl hpr hLl hLr
  obtain ⟨nl, ml, hnl1, hnl2, hnl3, hnl4, hnl5, hnl6⟩ := hnl
  obtain ⟨nr, mr, hnr1, hnr2, hnr3, hnr4, hnr5, hnr6⟩ := hnr
  rw [← hLl] at hnl5 hnl6
  rw [← hLr] at hnr5 hnr6
  have hslot : g.slot (sl : Int) = some sl := by
    unfold Graph.slot
    rw [if_pos ⟨Int.ofNat_nonneg _, by rw [Int.toNat_ofNat]; exact Graph.node_lt hnl1⟩,
      Int.toNat_ofNat]
  obtain ⟨head, nh, hp, mh, hhs, hnh, hhp, hmh, hdh, hdm⟩ :
      ∃ head nh hp mh,
        g.slot ((sr : Int) + 1 - (if o.strand = true then 1 else 0)) = some head ∧
        g.node head = some nh ∧ nh.pair = some hp ∧ g.node hp = some mh ∧
        nh.data.length = pr.length ∧ mh.data.length = pr.length := by
    cases hs : o.strand
    · refine ⟨sr + 1, mr, sr, nr, ?_, hnr2, hnr4, hnr1, hnr6, hnr5⟩
      have e : (sr : Int) + 1 - (if false = true then 1 else 0) = ((sr + 1 : Nat) : Int) := by
        simp
      rw [e]
      unfold Graph.slot
      rw [if_pos ⟨Int.ofNat_nonneg _, by rw [Int.toNat_ofNat]; exact Graph.node_lt hnr2⟩,
        Int.toNat_ofNat]
    · refine ⟨sr, nr, sr + 1, mr, ?_, hnr1, hnr3, hnr2, hnr5, hnr6⟩
      have e : (sr : Int) + 1 - (if true = true then 1 else 0) = (sr : Int) := by simp
      rw [e]
      unfold Graph.slot
      rw [if_pos ⟨Int.ofNat_nonneg _, by rw [Int.toNat_ofNat]; exact Graph.node_lt hnr1⟩,
        Int.toNat_ofNat]
  have hce : Construct.create_edge piles s2n g it =
      Construct.add_edges g o.score sl head (sub32 o.lhs_begin o.rhs_begin)
        (sub32 (sub32 pr.length o.rhs_end) (sub32 pl.length o.lhs_end)) := by
    unfold Construct.create_edge
    simp only [hf, Option.some_bind, Bool.true_eq_false, if_false, j1, j2, hsl, hsr, hslot,
      hhs, hl, hr]
  rw [hce]
  unfold Construct.add_edges
  rcases hty with ⟨c3, u1, u2⟩ | ⟨c4, u1, u2⟩
  · rw [if_neg (by rw [c3]; decide)]
    obtain ⟨g', hrun, hs⟩ := Construct.new_edge_pair_total g sl head
      (sub32 o.lhs_begin o.rhs_begin)
      (sub32 (sub32 pr.length o.rhs_end) (sub32 pl.length o.lhs_end))
      nl nh mh ml hp (sl + 1) hnl1 hnh hhp hnl3 hmh hnl2
    obtain ⟨r1, r2, r3, r4, r5, r6⟩ := Construct.lengths_type3 o.lhs_begin o.lhs_end
      o.rhs_begin o.rhs_end pl.length pr.length q5 q6 q1 q2 q3 q4 u1 u2
    obtain ⟨o1, i1, n1⟩ : ∃ o i, g'.node sl = some (Node.push o i nl) :=
      ⟨_, _, by rw [hs.nodes, hnl1]; rfl⟩
    obtain ⟨o2, i2, n2⟩ : ∃ o i, g'.node hp = some (Node.push o i mh) :=
      ⟨_, _, by rw [hs.nodes, hmh]; rfl⟩
    exact ⟨g', _, _, Node.push o1 i1 nl, Node.push o2 i2 mh, hrun, hs.edge_first,
      hs.edge_second, rfl, rfl, r1, r2, n1, n2, r3, lt_of_lt_of_eq r4 hnl5.symm, r5,
      lt_of_lt_of_eq r6 hdm.symm⟩
  · rw [if_pos c4]
    obtain ⟨g', hrun, hs⟩ := Construct.new_edge_pair_total g head sl
      (sub32 0 (sub32 o.lhs_begin o.rhs_begin))
      (sub32 0 (sub32 (sub32 pr.length o.rhs_end) (sub32 pl.length o.lhs_end)))
      nh nl ml mh (sl + 1) hp hnh hnl1 hnl3 hhp hnl2 hmh
    obtain ⟨r1, r2, r3, r4, r5, r6⟩ := Construct.lengths_type4 o.lhs_begin o.lhs_end
      o.rhs_begin o.rhs_end pl.length pr.length q5 q6 q1 q2 q3 q4 u1 u2
    obtain ⟨o1, i1, n1⟩ : ∃ o i, g'.node head = some (Node.push o i nh) :=
      ⟨_, _, by rw [hs.nodes, hnh]; rfl⟩
    obtain ⟨o2, i2, n2⟩ : ∃ o i, g'.node (sl + 1) = some (Node.push o i ml) :=
      ⟨_, _, by rw [hs.nodes, hnl2]; rfl⟩
    exact ⟨g', _, _, Node.push o1 i1 nh, Node.push o2 i2 ml, hrun, hs.edge_first,
      hs.edge_second, rfl, rfl, r1, r2, n1, n2, r3, lt_of_lt_of_eq r4 hdh.symm, r5,
      lt_of_lt_of_eq r6 hnl6.symm⟩

/-- The overlap of the example has the type 3; the edge `0 → 2` of the slot 0
and its pair `3 → 1` of the slot 1 both have the length 10, below the 100
bases of their tails. -/
theorem Construct_edge_lengths_witness :
    OverlapUpdate ex_long_piles ex_long_overlap = some (true, ex_long_overlap) ∧
    OverlapFinalize ex_long_piles ex_long_overlap =
      some (true, ⟨0, 10, 100, 1, 0, 90, 3, true⟩) ∧
    ∃ g' e e' te te',
      Construct.create_edge ex_long_piles [0, 2] ex_long_graph ex_long_overlap = some g' ∧
      g'.edge 0 = some e ∧ g'.edge 1 = some e' ∧
      e.pair = some 1 ∧ e'.pair = some 0 ∧
      (e.length : Int) = |((10 : Nat) : Int) - (0 : Nat)| ∧
      (e'.length : Int) = |(((100 : Nat) : Int) - (90 : Nat)) - (((100 : Nat) : Int) - (100 : Nat))| ∧
      g'.node e.tail = some te ∧ g'.node e'.tail = some te' ∧
      0 < e.length ∧ e.length < te.data.length ∧
      0 < e'.length ∧ e'.length < te'.data.length :=
  ⟨by decide, by decide,
    Construct_edge_lengths ex_long_piles [0, 2] ex_long_graph ex_long_overlap ex_long_overlap
      ⟨0, 10, 100, 1, 0, 90, 3, true⟩ ⟨0, 0, 100, 100, false, false, false⟩
      ⟨1, 0, 100, 100, false, false, false⟩ 0 2 (by decide) (by decide) rfl rfl (by decide)
      (by decide) rfl rfl rfl rfl
      ⟨_, _, rfl, rfl, rfl, rfl, List.length_replicate _ _, List.length_replicate _ _⟩
      ⟨_, _, rfl, rfl, rfl, rfl, List.length_replicate _ _, List.length_replicate _ _⟩⟩

end raven
